import Mathlib

/-!
# WasmScout: the nine-pebbles game engine and its Monte Carlo tree search

A shallow embedding of `scout::GameState` (`src/lib/game.h`, `src/lib/game.cc`)
with the rules of `GameState::move`, of the feature encoding `GameState::encode`
and the heuristic `GameStateMoveValuesEstimator::estimateMoveValues`, of the
value classes `Outcomes` (`game.cc`) and `AverageValue` (`src/lib/mcts.cc`), and
of the search of `src/lib/mcts.cc`: `TreeNode`, `ZeroValueUniformEvaluator`,
`PredictiveUpperConfidenceBound` and `MonteCarloTreeSearch::expand`; followed
by theorems about move legality, terminal detection, winner determination, the
sowing rules A, B, C and D, the special cells, the encoding, the two tallies,
the nodes of the tree, the selection rule and the expansion, the geometry of
the board, the invariants of a game played from the default start, the
symmetry between the two players and the effect of a call of the expansion on
the tree.

Modelling conventions.
* C++ `int` is `Int`.  The rules of `GameState` are given twice.  In the
  definitions without a suffix the arithmetic is that of the integers: every
  quantity of a game played from the default start is bounded by 162, so no
  arithmetic of the engine comes near the 32-bit range there.  The definitions
  with the suffix `32` do every addition and subtraction on 32 bits in two's
  complement (`wrapInt`), as the compiled code does; the theorems on the sums
  of counts in a state whose members are any values of `int` (Rule A, Rule B,
  the scores that do not decrease) are about them, and `sowEnd32_eq_of_allowed`
  relates the two.
* C++ `float` and `double` are the rationals `ℚ`.  In the definitions without
  a suffix the arithmetic is exact.  The definitions with the suffix `32` and
  those of `PredictiveUpperConfidenceBound` round the result of every operation
  to its type, to the nearest value and to the even one on a tie (`roundFloat`,
  `roundDouble`); a computation in which an infinity or a NaN arises is not
  followed any further (`none`, `Run.unmodelled`).
* `std::array<int, 18>` is `Fin 18 → Int`.  Cell indices are `int` in the
  source, hence `Int` here; `Cells.get` and `Cells.set` are the array accesses.
  The source never indexes outside `0..17` for moves `0..8`; outside that range
  (undefined behaviour in C++) a read gives `0` and a write does nothing.
* `std::vector<float>` is `List ℚ`.
* `std::abort()` is the `none` of an `Option`; a `throw` is the `none` of an
  `Option` or the `Except.error` of an `Except`.
* `while (hand > 0) { hand--; ... }` is structural recursion on the hand.
* A `TreeNode` owns its children, so the tree is an inductive type, and a
  method that mutates a node is a function to the node it leaves.  A
  `TreeNode *` into the tree is the list of moves that leads from the root to
  the node (`TreeNode.Path`); a null root and a null state are not modelled.
* A call that may throw, abort or leave the defined behaviour of C++ returns a
  `Call`, which keeps the objects as a throw leaves them.
* The functors `Evaluator` and `ExpansionStrategy` are functions of their
  argument: the state they may hold is not modelled, the noise vector that
  `PredictiveUpperConfidenceBound` draws is an argument, and `std::sqrt` is a
  parameter.
-/

namespace scout

/-! ## Data model -/

/-- Enumeration `Player` of `game.h`. -/
inductive Player where
  | ONE
  | TWO
  | NONE
deriving DecidableEq, Repr

/-- Function `opponent` of `game.h`. -/
def opponent (p : Player) : Player :=
  if p = Player.ONE then Player.TWO
  else if p = Player.TWO then Player.ONE
  else Player.NONE

/-- The board, `std::array<int, 18>`. -/
abbrev Cells := Fin 18 → Int

/-- Array read `cells[i]` with an `int` index. -/
def Cells.get (c : Cells) (i : Int) : Int :=
  if h : 0 ≤ i ∧ i < 18 then c ⟨i.toNat, by omega⟩ else 0

/-- Array write `cells[i] = v` with an `int` index. -/
def Cells.set (c : Cells) (i : Int) (v : Int) : Cells :=
  fun j => if (j.val : Int) = i then v else c j

/-- The result of `_cells.fill(v)`. -/
def Cells.fill (v : Int) : Cells := fun _ => v

/-- Number of pebbles on a board: the sum of its 18 cells. -/
def Cells.total (c : Cells) : Int := (List.ofFn c).sum

/-- No cell of the board holds a negative count. -/
def Cells.NonNeg (c : Cells) : Prop := ∀ j : Fin 18, 0 ≤ c j

/-- Constant `GameState::SPECIAL_NOT_SET`. -/
def SPECIAL_NOT_SET : Int := -1

/-- The private members of class `GameState`. -/
structure GameState where
  currentPlayer : Player
  isGameOver : Bool
  winner : Option Player
  scoreOne : Int
  scoreTwo : Int
  specialOne : Int
  specialTwo : Int
  cells : Cells

/-! ## Private helper methods -/

/-- Method `GameState::moveByCell`. -/
def moveByCell (cell : Int) : Int :=
  if cell < 9 then 8 - cell else cell - 9

/-- Method `GameState::nextCell`. -/
def nextCell (cell : Int) : Int :=
  if cell = 0 then 9
  else if cell < 9 then cell - 1
  else if cell = 17 then 8
  else cell + 1

namespace GameState

/-- Method `GameState::isSpecial`. -/
def isSpecial (s : GameState) (cell : Int) : Player :=
  if s.specialOne = cell then Player.ONE
  else if s.specialTwo = cell then Player.TWO
  else Player.NONE

/-- Method `GameState::isReachable`. -/
def isReachable (s : GameState) (cell : Int) : Bool :=
  if s.currentPlayer = Player.ONE then decide (cell > 8) else decide (cell < 9)

/-- Method `GameState::boardCell`. -/
def boardCell (s : GameState) (move : Int) : Int :=
  if s.currentPlayer = Player.ONE then 8 - move else 9 + move

/-- Method `GameState::isMoveAllowed`. -/
def isMoveAllowed (s : GameState) (move : Int) : Bool :=
  s.cells.get (s.boardCell move) != 0

/-- The loop `for (int move = 0; move < 9; ++move) if (isMoveAllowed(move)) ...`
shared by `checkGameOver` and `checkWinner`: is some move of `0..8` allowed? -/
def anyMoveAllowed (s : GameState) : Bool :=
  (List.range 9).any (fun move => s.isMoveAllowed (move : Int))

/-- Method `GameState::checkGameOver`. -/
def checkGameOver (s : GameState) : Bool :=
  if s.scoreOne > 81 ∨ s.scoreTwo > 81 then true
  else if s.scoreOne = 81 ∧ s.scoreTwo = 81 then true
  else if s.anyMoveAllowed then false
  else true

/-- Method `GameState::checkWinner`; the outer `none` is the `std::abort()` of
the "Unknown winner state" branch, `some none` is `std::nullopt`. -/
def checkWinner (s : GameState) : Option (Option Player) :=
  if !s.isGameOver then some none
  else if s.scoreOne > 81 then some (some Player.ONE)
  else if s.scoreTwo > 81 then some (some Player.TWO)
  else if s.scoreOne = 81 ∧ s.scoreTwo = 81 then some (some Player.NONE)
  else if !s.anyMoveAllowed then some (some (opponent s.currentPlayer))
  else none

/-! ## Constructors -/

/-- The default constructor `GameState()`. -/
def init : GameState :=
  { currentPlayer := Player.ONE, isGameOver := false, winner := none,
    scoreOne := 0, scoreTwo := 0,
    specialOne := SPECIAL_NOT_SET, specialTwo := SPECIAL_NOT_SET,
    cells := Cells.fill 9 }

/-- The explicit constructor
`GameState(currentPlayer, scoreOne, scoreTwo, specialOne, specialTwo, cells)`:
the member initialisers, then `_is_game_over = checkGameOver()`, then
`_winner = checkWinner()`.  The result is `none` when `checkWinner` aborts. -/
def create (currentPlayer : Player) (scoreOne scoreTwo specialOne specialTwo : Int)
    (cells : Cells) : Option GameState :=
  let s0 : GameState :=
    { currentPlayer := currentPlayer, isGameOver := false, winner := none,
      scoreOne := scoreOne, scoreTwo := scoreTwo,
      specialOne := specialOne, specialTwo := specialTwo, cells := cells }
  let s1 : GameState := { s0 with isGameOver := s0.checkGameOver }
  match s1.checkWinner with
  | none => none
  | some w => some { s1 with winner := w }

/-- The body of the sparse constructor that fills the board:
`_cells.fill(0)` and then `_cells[pair.first] = pair.second` for every pair. -/
def sparseCells (nonZeroValues : List (Int × Int)) : Cells :=
  nonZeroValues.foldl (fun c pair => c.set pair.1 pair.2) (Cells.fill 0)

/-- The sparse constructor
`GameState(currentPlayer, nonZeroValues, scoreOne, scoreTwo, specialOne, specialTwo)`. -/
def createSparse (currentPlayer : Player) (nonZeroValues : List (Int × Int))
    (scoreOne scoreTwo specialOne specialTwo : Int) : Option GameState :=
  create currentPlayer scoreOne scoreTwo specialOne specialTwo (sparseCells nonZeroValues)

/-! ## `GameState::move` -/

/-- The local variables of `GameState::move` that change while sowing. -/
structure Sow where
  currentCell : Int
  newCells : Cells
  newScoreOne : Int
  newScoreTwo : Int
  newSpecialOne : Int
  newSpecialTwo : Int

/-- Rule C, lines 186-199: the pebble goes to the cell, or to the score of the
owner of the special cell. -/
def ruleC (s : GameState) (w : Sow) : Sow :=
  let special := s.isSpecial w.currentCell
  if special = Player.NONE then
    { w with newCells := w.newCells.set w.currentCell (w.newCells.get w.currentCell + 1) }
  else
    let w1 := if special = Player.ONE then { w with newScoreOne := w.newScoreOne + 1 } else w
    if special = Player.TWO then { w1 with newScoreTwo := w1.newScoreTwo + 1 } else w1

/-- Rule B, lines 204-211: an even landing cell is captured by the mover. -/
def ruleB (s : GameState) (w : Sow) : Sow :=
  if Int.tmod (w.newCells.get w.currentCell) 2 = 0 then
    let w1 := if s.currentPlayer = Player.ONE
      then { w with newScoreOne := w.newScoreOne + w.newCells.get w.currentCell } else w
    let w2 := if s.currentPlayer = Player.TWO
      then { w1 with newScoreTwo := w1.newScoreTwo + w1.newCells.get w1.currentCell } else w1
    { w2 with newCells := w2.newCells.set w2.currentCell 0 }
  else w

/-- Rule D, lines 214-234: a landing cell of three pebbles becomes the mover's
special cell. -/
def ruleD (s : GameState) (w : Sow) : Sow :=
  if w.newCells.get w.currentCell = 3 then
    let possibleSpecialCellMove := moveByCell w.currentCell
    let canSetSpecial : Bool := possibleSpecialCellMove != 8
    let w1 :=
      if s.currentPlayer = Player.ONE ∧ w.newSpecialOne = SPECIAL_NOT_SET ∧ canSetSpecial = true ∧
          (w.newSpecialTwo = SPECIAL_NOT_SET ∨
            possibleSpecialCellMove ≠ moveByCell w.newSpecialTwo) then
        { w with newScoreOne := w.newScoreOne + 3,
                 newCells := w.newCells.set w.currentCell 0,
                 newSpecialOne := w.currentCell }
      else w
    if s.currentPlayer = Player.TWO ∧ w1.newSpecialTwo = SPECIAL_NOT_SET ∧ canSetSpecial = true ∧
        (w1.newSpecialOne = SPECIAL_NOT_SET ∨
          possibleSpecialCellMove ≠ moveByCell w1.newSpecialOne) then
      { w1 with newScoreTwo := w1.newScoreTwo + 3,
                newCells := w1.newCells.set w1.currentCell 0,
                newSpecialTwo := w1.currentCell }
    else w1
  else w

/-- One iteration of the `while (hand > 0)` loop, lines 185-236; `hand` is the
value after `hand--`. -/
def sowBody (s : GameState) (hand : Nat) (w : Sow) : Sow :=
  let w1 := s.ruleC w
  let w2 := if hand = 0 ∧ s.isReachable w1.currentCell = true then s.ruleD (s.ruleB w1) else w1
  { w2 with currentCell := nextCell w2.currentCell }

/-- The loop `while (hand > 0) { hand--; ... }` of lines 183-237. -/
def sowLoop (s : GameState) : Nat → Sow → Sow
  | 0, w => w
  | hand + 1, w => sowLoop s hand (s.sowBody hand w)

/-- The locals of `GameState::move` on entry to the loop, lines 170-181. -/
def sowStart (s : GameState) (move : Int) : Sow :=
  let cell := s.boardCell move
  let hand := s.cells.get cell
  { currentCell := if hand = 1 then nextCell cell else cell,
    newCells := s.cells.set cell 0,
    newScoreOne := s.scoreOne, newScoreTwo := s.scoreTwo,
    newSpecialOne := s.specialOne, newSpecialTwo := s.specialTwo }

/-- The locals of `GameState::move` on exit from the loop. -/
def sowEnd (s : GameState) (move : Int) : Sow :=
  s.sowLoop (s.cells.get (s.boardCell move)).toNat (s.sowStart move)

/-- Method `GameState::move`; `none` is `std::abort()`. -/
def move (s : GameState) (move : Int) : Option GameState :=
  if !s.isMoveAllowed move then none
  else
    let w := s.sowEnd move
    create (opponent s.currentPlayer) w.newScoreOne w.newScoreTwo
      w.newSpecialOne w.newSpecialTwo w.newCells

/-- Method `GameState::getCells`. -/
def getCells (s : GameState) : List Int := List.ofFn s.cells

/-! ### Names for the stages of the sowing loop -/

/-- The pebbles taken up by `move`: `int hand = newCells[cell]`, line 177. -/
def hand (s : GameState) (move : Int) : Int := s.cells.get (s.boardCell move)

/-- An iteration of the loop that is not the last one (`hand != 0` after
`hand--`): Rule C, then `currentCell = nextCell(currentCell)`. -/
def sowPlain (s : GameState) (w : Sow) : Sow :=
  let w1 := s.ruleC w
  { w1 with currentCell := nextCell w1.currentCell }

/-- The locals of `move` after `k` iterations none of which is the last. -/
def sowPrefix (s : GameState) (move : Int) (k : Nat) : Sow :=
  (s.sowPlain)^[k] (s.sowStart move)

/-- The cell on which pebble number `k + 1` of `move` is sown. -/
def sowCell (s : GameState) (move : Int) (k : Nat) : Int := (s.sowPrefix move k).currentCell

/-- How many of the pebbles of `move` are sown on a cell that satisfies `p`. -/
def pebblesSownOn (s : GameState) (move : Int) (p : Int → Bool) : Nat :=
  ((List.range (s.hand move).toNat).filter (fun k => p (s.sowCell move k))).length

/-- The locals of `move` on entry to the last iteration of the loop. -/
def sowBeforeLast (s : GameState) (move : Int) : Sow :=
  s.sowPrefix move ((s.hand move).toNat - 1)

/-- The cell on which the last pebble is sown. -/
def lastCell (s : GameState) (move : Int) : Int := (s.sowBeforeLast move).currentCell

/-- The locals of `move` right after Rule C of the last iteration: the last
pebble has been sown, Rules B and D have not run yet. -/
def sowLastDeposit (s : GameState) (move : Int) : Sow := s.ruleC (s.sowBeforeLast move)

/-- The locals of `move` in the last iteration after Rule B had its chance to
run (it runs when the landing cell is reachable) and before Rule D. -/
def sowAfterB (s : GameState) (move : Int) : Sow :=
  if s.isReachable (s.lastCell move) = true then s.ruleB (s.sowLastDeposit move)
  else s.sowLastDeposit move

/-- Pebbles accounted for by the locals of `move`: on the board and in the two
scores (the pebbles still in the hand are not counted). -/
def Sow.total (w : Sow) : Int := w.newCells.total + w.newScoreOne + w.newScoreTwo

/-- Number of pebbles on the board. -/
def cellSum (s : GameState) : Int := s.cells.total

/-- Pebbles on the board and in the two scores. -/
def pebbles (s : GameState) : Int := s.cellSum + s.scoreOne + s.scoreTwo

/-- Number of players whose special cell is set. -/
def numSpecials (s : GameState) : Int :=
  (if s.specialOne ≠ SPECIAL_NOT_SET then 1 else 0) +
  (if s.specialTwo ≠ SPECIAL_NOT_SET then 1 else 0)

end GameState

open GameState

/-! ## Feature encoding and the move-value heuristic

C++ `float` is modelled by the exact rationals: the `float` the engine computes
is the rounding of the rational computed here, and rounding is not modelled. -/

/-- Constant `GameState::NUM_MOVES`. -/
def NUM_MOVES : Nat := 9

/-- Constant `GameState::NUM_FEATURES`. -/
def NUM_FEATURES : Nat := 47

/-- Vector write `v[i] = x` with an `int` index (outside the vector, undefined
behaviour in C++, the write does nothing). -/
def setAt (v : List ℚ) (i : Int) (x : ℚ) : List ℚ :=
  if 0 ≤ i then v.set i.toNat x else v

/-- The expression `(state.getCurrentPlayer() == Player::ONE) ? float(x.getScoreOne() -
x.getScoreTwo()) : float(x.getScoreTwo() - x.getScoreOne())` that
`estimateMoveValues` evaluates on the state itself and on each child. -/
def scoreDiff (state x : GameState) : ℚ :=
  if state.currentPlayer = Player.ONE then ((x.scoreOne - x.scoreTwo : Int) : ℚ)
  else ((x.scoreTwo - x.scoreOne : Int) : ℚ)

/-- Method `GameStateMoveValuesEstimator::estimateMoveValues`; `none` is the
abort of a `state.move(i)`. -/
def estimateMoveValues (state : GameState) : Option (List ℚ) :=
  let parentDiff : ℚ := scoreDiff state state
  (List.range NUM_MOVES).foldlM (fun (values : List ℚ) (i : Nat) =>
    if !state.isMoveAllowed (i : Int) then some values
    else
      match state.move (i : Int) with
      | none => none
      | some childState =>
        let childDiff : ℚ := scoreDiff state childState
        some (values.set i ((childDiff - parentDiff) / 81))) (List.replicate NUM_MOVES 0)

/-- Lines 293-320 of `GameState::encode`: the 38 features of the position. -/
def GameState.encodeFeatures (s : GameState) : List ℚ :=
  let encoded : List ℚ := List.replicate NUM_FEATURES 0
  if s.currentPlayer = Player.ONE then
    let e1 := if s.specialOne ≠ SPECIAL_NOT_SET
      then setAt encoded (moveByCell s.specialOne) 1 else encoded
    let e2 := if s.specialTwo ≠ SPECIAL_NOT_SET
      then setAt e1 (9 + moveByCell s.specialTwo) 1 else e1
    let e3 := (List.range 9).foldl
      (fun (e : List ℚ) (i : Nat) => e.set (18 + i) ((s.cells.get (8 - (i : Int)) : ℚ) / 81)) e2
    let e4 := (List.range 9).foldl
      (fun (e : List ℚ) (i : Nat) => e.set (27 + i) ((s.cells.get (9 + (i : Int)) : ℚ) / 81)) e3
    let e5 := e4.set 36 ((s.scoreOne : ℚ) / 81)
    e5.set 37 ((s.scoreTwo : ℚ) / 81)
  else
    let e1 := if s.specialTwo ≠ SPECIAL_NOT_SET
      then setAt encoded (moveByCell s.specialTwo) 1 else encoded
    let e2 := if s.specialOne ≠ SPECIAL_NOT_SET
      then setAt e1 (9 + moveByCell s.specialOne) 1 else e1
    let e3 := (List.range 9).foldl
      (fun (e : List ℚ) (i : Nat) => e.set (18 + i) ((s.cells.get (9 + (i : Int)) : ℚ) / 81)) e2
    let e4 := (List.range 9).foldl
      (fun (e : List ℚ) (i : Nat) => e.set (27 + i) ((s.cells.get (8 - (i : Int)) : ℚ) / 81)) e3
    let e5 := e4.set 36 ((s.scoreTwo : ℚ) / 81)
    e5.set 37 ((s.scoreOne : ℚ) / 81)

/-- The special cell of the player to move. -/
def GameState.moverSpecial (s : GameState) : Int :=
  if s.currentPlayer = Player.ONE then s.specialOne else s.specialTwo

/-- The special cell of the opponent of the player to move. -/
def GameState.opponentSpecial (s : GameState) : Int :=
  if s.currentPlayer = Player.ONE then s.specialTwo else s.specialOne

/-- The score of the player to move. -/
def GameState.moverScore (s : GameState) : Int :=
  if s.currentPlayer = Player.ONE then s.scoreOne else s.scoreTwo

/-- The score of the opponent of the player to move. -/
def GameState.opponentScore (s : GameState) : Int :=
  if s.currentPlayer = Player.ONE then s.scoreTwo else s.scoreOne

/-- The call `std::copy(src.begin(), src.end(), dst.begin() + pos)`. -/
def copyAt (dst : List ℚ) (pos : Nat) (src : List ℚ) : List ℚ :=
  dst.take pos ++ src ++ dst.drop (pos + src.length)

/-- Method `GameState::encode`; `none` is an abort inside
`estimateMoveValues`. -/
def GameState.encode (s : GameState) : Option (List ℚ) :=
  match estimateMoveValues s with
  | none => none
  | some moveValues => some (copyAt s.encodeFeatures 38 moveValues)

/-! ## `AverageValue` (`src/lib/mcts.h`, `src/lib/mcts.cc`) -/

/-- The private members of class `AverageValue`; the defaults are those of the
default constructor. -/
structure AverageValue where
  playerOneValue : ℚ := 0
  support : Int := 0

namespace AverageValue

/-- Method `AverageValue::getValue`; `none` is the `throw std::invalid_argument`. -/
def getValue (a : AverageValue) (player : Player) : Option ℚ :=
  if a.support = 0 then some 0
  else
    match player with
    | Player.ONE => some (a.playerOneValue / (a.support : ℚ))
    | Player.TWO => some (-a.playerOneValue / (a.support : ℚ))
    | Player.NONE => none

/-- Method `AverageValue::fromEvaluation`; `Except.error a` is the
`throw std::invalid_argument`, `a` being the object as the throw leaves it. -/
def fromEvaluation (a : AverageValue) (currentPlayer : Player) (evaluatedValue : ℚ) :
    Except AverageValue AverageValue :=
  let a1 : AverageValue := { a with support := 1 }
  match currentPlayer with
  | Player.ONE => Except.ok { a1 with playerOneValue := evaluatedValue }
  | Player.TWO => Except.ok { a1 with playerOneValue := -evaluatedValue }
  | Player.NONE => Except.error a1

/-- The operator `AverageValue::operator+=`. -/
def addAssign (a other : AverageValue) : AverageValue :=
  { playerOneValue := a.playerOneValue + other.playerOneValue,
    support := a.support + other.support }

/-- Method `AverageValue::add`: `return (*this += other)`. -/
def add (a other : AverageValue) : AverageValue := a.addAssign other

/-- Method `AverageValue::addWinner`. -/
def addWinner (a : AverageValue) (player : Player) : AverageValue :=
  let a1 : AverageValue := { a with support := a.support + 1 }
  match player with
  | Player.ONE => { a1 with playerOneValue := a1.playerOneValue + 1 }
  | Player.TWO => { a1 with playerOneValue := a1.playerOneValue - 1 }
  | Player.NONE => a1

end AverageValue

/-! ## `Outcomes` (`src/lib/game.h`, `src/lib/game.cc`) -/

/-- The private members of class `Outcomes`, with their default initialisers. -/
structure Outcomes where
  first : Int := 0
  second : Int := 0
  ties : Int := 0

namespace Outcomes

/-- Method `Outcomes::getTotalOutcomes`. -/
def getTotalOutcomes (o : Outcomes) : Int := o.first + o.second + o.ties

/-- Method `Outcomes::winRateFor`. -/
def winRateFor (o : Outcomes) (player : Player) : ℚ :=
  let total := o.getTotalOutcomes
  if total = 0 then 0
  else
    match player with
    | Player.ONE => (1 * (o.first : ℚ) + (1 / 2) * (o.ties : ℚ)) / (total : ℚ)
    | Player.TWO => (1 * (o.second : ℚ) + (1 / 2) * (o.ties : ℚ)) / (total : ℚ)
    | Player.NONE => 1 * (o.ties : ℚ) / (total : ℚ)

/-- Method `Outcomes::addWinner`. -/
def addWinner (o : Outcomes) (winner : Player) : Outcomes :=
  match winner with
  | Player.ONE => { o with first := o.first + 1 }
  | Player.TWO => { o with second := o.second + 1 }
  | Player.NONE => { o with ties := o.ties + 1 }

/-- The tally after a sequence of `addWinner` calls on `Outcomes()`. -/
def tally (winners : List Player) : Outcomes :=
  winners.foldl addWinner {}

end Outcomes

/-- The two special cells are well placed: different cells when both are set,
and none in column 8. -/
def SpecialsOk (specialOne specialTwo : Int) : Prop :=
  (specialOne ≠ SPECIAL_NOT_SET → specialTwo ≠ SPECIAL_NOT_SET → specialOne ≠ specialTwo) ∧
  (specialOne ≠ SPECIAL_NOT_SET → moveByCell specialOne ≠ 8) ∧
  (specialTwo ≠ SPECIAL_NOT_SET → moveByCell specialTwo ≠ 8)

/-- Apply a sequence of moves, aborting as soon as one of them aborts. -/
def playMoves : GameState → List Int → Option GameState
  | s, [] => some s
  | s, m :: ms => (s.move m).bind (fun t => playMoves t ms)

/-- The state reached from the default start by a sequence of moves (the
default start itself if one of them aborts). -/
def stateAfter (ms : List Int) : GameState := (playMoves GameState.init ms).getD GameState.init

/-- The state the sparse constructor builds for ONE to move, 9 pebbles on cell 0
and cell 12 recorded as the special cell of both players. -/
def sharedSpecialState : GameState :=
  (GameState.createSparse Player.ONE [(0, 9)] 0 0 12 12).getD GameState.init

/-- The state of test `SparseValuesConstructor`: TWO to move, scores 24 and 21,
cell 12 the special cell of ONE. -/
def sparseTestState : GameState :=
  (GameState.createSparse Player.TWO [(0, 1), (1, 2), (2, 3), (11, 4), (10, 5), (9, 6)]
    24 21 12 SPECIAL_NOT_SET).getD GameState.init

/-- The shortest game of test `ShortestGame`. -/
def shortestGame : List Int := [8, 1, 7, 3, 6, 3, 4, 1, 8, 8, 8]

/-- A play of 81 allowed moves after which cell 4 holds 82 pebbles and the game
is not over. -/
def crowdedCellPlay : List Int :=
  [0, 6, 2, 5, 1, 7, 2, 8, 3, 1, 0, 2, 5, 0, 2, 8, 6, 4, 0, 7, 1, 6, 7, 5, 2, 8, 8,
   3, 3, 0, 0, 7, 2, 8, 5, 2, 3, 1, 0, 4, 2, 5, 3, 8, 1, 6, 0, 7, 2, 0, 1, 7, 6, 8,
   2, 7, 3, 4, 7, 3, 8, 8, 1, 1, 3, 4, 2, 5, 0, 6, 2, 7, 5, 8, 0, 0, 1, 3, 3, 2, 2]

/-- Every move of the list is allowed at the state it is applied to. -/
def movesAllowed : GameState → List Int → Bool
  | _, [] => true
  | s, m :: ms =>
    s.isMoveAllowed m &&
      match s.move m with
      | some t => movesAllowed t ms
      | none => false

/-- The states that the explicit or the sparse constructor builds. -/
inductive Built : GameState → Prop where
  | explicit (p : Player) (scoreOne scoreTwo specialOne specialTwo : Int) (cells : Cells)
      (t : GameState) :
      GameState.create p scoreOne scoreTwo specialOne specialTwo cells = some t → Built t
  | sparse (p : Player) (nonZeroValues : List (Int × Int))
      (scoreOne scoreTwo specialOne specialTwo : Int) (t : GameState) :
      GameState.createSparse p nonZeroValues scoreOne scoreTwo specialOne specialTwo = some t →
      Built t

/-- The states reachable from the default start by allowed moves `0..8`. -/
inductive Reachable : GameState → Prop where
  | init : Reachable GameState.init
  | move {s t : GameState} (m : Int) :
      Reachable s → 0 ≤ m → m ≤ 8 → s.move m = some t → Reachable t

/-! ## The search tree (`src/lib/mcts.h`, `src/lib/mcts.cc`) -/

/-- The private members of class `StateEvaluation`. -/
structure StateEvaluation where
  policy : List ℚ
  value : ℚ

namespace StateEvaluation

/-- The constructor `StateEvaluation(numberOfMoves)`. -/
def create (numberOfMoves : Nat) : StateEvaluation :=
  { policy := List.replicate numberOfMoves 0, value := 0 }

/-- Method `StateEvaluation::getNumberOfMoves`. -/
def getNumberOfMoves (e : StateEvaluation) : Nat := e.policy.length

end StateEvaluation

/-- The private members of class `TreeNode`; a child slot is `none` when the
`unique_ptr` is null. -/
inductive TreeNode where
  | mk (state : GameState) (evaluation : StateEvaluation) (averageValue : AverageValue)
      (outcomes : Outcomes) (childStates : List (Option TreeNode)) (initialized : Bool)

/-- The outcome of a call that may throw or leave the defined behaviour of C++:
`returned s a` is a normal return of `a` that leaves the objects it works on as
`s`, `thrown s` is an exception that leaves them as `s`, and `undefined` is
`std::abort()` or undefined behaviour. -/
inductive Call (σ α : Type) where
  | returned (state : σ) (value : α)
  | thrown (state : σ)
  | undefined

/-- The objects as the call leaves them, when it returns or throws. -/
def Call.state? {σ α : Type} : Call σ α → Option σ
  | Call.returned s _ => some s
  | Call.thrown s => some s
  | Call.undefined => none

/-- Whether the call threw. -/
def Call.isThrown {σ α : Type} : Call σ α → Bool
  | Call.thrown _ => true
  | _ => false

/-- The type `Evaluator`, `std::function<void(const std::vector<TreeNode *> &)>`:
the call gets the batch, `none` being a null pointer, and returns normally
(`Except.ok`) or throws (`Except.error`), in both cases with the nodes as the
call leaves them. -/
abbrev Evaluator :=
  List (Option TreeNode) → Except (List (Option TreeNode)) (List (Option TreeNode))

/-- The type `ExpansionStrategy`, `std::function<int(const TreeNode &)>`; `none`
is a throw. -/
abbrev ExpansionStrategy := TreeNode → Option Int

namespace TreeNode

/-- Method `TreeNode::state`. -/
def state : TreeNode → GameState
  | mk s _ _ _ _ _ => s

/-- Method `TreeNode::evaluation`. -/
def evaluation : TreeNode → StateEvaluation
  | mk _ e _ _ _ _ => e

/-- Method `TreeNode::getAverageValue`. -/
def getAverageValue : TreeNode → AverageValue
  | mk _ _ a _ _ _ => a

/-- Method `TreeNode::getOutcomes`. -/
def getOutcomes : TreeNode → Outcomes
  | mk _ _ _ o _ _ => o

/-- Method `TreeNode::getChildStates`. -/
def getChildStates : TreeNode → List (Option TreeNode)
  | mk _ _ _ _ c _ => c

/-- Method `TreeNode::isInitialized`. -/
def isInitialized : TreeNode → Bool
  | mk _ _ _ _ _ i => i

/-- Method `TreeNode::isLeaf`. -/
def isLeaf (n : TreeNode) : Bool := !n.isInitialized || n.state.isGameOver

/-- Method `TreeNode::getVisits`. -/
def getVisits (n : TreeNode) : Int := n.getOutcomes.getTotalOutcomes

/-- The node after a write through the reference `evaluation()` returns. -/
def setEvaluation : TreeNode → StateEvaluation → TreeNode
  | mk s _ a o c i, e => mk s e a o c i

/-- The node after a write through the reference `getAverageValue()` returns. -/
def setAverageValue : TreeNode → AverageValue → TreeNode
  | mk s e _ o c i, a => mk s e a o c i

/-- The node after an assignment to `_childStates`. -/
def setChildStates : TreeNode → List (Option TreeNode) → TreeNode
  | mk s e a o _ i, c => mk s e a o c i

/-- The node after an assignment to `_initialized`. -/
def setInitialized : TreeNode → Bool → TreeNode
  | mk s e a o c _, i => mk s e a o c i

/-- The constructor `TreeNode(state, numMoves)`. -/
def create (state : GameState) (numMoves : Nat) : TreeNode :=
  mk state (StateEvaluation.create numMoves) {} {} (List.replicate numMoves none) false

/-- Method `TreeNode::update`. -/
def update : TreeNode → Player → AverageValue → TreeNode
  | mk s e a o c i, winner, averageValue =>
    mk s e (a.addAssign averageValue) (o.addWinner winner) c i

/-- The pointer `_childStates[move].get()`: `none` is a null pointer, or a
`move` outside the vector. -/
def child (n : TreeNode) (move : Nat) : Option TreeNode := (n.getChildStates[move]?).join

/-- The first loop of `TreeNode::initChildren`, lines 227-235, over the moves
still to visit; `none` is the abort of a `_state->move(move)` or a write
outside `_childStates`. -/
def createChildren (state : GameState) (numberOfMoves : Nat) :
    List Nat → List (Option TreeNode) → Option (List (Option TreeNode))
  | [], childStates => some childStates
  | move :: rest, childStates =>
    if !state.isMoveAllowed (move : Int) then createChildren state numberOfMoves rest childStates
    else
      match state.move (move : Int) with
      | none => none
      | some childState =>
        if move < childStates.length then
          createChildren state numberOfMoves rest
            (childStates.set move (some (create childState numberOfMoves)))
        else none

/-- The last loop of `TreeNode::initChildren`, lines 247-260, over the moves
still to visit, on the children and the running `childrenAverageValue`. -/
def seedChildren :
    List Nat → List (Option TreeNode) → AverageValue →
      Call (List (Option TreeNode)) AverageValue
  | [], childStates, childrenAverageValue => Call.returned childStates childrenAverageValue
  | move :: rest, childStates, childrenAverageValue =>
    match childStates[move]? with
    | none => Call.undefined
    | some none => seedChildren rest childStates childrenAverageValue
    | some (some childNode) =>
      match childNode.getAverageValue.fromEvaluation childNode.state.currentPlayer
          childNode.evaluation.value with
      | Except.error a =>
        Call.thrown (childStates.set move (some (childNode.setAverageValue a)))
      | Except.ok a =>
        seedChildren rest (childStates.set move (some (childNode.setAverageValue a)))
          (childrenAverageValue.addAssign a)

/-- The vector `child_raw_ptrs` that `initChildren` passes to the evaluator on a
node that is not initialized: the child slots after the first loop (empty when
that loop leaves the defined behaviour). -/
def batch (n : TreeNode) : List (Option TreeNode) :=
  (createChildren n.state n.evaluation.getNumberOfMoves
    (List.range n.evaluation.getNumberOfMoves) n.getChildStates).getD []

/-- Method `TreeNode::initChildren`. -/
def initChildren (n : TreeNode) (evaluator : Evaluator) : Call TreeNode (Option AverageValue) :=
  if n.isInitialized then Call.returned n none
  else
    let n1 := n.setInitialized true
    let numberOfMoves := n1.evaluation.getNumberOfMoves
    match createChildren n1.state numberOfMoves (List.range numberOfMoves) n1.getChildStates with
    | none => Call.undefined
    | some created =>
      match evaluator created with
      | Except.error left => Call.thrown (n1.setChildStates left)
      | Except.ok evaluated =>
        match seedChildren (List.range numberOfMoves) evaluated {} with
        | Call.undefined => Call.undefined
        | Call.thrown left => Call.thrown (n1.setChildStates left)
        | Call.returned seeded childrenAverageValue =>
          Call.returned (n1.setChildStates seeded) (some childrenAverageValue)

/-- The body of the first loop of `TreeNode::encode`, lines 277-284, on the
vector `outputs` and the running `totalVisits`. -/
def encodeCount (n : TreeNode) (acc : List ℚ × ℚ) (move : Nat) : List ℚ × ℚ :=
  match n.child move with
  | some childNode =>
    let outputs := acc.1.set (move + 1) (childNode.getVisits : ℚ)
    (outputs, acc.2 + outputs.getD (move + 1) 0)
  | none => acc

/-- The body of the second loop of `TreeNode::encode`, lines 292-295. -/
def encodeNormalize (totalVisits : ℚ) (outputs : List ℚ) (move : Nat) : List ℚ :=
  outputs.set (move + 1) (outputs.getD (move + 1) 0 / totalVisits)

/-- Method `TreeNode::encode`; `none` is a throw. -/
def encode (n : TreeNode) : Option (List ℚ) :=
  if n.isLeaf then none
  else
    let outputs : List ℚ := List.replicate (n.getChildStates.length + 1) 0
    match n.getAverageValue.getValue n.state.currentPlayer with
    | none => none
    | some value =>
      let outputs := outputs.set 0 value
      let counted := (List.range n.getChildStates.length).foldl n.encodeCount (outputs, 0)
      let totalVisits := counted.2
      if totalVisits = 0 then none
      else
        some ((List.range n.getChildStates.length).foldl (encodeNormalize totalVisits) counted.1)

/-- The pointer to a node of the tree: the moves that lead to it from the
root. -/
abbrev Path := List Nat

/-- The node a pointer into the tree points to; `none` is a null or dangling
pointer. -/
def get? : TreeNode → Path → Option TreeNode
  | n, [] => some n
  | n, move :: rest =>
    match n.child move with
    | some c => get? c rest
    | none => none

/-- The tree after the node a pointer points to has been mutated by `f`. -/
def modify (f : TreeNode → TreeNode) : TreeNode → Path → TreeNode
  | n, [] => f n
  | n, move :: rest =>
    match n.child move with
    | some c => n.setChildStates (n.getChildStates.set move (some (modify f c rest)))
    | none => n

end TreeNode

/-! ## `ZeroValueUniformEvaluator` -/

/-- The member `_policyValue` that the constructor
`ZeroValueUniformEvaluator(numMoves)` computes. -/
def ZeroValueUniformEvaluator.create (numMoves : Int) : ℚ :=
  if numMoves > 0 then 1 / (numMoves : ℚ) else 0

/-- The body of the loop of `ZeroValueUniformEvaluator::operator()` on one
slot of the batch. -/
def ZeroValueUniformEvaluator.visit (policyValue : ℚ) : Option TreeNode → Option TreeNode
  | none => none
  | some node =>
    if node.state.isGameOver then some node
    else
      some (node.setEvaluation
        { value := 0, policy := List.replicate node.evaluation.policy.length policyValue })

/-- The call operator `ZeroValueUniformEvaluator::operator()`, on an
evaluator whose `_policyValue` is `policyValue`. -/
def ZeroValueUniformEvaluator.call (policyValue : ℚ) : Evaluator :=
  fun nodes => Except.ok (nodes.map (ZeroValueUniformEvaluator.visit policyValue))

/-! ## The constants of `PredictiveUpperConfidenceBound` -/

/-- Constant `std::numeric_limits<float>::max()`. -/
def FLT_MAX : ℚ := (2 ^ 24 - 1) * 2 ^ 104

/-- Constant `PredictiveUpperConfidenceBound::EXPLORATION_WEIGHT`. -/
def EXPLORATION_WEIGHT : ℚ := 4

/-- Constant `PredictiveUpperConfidenceBound::NOISE_WEIGHT`. -/
def NOISE_WEIGHT : ℚ := 1 / 4

/-- The locals `max_value` and `index_of_max` of the call operator. -/
structure Best where
  max_value : ℚ
  index_of_max : Int

/-! ## `MonteCarloTreeSearch` -/

/-- The private members of class `MonteCarloTreeSearch`. -/
structure MonteCarloTreeSearch where
  expansion_strategy_ : ExpansionStrategy
  evaluator_ : Evaluator

/-- The locals of `MonteCarloTreeSearch::expand` on exit from its first loop:
the pointer `currentNode` and the deque `backprop_stack`. -/
structure Descent where
  currentNode : TreeNode.Path
  backprop_stack : List (TreeNode.Path × Option AverageValue)

namespace MonteCarloTreeSearch

/-- The loop `while (!currentNode->state().isGameOver() && expansions++ < 200)`
of `expand`, lines 523-540, on the tree below `root`; the first argument is
`200 - expansions`, the number of rounds that the counter still allows, so at 0
the loop ends once the condition has read the state of `currentNode`. -/
def select (m : MonteCarloTreeSearch) :
    Nat → TreeNode → Descent → Call TreeNode Descent
  | 0, root, d =>
    match root.get? d.currentNode with
    | none => Call.undefined
    | some _ => Call.returned root d
  | left + 1, root, d =>
    match root.get? d.currentNode with
    | none => Call.undefined
    | some node =>
      if node.state.isGameOver then Call.returned root d
      else
        match node.initChildren m.evaluator_ with
        | Call.undefined => Call.undefined
        | Call.thrown node1 => Call.thrown (root.modify (fun _ => node1) d.currentNode)
        | Call.returned node1 child_value =>
          let root1 := root.modify (fun _ => node1) d.currentNode
          let stack := d.backprop_stack ++ [(d.currentNode, child_value)]
          if child_value.isSome then
            Call.returned root1 { currentNode := d.currentNode, backprop_stack := stack }
          else
            match m.expansion_strategy_ node1 with
            | none => Call.thrown root1
            | some move_idx =>
              if move_idx < 0 then Call.undefined
              else
                select m left root1
                  { currentNode := d.currentNode ++ [move_idx.toNat], backprop_stack := stack }

/-- The backpropagation loop of `expand`, lines 568-573. -/
def backpropagate (winner : Player) (accumulated_value : AverageValue) (root : TreeNode)
    (backprop_stack : List (TreeNode.Path × Option AverageValue)) : TreeNode :=
  backprop_stack.reverse.foldl
    (fun (t : TreeNode) (item : TreeNode.Path × Option AverageValue) =>
      t.modify (fun path_node => path_node.update winner accumulated_value) item.1) root

/-- Method `MonteCarloTreeSearch::expand`, called on a non-null pointer to
`root`. -/
def expand (m : MonteCarloTreeSearch) (root : TreeNode) : Call TreeNode Unit :=
  match m.select 200 root { currentNode := [], backprop_stack := [] } with
  | Call.undefined => Call.undefined
  | Call.thrown t => Call.thrown t
  | Call.returned t d =>
    match d.backprop_stack.getLast? with
    | none => Call.undefined
    | some last_path_item =>
      match last_path_item.2 with
      | some child_value =>
        match t.get? last_path_item.1 with
        | none => Call.undefined
        | some expanded =>
          Call.returned
            (backpropagate expanded.state.currentPlayer child_value t d.backprop_stack) ()
      | none =>
        match t.get? d.currentNode with
        | none => Call.undefined
        | some node =>
          if node.state.isGameOver then
            let winner := node.state.winner.getD Player.NONE
            let accumulated_value := ({} : AverageValue).addWinner winner
            let t1 := t.modify (fun n => n.update winner accumulated_value) d.currentNode
            Call.returned (backpropagate winner accumulated_value t1 d.backprop_stack) ()
          else
            Call.returned (backpropagate Player.NONE {} t d.backprop_stack) ()

/-- The tree after `k` calls `expand(&root)` in a row. -/
def expandTimes (m : MonteCarloTreeSearch) : Nat → TreeNode → Call TreeNode Unit
  | 0, root => Call.returned root ()
  | k + 1, root =>
    match m.expand root with
    | Call.returned t _ => expandTimes m k t
    | Call.thrown t => Call.thrown t
    | Call.undefined => Call.undefined

end MonteCarloTreeSearch

/-! ## Well-formed evaluators, strategies and trees -/

/-- The slot `after` is the slot `before` with, at most, another evaluation
of the same number of moves. -/
def EvaluatedFrom : Option TreeNode → Option TreeNode → Prop
  | none, none => True
  | some before, some after =>
    ∃ e : StateEvaluation,
      after = before.setEvaluation e ∧ e.policy.length = before.evaluation.policy.length
  | _, _ => False

/-- The nodes an evaluator call leaves, whether it returns or throws. -/
def Evaluator.nodesAfter (evaluator : Evaluator) (nodes : List (Option TreeNode)) :
    List (Option TreeNode) :=
  match evaluator nodes with
  | Except.ok out => out
  | Except.error out => out

/-- The evaluator keeps to its interface: a call mutates nothing but the
`StateEvaluation` of the nodes of the batch, and keeps the size of each
policy. -/
def Evaluator.WritesEvaluations (evaluator : Evaluator) : Prop :=
  ∀ nodes : List (Option TreeNode),
    (evaluator.nodesAfter nodes).length = nodes.length ∧
    ∀ i : Nat, EvaluatedFrom (nodes[i]?).join (((evaluator.nodesAfter nodes)[i]?).join)

/-- The evaluator does not fail: every call returns normally. -/
def Evaluator.Returns (evaluator : Evaluator) : Prop :=
  ∀ nodes : List (Option TreeNode), ∃ out, evaluator nodes = Except.ok out

/-- The strategy returns the index of an existing child, on every initialized
node of a non-terminal state that has a child. -/
def ExpansionStrategy.PicksChild (strategy : ExpansionStrategy) : Prop :=
  ∀ n : TreeNode, n.isInitialized = true → n.state.isGameOver = false →
    (∃ i : Nat, (n.child i).isSome = true) →
    ∃ i : Nat, strategy n = some (i : Int) ∧ (n.child i).isSome = true

/-- A node of 9 moves that `initChildren` has not been called on: not
initialized, and all its 9 child slots empty. -/
def TreeNode.Unexpanded (n : TreeNode) : Prop :=
  n.isInitialized = false ∧ n.evaluation.policy.length = NUM_MOVES ∧
    n.getChildStates = List.replicate NUM_MOVES none

/-- The allowed moves of a state, among `0..8`. -/
def GameState.legalMoves (s : GameState) : List Nat :=
  (List.range NUM_MOVES).filter (fun move => s.isMoveAllowed (move : Int))

/-- The contribution of a child slot to the `childrenAverageValue` of
`initChildren`: plus the value of its evaluation when ONE is to move in the
child, minus that value otherwise, and nothing for an empty slot. -/
def seedValue : Option TreeNode → ℚ
  | none => 0
  | some childNode =>
    if childNode.state.currentPlayer = Player.ONE then childNode.evaluation.value
    else -childNode.evaluation.value

/-- The node-local part of the invariant of the trees that `expand` grows from
a fresh root of 9 moves. -/
def TreeNode.Sound (n : TreeNode) : Prop :=
  Built n.state ∧ n.state.currentPlayer ≠ Player.NONE ∧
  n.evaluation.policy.length = NUM_MOVES ∧ n.getChildStates.length = NUM_MOVES ∧
  (n.isInitialized = false → n.getChildStates = List.replicate NUM_MOVES none) ∧
  (n.isInitialized = true → n.state.isGameOver = false → ∃ i : Nat, (n.child i).isSome = true)

/-- Every node of the tree is sound. -/
def TreeNode.AllSound (root : TreeNode) : Prop :=
  ∀ (p : TreeNode.Path) (n : TreeNode), root.get? p = some n → n.Sound

/-- The visits of the child in slot `move` as `TreeNode::encode` reads them,
`static_cast<float>(_childStates[move]->getVisits())`, and 0 for an empty
slot. -/
def TreeNode.childVisits (n : TreeNode) (move : Nat) : ℚ :=
  match n.child move with
  | some childNode => (childNode.getVisits : ℚ)
  | none => 0

/-- The total of the visits of the children of a node. -/
def TreeNode.totalChildVisits (n : TreeNode) : ℚ :=
  ((List.range n.getChildStates.length).map n.childVisits).sum

/-! ## Evaluators, strategies and states of the examples -/

/-- An evaluator that throws at once, as `OnnxEvaluator` does when the
inference fails, before it has written to any node. -/
def failingEvaluator : Evaluator := fun nodes => Except.error nodes

/-- A strategy that returns the index of the first existing child, and throws
when there is none. -/
def firstChild : ExpansionStrategy := fun n =>
  ((List.range n.getChildStates.length).find? (fun i => (n.child i).isSome)).map Int.ofNat

/-- The search of the examples: `firstChild` with `ZeroValueUniformEvaluator(9)`. -/
def uniformSearch : MonteCarloTreeSearch :=
  { expansion_strategy_ := firstChild,
    evaluator_ := ZeroValueUniformEvaluator.call (ZeroValueUniformEvaluator.create 9) }

/-- A strategy that always returns move 8. -/
def lastMove : ExpansionStrategy := fun _ => some 8

/-- The search of the examples that descends by `lastMove`. -/
def lastMoveSearch : MonteCarloTreeSearch :=
  { expansion_strategy_ := lastMove,
    evaluator_ := ZeroValueUniformEvaluator.call (ZeroValueUniformEvaluator.create 9) }

/-- The root of test `ExpandsShortestGameMultipleTimesWithOnnx`, one move before
the end of the shortest game, after a first call of `expand` with
`lastMoveSearch`. -/
def shortestGameRoot : TreeNode :=
  ((lastMoveSearch.expand
    (TreeNode.create (stateAfter [8, 1, 7, 3, 6, 3, 4, 1, 8, 8]) NUM_MOVES)).state?).getD
    (TreeNode.create (stateAfter [8, 1, 7, 3, 6, 3, 4, 1, 8, 8]) NUM_MOVES)

/-- The state the explicit constructor builds for `Player::NONE` to move on the
board of the default start. -/
def noneToMoveState : GameState :=
  (GameState.create Player.NONE 0 0 SPECIAL_NOT_SET SPECIAL_NOT_SET (Cells.fill 9)).getD
    GameState.init

/-- The node that `initChildren` leaves when it is called, with
`ZeroValueUniformEvaluator(9)`, on the fresh node of `noneToMoveState` (it
throws, in `fromEvaluation`). -/
def noneToMoveExpanded : TreeNode :=
  match (TreeNode.create noneToMoveState NUM_MOVES).initChildren
      (ZeroValueUniformEvaluator.call (ZeroValueUniformEvaluator.create 9)) with
  | Call.thrown n1 => n1
  | _ => TreeNode.create noneToMoveState NUM_MOVES

/-- The node `noneToMoveExpanded` after `getChildStates()[0]->update(Player::ONE,
AverageValue())` and `update(Player::ONE, AverageValue(1.0f, 1))`. -/
def noneToMoveVisited : TreeNode :=
  (noneToMoveExpanded.modify (fun c => c.update Player.ONE {}) [0]).update Player.ONE
    { playerOneValue := 1, support := 1 }

/-- The evaluator of test `EncodeOnInternalNode`, which does nothing. -/
def dummyEvaluator : Evaluator := fun nodes => Except.ok nodes

/-- The node of test `EncodeOnInternalNode`: the fresh node of the default
start after `initChildren(dummy_evaluator)`,
`getAverageValue().fromEvaluation(Player::ONE, 0.9f)`, two updates of child 0
and one update of each of the children 1 and 2. -/
def encodeTestNode : TreeNode :=
  match (TreeNode.create GameState.init NUM_MOVES).initChildren dummyEvaluator with
  | Call.returned n1 _ =>
    let n2 := n1.setAverageValue
      (match n1.getAverageValue.fromEvaluation Player.ONE (9 / 10) with
        | Except.ok a => a
        | Except.error a => a)
    let n3 := n2.modify (fun c => c.update Player.ONE {}) [0]
    let n4 := n3.modify (fun c => c.update Player.ONE {}) [0]
    let n5 := n4.modify (fun c => c.update Player.TWO {}) [1]
    n5.modify (fun c => c.update Player.ONE {}) [2]
  | _ => TreeNode.create GameState.init NUM_MOVES

/-- The visits of the root after a call that returned. -/
def Call.visits : Call TreeNode Unit → Option Int
  | Call.returned t _ => some t.getVisits
  | _ => none

/-! ## The mirror image of a state -/

/-- The board seen from the other side: cell `c` holds what cell `17 - c`
held. -/
def Cells.mirror (c : Cells) : Cells := fun j => c j.rev

/-- The mirror image of a special cell: `17 - special`, and -1 for -1. -/
def mirrorSpecial (special : Int) : Int :=
  if special = SPECIAL_NOT_SET then SPECIAL_NOT_SET else 17 - special

/-- The mirror image of a state, in the words of the symmetry claims: the
current player is swapped ONE <-> TWO, `scoreOne` and `scoreTwo` are swapped,
`cells[c]` is replaced by `cells[17 - c]`, `specialOne` becomes
`17 - specialTwo` and `specialTwo` becomes `17 - specialOne` (-1 stays -1);
`isGameOver` is kept and the winner is mapped by `opponent`. -/
def GameState.mirror (s : GameState) : GameState :=
  { currentPlayer := opponent s.currentPlayer,
    isGameOver := s.isGameOver,
    winner := s.winner.map opponent,
    scoreOne := s.scoreTwo, scoreTwo := s.scoreOne,
    specialOne := mirrorSpecial s.specialTwo, specialTwo := mirrorSpecial s.specialOne,
    cells := s.cells.mirror }

/-- The mirror image of the locals of `GameState::move`. -/
def GameState.Sow.mirror (w : Sow) : Sow :=
  { currentCell := 17 - w.currentCell,
    newCells := w.newCells.mirror,
    newScoreOne := w.newScoreTwo, newScoreTwo := w.newScoreOne,
    newSpecialOne := mirrorSpecial w.newSpecialTwo,
    newSpecialTwo := mirrorSpecial w.newSpecialOne }

/-- A special cell is unset or a cell of the board. -/
def SpecialInRange (special : Int) : Prop :=
  special = SPECIAL_NOT_SET ∨ (0 ≤ special ∧ special ≤ 17)

/-- The states of the symmetry claims: ONE or TWO is to move, each special is
-1 or a cell of `0..17`, and the two specials are different cells when both are
set. -/
def GameState.Regular (s : GameState) : Prop :=
  (s.currentPlayer = Player.ONE ∨ s.currentPlayer = Player.TWO) ∧
  SpecialInRange s.specialOne ∧ SpecialInRange s.specialTwo ∧
  (s.specialOne ≠ SPECIAL_NOT_SET → s.specialTwo ≠ SPECIAL_NOT_SET →
    s.specialOne ≠ s.specialTwo)

/-- The special cells are where Rule D can create them: that of ONE is unset
or one of the cells `9..16`, that of TWO is unset or one of the cells `1..8`. -/
def GameState.SpecialsPlaced (s : GameState) : Prop :=
  (s.specialOne = SPECIAL_NOT_SET ∨ (9 ≤ s.specialOne ∧ s.specialOne ≤ 16)) ∧
  (s.specialTwo = SPECIAL_NOT_SET ∨ (1 ≤ s.specialTwo ∧ s.specialTwo ≤ 8))

/-- Every cell recorded as a special cell holds no pebble. -/
def GameState.SpecialsEmpty (s : GameState) : Prop :=
  (s.specialOne ≠ SPECIAL_NOT_SET → s.cells.get s.specialOne = 0) ∧
  (s.specialTwo ≠ SPECIAL_NOT_SET → s.cells.get s.specialTwo = 0)

/-! ## States of the examples -/

/-- The state the sparse constructor builds for `Player::NONE` to move, with 2
pebbles on cell 17 and 1 pebble on cell 8. -/
def noneToMoveCapture : GameState :=
  (GameState.createSparse Player.NONE [(17, 2), (8, 1)] 0 0
    SPECIAL_NOT_SET SPECIAL_NOT_SET).getD GameState.init

/-- The state the sparse constructor builds for ONE to move, scores 81 and 100,
no special cell, 1 pebble on cell 0 and 1 pebble on cell 9. -/
def lateCaptureState : GameState :=
  (GameState.createSparse Player.ONE [(0, 1), (9, 1)] 81 100
    SPECIAL_NOT_SET SPECIAL_NOT_SET).getD GameState.init

/-! ## Nodes before and after a call of `expand` -/

/-- The node `after` is the node `before` after `k` calls `update(w, a)` on it,
whatever has happened to the nodes below it: it has the state, the evaluation,
the initialized flag and the number of child slots of `before`, and the
outcomes and the `AverageValue` of `before` with `k` times `w` and `a`
added. -/
def TreeNode.UpdatedTimes (w : Player) (a : AverageValue) (k : Nat)
    (before after : TreeNode) : Prop :=
  after.state = before.state ∧ after.evaluation = before.evaluation ∧
  after.isInitialized = before.isInitialized ∧
  after.getChildStates.length = before.getChildStates.length ∧
  after.getOutcomes = (fun o : Outcomes => o.addWinner w)^[k] before.getOutcomes ∧
  after.getAverageValue = (fun v : AverageValue => v.addAssign a)^[k] before.getAverageValue

/-- The tree `t` is the tree `base` after one `update(w, a)` of every node on
the way to the pointer `P`, the node that `P` points to included when `last` is
true: every node of `base` is still there, updated once when its pointer leads
to `P` and not at all otherwise, and the same node when its pointer does not
lead to `P`; and `t` has no other node. -/
def TreeNode.UpdatedAlong (w : Player) (a : AverageValue) (P : TreeNode.Path) (last : Bool)
    (base t : TreeNode) : Prop :=
  ∀ p : TreeNode.Path,
    (∀ n, base.get? p = some n →
      ∃ n1, t.get? p = some n1 ∧
        ((p <+: P ∧ (p = P → last = true)) → TreeNode.UpdatedTimes w a 1 n n1) ∧
        (¬ (p <+: P ∧ (p = P → last = true)) → TreeNode.UpdatedTimes w a 0 n n1) ∧
        (¬ p <+: P → n1 = n)) ∧
    (base.get? p = none → t.get? p = none)

/-- The descent of a call of `expand` on `root` reaches the bound of 200
rounds: the first loop ends, without an expansion, at the node of depth 200,
and the state of that node is not terminal. -/
def MonteCarloTreeSearch.ReachesBound (m : MonteCarloTreeSearch) (root : TreeNode) : Prop :=
  ∃ (t : TreeNode) (d : Descent) (n : TreeNode),
    m.select 200 root { currentNode := [], backprop_stack := [] } = Call.returned t d ∧
    d.currentNode.length = 200 ∧ t.get? d.currentNode = some n ∧ n.state.isGameOver = false

/-- The tree `t` is what `K` calls of `expand` make of the tree `root`, each
of the calls returning and none of their descents reaching the bound of 200
rounds. -/
def MonteCarloTreeSearch.Grown (m : MonteCarloTreeSearch) : Nat → TreeNode → TreeNode → Prop
  | 0, root, t => t = root
  | K + 1, root, t =>
    ¬ m.ReachesBound root ∧
      ∃ t1, m.expand root = Call.returned t1 () ∧ MonteCarloTreeSearch.Grown m K t1 t

/-- The visits of a node against those of its children: an initialized node
has one visit more than its existing children together, a node that is not
initialized and whose state is not terminal has no visit, and a node of a
terminal state is not initialized. -/
def TreeNode.Counted (n : TreeNode) : Prop :=
  (n.isInitialized = true → (n.getVisits : ℚ) = 1 + n.totalChildVisits) ∧
  (n.isInitialized = false → n.state.isGameOver = false → n.getVisits = 0) ∧
  (n.state.isGameOver = true → n.isInitialized = false)

/-- Every node of the tree is counted. -/
def TreeNode.AllCounted (root : TreeNode) : Prop :=
  ∀ (p : TreeNode.Path) (n : TreeNode), root.get? p = some n → n.Counted

/-- The tree that the first call of `expand` leaves, with `uniformSearch`, of
the fresh node of `noneToMoveState` (the call throws). -/
def noneToMoveSearched : TreeNode :=
  match uniformSearch.expand (TreeNode.create noneToMoveState NUM_MOVES) with
  | Call.thrown t => t
  | _ => TreeNode.create noneToMoveState NUM_MOVES

/-- The tree that a second call of `expand` leaves of `noneToMoveSearched` (the
call throws again). -/
def noneToMoveSearchedTwice : TreeNode :=
  match uniformSearch.expand noneToMoveSearched with
  | Call.thrown t => t
  | _ => noneToMoveSearched

/-! ## The arithmetic of C++ `int` -/

/-- Constant `INT_MAX` of the 32-bit `int`. -/
def INT_MAX : Int := 2147483647

/-- Constant `INT_MIN` of the 32-bit `int`. -/
def INT_MIN : Int := -2147483648

/-- The value that an `int` holds after an addition or a subtraction whose exact
result is `x`: `x` itself when it lies in `INT_MIN..INT_MAX`, and otherwise `x`
reduced modulo `2^32` into that range (the C++ standard leaves the overflow of
`int` undefined; the machine wraps). -/
def wrapInt (x : Int) : Int := (x + 2147483648) % 4294967296 - 2147483648

/-- The value `x` lies in the range of `int`. -/
def FitsInt (x : Int) : Prop := INT_MIN ≤ x ∧ x ≤ INT_MAX

/-- Every member of the state is a value of `int`. -/
def GameState.IsInt (s : GameState) : Prop :=
  FitsInt s.scoreOne ∧ FitsInt s.scoreTwo ∧ FitsInt s.specialOne ∧ FitsInt s.specialTwo ∧
    ∀ j : Fin 18, FitsInt (s.cells j)

/-- Method `GameState::moveByCell`, with the subtractions of `int`. -/
def moveByCell32 (cell : Int) : Int :=
  if cell < 9 then wrapInt (8 - cell) else wrapInt (cell - 9)

namespace GameState

/-- Rule C, lines 186-199, with the increments of `int`. -/
def ruleC32 (s : GameState) (w : Sow) : Sow :=
  let special := s.isSpecial w.currentCell
  if special = Player.NONE then
    { w with newCells :=
        w.newCells.set w.currentCell (wrapInt (w.newCells.get w.currentCell + 1)) }
  else
    let w1 :=
      if special = Player.ONE then { w with newScoreOne := wrapInt (w.newScoreOne + 1) } else w
    if special = Player.TWO then { w1 with newScoreTwo := wrapInt (w1.newScoreTwo + 1) } else w1

/-- Rule B, lines 204-211, with the additions of `int`. -/
def ruleB32 (s : GameState) (w : Sow) : Sow :=
  if Int.tmod (w.newCells.get w.currentCell) 2 = 0 then
    let w1 := if s.currentPlayer = Player.ONE
      then { w with newScoreOne := wrapInt (w.newScoreOne + w.newCells.get w.currentCell) }
      else w
    let w2 := if s.currentPlayer = Player.TWO
      then { w1 with newScoreTwo := wrapInt (w1.newScoreTwo + w1.newCells.get w1.currentCell) }
      else w1
    { w2 with newCells := w2.newCells.set w2.currentCell 0 }
  else w

/-- Rule D, lines 214-234, with the additions of `int`. -/
def ruleD32 (s : GameState) (w : Sow) : Sow :=
  if w.newCells.get w.currentCell = 3 then
    let possibleSpecialCellMove := moveByCell32 w.currentCell
    let canSetSpecial : Bool := possibleSpecialCellMove != 8
    let w1 :=
      if s.currentPlayer = Player.ONE ∧ w.newSpecialOne = SPECIAL_NOT_SET ∧ canSetSpecial = true ∧
          (w.newSpecialTwo = SPECIAL_NOT_SET ∨
            possibleSpecialCellMove ≠ moveByCell32 w.newSpecialTwo) then
        { w with newScoreOne := wrapInt (w.newScoreOne + 3),
                 newCells := w.newCells.set w.currentCell 0,
                 newSpecialOne := w.currentCell }
      else w
    if s.currentPlayer = Player.TWO ∧ w1.newSpecialTwo = SPECIAL_NOT_SET ∧ canSetSpecial = true ∧
        (w1.newSpecialOne = SPECIAL_NOT_SET ∨
          possibleSpecialCellMove ≠ moveByCell32 w1.newSpecialOne) then
      { w1 with newScoreTwo := wrapInt (w1.newScoreTwo + 3),
                newCells := w1.newCells.set w1.currentCell 0,
                newSpecialTwo := w1.currentCell }
    else w1
  else w

/-- One iteration of the `while (hand > 0)` loop, lines 185-236, with the
arithmetic of `int`; `hand` is the value after `hand--`. -/
def sowBody32 (s : GameState) (hand : Nat) (w : Sow) : Sow :=
  let w1 := s.ruleC32 w
  let w2 :=
    if hand = 0 ∧ s.isReachable w1.currentCell = true then s.ruleD32 (s.ruleB32 w1) else w1
  { w2 with currentCell := nextCell w2.currentCell }

/-- The loop `while (hand > 0) { hand--; ... }` of lines 183-237, with the
arithmetic of `int`. -/
def sowLoop32 (s : GameState) : Nat → Sow → Sow
  | 0, w => w
  | hand + 1, w => sowLoop32 s hand (s.sowBody32 hand w)

/-- The locals of `GameState::move` on exit from the loop, with the arithmetic
of `int`. -/
def sowEnd32 (s : GameState) (move : Int) : Sow :=
  s.sowLoop32 (s.cells.get (s.boardCell move)).toNat (s.sowStart move)

/-- Method `GameState::move` with the arithmetic of `int`; `none` is
`std::abort()`. -/
def move32 (s : GameState) (move : Int) : Option GameState :=
  if !s.isMoveAllowed move then none
  else
    let w := s.sowEnd32 move
    create (opponent s.currentPlayer) w.newScoreOne w.newScoreTwo
      w.newSpecialOne w.newSpecialTwo w.newCells

/-- An iteration of the loop that is not the last one, with the arithmetic of
`int`. -/
def sowPlain32 (s : GameState) (w : Sow) : Sow :=
  let w1 := s.ruleC32 w
  { w1 with currentCell := nextCell w1.currentCell }

/-- The locals of `move` on entry to the last iteration of the loop, with the
arithmetic of `int`. -/
def sowBeforeLast32 (s : GameState) (move : Int) : Sow :=
  (s.sowPlain32)^[(s.hand move).toNat - 1] (s.sowStart move)

/-- The locals of `move` right after Rule C of the last iteration, with the
arithmetic of `int`: the last pebble has been sown, Rules B and D have not run
yet. -/
def sowLastDeposit32 (s : GameState) (move : Int) : Sow := s.ruleC32 (s.sowBeforeLast32 move)

end GameState

/-- The board and the scores of the locals of `move` as `int` holds them. -/
def GameState.Sow.wrap (w : Sow) : Sow :=
  { w with newCells := fun j => wrapInt (w.newCells j),
           newScoreOne := wrapInt w.newScoreOne,
           newScoreTwo := wrapInt w.newScoreTwo }

/-- The state the sparse constructor builds for ONE to move, `scoreOne =
INT_MAX`, `scoreTwo = 0`, no special cell, 1 pebble on cell 0 and 1 pebble on
cell 9. -/
def intMaxCaptureState : GameState :=
  (GameState.createSparse Player.ONE [(0, 1), (9, 1)] INT_MAX 0
    SPECIAL_NOT_SET SPECIAL_NOT_SET).getD GameState.init

/-- A play of 87 allowed moves, `crowdedCellPlay` and six more, after which the
game is not over, TWO is to move and cell 4 holds 83 pebbles. -/
def crowdedCapturePlay : List Int := crowdedCellPlay ++ [0, 2, 4, 3, 5, 6]

/-- A play of 18 allowed moves after which the game is over, ONE is to move and
has 82 points: the last pebble that TWO sowed on the special cell of ONE took
the score of ONE from 81 to 82. -/
def moverAheadPlay : List Int := [6, 8, 8, 2, 7, 5, 2, 2, 5, 3, 4, 3, 7, 3, 8, 3, 4, 2]

/-! ## The types `float` and `double`

The finite values of a binary floating-point type are rationals; an operation
of C++ on them gives the exact result rounded to the nearest value of the type,
ties to the even one, and an infinity when that is beyond the largest finite
value.  Infinities and NaN are no rationals: a computation in which one arises
is not followed any further (`none`, `Run.unmodelled`). -/

/-- A power of two, as a rational. -/
def pow2 (e : Int) : ℚ :=
  if 0 ≤ e then ((2 ^ e.toNat : Nat) : ℚ) else 1 / ((2 ^ (-e).toNat : Nat) : ℚ)

/-- The position of the leading bit of `n`, found in at most `fuel` halvings. -/
def leadingBitWithin : Nat → Nat → Nat
  | 0, _ => 0
  | fuel + 1, n => if n < 2 then 0 else leadingBitWithin fuel (n / 2) + 1

/-- The position of the leading bit of a positive `n`: the `e` with
`2 ^ e ≤ n < 2 ^ (e + 1)`. -/
def leadingBit (n : Nat) : Nat := leadingBitWithin n n

/-- The binary exponent of a positive rational `x`: the `e` with
`2 ^ e ≤ x < 2 ^ (e + 1)`. -/
def floorLog2 (x : ℚ) : Int :=
  let e : Int := (leadingBit x.num.natAbs : Int) - (leadingBit x.den : Int)
  if pow2 e ≤ x then e else e - 1

/-- The nearest integer, the even one of the two when `x` is half way. -/
def roundHalfEven (x : ℚ) : Int :=
  let f := Rat.floor x
  if x - (f : ℚ) < 1 / 2 then f
  else if 1 / 2 < x - (f : ℚ) then f + 1
  else if f % 2 = 0 then f
  else f + 1

/-- The exponent of the binary floating-point numbers next to a non-zero `x`,
when the exponents start from `emin`: that of `x`, or `emin` when `x` is in the
range of the subnormal numbers. -/
def binaryExponent (emin : Int) (x : ℚ) : Int :=
  max (floorLog2 (if x < 0 then -x else x)) emin

/-- The nearest binary floating-point number with a significand of `precision`
bits and exponents from `emin` on (the subnormal numbers included), ties to even;
the exponent is not bounded above. -/
def roundBinary (precision : Nat) (emin : Int) (x : ℚ) : ℚ :=
  if x = 0 then 0
  else
    let quantum := pow2 (binaryExponent emin x - (precision : Int) + 1)
    (roundHalfEven (x / quantum) : ℚ) * quantum

/-- Rounding to `float` (binary32), before the check of the range. -/
def roundFloat (x : ℚ) : ℚ := roundBinary 24 (-126) x

/-- Rounding to `double` (binary64), before the check of the range. -/
def roundDouble (x : ℚ) : ℚ := roundBinary 53 (-1022) x

/-- Constant `std::numeric_limits<double>::max()`. -/
def DBL_MAX : ℚ := (2 ^ 53 - 1) * 2 ^ 971

/-- The finite values of type `float`. -/
def IsFloat (x : ℚ) : Prop := roundFloat x = x ∧ -FLT_MAX ≤ x ∧ x ≤ FLT_MAX

instance (x : ℚ) : Decidable (IsFloat x) :=
  inferInstanceAs (Decidable (roundFloat x = x ∧ -FLT_MAX ≤ x ∧ x ≤ FLT_MAX))

/-- The finite values of type `double`. -/
def IsDouble (x : ℚ) : Prop := roundDouble x = x ∧ -DBL_MAX ≤ x ∧ x ≤ DBL_MAX

instance (x : ℚ) : Decidable (IsDouble x) :=
  inferInstanceAs (Decidable (roundDouble x = x ∧ -DBL_MAX ≤ x ∧ x ≤ DBL_MAX))

/-- The result in `float` of an operation whose exact result is `x`, and the
conversion of `x` to `float`; `none` when that is an infinity. -/
def toFloat? (x : ℚ) : Option ℚ :=
  if -FLT_MAX ≤ roundFloat x ∧ roundFloat x ≤ FLT_MAX then some (roundFloat x) else none

/-- The result in `double` of an operation whose exact result is `x`, and the
conversion of `x` to `double`; `none` when that is an infinity. -/
def toDouble? (x : ℚ) : Option ℚ :=
  if -DBL_MAX ≤ roundDouble x ∧ roundDouble x ≤ DBL_MAX then some (roundDouble x) else none

/-- The value of an object of type `float` that the model holds as the
rational `x`; `none` when `x` is no finite value of the type. -/
def asFloat? (x : ℚ) : Option ℚ := if IsFloat x then some x else none

/-- The value of an object of type `double` that the model holds as the
rational `x`; `none` when `x` is no finite value of the type. -/
def asDouble? (x : ℚ) : Option ℚ := if IsDouble x then some x else none

instance (x : Int) : Decidable (FitsInt x) :=
  inferInstanceAs (Decidable (INT_MIN ≤ x ∧ x ≤ INT_MAX))

/-- The value of an object of type `int` that the model holds as the integer
`x`; `none` when `x` is no value of the type. -/
def asInt? (x : Int) : Option ℚ := if FitsInt x then some (x : ℚ) else none

/-- The outcome of a call that computes in `float`: it returns, it throws, or
an infinity or a NaN arises in it, or a read outside a vector, and the model
does not follow it. -/
inductive Run (α : Type) where
  | value (a : α)
  | throws
  | unmodelled
deriving DecidableEq

/-- The outcome of a computation that does not throw. -/
def Run.ofOption {α : Type} : Option α → Run α
  | some a => Run.value a
  | none => Run.unmodelled

/-! ## `estimateMoveValues` in the arithmetic of its types -/

/-- The expression `(state.getCurrentPlayer() == Player::ONE) ? float(x.getScoreOne() -
x.getScoreTwo()) : float(x.getScoreTwo() - x.getScoreOne())` of
`estimateMoveValues`: a subtraction of `int` and the conversion of the result
to `float`, which is finite. -/
def scoreDiff32 (state x : GameState) : ℚ :=
  if state.currentPlayer = Player.ONE then
    roundFloat ((wrapInt (x.scoreOne - x.scoreTwo) : Int) : ℚ)
  else roundFloat ((wrapInt (x.scoreTwo - x.scoreOne) : Int) : ℚ)

/-- Method `GameStateMoveValuesEstimator::estimateMoveValues` in the arithmetic
of its types: `move` and the differences of the scores are computed in `int`,
and `(childDiff - parentDiff) / 81.0f` is a subtraction and a division of
`float`, both of finite result; `none` is the abort of a `state.move(i)`. -/
def estimateMoveValues32 (state : GameState) : Option (List ℚ) :=
  let parentDiff : ℚ := scoreDiff32 state state
  (List.range NUM_MOVES).foldlM (fun (values : List ℚ) (i : Nat) =>
    if !state.isMoveAllowed (i : Int) then some values
    else
      match state.move32 (i : Int) with
      | none => none
      | some childState =>
        let childDiff : ℚ := scoreDiff32 state childState
        some (values.set i (roundFloat (roundFloat (childDiff - parentDiff) / 81))))
    (List.replicate NUM_MOVES 0)

/-! ## `AverageValue` in the arithmetic of its members -/

/-- Method `AverageValue::addWinner` in the arithmetic of the members:
`_support++` on an `int` and `_playerOneValue++`, `_playerOneValue--` on a
`float`, whose result is a finite value when `_playerOneValue` is one. -/
def AverageValue.addWinner32 (a : AverageValue) (player : Player) : AverageValue :=
  let a1 : AverageValue := { a with support := wrapInt (a.support + 1) }
  match player with
  | Player.ONE => { a1 with playerOneValue := roundFloat (a1.playerOneValue + 1) }
  | Player.TWO => { a1 with playerOneValue := roundFloat (a1.playerOneValue - 1) }
  | Player.NONE => a1

/-- The operator `AverageValue::operator+=` in the arithmetic of the members;
`none` when the sum of the two values is an infinity. -/
def AverageValue.addAssign32 (a other : AverageValue) : Option AverageValue :=
  match toFloat? (a.playerOneValue + other.playerOneValue) with
  | none => none
  | some v => some { playerOneValue := v, support := wrapInt (a.support + other.support) }

/-- Method `AverageValue::add` in the arithmetic of the members:
`return (*this += other)`. -/
def AverageValue.add32 (a other : AverageValue) : Option AverageValue := a.addAssign32 other

/-- Method `AverageValue::getValue` in the arithmetic of the members: the
quotient of the `float` `_playerOneValue` and the `int` `_support` is a
division in `float`, after the conversion of the `int`. -/
def AverageValue.getValue32 (a : AverageValue) (player : Player) : Run ℚ :=
  if a.support = 0 then Run.value 0
  else
    match player with
    | Player.ONE => Run.ofOption (do
        let playerOneValue ← asFloat? a.playerOneValue
        let support ← (asInt? a.support).bind toFloat?
        toFloat? (playerOneValue / support))
    | Player.TWO => Run.ofOption (do
        let playerOneValue ← asFloat? a.playerOneValue
        let support ← (asInt? a.support).bind toFloat?
        toFloat? (-playerOneValue / support))
    | Player.NONE => Run.throws

/-! ## The call operator of `PredictiveUpperConfidenceBound` -/

/-- Line 469 of `mcts.cc`: `parent_visits_sqrt`, a `double`; `sqrt` stands for
`std::sqrt`, of which only the value at `1.0 + treeNode.getVisits()` is used,
and the root of a negative number is a NaN. -/
def parentVisitsSqrt? (sqrt : ℚ → ℚ) (treeNode : TreeNode) : Option ℚ := do
  let visits ← asInt? treeNode.getVisits
  let radicand ← toDouble? (1 + visits)
  if radicand < 0 then none else asDouble? (sqrt radicand)

/-- Lines 481-487 of `mcts.cc`: the `exploration` of child `i`.  The operands
`noises[i]`, `parent_visits_sqrt` and `1.0` are `double`, so the operations they
take part in are done in `double`, and the result is converted to `float`. -/
def exploration? (parent_visits_sqrt : ℚ) (noises : List ℚ)
    (treeNode child_state : TreeNode) (i : Nat) : Option ℚ := do
  let prior_probability ← (treeNode.evaluation.policy.get? i).bind asFloat?
  let noise ← (noises.get? i).bind asDouble?
  let weight ← toFloat? (1 - NOISE_WEIGHT)
  let weighted_prior ← toFloat? (prior_probability * weight)
  let weighted_noise ← toDouble? (NOISE_WEIGHT * noise)
  let adjusted_probability ← (toDouble? (weighted_prior + weighted_noise)).bind toFloat?
  let product ← toDouble? (adjusted_probability * parent_visits_sqrt)
  let child_visits ← asInt? child_state.getVisits
  let divisor ← toDouble? (1 + child_visits)
  if divisor = 0 then none else (toDouble? (product / divisor)).bind toFloat?

/-- Lines 481-492 of `mcts.cc`: the `estimated_value` of child `i`. -/
def estimatedValue (parent_visits_sqrt : ℚ) (noises : List ℚ)
    (treeNode child_state : TreeNode) (i : Nat) : Run ℚ :=
  match exploration? parent_visits_sqrt noises treeNode child_state i with
  | none => Run.unmodelled
  | some exploration =>
    match child_state.getAverageValue.getValue32 treeNode.state.currentPlayer with
    | Run.value exploitation =>
      Run.ofOption ((toFloat? (EXPLORATION_WEIGHT * exploration)).bind
        (fun weighted => toFloat? (exploitation + weighted)))
    | Run.throws => Run.throws
    | Run.unmodelled => Run.unmodelled

/-- The loop of the call operator, lines 473-499, over the indices still to
visit. -/
def puctLoop (parent_visits_sqrt : ℚ) (noises : List ℚ) (treeNode : TreeNode) :
    List Nat → Best → Run Best
  | [], best => Run.value best
  | i :: rest, best =>
    match treeNode.child i with
    | none => puctLoop parent_visits_sqrt noises treeNode rest best
    | some child_state =>
      match estimatedValue parent_visits_sqrt noises treeNode child_state i with
      | Run.value estimated_value =>
        if estimated_value > best.max_value then
          puctLoop parent_visits_sqrt noises treeNode rest
            { max_value := estimated_value, index_of_max := (i : Int) }
        else puctLoop parent_visits_sqrt noises treeNode rest best
      | Run.throws => Run.throws
      | Run.unmodelled => Run.unmodelled

/-- The call operator `PredictiveUpperConfidenceBound::operator()`, for the
vector `noises` that `sampleDirichlet()` draws in the call; `sqrt` stands for
`std::sqrt`. -/
def PredictiveUpperConfidenceBound.call (sqrt : ℚ → ℚ) (noises : List ℚ)
    (treeNode : TreeNode) : Run Int :=
  if !treeNode.isInitialized then Run.throws
  else if treeNode.isLeaf then Run.throws
  else
    match parentVisitsSqrt? sqrt treeNode with
    | none => Run.unmodelled
    | some parent_visits_sqrt =>
      match puctLoop parent_visits_sqrt noises treeNode
          (List.range treeNode.getChildStates.length)
          { max_value := -FLT_MAX, index_of_max := -1 } with
      | Run.value best =>
        if best.index_of_max = -1 then Run.throws else Run.value best.index_of_max
      | Run.throws => Run.throws
      | Run.unmodelled => Run.unmodelled

/-- The score of the child `child_state` in slot `i` of `treeNode` in
`PredictiveUpperConfidenceBound`: its `estimated_value`, a `float`. -/
def puctScore (sqrt : ℚ → ℚ) (noises : List ℚ) (treeNode child_state : TreeNode) (i : Nat) :
    Run ℚ :=
  match parentVisitsSqrt? sqrt treeNode with
  | none => Run.unmodelled
  | some parent_visits_sqrt => estimatedValue parent_visits_sqrt noises treeNode child_state i

/-- Inputs of the call operator that are probabilities and counts: the visit
counts of the node and of its children are values of `int` that are not
negative, `std::sqrt` returns for the node a `double` between 0 and `2^31`, the
policy of the node and the noise vector have for every child an entry that is a
`float`, respectively a `double`, between 0 and 1, and the `AverageValue` of
every child holds a `float` and an `int`. -/
def PuctInputsInRange (sqrt : ℚ → ℚ) (noises : List ℚ) (n : TreeNode) : Prop :=
  FitsInt n.getVisits ∧ 0 ≤ n.getVisits ∧
  IsDouble (sqrt (1 + (n.getVisits : ℚ))) ∧ 0 ≤ sqrt (1 + (n.getVisits : ℚ)) ∧
  sqrt (1 + (n.getVisits : ℚ)) ≤ 2147483648 ∧
  ∀ (j : Nat) (d : TreeNode), n.child j = some d →
    (∃ p : ℚ, n.evaluation.policy.get? j = some p ∧ IsFloat p ∧ 0 ≤ p ∧ p ≤ 1) ∧
    (∃ z : ℚ, noises.get? j = some z ∧ IsDouble z ∧ 0 ≤ z ∧ z ≤ 1) ∧
    FitsInt d.getVisits ∧ 0 ≤ d.getVisits ∧
    IsFloat d.getAverageValue.playerOneValue ∧ FitsInt d.getAverageValue.support

/-- The score of the child in the words of the specification, without any
rounding: `exploitation + 4 * ((3/4 * policy[i] + 1/4 * noise[i]) * sqrt(1 +
parent visits) / (1 + child visits))`, the exploitation being the value of the
child for the player to move in the parent (0 where `getValue` throws). -/
def puctFormula (sqrt : ℚ → ℚ) (noises : List ℚ) (treeNode child_state : TreeNode) (i : Nat) :
    ℚ :=
  (child_state.getAverageValue.getValue treeNode.state.currentPlayer).getD 0 +
    4 * ((3 / 4 * treeNode.evaluation.policy.getD i 0 + 1 / 4 * noises.getD i 0) *
      sqrt (1 + (treeNode.getVisits : ℚ)) / (1 + (child_state.getVisits : ℚ)))

/-- A function that agrees with `std::sqrt` on the squares `0`, `1`, `4`, `9`
and `16`, the only arguments of the examples. -/
def sqrtOfSquare (x : ℚ) : ℚ :=
  if x = 1 then 1 else if x = 4 then 2 else if x = 9 then 3 else if x = 16 then 4 else 0

/-! ## The nodes of the examples of `PredictiveUpperConfidenceBound` -/

/-- The member `_policyValue` of `ZeroValueUniformEvaluator(9)` as the `float`
that it is: `1.0f / 9`. -/
def uniformPolicyValue : ℚ := roundFloat (1 / 9)

/-- The fresh node of the default start after `ZeroValueUniformEvaluator(9)` has
been called on it and then `initChildren` with that evaluator: it has 0 visits
and 9 children, each with the value 0 and the support 1. -/
def puctTestNode : TreeNode :=
  let root := ((ZeroValueUniformEvaluator.visit uniformPolicyValue
    (some (TreeNode.create GameState.init NUM_MOVES))).getD
      (TreeNode.create GameState.init NUM_MOVES))
  match root.initChildren (ZeroValueUniformEvaluator.call uniformPolicyValue) with
  | Call.returned n1 _ => n1
  | _ => root

/-- A noise vector of sum 1 whose entries 0, 1 and 2 differ by `2^-40`, entry 1
being the greatest. -/
def closeNoises : List ℚ :=
  [1 / 4, 1 / 4 + 1 / 1099511627776, 1 / 4 - 1 / 1099511627776, 1 / 8, 1 / 8, 0, 0, 0, 0]

/-- A noise vector of sum 1 whose greatest entry is entry 1. -/
def spreadNoises : List ℚ := [1 / 8, 1 / 4, 1 / 8, 1 / 8, 1 / 8, 1 / 8, 1 / 16, 1 / 16, 0]

/-- An evaluator that gives every node of the batch the value `FLT_MAX` and
the policy 0. -/
def extremeEvaluator : Evaluator :=
  fun nodes => Except.ok (nodes.map (Option.map (fun node =>
    node.setEvaluation
      { value := FLT_MAX, policy := List.replicate node.evaluation.policy.length 0 })))

/-- The fresh node of the default start after `initChildren` with
`extremeEvaluator`: ONE is to move, and the value of each of its 9 children for
ONE is `-FLT_MAX`. -/
def extremeNode : TreeNode :=
  match (TreeNode.create GameState.init NUM_MOVES).initChildren extremeEvaluator with
  | Call.returned n1 _ => n1
  | _ => TreeNode.create GameState.init NUM_MOVES

set_option maxRecDepth 100000

/-! ## Array accesses -/

theorem Cells.get_of_mem (c : Cells) (i : Int) (h : 0 ≤ i ∧ i < 18) :
    c.get i = c ⟨i.toNat, by omega⟩ := by
  simp [Cells.get, h]

theorem Cells.get_natCast (c : Cells) (j : Fin 18) : c.get (j.val : Int) = c j := by
  have h : 0 ≤ (j.val : Int) ∧ (j.val : Int) < 18 := ⟨by omega, by omega⟩
  rw [Cells.get_of_mem c _ h]
  congr

theorem Cells.get_set_same (c : Cells) (i v : Int) (h0 : 0 ≤ i) (h1 : i < 18) :
    (c.set i v).get i = v := by
  rw [Cells.get_of_mem _ _ ⟨h0, h1⟩]
  simp only [Cells.set]
  rw [if_pos]
  simp only [Int.toNat_of_nonneg h0]

theorem Cells.get_set_ne (c : Cells) (i j v : Int) (h : j ≠ i) :
    (c.set i v).get j = c.get j := by
  unfold Cells.get
  split
  · rename_i hj
    simp only [Cells.set]
    rw [if_neg]
    simp only [Int.toNat_of_nonneg hj.1]
    exact h
  · rfl

theorem Cells.get_fill (v i : Int) (h0 : 0 ≤ i) (h1 : i < 18) : (Cells.fill v).get i = v := by
  simp [Cells.get, Cells.fill, h0, h1]

/-! ## Terminal detection and the constructors -/

theorem GameState.anyMoveAllowed_iff (s : GameState) :
    s.anyMoveAllowed = true ↔ ∃ m : Int, 0 ≤ m ∧ m ≤ 8 ∧ s.isMoveAllowed m = true := by
  unfold GameState.anyMoveAllowed
  rw [List.any_eq_true]
  constructor
  · rintro ⟨k, hk, hm⟩
    rw [List.mem_range] at hk
    exact ⟨(k : Int), by omega, by omega, hm⟩
  · rintro ⟨m, h0, h8, hm⟩
    refine ⟨m.toNat, ?_, ?_⟩
    · rw [List.mem_range]; omega
    · rw [Int.toNat_of_nonneg h0]; exact hm

theorem GameState.isMoveAllowed_iff (s : GameState) (m : Int) :
    s.isMoveAllowed m = true ↔ s.cells.get (s.boardCell m) ≠ 0 := by
  simp [GameState.isMoveAllowed]

theorem GameState.anyMoveAllowed_eq_false_iff (s : GameState) :
    s.anyMoveAllowed = false ↔
      ∀ m : Int, 0 ≤ m → m ≤ 8 → s.cells.get (s.boardCell m) = 0 := by
  rw [← Bool.not_eq_true, GameState.anyMoveAllowed_iff]
  constructor
  · intro h m h0 h8
    by_contra hne
    exact h ⟨m, h0, h8, (s.isMoveAllowed_iff m).2 hne⟩
  · rintro h ⟨m, h0, h8, hm⟩
    exact (s.isMoveAllowed_iff m).1 hm (h m h0 h8)

/-- With `_is_game_over` just computed by `checkGameOver`, `checkWinner` does
not reach its abort branch. -/
theorem GameState.checkWinner_after_checkGameOver (s0 : GameState) :
    ({ s0 with isGameOver := s0.checkGameOver } : GameState).checkWinner =
      some (if s0.checkGameOver = false then none
         else if s0.scoreOne > 81 then some Player.ONE
         else if s0.scoreTwo > 81 then some Player.TWO
         else if s0.scoreOne = 81 ∧ s0.scoreTwo = 81 then some Player.NONE
         else some (opponent s0.currentPlayer)) := by
  have ha : ({ s0 with isGameOver := s0.checkGameOver } : GameState).anyMoveAllowed
      = s0.anyMoveAllowed := rfl
  simp only [GameState.checkWinner]
  rw [ha]
  simp only [GameState.checkGameOver]
  rcases Bool.eq_false_or_eq_true s0.anyMoveAllowed with h | h <;>
    by_cases h1 : s0.scoreOne > 81 <;> by_cases h2 : s0.scoreTwo > 81 <;>
    by_cases h3 : s0.scoreOne = 81 ∧ s0.scoreTwo = 81 <;>
    simp [h, h1, h2, h3]

/-- The state the explicit constructor builds. -/
theorem GameState.create_eq (p : Player) (s1 s2 sp1 sp2 : Int) (cells : Cells) :
    ∃ t, GameState.create p s1 s2 sp1 sp2 cells = some t ∧
      t.currentPlayer = p ∧ t.scoreOne = s1 ∧ t.scoreTwo = s2 ∧
      t.specialOne = sp1 ∧ t.specialTwo = sp2 ∧ t.cells = cells ∧
      t.isGameOver = t.checkGameOver ∧
      t.winner =
        (if t.isGameOver = false then none
         else if s1 > 81 then some Player.ONE
         else if s2 > 81 then some Player.TWO
         else if s1 = 81 ∧ s2 = 81 then some Player.NONE
         else some (opponent p)) := by
  have h := GameState.checkWinner_after_checkGameOver
    { currentPlayer := p, isGameOver := false, winner := none, scoreOne := s1, scoreTwo := s2,
      specialOne := sp1, specialTwo := sp2, cells := cells }
  dsimp only at h
  simp only [GameState.create]
  rw [h]
  exact ⟨_, rfl, rfl, rfl, rfl, rfl, rfl, rfl, rfl, rfl⟩

theorem Built.spec {t : GameState} (h : Built t) :
    t.isGameOver = t.checkGameOver ∧
    t.winner =
        (if t.isGameOver = false then none
         else if t.scoreOne > 81 then some Player.ONE
         else if t.scoreTwo > 81 then some Player.TWO
         else if t.scoreOne = 81 ∧ t.scoreTwo = 81 then some Player.NONE
         else some (opponent t.currentPlayer)) := by
  have key : ∀ p s1 s2 sp1 sp2 cells, GameState.create p s1 s2 sp1 sp2 cells = some t →
      t.isGameOver = t.checkGameOver ∧
      t.winner =
        (if t.isGameOver = false then none
         else if t.scoreOne > 81 then some Player.ONE
         else if t.scoreTwo > 81 then some Player.TWO
         else if t.scoreOne = 81 ∧ t.scoreTwo = 81 then some Player.NONE
         else some (opponent t.currentPlayer)) := by
    intro p s1 s2 sp1 sp2 cells hc
    obtain ⟨u, hu, hp, h1, h2, -, -, -, hg, hw⟩ := GameState.create_eq p s1 s2 sp1 sp2 cells
    rw [hu] at hc
    cases hc
    rw [h1, h2, hp]
    exact ⟨hg, hw⟩
  cases h with
  | explicit p s1 s2 sp1 sp2 cells _ hc => exact key _ _ _ _ _ _ hc
  | sparse p nz s1 s2 sp1 sp2 _ hc => exact key _ _ _ _ _ _ hc

theorem GameState.checkGameOver_iff (s : GameState) :
    s.checkGameOver = true ↔
      (s.scoreOne > 81 ∨ s.scoreTwo > 81 ∨ (s.scoreOne = 81 ∧ s.scoreTwo = 81) ∨
        ∀ m : Int, 0 ≤ m → m ≤ 8 → s.cells.get (s.boardCell m) = 0) := by
  rw [← GameState.anyMoveAllowed_eq_false_iff]
  unfold GameState.checkGameOver
  rcases Bool.eq_false_or_eq_true s.anyMoveAllowed with h | h <;>
    by_cases h1 : s.scoreOne > 81 <;> by_cases h2 : s.scoreTwo > 81 <;>
    by_cases h3 : s.scoreOne = 81 ∧ s.scoreTwo = 81 <;>
    simp [h, h1, h2, h3]

theorem GameState.move_eq_none_iff (s : GameState) (m : Int) :
    s.move m = none ↔ s.isMoveAllowed m = false := by
  unfold GameState.move
  rcases Bool.eq_false_or_eq_true (s.isMoveAllowed m) with h | h
  · simp [h]
    obtain ⟨u, hu, -⟩ := GameState.create_eq (opponent s.currentPlayer)
      (s.sowEnd m).newScoreOne (s.sowEnd m).newScoreTwo (s.sowEnd m).newSpecialOne
      (s.sowEnd m).newSpecialTwo (s.sowEnd m).newCells
    rw [hu]; simp
  · simp [h]

/-- What `move` returns for an allowed move, in terms of the locals at the end
of the sowing loop. -/
theorem GameState.move_eq (s : GameState) (m : Int) (ha : s.isMoveAllowed m = true) :
    ∃ t, s.move m = some t ∧
      t.currentPlayer = opponent s.currentPlayer ∧
      t.scoreOne = (s.sowEnd m).newScoreOne ∧ t.scoreTwo = (s.sowEnd m).newScoreTwo ∧
      t.specialOne = (s.sowEnd m).newSpecialOne ∧ t.specialTwo = (s.sowEnd m).newSpecialTwo ∧
      t.cells = (s.sowEnd m).newCells := by
  obtain ⟨u, hu, h1, h2, h3, h4, h5, h6, -⟩ := GameState.create_eq (opponent s.currentPlayer)
      (s.sowEnd m).newScoreOne (s.sowEnd m).newScoreTwo (s.sowEnd m).newSpecialOne
      (s.sowEnd m).newSpecialTwo (s.sowEnd m).newCells
  refine ⟨u, ?_, h1, h2, h3, h4, h5, h6⟩
  unfold GameState.move
  simp [ha, hu]

theorem GameState.boardCell_range (s : GameState) (m : Int) (h0 : 0 ≤ m) (h8 : m ≤ 8) :
    0 ≤ s.boardCell m ∧ s.boardCell m < 18 := by
  unfold GameState.boardCell
  split <;> omega

/-! ## Claims on legality, the player to move, terminal states and winners -/

/-- C2: for a state whose current player is ONE or TWO and an allowed move `m`
of `0..8`, `move(m)` returns a state whose current player is the opponent of
the current player of the state moved from.  (`move` is a function of the
state: the state moved from is a value that no call changes.) -/
theorem move_currentPlayer_opponent (s : GameState) (m : Int)
    (hp : s.currentPlayer = Player.ONE ∨ s.currentPlayer = Player.TWO)
    (_h0 : 0 ≤ m) (_h8 : m ≤ 8) (ha : s.isMoveAllowed m = true) :
    ∃ t, s.move m = some t ∧ t.currentPlayer = opponent s.currentPlayer ∧
      t.currentPlayer ≠ s.currentPlayer ∧
      (t.currentPlayer = Player.ONE ∨ t.currentPlayer = Player.TWO) := by
  obtain ⟨t, ht, hc, -⟩ := s.move_eq m ha
  refine ⟨t, ht, hc, ?_, ?_⟩
  · rw [hc]; rcases hp with h | h <;> rw [h] <;> decide
  · rw [hc]; rcases hp with h | h <;> rw [h] <;> decide

theorem move_currentPlayer_opponent_witness :
    ∃ t, GameState.init.move 8 = some t ∧ t.currentPlayer = opponent GameState.init.currentPlayer ∧
      t.currentPlayer ≠ GameState.init.currentPlayer ∧
      (t.currentPlayer = Player.ONE ∨ t.currentPlayer = Player.TWO) :=
  move_currentPlayer_opponent GameState.init 8 (Or.inl rfl) (by decide) (by decide) (by decide)

/-- C3: from the default start the moves 8,1,7,3,6,3,4,1,8,8,8 are each allowed
at the state they are applied to, and the final state is terminal with winner
ONE. -/
theorem shortest_game :
    movesAllowed GameState.init [8, 1, 7, 3, 6, 3, 4, 1, 8, 8, 8] = true ∧
    ∃ t, playMoves GameState.init [8, 1, 7, 3, 6, 3, 4, 1, 8, 8, 8] = some t ∧
      t.isGameOver = true ∧ t.winner = some Player.ONE := by
  have h : (playMoves GameState.init [8, 1, 7, 3, 6, 3, 4, 1, 8, 8, 8]).map
      (fun s => (s.isGameOver, s.winner)) = some (true, some Player.ONE) := by decide
  refine ⟨by decide, ?_⟩
  rcases hp : playMoves GameState.init [8, 1, 7, 3, 6, 3, 4, 1, 8, 8, 8] with _ | t
  · rw [hp] at h; simp at h
  · rw [hp] at h
    simp only [Option.map_some', Option.some.injEq, Prod.mk.injEq] at h
    exact ⟨t, rfl, h.1, h.2⟩

/-- With cell 0 holding 9 pebbles and scores 81 and 72, the state is terminal
when TWO is to move and not terminal when ONE is to move
(test `SparseValuesConstructorGameOver`). -/
theorem isGameOver_depends_on_player :
    (∃ t, GameState.createSparse Player.TWO [(0, 9)] 81 72 12 4 = some t ∧
      t.isGameOver = true) ∧
    (∃ t, GameState.createSparse Player.ONE [(0, 9)] 81 72 12 4 = some t ∧
      t.isGameOver = false) :=
  ⟨Option.map_eq_some'.1 (by decide), Option.map_eq_some'.1 (by decide)⟩

/-- C4: a state built by the explicit or by the sparse constructor is terminal
if and only if `scoreOne > 81`, or `scoreTwo > 81`, or both scores are 81, or
every cell `boardCell(m)`, `m` in `0..8`, of the current player is empty.  In
particular cell 0 = 9 with scores 81 and 72 is terminal with TWO to move and
not terminal with ONE to move. -/
theorem built_isGameOver_iff :
    (∀ t : GameState, Built t →
      (t.isGameOver = true ↔
        (t.scoreOne > 81 ∨ t.scoreTwo > 81 ∨ (t.scoreOne = 81 ∧ t.scoreTwo = 81) ∨
          ∀ m : Int, 0 ≤ m → m ≤ 8 → t.cells.get (t.boardCell m) = 0))) ∧
    (∃ t, GameState.createSparse Player.TWO [(0, 9)] 81 72 12 4 = some t ∧
      t.isGameOver = true) ∧
    (∃ t, GameState.createSparse Player.ONE [(0, 9)] 81 72 12 4 = some t ∧
      t.isGameOver = false) := by
  refine ⟨fun t h => ?_, isGameOver_depends_on_player⟩
  rw [h.spec.1]
  exact t.checkGameOver_iff

theorem built_isGameOver_iff_witness :
    ∃ t, GameState.createSparse Player.TWO [(0, 9)] 81 72 12 4 = some t ∧
      (t.isGameOver = true ↔
        (t.scoreOne > 81 ∨ t.scoreTwo > 81 ∨ (t.scoreOne = 81 ∧ t.scoreTwo = 81) ∨
          ∀ m : Int, 0 ≤ m → m ≤ 8 → t.cells.get (t.boardCell m) = 0)) :=
  (GameState.create_eq Player.TWO 81 72 12 4 (GameState.sparseCells [(0, 9)])).elim
    (fun t ht => ⟨t, ht.1,
      built_isGameOver_iff.1 t (Built.sparse Player.TWO [(0, 9)] 81 72 12 4 t ht.1)⟩)

/-- C5: the explicit and the sparse constructor, called with current player ONE
or TWO and any scores, specials and cells, return a state (the abort of
`checkWinner` is not reached); in that state the winner is present if and only
if the state is terminal; and in a terminal state the winner is, first match
first: ONE if `scoreOne > 81`, TWO if `scoreTwo > 81`, NONE if both scores are
81, and otherwise the opponent of the current player. -/
theorem constructor_winner (p : Player) (scoreOne scoreTwo specialOne specialTwo : Int)
    (cells : Cells) (nonZeroValues : List (Int × Int))
    (_hp : p = Player.ONE ∨ p = Player.TWO) :
    (∃ t, GameState.create p scoreOne scoreTwo specialOne specialTwo cells = some t ∧
      (t.winner.isSome = true ↔ t.isGameOver = true) ∧
      (t.isGameOver = true → t.winner = some
        (if scoreOne > 81 then Player.ONE
         else if scoreTwo > 81 then Player.TWO
         else if scoreOne = 81 ∧ scoreTwo = 81 then Player.NONE
         else opponent p))) ∧
    (∃ t, GameState.createSparse p nonZeroValues scoreOne scoreTwo specialOne specialTwo
        = some t ∧
      (t.winner.isSome = true ↔ t.isGameOver = true) ∧
      (t.isGameOver = true → t.winner = some
        (if scoreOne > 81 then Player.ONE
         else if scoreTwo > 81 then Player.TWO
         else if scoreOne = 81 ∧ scoreTwo = 81 then Player.NONE
         else opponent p))) := by
  have key : ∀ c : Cells,
      ∃ t, GameState.create p scoreOne scoreTwo specialOne specialTwo c = some t ∧
      (t.winner.isSome = true ↔ t.isGameOver = true) ∧
      (t.isGameOver = true → t.winner = some
        (if scoreOne > 81 then Player.ONE
         else if scoreTwo > 81 then Player.TWO
         else if scoreOne = 81 ∧ scoreTwo = 81 then Player.NONE
         else opponent p)) := by
    intro c
    obtain ⟨t, ht, -, -, -, -, -, -, -, hw⟩ :=
      GameState.create_eq p scoreOne scoreTwo specialOne specialTwo c
    refine ⟨t, ht, ?_, ?_⟩
    · rw [hw]
      rcases Bool.eq_false_or_eq_true t.isGameOver with h | h
      · rw [h]; simp only [Bool.true_eq_false, if_false, iff_true]
        split_ifs <;> rfl
      · rw [h]; simp
    · intro h
      rw [hw, h]
      simp only [Bool.true_eq_false, if_false]
      split_ifs <;> rfl
  exact ⟨key cells, key (GameState.sparseCells nonZeroValues)⟩

theorem constructor_winner_witness :
    (∃ t, GameState.create Player.TWO 81 81 12 4 (Cells.fill 0) = some t ∧
      (t.winner.isSome = true ↔ t.isGameOver = true) ∧
      (t.isGameOver = true → t.winner = some
        (if (81 : Int) > 81 then Player.ONE
         else if (81 : Int) > 81 then Player.TWO
         else if (81 : Int) = 81 ∧ (81 : Int) = 81 then Player.NONE
         else opponent Player.TWO))) ∧
    (∃ t, GameState.createSparse Player.TWO [(0, 9)] 81 81 12 4 = some t ∧
      (t.winner.isSome = true ↔ t.isGameOver = true) ∧
      (t.isGameOver = true → t.winner = some
        (if (81 : Int) > 81 then Player.ONE
         else if (81 : Int) > 81 then Player.TWO
         else if (81 : Int) = 81 ∧ (81 : Int) = 81 then Player.NONE
         else opponent Player.TWO))) :=
  constructor_winner Player.TWO 81 81 12 4 (Cells.fill 0) [(0, 9)] (Or.inr rfl)

/-- C6: for a move `m` of `0..8`, `boardCell(m)` is a cell of the board,
`isMoveAllowed(m)` holds exactly when that cell is not empty, and `move(m)`
aborts exactly when `isMoveAllowed(m)` is false. -/
theorem move_aborts_iff_not_allowed (s : GameState) (m : Int) (h0 : 0 ≤ m) (h8 : m ≤ 8) :
    (0 ≤ s.boardCell m ∧ s.boardCell m < 18) ∧
    (s.isMoveAllowed m = true ↔ s.cells.get (s.boardCell m) ≠ 0) ∧
    (s.move m = none ↔ s.isMoveAllowed m = false) :=
  ⟨s.boardCell_range m h0 h8, s.isMoveAllowed_iff m, s.move_eq_none_iff m⟩

theorem move_aborts_iff_not_allowed_witness :
    (0 ≤ GameState.init.boardCell 3 ∧ GameState.init.boardCell 3 < 18) ∧
    (GameState.init.isMoveAllowed 3 = true ↔
      GameState.init.cells.get (GameState.init.boardCell 3) ≠ 0) ∧
    (GameState.init.move 3 = none ↔ GameState.init.isMoveAllowed 3 = false) :=
  move_aborts_iff_not_allowed GameState.init 3 (by decide) (by decide)

/-! ## The sowing loop -/

theorem Cells.total_eq_sum (c : Cells) : c.total = ∑ j : Fin 18, c j := by
  unfold Cells.total
  exact List.sum_ofFn

theorem Cells.set_eq_update (c : Cells) (i v : Int) (h0 : 0 ≤ i) (h1 : i < 18) :
    c.set i v = Function.update c ⟨i.toNat, by omega⟩ v := by
  funext j
  unfold Cells.set
  by_cases hj : (j.val : Int) = i
  · have : j = ⟨i.toNat, by omega⟩ := by
      apply Fin.ext
      simp only
      omega
    rw [if_pos hj, this, Function.update_same]
  · have : j ≠ ⟨i.toNat, by omega⟩ := by
      intro hji
      apply hj
      rw [hji]
      simp only
      omega
    rw [if_neg hj, Function.update_noteq this]

theorem Cells.total_set (c : Cells) (i v : Int) (h0 : 0 ≤ i) (h1 : i < 18) :
    (c.set i v).total = c.total - c.get i + v := by
  rw [Cells.set_eq_update c i v h0 h1, Cells.total_eq_sum, Cells.total_eq_sum,
    Cells.get_of_mem c i ⟨h0, h1⟩,
    Finset.sum_update_of_mem (Finset.mem_univ _),
    ← Finset.add_sum_erase Finset.univ c (Finset.mem_univ (⟨i.toNat, by omega⟩ : Fin 18)),
    Finset.sdiff_singleton_eq_erase]
  ring

theorem nextCell_range (c : Int) (h0 : 0 ≤ c) (h1 : c < 18) :
    0 ≤ nextCell c ∧ nextCell c < 18 := by
  unfold nextCell
  split_ifs <;> omega

theorem nextCell_ne (c : Int) : nextCell c ≠ c := by
  unfold nextCell
  split_ifs <;> omega

theorem nextCell_iterate_range (k : Nat) (c : Int) (h0 : 0 ≤ c) (h1 : c < 18) :
    0 ≤ nextCell^[k] c ∧ nextCell^[k] c < 18 := by
  induction k with
  | zero => exact ⟨h0, h1⟩
  | succ k ih =>
    rw [Function.iterate_succ_apply']
    exact nextCell_range _ ih.1 ih.2

/-- The sowing path is a loop of length 18: fewer than 18 steps never lead
back to the cell they start from. -/
theorem nextCell_iterate_ne (k : Nat) (c : Int) (h0 : 0 ≤ c) (h1 : c < 18)
    (hk0 : 0 < k) (hk1 : k < 18) : nextCell^[k] c ≠ c := by
  have key : ∀ c : Fin 18, ∀ k : Fin 18, 0 < k.val → nextCell^[k.val] (c.val : Int) ≠ c.val := by
    decide
  have := key ⟨c.toNat, by omega⟩ ⟨k, hk1⟩ hk0
  simp only [Int.toNat_of_nonneg h0] at this
  exact this

/-! ### Rule D for each player to move -/

theorem GameState.ruleD_ONE (s : GameState) (w : Sow) (hp : s.currentPlayer = Player.ONE) :
    s.ruleD w =
      if w.newCells.get w.currentCell = 3 ∧ w.newSpecialOne = SPECIAL_NOT_SET ∧
          moveByCell w.currentCell ≠ 8 ∧
          (w.newSpecialTwo = SPECIAL_NOT_SET ∨
            moveByCell w.currentCell ≠ moveByCell w.newSpecialTwo) then
        { w with newScoreOne := w.newScoreOne + 3,
                 newCells := w.newCells.set w.currentCell 0,
                 newSpecialOne := w.currentCell }
      else w := by
  unfold GameState.ruleD
  simp only [hp, true_and, false_and, if_false, reduceCtorEq, bne_iff_ne, ne_eq]
  split_ifs <;> first | rfl | (exfalso; tauto)

theorem GameState.ruleD_TWO (s : GameState) (w : Sow) (hp : s.currentPlayer = Player.TWO) :
    s.ruleD w =
      if w.newCells.get w.currentCell = 3 ∧ w.newSpecialTwo = SPECIAL_NOT_SET ∧
          moveByCell w.currentCell ≠ 8 ∧
          (w.newSpecialOne = SPECIAL_NOT_SET ∨
            moveByCell w.currentCell ≠ moveByCell w.newSpecialOne) then
        { w with newScoreTwo := w.newScoreTwo + 3,
                 newCells := w.newCells.set w.currentCell 0,
                 newSpecialTwo := w.currentCell }
      else w := by
  unfold GameState.ruleD
  simp only [hp, true_and, false_and, if_false, reduceCtorEq, bne_iff_ne, ne_eq]
  split_ifs <;> first | rfl | (exfalso; tauto)

theorem GameState.ruleD_NONE (s : GameState) (w : Sow) (hp : s.currentPlayer = Player.NONE) :
    s.ruleD w = w := by
  unfold GameState.ruleD
  simp only [hp, false_and, if_false, reduceCtorEq, ite_self]

/-! ### The rules keep `currentCell`, and touch no other cell -/

theorem GameState.ruleC_currentCell (s : GameState) (w : Sow) :
    (s.ruleC w).currentCell = w.currentCell := by
  unfold GameState.ruleC
  simp only
  split_ifs <;> rfl

theorem GameState.ruleB_currentCell (s : GameState) (w : Sow) :
    (s.ruleB w).currentCell = w.currentCell := by
  unfold GameState.ruleB
  simp only
  split_ifs <;> rfl

theorem GameState.ruleD_currentCell (s : GameState) (w : Sow) :
    (s.ruleD w).currentCell = w.currentCell := by
  cases hp : s.currentPlayer
  · rw [GameState.ruleD_ONE s w hp]; split_ifs <;> rfl
  · rw [GameState.ruleD_TWO s w hp]; split_ifs <;> rfl
  · rw [GameState.ruleD_NONE s w hp]

theorem GameState.ruleC_get_ne (s : GameState) (w : Sow) (j : Int) (h : j ≠ w.currentCell) :
    (s.ruleC w).newCells.get j = w.newCells.get j := by
  unfold GameState.ruleC
  simp only
  split_ifs <;> first | rfl | exact Cells.get_set_ne _ _ _ _ h

theorem GameState.ruleB_get_ne (s : GameState) (w : Sow) (j : Int) (h : j ≠ w.currentCell) :
    (s.ruleB w).newCells.get j = w.newCells.get j := by
  unfold GameState.ruleB
  simp only
  split_ifs <;> first | rfl | exact Cells.get_set_ne _ _ _ _ h

theorem GameState.ruleD_get_ne (s : GameState) (w : Sow) (j : Int) (h : j ≠ w.currentCell) :
    (s.ruleD w).newCells.get j = w.newCells.get j := by
  cases hp : s.currentPlayer
  · rw [GameState.ruleD_ONE s w hp]
    split_ifs <;> first | rfl | exact Cells.get_set_ne _ _ _ _ h
  · rw [GameState.ruleD_TWO s w hp]
    split_ifs <;> first | rfl | exact Cells.get_set_ne _ _ _ _ h
  · rw [GameState.ruleD_NONE s w hp]

/-! ### The shape of the loop -/

theorem GameState.sowBody_succ (s : GameState) (n : Nat) (w : Sow) :
    s.sowBody (n + 1) w = s.sowPlain w := by
  simp [GameState.sowBody, GameState.sowPlain]

/-- A loop of `k + 1` iterations is `k` plain iterations followed by the last
one, in which `hand == 0`. -/
theorem GameState.sowLoop_succ (s : GameState) (k : Nat) (w : Sow) :
    s.sowLoop (k + 1) w = s.sowBody 0 ((s.sowPlain)^[k] w) := by
  induction k generalizing w with
  | zero => rfl
  | succ k ih =>
    rw [GameState.sowLoop, GameState.sowBody_succ, ih, Function.iterate_succ_apply]

theorem GameState.sowEnd_eq (s : GameState) (m : Int) (h : 1 ≤ s.hand m) :
    s.sowEnd m = s.sowBody 0 (s.sowBeforeLast m) := by
  unfold GameState.sowEnd GameState.sowBeforeLast GameState.sowPrefix
  unfold GameState.hand at *
  have : (s.cells.get (s.boardCell m)).toNat = ((s.cells.get (s.boardCell m)).toNat - 1) + 1 := by
    omega
  rw [this, GameState.sowLoop_succ]
  simp

theorem GameState.sowPlain_currentCell (s : GameState) (w : Sow) :
    (s.sowPlain w).currentCell = nextCell w.currentCell := by
  simp [GameState.sowPlain, GameState.ruleC_currentCell]

theorem GameState.sowPlain_iterate_currentCell (s : GameState) (k : Nat) (w : Sow) :
    ((s.sowPlain)^[k] w).currentCell = nextCell^[k] w.currentCell := by
  induction k with
  | zero => rfl
  | succ k ih =>
    rw [Function.iterate_succ_apply', Function.iterate_succ_apply',
      GameState.sowPlain_currentCell, ih]

/-! ### Pebble accounting -/

theorem tmod_two_eq_zero_iff (x : Int) : Int.tmod x 2 = 0 ↔ x % 2 = 0 := by
  rw [← Int.dvd_iff_tmod_eq_zero, Int.dvd_iff_emod_eq_zero]

theorem GameState.ruleC_total (s : GameState) (w : Sow)
    (h0 : 0 ≤ w.currentCell) (h1 : w.currentCell < 18) :
    (s.ruleC w).total = w.total + 1 := by
  unfold GameState.ruleC
  simp only
  cases hsp : s.isSpecial w.currentCell <;>
    simp only [reduceCtorEq, if_true, if_false, Sow.total, Cells.total_set _ _ _ h0 h1] <;> ring

theorem GameState.ruleB_ONE (s : GameState) (w : Sow) (hp : s.currentPlayer = Player.ONE) :
    s.ruleB w =
      if w.newCells.get w.currentCell % 2 = 0 then
        { w with newScoreOne := w.newScoreOne + w.newCells.get w.currentCell,
                 newCells := w.newCells.set w.currentCell 0 }
      else w := by
  unfold GameState.ruleB
  simp only [hp, reduceCtorEq, if_true, if_false, tmod_two_eq_zero_iff]

theorem GameState.ruleB_TWO (s : GameState) (w : Sow) (hp : s.currentPlayer = Player.TWO) :
    s.ruleB w =
      if w.newCells.get w.currentCell % 2 = 0 then
        { w with newScoreTwo := w.newScoreTwo + w.newCells.get w.currentCell,
                 newCells := w.newCells.set w.currentCell 0 }
      else w := by
  unfold GameState.ruleB
  simp only [hp, reduceCtorEq, if_true, if_false, tmod_two_eq_zero_iff]

theorem GameState.ruleB_total (s : GameState) (w : Sow)
    (hp : s.currentPlayer ≠ Player.NONE)
    (h0 : 0 ≤ w.currentCell) (h1 : w.currentCell < 18) :
    (s.ruleB w).total = w.total := by
  cases hc : s.currentPlayer
  · rw [GameState.ruleB_ONE s w hc]
    split_ifs
    · simp only [Sow.total, Cells.total_set _ _ _ h0 h1]; ring
    · rfl
  · rw [GameState.ruleB_TWO s w hc]
    split_ifs
    · simp only [Sow.total, Cells.total_set _ _ _ h0 h1]; ring
    · rfl
  · exact absurd hc hp

theorem GameState.ruleD_total (s : GameState) (w : Sow)
    (h0 : 0 ≤ w.currentCell) (h1 : w.currentCell < 18) :
    (s.ruleD w).total = w.total := by
  cases hp : s.currentPlayer
  · rw [GameState.ruleD_ONE s w hp]
    split_ifs with h
    · simp only [Sow.total, Cells.total_set _ _ _ h0 h1, h.1]; ring
    · rfl
  · rw [GameState.ruleD_TWO s w hp]
    split_ifs with h
    · simp only [Sow.total, Cells.total_set _ _ _ h0 h1, h.1]; ring
    · rfl
  · rw [GameState.ruleD_NONE s w hp]

theorem GameState.sowBody_currentCell (s : GameState) (n : Nat) (w : Sow) :
    (s.sowBody n w).currentCell = nextCell w.currentCell := by
  unfold GameState.sowBody
  simp only
  split_ifs <;>
    simp only [GameState.ruleD_currentCell, GameState.ruleB_currentCell,
      GameState.ruleC_currentCell]

theorem GameState.sowBody_total (s : GameState) (n : Nat) (w : Sow)
    (hp : s.currentPlayer ≠ Player.NONE)
    (h0 : 0 ≤ w.currentCell) (h1 : w.currentCell < 18) :
    (s.sowBody n w).total = w.total + 1 := by
  have hc := s.ruleC_currentCell w
  have hb := s.ruleB_currentCell (s.ruleC w)
  unfold GameState.sowBody
  simp only
  split_ifs
  · show (s.ruleD (s.ruleB (s.ruleC w))).total = _
    rw [GameState.ruleD_total _ _ (by rw [hb, hc]; exact h0) (by rw [hb, hc]; exact h1),
      GameState.ruleB_total _ _ hp (by rw [hc]; exact h0) (by rw [hc]; exact h1),
      GameState.ruleC_total _ _ h0 h1]
  · show (s.ruleC w).total = _
    exact GameState.ruleC_total _ _ h0 h1

theorem GameState.sowLoop_total (s : GameState) (n : Nat) (w : Sow)
    (hp : s.currentPlayer ≠ Player.NONE)
    (h0 : 0 ≤ w.currentCell) (h1 : w.currentCell < 18) :
    (s.sowLoop n w).total = w.total + n := by
  induction n generalizing w with
  | zero => simp [GameState.sowLoop]
  | succ n ih =>
    have hr := nextCell_range _ h0 h1
    rw [GameState.sowLoop, ih _ (by rw [s.sowBody_currentCell]; exact hr.1)
      (by rw [s.sowBody_currentCell]; exact hr.2), GameState.sowBody_total _ _ _ hp h0 h1]
    push_cast
    ring

theorem GameState.sowStart_currentCell_range (s : GameState) (m : Int)
    (h0 : 0 ≤ m) (h8 : m ≤ 8) :
    0 ≤ (s.sowStart m).currentCell ∧ (s.sowStart m).currentCell < 18 := by
  have hb := s.boardCell_range m h0 h8
  unfold GameState.sowStart
  simp only
  split_ifs
  · exact nextCell_range _ hb.1 hb.2
  · exact hb

theorem GameState.sowStart_total (s : GameState) (m : Int) (h0 : 0 ≤ m) (h8 : m ≤ 8) :
    (s.sowStart m).total = s.pebbles - s.hand m := by
  have hb := s.boardCell_range m h0 h8
  simp only [GameState.sowStart, Sow.total, GameState.pebbles, GameState.cellSum,
    GameState.hand, Cells.total_set _ _ _ hb.1 hb.2]
  ring

/-- A move keeps the number of pebbles on the board and in the scores, when
the hand is not negative and ONE or TWO is to move. -/
theorem GameState.move_pebbles (s t : GameState) (m : Int) (h0 : 0 ≤ m) (h8 : m ≤ 8)
    (hp : s.currentPlayer ≠ Player.NONE) (hh : 0 ≤ s.hand m) (ht : s.move m = some t) :
    t.pebbles = s.pebbles := by
  have ha : s.isMoveAllowed m = true := by
    by_contra hna
    rw [(s.move_eq_none_iff m).2 (by simpa using hna)] at ht
    cases ht
  obtain ⟨u, hu, -, h1, h2, -, -, h5⟩ := s.move_eq m ha
  rw [hu] at ht
  cases ht
  have hr := s.sowStart_currentCell_range m h0 h8
  have key := s.sowLoop_total (s.hand m).toNat (s.sowStart m) hp hr.1 hr.2
  rw [s.sowStart_total m h0 h8, Int.toNat_of_nonneg hh] at key
  unfold GameState.pebbles GameState.cellSum
  rw [h1, h2, h5]
  have : (s.sowEnd m).total = s.pebbles := by
    unfold GameState.sowEnd
    unfold GameState.hand at key
    rw [key]; ring
  unfold Sow.total GameState.pebbles GameState.cellSum at this
  exact this

/-! ### Counts stay non-negative -/

theorem Cells.NonNeg.get {c : Cells} (h : c.NonNeg) (i : Int) : 0 ≤ c.get i := by
  unfold Cells.get
  split
  · exact h _
  · exact le_refl 0

theorem Cells.NonNeg.set {c : Cells} (h : c.NonNeg) (i v : Int) (hv : 0 ≤ v) :
    (c.set i v).NonNeg := by
  intro j
  unfold Cells.set
  split
  · exact hv
  · exact h j

theorem GameState.ruleC_nonNeg (s : GameState) (w : Sow) (h : w.newCells.NonNeg) :
    (s.ruleC w).newCells.NonNeg := by
  unfold GameState.ruleC
  simp only
  split_ifs <;> first | exact h | exact h.set _ _ (by have := h.get w.currentCell; omega)

theorem GameState.ruleB_nonNeg (s : GameState) (w : Sow) (h : w.newCells.NonNeg) :
    (s.ruleB w).newCells.NonNeg := by
  unfold GameState.ruleB
  simp only
  split_ifs <;> first | exact h | exact h.set _ _ (le_refl 0)

theorem GameState.ruleD_nonNeg (s : GameState) (w : Sow) (h : w.newCells.NonNeg) :
    (s.ruleD w).newCells.NonNeg := by
  cases hp : s.currentPlayer
  · rw [GameState.ruleD_ONE s w hp]
    split_ifs <;> first | exact h | exact h.set _ _ (le_refl 0)
  · rw [GameState.ruleD_TWO s w hp]
    split_ifs <;> first | exact h | exact h.set _ _ (le_refl 0)
  · rw [GameState.ruleD_NONE s w hp]; exact h

theorem GameState.sowBody_nonNeg (s : GameState) (n : Nat) (w : Sow) (h : w.newCells.NonNeg) :
    (s.sowBody n w).newCells.NonNeg := by
  unfold GameState.sowBody
  simp only
  split_ifs
  · exact s.ruleD_nonNeg _ (s.ruleB_nonNeg _ (s.ruleC_nonNeg _ h))
  · exact s.ruleC_nonNeg _ h

theorem GameState.sowLoop_nonNeg (s : GameState) (n : Nat) (w : Sow) (h : w.newCells.NonNeg) :
    (s.sowLoop n w).newCells.NonNeg := by
  induction n generalizing w with
  | zero => exact h
  | succ n ih => exact ih _ (s.sowBody_nonNeg n w h)

theorem GameState.move_nonNeg (s t : GameState) (m : Int) (h : s.cells.NonNeg)
    (ht : s.move m = some t) : t.cells.NonNeg := by
  have ha : s.isMoveAllowed m = true := by
    by_contra hna
    rw [(s.move_eq_none_iff m).2 (by simpa using hna)] at ht
    cases ht
  obtain ⟨u, hu, -, -, -, -, -, h5⟩ := s.move_eq m ha
  rw [hu] at ht
  cases ht
  rw [h5]
  exact s.sowLoop_nonNeg _ _ (h.set _ _ (le_refl 0))

/-! ### Invariants of the reachable states -/

theorem move_isMoveAllowed (s t : GameState) (m : Int) (ht : s.move m = some t) :
    s.isMoveAllowed m = true := by
  by_contra hna
  rw [(s.move_eq_none_iff m).2 (by simpa using hna)] at ht
  cases ht

theorem Reachable.currentPlayer {s : GameState} (h : Reachable s) :
    s.currentPlayer = Player.ONE ∨ s.currentPlayer = Player.TWO := by
  induction h with
  | init => exact Or.inl rfl
  | move m _ _ _ ht ih =>
    obtain ⟨u, hu, hc, -⟩ := GameState.move_eq _ m (move_isMoveAllowed _ _ m ht)
    rw [hu] at ht
    cases ht
    rw [hc]
    rcases ih with h | h <;> rw [h] <;> decide

theorem Reachable.nonNeg {s : GameState} (h : Reachable s) : s.cells.NonNeg := by
  induction h with
  | init => intro j; show (0 : Int) ≤ 9; decide
  | move m _ _ _ ht ih => exact GameState.move_nonNeg _ _ m ih ht

theorem Reachable.pebbles {s : GameState} (h : Reachable s) : s.pebbles = 162 := by
  induction h with
  | init => decide
  | move m hs h0 h8 ht ih =>
    rw [GameState.move_pebbles _ _ m h0 h8 ?_ (hs.nonNeg.get _) ht, ih]
    rcases hs.currentPlayer with h | h <;> rw [h] <;> decide

theorem Reachable.playMoves {s t : GameState} (hs : Reachable s) (ms : List Int)
    (hm : ∀ m ∈ ms, 0 ≤ m ∧ m ≤ 8) (ht : playMoves s ms = some t) : Reachable t := by
  induction ms generalizing s with
  | nil =>
    simp only [scout.playMoves, Option.some.injEq] at ht
    rw [← ht]; exact hs
  | cons m ms ih =>
    simp only [scout.playMoves] at ht
    rcases hu : s.move m with _ | u
    · rw [hu] at ht; cases ht
    · rw [hu] at ht
      have hm0 := hm m (List.mem_cons_self _ _)
      exact ih (Reachable.move m hs hm0.1 hm0.2 hu)
        (fun x hx => hm x (List.mem_cons_of_mem _ hx)) ht

/-! ## Claim C1: pebble conservation -/

theorem Reachable.stateAfter (ms : List Int) (hm : ∀ m ∈ ms, 0 ≤ m ∧ m ≤ 8) :
    Reachable (stateAfter ms) := by
  unfold scout.stateAfter
  cases hp : scout.playMoves GameState.init ms with
  | none => exact Reachable.init
  | some t => exact Reachable.init.playMoves ms hm hp

theorem playMoves_eq_stateAfter (ms : List Int)
    (h : (playMoves GameState.init ms).isSome = true) :
    playMoves GameState.init ms = some (stateAfter ms) := by
  unfold stateAfter
  cases hp : playMoves GameState.init ms with
  | none => rw [hp] at h; cases h
  | some t => rfl

/-- C1, refuted as stated: the moves 0, 2, 1, 0 from the default start are all
allowed; in the state they lead to TWO owns the special cell 8, the cells hold
157 pebbles and the scores are 2 and 3, so cells + scores + 3 * (set specials)
is 165, not 162. -/
theorem pebbles_plus_specials_counterexample :
    movesAllowed GameState.init [0, 2, 1, 0] = true ∧
    Reachable (stateAfter [0, 2, 1, 0]) ∧
    (stateAfter [0, 2, 1, 0]).specialOne = -1 ∧ (stateAfter [0, 2, 1, 0]).specialTwo = 8 ∧
    (stateAfter [0, 2, 1, 0]).cellSum = 157 ∧
    (stateAfter [0, 2, 1, 0]).scoreOne = 2 ∧ (stateAfter [0, 2, 1, 0]).scoreTwo = 3 ∧
    (stateAfter [0, 2, 1, 0]).cellSum + (stateAfter [0, 2, 1, 0]).scoreOne +
      (stateAfter [0, 2, 1, 0]).scoreTwo + 3 * (stateAfter [0, 2, 1, 0]).numSpecials = 165 ∧
    ¬ (∀ s : GameState, Reachable s →
        s.cellSum + s.scoreOne + s.scoreTwo + 3 * s.numSpecials = 162) := by
  have hr : Reachable (stateAfter [0, 2, 1, 0]) := by
    refine Reachable.stateAfter [0, 2, 1, 0] ?_
    intro m hm
    simp only [List.mem_cons, List.mem_singleton, List.not_mem_nil, or_false] at hm
    omega
  have h165 : (stateAfter [0, 2, 1, 0]).cellSum + (stateAfter [0, 2, 1, 0]).scoreOne +
      (stateAfter [0, 2, 1, 0]).scoreTwo + 3 * (stateAfter [0, 2, 1, 0]).numSpecials = 165 := by
    decide
  refine ⟨by decide, hr, by decide, by decide, by decide, by decide, by decide, h165, ?_⟩
  intro hall
  have := hall _ hr
  rw [h165] at this
  exact absurd this (by decide)

/-- C1, amended: in every state reachable from the default start by allowed
moves, the 18 cell counts and the two scores add up to 162, whether or not
special cells are set (Rule D moves the three pebbles of the new special cell
into the mover's score). -/
theorem reachable_pebbles (s : GameState) (h : Reachable s) :
    s.cellSum + s.scoreOne + s.scoreTwo = 162 :=
  h.pebbles

theorem reachable_pebbles_witness :
    ∃ t, GameState.init.move 8 = some t ∧ t.cellSum + t.scoreOne + t.scoreTwo = 162 :=
  (GameState.move_eq GameState.init 8 (by decide)).elim
    (fun t ht => ⟨t, ht.1,
      reachable_pebbles t (Reachable.move 8 Reachable.init (by decide) (by decide) ht.1)⟩)

/-! ### What the plain iterations leave untouched -/

theorem GameState.ruleC_newSpecialOne (s : GameState) (w : Sow) :
    (s.ruleC w).newSpecialOne = w.newSpecialOne := by
  unfold GameState.ruleC
  simp only
  split_ifs <;> rfl

theorem GameState.ruleC_newSpecialTwo (s : GameState) (w : Sow) :
    (s.ruleC w).newSpecialTwo = w.newSpecialTwo := by
  unfold GameState.ruleC
  simp only
  split_ifs <;> rfl

theorem GameState.sowPlain_iterate_specials (s : GameState) (k : Nat) (w : Sow) :
    ((s.sowPlain)^[k] w).newSpecialOne = w.newSpecialOne ∧
    ((s.sowPlain)^[k] w).newSpecialTwo = w.newSpecialTwo := by
  induction k with
  | zero => exact ⟨rfl, rfl⟩
  | succ k ih =>
    rw [Function.iterate_succ_apply']
    simp only [GameState.sowPlain, GameState.ruleC_newSpecialOne,
      GameState.ruleC_newSpecialTwo]
    exact ih

theorem GameState.sowPlain_iterate_nonNeg (s : GameState) (k : Nat) (w : Sow)
    (h : w.newCells.NonNeg) : ((s.sowPlain)^[k] w).newCells.NonNeg := by
  induction k with
  | zero => exact h
  | succ k ih =>
    rw [Function.iterate_succ_apply']
    exact s.ruleC_nonNeg _ ih

theorem GameState.sowBeforeLast_currentCell_range (s : GameState) (m : Int)
    (h0 : 0 ≤ m) (h8 : m ≤ 8) : 0 ≤ s.lastCell m ∧ s.lastCell m < 18 := by
  have hr := s.sowStart_currentCell_range m h0 h8
  unfold GameState.lastCell GameState.sowBeforeLast GameState.sowPrefix
  rw [GameState.sowPlain_iterate_currentCell]
  exact nextCell_iterate_range _ _ hr.1 hr.2

/-- An allowed move from a board without negative counts takes up at least one
pebble. -/
theorem GameState.one_le_hand (s : GameState) (m : Int) (hn : s.cells.NonNeg)
    (ha : s.isMoveAllowed m = true) : 1 ≤ s.hand m := by
  have h1 := (s.isMoveAllowed_iff m).1 ha
  have h2 := hn.get (s.boardCell m)
  unfold GameState.hand
  omega

/-! ### States without special cells -/

theorem GameState.isSpecial_of_unset (s : GameState) (c : Int)
    (h1 : s.specialOne = SPECIAL_NOT_SET) (h2 : s.specialTwo = SPECIAL_NOT_SET) (h0 : 0 ≤ c) :
    s.isSpecial c = Player.NONE := by
  unfold GameState.isSpecial
  unfold SPECIAL_NOT_SET at h1 h2
  rw [if_neg (by omega), if_neg (by omega)]

theorem GameState.ruleC_of_not_special (s : GameState) (w : Sow)
    (h : s.isSpecial w.currentCell = Player.NONE) :
    s.ruleC w =
      { w with newCells := w.newCells.set w.currentCell (w.newCells.get w.currentCell + 1) } := by
  unfold GameState.ruleC
  simp only [h, if_true]

theorem GameState.sowPlain_iterate_scores_of_unset (s : GameState) (k : Nat) (w : Sow)
    (h1 : s.specialOne = SPECIAL_NOT_SET) (h2 : s.specialTwo = SPECIAL_NOT_SET)
    (h0 : 0 ≤ w.currentCell) (h18 : w.currentCell < 18) :
    ((s.sowPlain)^[k] w).newScoreOne = w.newScoreOne ∧
    ((s.sowPlain)^[k] w).newScoreTwo = w.newScoreTwo := by
  induction k with
  | zero => exact ⟨rfl, rfl⟩
  | succ k ih =>
    rw [Function.iterate_succ_apply']
    have hr : 0 ≤ ((s.sowPlain)^[k] w).currentCell := by
      rw [GameState.sowPlain_iterate_currentCell]
      exact (nextCell_iterate_range k _ h0 h18).1
    simp only [GameState.sowPlain,
      GameState.ruleC_of_not_special s _ (s.isSpecial_of_unset _ h1 h2 hr)]
    exact ih

/-! ### The last iteration -/

theorem GameState.sowBody_zero_of_reachable (s : GameState) (w : Sow)
    (h : s.isReachable w.currentCell = true) :
    s.sowBody 0 w =
      { s.ruleD (s.ruleB (s.ruleC w)) with currentCell := nextCell w.currentCell } := by
  unfold GameState.sowBody
  simp only [GameState.ruleC_currentCell, h, and_self, if_true,
    GameState.ruleD_currentCell, GameState.ruleB_currentCell]

theorem GameState.sowBody_zero_of_not_reachable (s : GameState) (w : Sow)
    (h : s.isReachable w.currentCell = false) :
    s.sowBody 0 w = { s.ruleC w with currentCell := nextCell w.currentCell } := by
  unfold GameState.sowBody
  simp only [GameState.ruleC_currentCell, h, Bool.false_eq_true, and_false, if_false]

theorem GameState.isReachable_ONE (s : GameState) (c : Int) (hp : s.currentPlayer = Player.ONE) :
    s.isReachable c = true ↔ c > 8 := by
  simp [GameState.isReachable, hp]

theorem GameState.isReachable_TWO (s : GameState) (c : Int) (hp : s.currentPlayer = Player.TWO) :
    s.isReachable c = true ↔ c < 9 := by
  simp [GameState.isReachable, hp]

theorem GameState.ruleD_of_ne_three (s : GameState) (w : Sow)
    (h : w.newCells.get w.currentCell ≠ 3) : s.ruleD w = w := by
  unfold GameState.ruleD
  rw [if_neg h]

/-- The last iteration on a reachable cell that is not special and holds an even
count once the pebble is sown: Rule B empties it into the mover's score and
Rule D does nothing. -/
theorem GameState.sowBody_zero_even (s : GameState) (w : Sow)
    (hsp : s.isSpecial w.currentCell = Player.NONE)
    (h0 : 0 ≤ w.currentCell) (h18 : w.currentCell < 18)
    (hr : s.isReachable w.currentCell = true)
    (he : (w.newCells.get w.currentCell + 1) % 2 = 0) :
    (s.sowBody 0 w).newCells.get w.currentCell = 0 ∧
    (s.currentPlayer = Player.ONE →
      (s.sowBody 0 w).newScoreOne = w.newScoreOne + (w.newCells.get w.currentCell + 1) ∧
      (s.sowBody 0 w).newScoreTwo = w.newScoreTwo) ∧
    (s.currentPlayer = Player.TWO →
      (s.sowBody 0 w).newScoreTwo = w.newScoreTwo + (w.newCells.get w.currentCell + 1) ∧
      (s.sowBody 0 w).newScoreOne = w.newScoreOne) := by
  rw [GameState.sowBody_zero_of_reachable _ _ hr, GameState.ruleC_of_not_special _ _ hsp]
  have hz : ∀ c : Cells, (c.set w.currentCell 0).get w.currentCell ≠ 3 := by
    intro c
    rw [Cells.get_set_same _ _ _ h0 h18]
    decide
  refine ⟨?_, ?_, ?_⟩
  · cases hp : s.currentPlayer
    · rw [GameState.ruleB_ONE _ _ hp]
      simp only [Cells.get_set_same _ _ _ h0 h18, he, if_true]
      rw [GameState.ruleD_of_ne_three _ _ (hz _)]
      exact Cells.get_set_same _ _ _ h0 h18
    · rw [GameState.ruleB_TWO _ _ hp]
      simp only [Cells.get_set_same _ _ _ h0 h18, he, if_true]
      rw [GameState.ruleD_of_ne_three _ _ (hz _)]
      exact Cells.get_set_same _ _ _ h0 h18
    · unfold GameState.ruleB
      simp only [Cells.get_set_same _ _ _ h0 h18, tmod_two_eq_zero_iff, he, if_true, hp,
        reduceCtorEq, if_false]
      rw [GameState.ruleD_of_ne_three _ _ (hz _)]
      exact Cells.get_set_same _ _ _ h0 h18
  · intro hp
    rw [GameState.ruleB_ONE _ _ hp]
    simp only [Cells.get_set_same _ _ _ h0 h18, he, if_true]
    rw [GameState.ruleD_of_ne_three _ _ (hz _)]
    exact ⟨rfl, rfl⟩
  · intro hp
    rw [GameState.ruleB_TWO _ _ hp]
    simp only [Cells.get_set_same _ _ _ h0 h18, he, if_true]
    rw [GameState.ruleD_of_ne_three _ _ (hz _)]
    exact ⟨rfl, rfl⟩

/-! ## Rule B in the integers -/

/-- Rule B with the counts and the scores taken as integers: in a state with
no special cell set and no negative cell, for an allowed move whose last pebble
is sown on a cell `L` of the mover's reachable row, the count of `L` right
after that pebble is one more than before it, and if that count is even then
the state that `move` computes has `cells[L] = 0`, the mover's score is
increased by that count and the opponent's score is unchanged; and the example
of the default start. -/
theorem ruleB_capture_integers :
    (∀ (s : GameState) (m : Int),
      s.specialOne = SPECIAL_NOT_SET → s.specialTwo = SPECIAL_NOT_SET → s.cells.NonNeg →
      0 ≤ m → m ≤ 8 → s.isMoveAllowed m = true →
      ((s.currentPlayer = Player.ONE ∧ s.lastCell m > 8) ∨
        (s.currentPlayer = Player.TWO ∧ s.lastCell m < 9)) →
      (s.sowLastDeposit m).newCells.get (s.lastCell m) % 2 = 0 →
      (s.sowLastDeposit m).newCells.get (s.lastCell m) =
          (s.sowBeforeLast m).newCells.get (s.lastCell m) + 1 ∧
      ∃ t, s.move m = some t ∧ t.cells.get (s.lastCell m) = 0 ∧
        (s.currentPlayer = Player.ONE →
          t.scoreOne = s.scoreOne + (s.sowLastDeposit m).newCells.get (s.lastCell m) ∧
          t.scoreTwo = s.scoreTwo) ∧
        (s.currentPlayer = Player.TWO →
          t.scoreTwo = s.scoreTwo + (s.sowLastDeposit m).newCells.get (s.lastCell m) ∧
          t.scoreOne = s.scoreOne)) ∧
    (GameState.init.lastCell 8 = 16 ∧
      ∃ t, GameState.init.move 8 = some t ∧ t.cells.get 16 = 0 ∧
        t.scoreOne = 10 ∧ t.scoreTwo = 0 ∧ t.currentPlayer = Player.TWO ∧
        ∀ k : Fin 9, (t.isMoveAllowed (k.val : Int) = false ↔ k.val = 7)) := by
  constructor
  · intro s m h1 h2 hn h0 h8 ha hL he
    have hLr := s.sowBeforeLast_currentCell_range m h0 h8
    have hstart := s.sowStart_currentCell_range m h0 h8
    have hsc := s.sowPlain_iterate_scores_of_unset ((s.hand m).toNat - 1) (s.sowStart m)
      h1 h2 hstart.1 hstart.2
    have hend := s.sowEnd_eq m (s.one_le_hand m hn ha)
    have hsp := s.isSpecial_of_unset (s.lastCell m) h1 h2 hLr.1
    have hr : s.isReachable (s.lastCell m) = true := by
      rcases hL with ⟨hp, h⟩ | ⟨hp, h⟩
      · exact (s.isReachable_ONE _ hp).2 h
      · exact (s.isReachable_TWO _ hp).2 h
    have hdep : (s.sowLastDeposit m).newCells.get (s.lastCell m) =
        (s.sowBeforeLast m).newCells.get (s.lastCell m) + 1 := by
      unfold GameState.sowLastDeposit
      rw [GameState.ruleC_of_not_special _ _ hsp]
      exact Cells.get_set_same _ _ _ hLr.1 hLr.2
    refine ⟨hdep, ?_⟩
    rw [hdep] at he ⊢
    obtain ⟨hc, hone, htwo⟩ := s.sowBody_zero_even (s.sowBeforeLast m) hsp hLr.1 hLr.2 hr he
    rw [← hend] at hc hone htwo
    obtain ⟨t, ht, -, t1, t2, -, -, t5⟩ := s.move_eq m ha
    refine ⟨t, ht, ?_, ?_, ?_⟩
    · rw [t5]; exact hc
    · intro hp
      rw [t1, t2, (hone hp).1, (hone hp).2]
      exact ⟨by rw [show (s.sowBeforeLast m).newScoreOne = s.scoreOne from hsc.1]; rfl, hsc.2⟩
    · intro hp
      rw [t1, t2, (htwo hp).1, (htwo hp).2]
      exact ⟨by rw [show (s.sowBeforeLast m).newScoreTwo = s.scoreTwo from hsc.2]; rfl, hsc.1⟩
  · refine ⟨by decide, ?_⟩
    have h : (GameState.init.move 8).map (fun t => decide (t.cells.get 16 = 0 ∧
        t.scoreOne = 10 ∧ t.scoreTwo = 0 ∧ t.currentPlayer = Player.TWO ∧
        ∀ k : Fin 9, (t.isMoveAllowed (k.val : Int) = false ↔ k.val = 7))) = some true := by
      decide
    obtain ⟨t, ht, hv⟩ := Option.map_eq_some'.1 h
    exact ⟨t, ht, of_decide_eq_true hv⟩

/-! ## Claim C8: Rule D -/

theorem GameState.ruleB_specials (s : GameState) (w : Sow) :
    (s.ruleB w).newSpecialOne = w.newSpecialOne ∧
    (s.ruleB w).newSpecialTwo = w.newSpecialTwo := by
  unfold GameState.ruleB
  simp only
  split_ifs <;> exact ⟨rfl, rfl⟩

theorem GameState.sowAfterB_specials (s : GameState) (m : Int) :
    (s.sowAfterB m).currentCell = s.lastCell m ∧
    (s.sowAfterB m).newSpecialOne = s.specialOne ∧
    (s.sowAfterB m).newSpecialTwo = s.specialTwo := by
  have hp := s.sowPlain_iterate_specials ((s.hand m).toNat - 1) (s.sowStart m)
  unfold GameState.sowAfterB GameState.sowLastDeposit
  split_ifs
  · rw [GameState.ruleB_currentCell, GameState.ruleC_currentCell, (s.ruleB_specials _).1,
      (s.ruleB_specials _).2, GameState.ruleC_newSpecialOne, GameState.ruleC_newSpecialTwo]
    exact ⟨rfl, hp⟩
  · rw [GameState.ruleC_currentCell, GameState.ruleC_newSpecialOne,
      GameState.ruleC_newSpecialTwo]
    exact ⟨rfl, hp⟩

/-- On a reachable landing cell, the locals at the end of the loop are those
after Rule B, passed through Rule D. -/
theorem GameState.sowEnd_eq_ruleD (s : GameState) (m : Int) (h : 1 ≤ s.hand m)
    (hr : s.isReachable (s.lastCell m) = true) :
    s.sowEnd m =
      { s.ruleD (s.sowAfterB m) with currentCell := nextCell (s.lastCell m) } := by
  rw [s.sowEnd_eq m h, GameState.sowBody_zero_of_reachable _ _ hr]
  unfold GameState.sowAfterB GameState.sowLastDeposit
  rw [if_pos hr]
  rfl

theorem GameState.isSpecial_eq_ONE_iff (s : GameState) (c : Int) :
    s.isSpecial c = Player.ONE ↔ s.specialOne = c := by
  unfold GameState.isSpecial
  split_ifs <;> simp [*]

theorem GameState.isSpecial_eq_TWO_iff (s : GameState) (c : Int) :
    s.isSpecial c = Player.TWO ↔ s.specialOne ≠ c ∧ s.specialTwo = c := by
  unfold GameState.isSpecial
  split_ifs <;> simp [*]

/-- Rule C on the special cell of ONE: one point for ONE, nothing else. -/
theorem GameState.ruleC_of_specialOne (s : GameState) (w : Sow)
    (h : w.currentCell = s.specialOne) :
    s.ruleC w = { w with newScoreOne := w.newScoreOne + 1 } := by
  have h1 : s.isSpecial w.currentCell = Player.ONE := (s.isSpecial_eq_ONE_iff _).2 h.symm
  unfold GameState.ruleC
  simp only [h1, reduceCtorEq, if_true, if_false]

/-- Rule C on the special cell of TWO that is not also that of ONE: one point
for TWO, nothing else. -/
theorem GameState.ruleC_of_specialTwo (s : GameState) (w : Sow)
    (h : w.currentCell = s.specialTwo) (hne : w.currentCell ≠ s.specialOne) :
    s.ruleC w = { w with newScoreTwo := w.newScoreTwo + 1 } := by
  have h1 : s.isSpecial w.currentCell = Player.TWO :=
    (s.isSpecial_eq_TWO_iff _).2 ⟨fun e => hne e.symm, h.symm⟩
  unfold GameState.ruleC
  simp only [h1, reduceCtorEq, if_true, if_false]

theorem GameState.ruleC_newScoreOne (s : GameState) (w : Sow) :
    (s.ruleC w).newScoreOne = w.newScoreOne + if w.currentCell = s.specialOne then 1 else 0 := by
  by_cases h : w.currentCell = s.specialOne
  · rw [s.ruleC_of_specialOne w h, if_pos h]
  · rw [if_neg h, add_zero]
    have h1 : s.isSpecial w.currentCell ≠ Player.ONE :=
      fun e => h ((s.isSpecial_eq_ONE_iff _).1 e).symm
    unfold GameState.ruleC
    simp only [h1, if_false]
    split_ifs <;> rfl

theorem GameState.ruleC_newScoreTwo (s : GameState) (w : Sow) :
    (s.ruleC w).newScoreTwo = w.newScoreTwo +
      if w.currentCell = s.specialTwo ∧ w.currentCell ≠ s.specialOne then 1 else 0 := by
  by_cases h : w.currentCell = s.specialTwo ∧ w.currentCell ≠ s.specialOne
  · rw [s.ruleC_of_specialTwo w h.1 h.2, if_pos h]
  · rw [if_neg h, add_zero]
    have h1 : s.isSpecial w.currentCell ≠ Player.TWO := by
      intro e
      have := (s.isSpecial_eq_TWO_iff _).1 e
      exact h ⟨this.2.symm, fun e' => this.1 e'.symm⟩
    unfold GameState.ruleC
    simp only [h1, if_false]
    split_ifs <;> rfl

theorem filter_range_succ_length (p : Nat → Bool) (k : Nat) :
    ((List.range (k + 1)).filter p).length =
      ((List.range k).filter p).length + if p k = true then 1 else 0 := by
  rw [List.range_succ, List.filter_append, List.length_append]
  by_cases h : p k = true <;> simp [h]

/-- After `k` plain iterations each score has grown by the number of pebbles
sown on the special cell of its player. -/
theorem GameState.sowPlain_iterate_scores (s : GameState) (k : Nat) (w : Sow) :
    ((s.sowPlain)^[k] w).newScoreOne = w.newScoreOne +
      ((List.range k).filter (fun i =>
        decide (((s.sowPlain)^[i] w).currentCell = s.specialOne))).length ∧
    ((s.sowPlain)^[k] w).newScoreTwo = w.newScoreTwo +
      ((List.range k).filter (fun i =>
        decide (((s.sowPlain)^[i] w).currentCell = s.specialTwo ∧
          ((s.sowPlain)^[i] w).currentCell ≠ s.specialOne))).length := by
  induction k with
  | zero => simp
  | succ k ih =>
    rw [Function.iterate_succ_apply', filter_range_succ_length, filter_range_succ_length]
    simp only [GameState.sowPlain, GameState.ruleC_newScoreOne, GameState.ruleC_newScoreTwo,
      ih.1, ih.2, decide_eq_true_eq]
    constructor <;> split_ifs <;> push_cast <;> ring

/-- When every pebble of the hand has been sown, and before Rules B and D run,
each score has grown by the number of pebbles sown on the special cell of its
player. -/
theorem GameState.sowLastDeposit_scores (s : GameState) (m : Int) (hh : 1 ≤ s.hand m) :
    (s.sowLastDeposit m).newScoreOne =
      s.scoreOne + s.pebblesSownOn m (fun c => decide (c = s.specialOne)) ∧
    (s.sowLastDeposit m).newScoreTwo =
      s.scoreTwo + s.pebblesSownOn m
        (fun c => decide (c = s.specialTwo ∧ c ≠ s.specialOne)) := by
  have hk : (s.hand m).toNat = ((s.hand m).toNat - 1) + 1 := by omega
  have ih := s.sowPlain_iterate_scores ((s.hand m).toNat - 1) (s.sowStart m)
  unfold GameState.pebblesSownOn GameState.sowCell GameState.sowPrefix
  rw [hk, filter_range_succ_length, filter_range_succ_length]
  unfold GameState.sowLastDeposit GameState.sowBeforeLast GameState.sowPrefix
  simp only [GameState.ruleC_newScoreOne, GameState.ruleC_newScoreTwo, ih.1, ih.2,
    decide_eq_true_eq, add_tsub_cancel_right]
  constructor <;> split_ifs <;> push_cast <;> (try simp only [GameState.sowStart]) <;> ring

/-! ### A special cell is never a sowing target -/

theorem GameState.ruleC_get_of_special (s : GameState) (w : Sow) (c : Int)
    (hc : s.isSpecial c ≠ Player.NONE) :
    (s.ruleC w).newCells.get c = w.newCells.get c := by
  by_cases h : c = w.currentCell
  · unfold GameState.ruleC
    simp only [← h, hc, if_false]
    split_ifs <;> rfl
  · exact s.ruleC_get_ne w c h

theorem GameState.ruleB_get_eq_or_zero (s : GameState) (w : Sow) (c : Int)
    (h0 : 0 ≤ c) (h18 : c < 18) :
    (s.ruleB w).newCells.get c = w.newCells.get c ∨ (s.ruleB w).newCells.get c = 0 := by
  by_cases h : c = w.currentCell
  · unfold GameState.ruleB
    simp only
    split_ifs
    · right; rw [h] at h0 h18 ⊢; exact Cells.get_set_same _ _ _ h0 h18
    · right; rw [h] at h0 h18 ⊢; exact Cells.get_set_same _ _ _ h0 h18
    · right; rw [h] at h0 h18 ⊢; exact Cells.get_set_same _ _ _ h0 h18
    · right; rw [h] at h0 h18 ⊢; exact Cells.get_set_same _ _ _ h0 h18
    · left; rfl
  · left; exact s.ruleB_get_ne w c h

theorem GameState.ruleD_get_eq_or_zero (s : GameState) (w : Sow) (c : Int)
    (h0 : 0 ≤ c) (h18 : c < 18) :
    (s.ruleD w).newCells.get c = w.newCells.get c ∨ (s.ruleD w).newCells.get c = 0 := by
  by_cases h : c = w.currentCell
  · cases hp : s.currentPlayer
    · rw [GameState.ruleD_ONE s w hp]
      split_ifs
      · right; rw [h] at h0 h18 ⊢; exact Cells.get_set_same _ _ _ h0 h18
      · left; rfl
    · rw [GameState.ruleD_TWO s w hp]
      split_ifs
      · right; rw [h] at h0 h18 ⊢; exact Cells.get_set_same _ _ _ h0 h18
      · left; rfl
    · rw [GameState.ruleD_NONE s w hp]; left; rfl
  · left; exact s.ruleD_get_ne w c h

theorem GameState.sowBody_get_le_of_special (s : GameState) (n : Nat) (w : Sow) (c b : Int)
    (h0 : 0 ≤ c) (h18 : c < 18) (hc : s.isSpecial c ≠ Player.NONE) (hb : 0 ≤ b)
    (hw : w.newCells.get c ≤ b) : (s.sowBody n w).newCells.get c ≤ b := by
  have hC := s.ruleC_get_of_special w c hc
  unfold GameState.sowBody
  simp only
  split_ifs
  · show (s.ruleD (s.ruleB (s.ruleC w))).newCells.get c ≤ b
    rcases s.ruleD_get_eq_or_zero (s.ruleB (s.ruleC w)) c h0 h18 with hD | hD
    · rcases s.ruleB_get_eq_or_zero (s.ruleC w) c h0 h18 with hB | hB
      · rw [hD, hB, hC]; exact hw
      · rw [hD, hB]; exact hb
    · rw [hD]; exact hb
  · show (s.ruleC w).newCells.get c ≤ b
    rw [hC]; exact hw

theorem GameState.sowLoop_get_le_of_special (s : GameState) (n : Nat) (w : Sow) (c b : Int)
    (h0 : 0 ≤ c) (h18 : c < 18) (hc : s.isSpecial c ≠ Player.NONE) (hb : 0 ≤ b)
    (hw : w.newCells.get c ≤ b) : (s.sowLoop n w).newCells.get c ≤ b := by
  induction n generalizing w with
  | zero => exact hw
  | succ n ih => exact ih _ (s.sowBody_get_le_of_special n w c b h0 h18 hc hb hw)

theorem GameState.sowEnd_get_le_of_special (s : GameState) (m c : Int) (hn : s.cells.NonNeg)
    (h0 : 0 ≤ c) (h18 : c < 18) (hc : c = s.specialOne ∨ c = s.specialTwo) :
    (s.sowEnd m).newCells.get c ≤ s.cells.get c := by
  have hsp : s.isSpecial c ≠ Player.NONE := by
    unfold GameState.isSpecial
    split_ifs with h1 h2
    · decide
    · decide
    · rcases hc with h | h
      · exact absurd h.symm h1
      · exact absurd h.symm h2
  refine s.sowLoop_get_le_of_special _ _ c _ h0 h18 hsp (hn.get c) ?_
  show (s.cells.set (s.boardCell m) 0).get c ≤ s.cells.get c
  by_cases h : c = s.boardCell m
  · rw [h] at h0 h18 ⊢
    rw [Cells.get_set_same _ _ _ h0 h18]
    exact hn.get _
  · rw [Cells.get_set_ne _ _ _ _ h]

/-! ### Rules B and D credit the mover only -/

theorem GameState.sowEnd_newScoreTwo_of_ONE (s : GameState) (m : Int) (hh : 1 ≤ s.hand m)
    (hp : s.currentPlayer = Player.ONE) :
    (s.sowEnd m).newScoreTwo = (s.sowLastDeposit m).newScoreTwo := by
  rw [s.sowEnd_eq m hh]
  unfold GameState.sowBody GameState.sowLastDeposit
  simp only
  split_ifs
  · show (s.ruleD (s.ruleB (s.ruleC (s.sowBeforeLast m)))).newScoreTwo = _
    rw [GameState.ruleD_ONE _ _ hp, GameState.ruleB_ONE _ _ hp]
    split_ifs <;> rfl
  · rfl

theorem GameState.sowEnd_newScoreOne_of_TWO (s : GameState) (m : Int) (hh : 1 ≤ s.hand m)
    (hp : s.currentPlayer = Player.TWO) :
    (s.sowEnd m).newScoreOne = (s.sowLastDeposit m).newScoreOne := by
  rw [s.sowEnd_eq m hh]
  unfold GameState.sowBody GameState.sowLastDeposit
  simp only
  split_ifs
  · show (s.ruleD (s.ruleB (s.ruleC (s.sowBeforeLast m)))).newScoreOne = _
    rw [GameState.ruleD_TWO _ _ hp, GameState.ruleB_TWO _ _ hp]
    split_ifs <;> rfl
  · rfl

theorem GameState.sowPlain_newCells (s : GameState) (w : Sow) :
    (s.sowPlain w).newCells = (s.ruleC w).newCells := rfl

/-- A cell other than the one the pebble is sown on is not changed by an
iteration of the loop. -/
theorem GameState.sowBody_get_ne (s : GameState) (n : Nat) (w : Sow) (x : Int)
    (h : x ≠ w.currentCell) : (s.sowBody n w).newCells.get x = w.newCells.get x := by
  unfold GameState.sowBody
  simp only
  split_ifs
  · show (s.ruleD (s.ruleB (s.ruleC w))).newCells.get x = _
    rw [s.ruleD_get_ne _ x (by rw [s.ruleB_currentCell, s.ruleC_currentCell]; exact h),
      s.ruleB_get_ne _ x (by rw [s.ruleC_currentCell]; exact h), s.ruleC_get_ne _ x h]
  · exact s.ruleC_get_ne _ x h

/-- A cell off the sowing path of `k` plain iterations is not changed by them. -/
theorem GameState.sowPlain_iterate_get_ne (s : GameState) (k : Nat) (w : Sow) (x : Int)
    (h : ∀ i : Nat, i < k → x ≠ nextCell^[i] w.currentCell) :
    ((s.sowPlain)^[k] w).newCells.get x = w.newCells.get x := by
  induction k with
  | zero => rfl
  | succ k ih =>
    rw [Function.iterate_succ_apply', GameState.sowPlain_newCells,
      s.ruleC_get_ne _ x (by rw [s.sowPlain_iterate_currentCell]; exact h k (Nat.lt_succ_self k)),
      ih (fun i hi => h i (Nat.lt_succ_of_lt hi))]

theorem GameState.sowCell_eq (s : GameState) (m : Int) (k : Nat) :
    s.sowCell m k = nextCell^[k] (s.sowStart m).currentCell := by
  unfold GameState.sowCell GameState.sowPrefix
  exact s.sowPlain_iterate_currentCell k _

theorem GameState.sowStart_currentCell_of_one (s : GameState) (m : Int) (h : s.hand m = 1) :
    (s.sowStart m).currentCell = nextCell (s.boardCell m) := by
  unfold GameState.hand at h
  simp only [GameState.sowStart, h, if_true]

theorem GameState.sowStart_currentCell_of_ne_one (s : GameState) (m : Int) (h : s.hand m ≠ 1) :
    (s.sowStart m).currentCell = s.boardCell m := by
  unfold GameState.hand at h
  simp only [GameState.sowStart, h, if_false]

theorem nextCell_iterate_ne_of_lt (i j : Nat) (c : Int) (h0 : 0 ≤ c) (h1 : c < 18)
    (hij : i < j) (hj : j < 18) : nextCell^[j] c ≠ nextCell^[i] c := by
  have hr := nextCell_iterate_range i c h0 h1
  have hsplit : j = (j - i) + i := by omega
  rw [hsplit, Function.iterate_add_apply]
  exact nextCell_iterate_ne (j - i) _ hr.1 hr.2 (by omega) (by omega)

/-- In a hand of at most 18 pebbles sown from `src`, a cell that is not special
and receives one of the pebbles strictly between the first and the last holds
one pebble more at the end of the loop. -/
theorem GameState.sowEnd_get_inner (s : GameState) (m : Int) (h0 : 0 ≤ m) (h8 : m ≤ 8)
    (h2 : 2 ≤ s.hand m) (h18 : s.hand m ≤ 18) (k : Nat) (hk0 : 0 < k)
    (hk : (k : Int) < s.hand m - 1)
    (hsp : s.isSpecial (nextCell^[k] (s.boardCell m)) = Player.NONE) :
    (s.sowEnd m).newCells.get (nextCell^[k] (s.boardCell m)) =
      s.cells.get (nextCell^[k] (s.boardCell m)) + 1 := by
  have hb := s.boardCell_range m h0 h8
  have hcc := s.sowStart_currentCell_of_ne_one m (by omega)
  have hx := nextCell_iterate_range k _ hb.1 hb.2
  have hsplit : (s.hand m).toNat - 1 = ((s.hand m).toNat - 1 - (k + 1)) + (k + 1) := by omega
  rw [s.sowEnd_eq m (by omega), s.sowBody_get_ne 0 _ _ (by
    show _ ≠ s.sowCell m ((s.hand m).toNat - 1)
    rw [s.sowCell_eq, hcc]
    exact (nextCell_iterate_ne_of_lt k _ _ hb.1 hb.2 (by omega) (by omega)).symm)]
  unfold GameState.sowBeforeLast GameState.sowPrefix
  rw [hsplit, Function.iterate_add_apply, s.sowPlain_iterate_get_ne _ _ _ (fun i hi => by
      rw [s.sowPlain_iterate_currentCell, hcc, ← Function.iterate_add_apply]
      exact (nextCell_iterate_ne_of_lt k (i + (k + 1)) _ hb.1 hb.2 (by omega) (by omega)).symm),
    Function.iterate_succ_apply', GameState.sowPlain_newCells,
    s.ruleC_of_not_special _ (by rw [s.sowPlain_iterate_currentCell, hcc]; exact hsp)]
  simp only [s.sowPlain_iterate_currentCell, hcc]
  rw [Cells.get_set_same _ _ _ hx.1 hx.2, s.sowPlain_iterate_get_ne _ _ _ (fun i hi => by
      rw [hcc]; exact nextCell_iterate_ne_of_lt i k _ hb.1 hb.2 hi (by omega))]
  show (s.cells.set (s.boardCell m) 0).get _ + 1 = _
  rw [Cells.get_set_ne _ _ _ _ (nextCell_iterate_ne k _ hb.1 hb.2 hk0 (by omega))]

/-- Rule A with the counts taken as integers: where the pebbles of an allowed
move of `0..8` are sown, and which cells of the state that `move` computes hold
what they held. -/
theorem ruleA_sowing_integers (s : GameState) (m : Int) (h0 : 0 ≤ m) (h8 : m ≤ 8)
    (ha : s.isMoveAllowed m = true) :
    (s.hand m = 1 →
      s.sowCell m 0 = nextCell (s.boardCell m) ∧
      s.lastCell m = nextCell (s.boardCell m) ∧
      ∃ t, s.move m = some t ∧ t.cells.get (s.boardCell m) = 0 ∧
        ∀ c : Int, c ≠ s.boardCell m → c ≠ nextCell (s.boardCell m) →
          t.cells.get c = s.cells.get c) ∧
    (2 ≤ s.hand m → s.hand m ≤ 18 →
      (∀ k : Nat, (k : Int) < s.hand m → s.sowCell m k = nextCell^[k] (s.boardCell m)) ∧
      s.lastCell m = nextCell^[(s.hand m).toNat - 1] (s.boardCell m) ∧
      ∃ t, s.move m = some t ∧
        (s.isSpecial (s.boardCell m) = Player.NONE → t.cells.get (s.boardCell m) = 1) ∧
        (∀ k : Nat, 0 < k → (k : Int) < s.hand m - 1 →
          s.isSpecial (nextCell^[k] (s.boardCell m)) = Player.NONE →
          t.cells.get (nextCell^[k] (s.boardCell m)) =
            s.cells.get (nextCell^[k] (s.boardCell m)) + 1) ∧
        ∀ c : Int, (∀ k : Nat, (k : Int) < s.hand m → c ≠ nextCell^[k] (s.boardCell m)) →
          t.cells.get c = s.cells.get c) := by
  have hb := s.boardCell_range m h0 h8
  obtain ⟨t, ht, -, -, -, -, -, t5⟩ := s.move_eq m ha
  constructor
  · intro h1
    have hcc := s.sowStart_currentCell_of_one m h1
    have hend := s.sowEnd_eq m (by omega)
    have hbl : s.sowBeforeLast m = s.sowStart m := by
      unfold GameState.sowBeforeLast GameState.sowPrefix
      rw [h1]; rfl
    rw [hbl] at hend
    refine ⟨by rw [s.sowCell_eq]; exact hcc, by unfold GameState.lastCell; rw [hbl, hcc],
      t, ht, ?_, ?_⟩
    · rw [t5, hend, s.sowBody_get_ne 0 _ _ (by rw [hcc]; exact (nextCell_ne _).symm)]
      exact Cells.get_set_same _ _ _ hb.1 hb.2
    · intro c hc1 hc2
      rw [t5, hend, s.sowBody_get_ne 0 _ _ (by rw [hcc]; exact hc2)]
      exact Cells.get_set_ne _ _ _ _ hc1
  · intro h2 h18
    have hcc := s.sowStart_currentCell_of_ne_one m (by omega)
    have hend := s.sowEnd_eq m (by omega)
    have hlast : s.lastCell m = nextCell^[(s.hand m).toNat - 1] (s.boardCell m) := by
      unfold GameState.lastCell GameState.sowBeforeLast
      rw [← hcc]; exact s.sowCell_eq m _
    refine ⟨fun k _ => by rw [s.sowCell_eq, hcc], hlast, t, ht, ?_, ?_, ?_⟩
    · intro hsp
      have hne : s.boardCell m ≠ (s.sowBeforeLast m).currentCell := by
        show s.boardCell m ≠ s.lastCell m
        rw [hlast]
        exact (nextCell_iterate_ne _ _ hb.1 hb.2 (by omega) (by omega)).symm
      rw [t5, hend, s.sowBody_get_ne 0 _ _ hne]
      unfold GameState.sowBeforeLast GameState.sowPrefix
      have hk : (s.hand m).toNat - 1 = ((s.hand m).toNat - 2) + 1 := by omega
      rw [hk, Function.iterate_succ_apply,
        s.sowPlain_iterate_get_ne _ _ _ (fun i hi => by
          rw [s.sowPlain_currentCell, hcc, ← Function.iterate_succ_apply]
          exact (nextCell_iterate_ne _ _ hb.1 hb.2 (by omega) (by omega)).symm),
        GameState.sowPlain_newCells, s.ruleC_of_not_special _ (by rw [hcc]; exact hsp)]
      simp only [hcc]
      rw [Cells.get_set_same _ _ _ hb.1 hb.2]
      show (s.cells.set (s.boardCell m) 0).get (s.boardCell m) + 1 = 1
      rw [Cells.get_set_same _ _ _ hb.1 hb.2]
      rfl
    · intro k hk0 hk hsp
      rw [t5]
      exact s.sowEnd_get_inner m h0 h8 h2 h18 k hk0 hk hsp
    · intro c hc
      have hne : c ≠ (s.sowBeforeLast m).currentCell := by
        show c ≠ s.lastCell m
        rw [hlast]
        exact hc _ (by omega)
      rw [t5, hend, s.sowBody_get_ne 0 _ _ hne]
      unfold GameState.sowBeforeLast GameState.sowPrefix
      rw [s.sowPlain_iterate_get_ne _ _ _ (fun i hi => by
          rw [hcc]; exact hc i (by omega))]
      exact Cells.get_set_ne _ _ _ _ (hc 0 (by omega))

/-! ## Claims C11 and C12: the special cells -/

/-- What one iteration of the loop does to the two special cells: nothing, or
Rule D sets the unset special of the player to move to the current cell. -/
theorem GameState.sowBody_specials (s : GameState) (n : Nat) (w : Sow) :
    ((s.sowBody n w).newSpecialOne = w.newSpecialOne ∧
      (s.sowBody n w).newSpecialTwo = w.newSpecialTwo) ∨
    (s.currentPlayer = Player.ONE ∧ w.newSpecialOne = SPECIAL_NOT_SET ∧
      (s.sowBody n w).newSpecialOne = w.currentCell ∧
      (s.sowBody n w).newSpecialTwo = w.newSpecialTwo ∧
      moveByCell w.currentCell ≠ 8 ∧
      (w.newSpecialTwo = SPECIAL_NOT_SET ∨
        moveByCell w.currentCell ≠ moveByCell w.newSpecialTwo)) ∨
    (s.currentPlayer = Player.TWO ∧ w.newSpecialTwo = SPECIAL_NOT_SET ∧
      (s.sowBody n w).newSpecialTwo = w.currentCell ∧
      (s.sowBody n w).newSpecialOne = w.newSpecialOne ∧
      moveByCell w.currentCell ≠ 8 ∧
      (w.newSpecialOne = SPECIAL_NOT_SET ∨
        moveByCell w.currentCell ≠ moveByCell w.newSpecialOne)) := by
  have hC1 := s.ruleC_newSpecialOne w
  have hC2 := s.ruleC_newSpecialTwo w
  have hB := s.ruleB_specials (s.ruleC w)
  have hcc : (s.ruleB (s.ruleC w)).currentCell = w.currentCell := by
    rw [s.ruleB_currentCell, s.ruleC_currentCell]
  unfold GameState.sowBody
  simp only
  split_ifs
  · show ((s.ruleD (s.ruleB (s.ruleC w))).newSpecialOne = _ ∧
        (s.ruleD (s.ruleB (s.ruleC w))).newSpecialTwo = _) ∨
      (_ ∧ _ ∧ (s.ruleD (s.ruleB (s.ruleC w))).newSpecialOne = _ ∧
        (s.ruleD (s.ruleB (s.ruleC w))).newSpecialTwo = _ ∧ _) ∨
      (_ ∧ _ ∧ (s.ruleD (s.ruleB (s.ruleC w))).newSpecialTwo = _ ∧
        (s.ruleD (s.ruleB (s.ruleC w))).newSpecialOne = _ ∧ _)
    cases hp : s.currentPlayer
    · rw [GameState.ruleD_ONE _ _ hp]
      split_ifs with h
      · right; left
        rw [hcc, hB.1, hB.2, hC1, hC2] at h
        exact ⟨rfl, h.2.1, hcc, by rw [← hC2, ← hB.2], h.2.2.1, h.2.2.2⟩
      · left; exact ⟨by rw [hB.1, hC1], by rw [hB.2, hC2]⟩
    · rw [GameState.ruleD_TWO _ _ hp]
      split_ifs with h
      · right; right
        rw [hcc, hB.1, hB.2, hC1, hC2] at h
        exact ⟨rfl, h.2.1, hcc, by rw [← hC1, ← hB.1], h.2.2.1, h.2.2.2⟩
      · left; exact ⟨by rw [hB.1, hC1], by rw [hB.2, hC2]⟩
    · rw [GameState.ruleD_NONE _ _ hp]
      left; exact ⟨by rw [hB.1, hC1], by rw [hB.2, hC2]⟩
  · left; exact ⟨hC1, hC2⟩

theorem moveByCell_ne_of_ne {a b : Int} (h : moveByCell a ≠ moveByCell b) : a ≠ b :=
  fun e => h (by rw [e])

theorem GameState.sowBody_specialsOk (s : GameState) (n : Nat) (w : Sow)
    (h : SpecialsOk w.newSpecialOne w.newSpecialTwo) :
    SpecialsOk (s.sowBody n w).newSpecialOne (s.sowBody n w).newSpecialTwo := by
  obtain ⟨h12, h1, h2⟩ := h
  rcases s.sowBody_specials n w with ⟨e1, e2⟩ | ⟨-, -, e1, e2, h8, ho⟩ | ⟨-, -, e2, e1, h8, ho⟩
  · rw [e1, e2]; exact ⟨h12, h1, h2⟩
  · rw [e1, e2]
    refine ⟨fun _ hs2 => ?_, fun _ => h8, h2⟩
    rcases ho with ho | ho
    · exact absurd ho hs2
    · exact moveByCell_ne_of_ne ho
  · rw [e1, e2]
    refine ⟨fun hs1 _ => ?_, h1, fun _ => h8⟩
    rcases ho with ho | ho
    · exact absurd ho hs1
    · exact (moveByCell_ne_of_ne ho).symm

theorem GameState.sowLoop_specialsOk (s : GameState) (n : Nat) (w : Sow)
    (h : SpecialsOk w.newSpecialOne w.newSpecialTwo) :
    SpecialsOk (s.sowLoop n w).newSpecialOne (s.sowLoop n w).newSpecialTwo := by
  induction n generalizing w with
  | zero => exact h
  | succ n ih => exact ih _ (s.sowBody_specialsOk n w h)

theorem GameState.move_specialsOk (s t : GameState) (m : Int)
    (h : SpecialsOk s.specialOne s.specialTwo) (ht : s.move m = some t) :
    SpecialsOk t.specialOne t.specialTwo := by
  obtain ⟨u, hu, -, -, -, h3, h4, -⟩ := s.move_eq m (move_isMoveAllowed s t m ht)
  rw [hu] at ht
  cases ht
  rw [h3, h4]
  exact s.sowLoop_specialsOk _ _ h

theorem Reachable.specialsOk {s : GameState} (h : Reachable s) :
    SpecialsOk s.specialOne s.specialTwo := by
  induction h with
  | init => exact ⟨fun h => absurd rfl h, fun h => absurd rfl h, fun h => absurd rfl h⟩
  | move m _ _ _ ht ih => exact GameState.move_specialsOk _ _ m ih ht

/-- C11: in every state reachable from the default start by allowed moves, if
`specialOne` and `specialTwo` are both set they are different cells, and
`moveByCell` of every set special is different from 8. -/
theorem reachable_specials_distinct (s : GameState) (h : Reachable s) :
    (s.specialOne ≠ SPECIAL_NOT_SET → s.specialTwo ≠ SPECIAL_NOT_SET →
      s.specialOne ≠ s.specialTwo) ∧
    (s.specialOne ≠ SPECIAL_NOT_SET → moveByCell s.specialOne ≠ 8) ∧
    (s.specialTwo ≠ SPECIAL_NOT_SET → moveByCell s.specialTwo ≠ 8) :=
  h.specialsOk

theorem reachable_specials_distinct_witness :
    (stateAfter [2, 7, 3, 2, 5]).specialOne = 16 ∧ (stateAfter [2, 7, 3, 2, 5]).specialTwo = 6 ∧
    ((stateAfter [2, 7, 3, 2, 5]).specialOne ≠ SPECIAL_NOT_SET →
      (stateAfter [2, 7, 3, 2, 5]).specialTwo ≠ SPECIAL_NOT_SET →
      (stateAfter [2, 7, 3, 2, 5]).specialOne ≠ (stateAfter [2, 7, 3, 2, 5]).specialTwo) ∧
    ((stateAfter [2, 7, 3, 2, 5]).specialOne ≠ SPECIAL_NOT_SET →
      moveByCell (stateAfter [2, 7, 3, 2, 5]).specialOne ≠ 8) ∧
    ((stateAfter [2, 7, 3, 2, 5]).specialTwo ≠ SPECIAL_NOT_SET →
      moveByCell (stateAfter [2, 7, 3, 2, 5]).specialTwo ≠ 8) :=
  ⟨by decide, by decide,
    reachable_specials_distinct (stateAfter [2, 7, 3, 2, 5])
      (Reachable.stateAfter [2, 7, 3, 2, 5] (by decide))⟩

/-- The special cells during the loop: a special is what it was in the state
moved from, unless it was unset there, belongs to the player to move, and is
now a cell of the board. -/
theorem GameState.sowLoop_specials_frame (s : GameState) (n : Nat) (w : Sow)
    (h0 : 0 ≤ w.currentCell) (h18 : w.currentCell < 18)
    (h1 : w.newSpecialOne = s.specialOne ∨
      (s.currentPlayer = Player.ONE ∧ s.specialOne = SPECIAL_NOT_SET ∧
        0 ≤ w.newSpecialOne ∧ w.newSpecialOne < 18))
    (h2 : w.newSpecialTwo = s.specialTwo ∨
      (s.currentPlayer = Player.TWO ∧ s.specialTwo = SPECIAL_NOT_SET ∧
        0 ≤ w.newSpecialTwo ∧ w.newSpecialTwo < 18)) :
    ((s.sowLoop n w).newSpecialOne = s.specialOne ∨
      (s.currentPlayer = Player.ONE ∧ s.specialOne = SPECIAL_NOT_SET ∧
        0 ≤ (s.sowLoop n w).newSpecialOne ∧ (s.sowLoop n w).newSpecialOne < 18)) ∧
    ((s.sowLoop n w).newSpecialTwo = s.specialTwo ∨
      (s.currentPlayer = Player.TWO ∧ s.specialTwo = SPECIAL_NOT_SET ∧
        0 ≤ (s.sowLoop n w).newSpecialTwo ∧ (s.sowLoop n w).newSpecialTwo < 18)) := by
  induction n generalizing w with
  | zero => exact ⟨h1, h2⟩
  | succ n ih =>
    have hr := nextCell_range _ h0 h18
    refine ih _ (by rw [s.sowBody_currentCell]; exact hr.1)
      (by rw [s.sowBody_currentCell]; exact hr.2) ?_ ?_
    · rcases s.sowBody_specials n w with ⟨e1, -⟩ | ⟨hp, hu, e1, -⟩ | ⟨-, -, -, e1, -⟩
      · rw [e1]; exact h1
      · rw [e1]
        right
        refine ⟨hp, ?_, h0, h18⟩
        rcases h1 with h1 | ⟨-, h1, -⟩
        · rw [← h1]; exact hu
        · exact h1
      · rw [e1]; exact h1
    · rcases s.sowBody_specials n w with ⟨-, e2⟩ | ⟨-, -, -, e2, -⟩ | ⟨hp, hu, e2, -⟩
      · rw [e2]; exact h2
      · rw [e2]; exact h2
      · rw [e2]
        right
        refine ⟨hp, ?_, h0, h18⟩
        rcases h2 with h2 | ⟨-, h2, -⟩
        · rw [← h2]; exact hu
        · exact h2

/-- C12: for an allowed move `m` of `0..8`: a special cell that is set in the
state moved from has the same value in the resulting state, and the special of
the player who is not moving is the same in the resulting state; a special
that differs in the resulting state is the mover's own, was unset, and is now
a cell of the board. -/
theorem move_keeps_specials (s : GameState) (m : Int) (h0 : 0 ≤ m) (h8 : m ≤ 8)
    (ha : s.isMoveAllowed m = true) :
    ∃ t, s.move m = some t ∧
      (s.specialOne ≠ SPECIAL_NOT_SET → t.specialOne = s.specialOne) ∧
      (s.specialTwo ≠ SPECIAL_NOT_SET → t.specialTwo = s.specialTwo) ∧
      (s.currentPlayer ≠ Player.ONE → t.specialOne = s.specialOne) ∧
      (s.currentPlayer ≠ Player.TWO → t.specialTwo = s.specialTwo) ∧
      (t.specialOne ≠ s.specialOne →
        s.currentPlayer = Player.ONE ∧ s.specialOne = SPECIAL_NOT_SET ∧
          0 ≤ t.specialOne ∧ t.specialOne < 18) ∧
      (t.specialTwo ≠ s.specialTwo →
        s.currentPlayer = Player.TWO ∧ s.specialTwo = SPECIAL_NOT_SET ∧
          0 ≤ t.specialTwo ∧ t.specialTwo < 18) := by
  obtain ⟨t, ht, -, -, -, t3, t4, -⟩ := s.move_eq m ha
  have hr := s.sowStart_currentCell_range m h0 h8
  obtain ⟨f1, f2⟩ := s.sowLoop_specials_frame (s.hand m).toNat (s.sowStart m) hr.1 hr.2
    (Or.inl rfl) (Or.inl rfl)
  change ((s.sowEnd m).newSpecialOne = _ ∨ _ ∧ _ ∧ 0 ≤ (s.sowEnd m).newSpecialOne ∧
    (s.sowEnd m).newSpecialOne < 18) at f1
  change ((s.sowEnd m).newSpecialTwo = _ ∨ _ ∧ _ ∧ 0 ≤ (s.sowEnd m).newSpecialTwo ∧
    (s.sowEnd m).newSpecialTwo < 18) at f2
  rw [← t3] at f1
  rw [← t4] at f2
  refine ⟨t, ht, ?_, ?_, ?_, ?_, ?_, ?_⟩
  · intro hs
    rcases f1 with f | ⟨-, f, -⟩
    · exact f
    · exact absurd f hs
  · intro hs
    rcases f2 with f | ⟨-, f, -⟩
    · exact f
    · exact absurd f hs
  · intro hp
    rcases f1 with f | ⟨f, -⟩
    · exact f
    · exact absurd f hp
  · intro hp
    rcases f2 with f | ⟨f, -⟩
    · exact f
    · exact absurd f hp
  · intro hne
    rcases f1 with f | f
    · exact absurd f hne
    · exact f
  · intro hne
    rcases f2 with f | f
    · exact absurd f hne
    · exact f

theorem move_keeps_specials_witness :
    (stateAfter [2, 7, 3, 2]).currentPlayer = Player.ONE ∧
    (stateAfter [2, 7, 3, 2]).specialOne = SPECIAL_NOT_SET ∧
    (stateAfter [2, 7, 3, 2]).specialTwo = 6 ∧
    ∃ t, (stateAfter [2, 7, 3, 2]).move 5 = some t ∧
      ((stateAfter [2, 7, 3, 2]).specialOne ≠ SPECIAL_NOT_SET →
        t.specialOne = (stateAfter [2, 7, 3, 2]).specialOne) ∧
      ((stateAfter [2, 7, 3, 2]).specialTwo ≠ SPECIAL_NOT_SET →
        t.specialTwo = (stateAfter [2, 7, 3, 2]).specialTwo) ∧
      ((stateAfter [2, 7, 3, 2]).currentPlayer ≠ Player.ONE →
        t.specialOne = (stateAfter [2, 7, 3, 2]).specialOne) ∧
      ((stateAfter [2, 7, 3, 2]).currentPlayer ≠ Player.TWO →
        t.specialTwo = (stateAfter [2, 7, 3, 2]).specialTwo) ∧
      (t.specialOne ≠ (stateAfter [2, 7, 3, 2]).specialOne →
        (stateAfter [2, 7, 3, 2]).currentPlayer = Player.ONE ∧
          (stateAfter [2, 7, 3, 2]).specialOne = SPECIAL_NOT_SET ∧
          0 ≤ t.specialOne ∧ t.specialOne < 18) ∧
      (t.specialTwo ≠ (stateAfter [2, 7, 3, 2]).specialTwo →
        (stateAfter [2, 7, 3, 2]).currentPlayer = Player.TWO ∧
          (stateAfter [2, 7, 3, 2]).specialTwo = SPECIAL_NOT_SET ∧
          0 ≤ t.specialTwo ∧ t.specialTwo < 18) :=
  ⟨by decide, by decide, by decide,
    move_keeps_specials (stateAfter [2, 7, 3, 2]) 5 (by decide) (by decide) (by decide)⟩

/-! ## Claim C13: the move-value heuristic -/

/-- The loop of `estimateMoveValues` over a list of distinct moves below 9,
started on a vector of 9 values that is zero at those moves: it does not abort,
it writes the value of every allowed move of the list, and leaves the rest. -/
theorem estimateMoveValues_loop (state : GameState) (l : List Nat) (values : List ℚ)
    (hnd : l.Nodup) (hl : ∀ i ∈ l, i < 9) (hv : values.length = 9)
    (hz : ∀ i ∈ l, values[i]? = some 0) :
    ∃ out : List ℚ,
      l.foldlM (fun (values : List ℚ) (i : Nat) =>
        if !state.isMoveAllowed (i : Int) then some values
        else
          match state.move (i : Int) with
          | none => none
          | some childState =>
            some (values.set i
              ((scoreDiff state childState - scoreDiff state state) / 81))) values = some out ∧
      out.length = 9 ∧
      (∀ i ∈ l, state.isMoveAllowed (i : Int) = false → out[i]? = some 0) ∧
      (∀ i ∈ l, state.isMoveAllowed (i : Int) = true →
        ∃ t, state.move (i : Int) = some t ∧
          out[i]? = some ((scoreDiff state t - scoreDiff state state) / 81)) ∧
      (∀ j, j ∉ l → out[j]? = values[j]?) := by
  induction l generalizing values with
  | nil => exact ⟨values, rfl, hv, by simp, by simp, fun _ _ => rfl⟩
  | cons i l ih =>
    have hil : i ∉ l := (List.nodup_cons.1 hnd).1
    have hnd' : l.Nodup := (List.nodup_cons.1 hnd).2
    have hl' : ∀ k ∈ l, k < 9 := fun k hk => hl k (List.mem_cons_of_mem _ hk)
    rw [List.foldlM_cons]
    rcases Bool.eq_false_or_eq_true (state.isMoveAllowed (i : Int)) with ha | ha
    · obtain ⟨t, ht, -⟩ := state.move_eq (i : Int) ha
      simp only [ha, Bool.not_true, Bool.false_eq_true, if_false, ht]
      obtain ⟨out, ho, hlen, hn, hy, hrest⟩ := ih
        (values.set i ((scoreDiff state t - scoreDiff state state) / 81)) hnd' hl'
        (by rw [List.length_set]; exact hv)
        (fun k hk => by
          rw [List.getElem?_set_ne (fun (e : i = k) => hil (by rw [e]; exact hk))]
          exact hz k (List.mem_cons_of_mem _ hk))
      refine ⟨out, ho, hlen, ?_, ?_, ?_⟩
      · intro k hk hka
        rcases List.mem_cons.1 hk with e | hk'
        · rw [e, ha] at hka; cases hka
        · exact hn k hk' hka
      · intro k hk hka
        rcases List.mem_cons.1 hk with e | hk'
        · subst e
          refine ⟨t, ht, ?_⟩
          rw [hrest k hil, List.getElem?_set_self (by rw [hv]; exact hl k (List.mem_cons_self _ _))]
        · exact hy k hk' hka
      · intro j hj
        rw [hrest j (fun h => hj (List.mem_cons_of_mem _ h)),
          List.getElem?_set_ne (fun (e : i = j) => hj (by rw [← e]; exact List.mem_cons_self _ _))]
    · simp only [ha, Bool.not_false, if_true]
      obtain ⟨out, ho, hlen, hn, hy, hrest⟩ := ih values hnd' hl' hv
        (fun k hk => hz k (List.mem_cons_of_mem _ hk))
      refine ⟨out, ho, hlen, ?_, ?_, ?_⟩
      · intro k hk hka
        rcases List.mem_cons.1 hk with e | hk'
        · subst e
          rw [hrest k hil]; exact hz k (List.mem_cons_self _ _)
        · exact hn k hk' hka
      · intro k hk hka
        rcases List.mem_cons.1 hk with e | hk'
        · rw [e, ha] at hka; cases hka
        · exact hy k hk' hka
      · intro j hj
        exact hrest j (fun h => hj (List.mem_cons_of_mem _ h))

/-- What `estimateMoveValues` returns. -/
theorem estimateMoveValues_spec (state : GameState) :
    ∃ out : List ℚ, estimateMoveValues state = some out ∧ out.length = 9 ∧
      (∀ i : Nat, i < 9 → state.isMoveAllowed (i : Int) = false → out[i]? = some 0) ∧
      (∀ i : Nat, i < 9 → state.isMoveAllowed (i : Int) = true →
        ∃ t, state.move (i : Int) = some t ∧
          out[i]? = some ((scoreDiff state t - scoreDiff state state) / 81)) := by
  obtain ⟨out, ho, hlen, hn, hy, -⟩ := estimateMoveValues_loop state (List.range 9)
    (List.replicate 9 0) (List.nodup_range 9) (fun i hi => List.mem_range.1 hi)
    (List.length_replicate _ _)
    (fun i hi => List.getElem?_replicate_of_lt (List.mem_range.1 hi))
  exact ⟨out, ho, hlen, fun i hi => hn i (List.mem_range.2 hi),
    fun i hi => hy i (List.mem_range.2 hi)⟩

theorem setAt_length (v : List ℚ) (i : Int) (x : ℚ) : (setAt v i x).length = v.length := by
  unfold setAt
  split_ifs
  · exact List.length_set _ _ _
  · rfl

theorem setAt_getElem? (v : List ℚ) (i : Int) (x : ℚ) (j : Nat) :
    (setAt v i x)[j]? = if (j : Int) = i ∧ j < v.length then some x else v[j]? := by
  unfold setAt
  split_ifs with h0 h1 h1
  · have : i.toNat = j := by omega
    rw [← this, List.getElem?_set_self (by rw [this]; exact h1.2)]
  · rw [List.getElem?_set]
    split_ifs with h2 h3
    · exact absurd ⟨by omega, by rw [← h2]; exact h3⟩ h1
    · rw [← h2]; exact (List.getElem?_eq_none (by omega)).symm
    · rfl
  · exact absurd (by omega) h0
  · rfl

theorem foldl_set_length (f : Nat → ℚ) (b n : Nat) (e : List ℚ) :
    ((List.range n).foldl (fun (e : List ℚ) (i : Nat) => e.set (b + i) (f i)) e).length
      = e.length := by
  induction n with
  | zero => rfl
  | succ n ih =>
    rw [List.range_succ, List.foldl_append]
    simp only [List.foldl_cons, List.foldl_nil, List.length_set]
    exact ih

/-- The loop `for (int i = 0; i < n; ++i) e[b + i] = f(i)`, entry by entry. -/
theorem foldl_set_getElem? (f : Nat → ℚ) (b n : Nat) (e : List ℚ) (j : Nat)
    (hlen : b + n ≤ e.length) :
    ((List.range n).foldl (fun (e : List ℚ) (i : Nat) => e.set (b + i) (f i)) e)[j]?
      = if b ≤ j ∧ j < b + n then some (f (j - b)) else e[j]? := by
  induction n with
  | zero =>
    simp only [List.range_zero, List.foldl_nil, Nat.add_zero]
    rw [if_neg (by omega)]
  | succ n ih =>
    rw [List.range_succ, List.foldl_append]
    simp only [List.foldl_cons, List.foldl_nil]
    rw [List.getElem?_set, foldl_set_length, ih (by omega)]
    by_cases hj : b + n = j
    · rw [if_pos hj, if_pos (by omega), if_pos (by omega)]
      congr 2
      omega
    · rw [if_neg hj]
      by_cases hj2 : b ≤ j ∧ j < b + n
      · rw [if_pos hj2, if_pos (by omega)]
      · rw [if_neg hj2, if_neg (by omega)]

theorem GameState.encodeFeatures_length (s : GameState) : s.encodeFeatures.length = 47 := by
  unfold GameState.encodeFeatures
  simp only
  split_ifs <;>
    simp only [List.length_set, foldl_set_length, setAt_length, List.length_replicate,
      NUM_FEATURES]

/-- Every entry of the features of a state with ONE to move. -/
theorem GameState.encodeFeatures_ONE (s : GameState) (hp : s.currentPlayer = Player.ONE)
    (j : Nat) :
    s.encodeFeatures[j]? =
      if j = 37 then some ((s.scoreTwo : ℚ) / 81)
      else if j = 36 then some ((s.scoreOne : ℚ) / 81)
      else if 27 ≤ j ∧ j < 27 + 9 then some ((s.cells.get (9 + ((j - 27 : Nat) : Int)) : ℚ) / 81)
      else if 18 ≤ j ∧ j < 18 + 9 then some ((s.cells.get (8 - ((j - 18 : Nat) : Int)) : ℚ) / 81)
      else if s.specialTwo ≠ SPECIAL_NOT_SET ∧ (j : Int) = 9 + moveByCell s.specialTwo ∧ j < 47
        then some 1
      else if s.specialOne ≠ SPECIAL_NOT_SET ∧ (j : Int) = moveByCell s.specialOne ∧ j < 47
        then some 1
      else if j < 47 then some 0 else none := by
  unfold GameState.encodeFeatures
  simp only [hp, if_true, NUM_FEATURES]
  rw [List.getElem?_set, List.length_set, foldl_set_length, foldl_set_length]
  have hl2 : ∀ (a b : Int) (p q : Prop) [Decidable p] [Decidable q],
      (if q then setAt (if p then setAt (List.replicate 47 (0 : ℚ)) a 1
        else List.replicate 47 0) b 1
       else (if p then setAt (List.replicate 47 (0 : ℚ)) a 1 else List.replicate 47 0)).length
        = 47 := by
    intro a b p q _ _
    split_ifs <;> simp only [setAt_length, List.length_replicate]
  rw [hl2]
  by_cases h37 : j = 37
  · rw [if_pos h37.symm, if_pos (by decide), if_pos h37]
  rw [if_neg (fun e => h37 e.symm), if_neg h37, List.getElem?_set, foldl_set_length,
    foldl_set_length, hl2]
  by_cases h36 : j = 36
  · rw [if_pos h36.symm, if_pos (by decide), if_pos h36]
  rw [if_neg (fun e => h36 e.symm), if_neg h36,
    foldl_set_getElem? _ _ _ _ _ (by rw [foldl_set_length, hl2]; omega)]
  by_cases h27 : 27 ≤ j ∧ j < 27 + 9
  · rw [if_pos h27, if_pos h27]
  rw [if_neg h27, if_neg h27, foldl_set_getElem? _ _ _ _ _ (by rw [hl2]; omega)]
  by_cases h18 : 18 ≤ j ∧ j < 18 + 9
  · rw [if_pos h18, if_pos h18]
  rw [if_neg h18, if_neg h18]
  by_cases h2 : s.specialTwo ≠ SPECIAL_NOT_SET <;> by_cases h1 : s.specialOne ≠ SPECIAL_NOT_SET
  · rw [if_pos h2, if_pos h1]
    simp only [h1, h2, setAt_getElem?, setAt_length, List.length_replicate,
      List.getElem?_replicate, ne_eq, not_false_eq_true, true_and]
  · rw [if_pos h2, if_neg h1]
    simp only [h1, h2, setAt_getElem?, setAt_length, List.length_replicate,
      List.getElem?_replicate, ne_eq, not_false_eq_true, true_and, false_and, if_false]
  · rw [if_neg h2, if_pos h1]
    simp only [h1, h2, setAt_getElem?, setAt_length, List.length_replicate,
      List.getElem?_replicate, ne_eq, not_false_eq_true, true_and, false_and, if_false]
  · rw [if_neg h2, if_neg h1]
    simp only [h1, h2, List.getElem?_replicate, false_and, if_false]

/-- Every entry of the features of a state in which ONE is not to move. -/
theorem GameState.encodeFeatures_not_ONE (s : GameState) (hp : s.currentPlayer ≠ Player.ONE)
    (j : Nat) :
    s.encodeFeatures[j]? =
      if j = 37 then some ((s.scoreOne : ℚ) / 81)
      else if j = 36 then some ((s.scoreTwo : ℚ) / 81)
      else if 27 ≤ j ∧ j < 27 + 9 then some ((s.cells.get (8 - ((j - 27 : Nat) : Int)) : ℚ) / 81)
      else if 18 ≤ j ∧ j < 18 + 9 then some ((s.cells.get (9 + ((j - 18 : Nat) : Int)) : ℚ) / 81)
      else if s.specialOne ≠ SPECIAL_NOT_SET ∧ (j : Int) = 9 + moveByCell s.specialOne ∧ j < 47
        then some 1
      else if s.specialTwo ≠ SPECIAL_NOT_SET ∧ (j : Int) = moveByCell s.specialTwo ∧ j < 47
        then some 1
      else if j < 47 then some 0 else none := by
  unfold GameState.encodeFeatures
  simp only [hp, if_false, NUM_FEATURES]
  rw [List.getElem?_set, List.length_set, foldl_set_length, foldl_set_length]
  have hl2 : ∀ (a b : Int) (p q : Prop) [Decidable p] [Decidable q],
      (if q then setAt (if p then setAt (List.replicate 47 (0 : ℚ)) a 1
        else List.replicate 47 0) b 1
       else (if p then setAt (List.replicate 47 (0 : ℚ)) a 1 else List.replicate 47 0)).length
        = 47 := by
    intro a b p q _ _
    split_ifs <;> simp only [setAt_length, List.length_replicate]
  rw [hl2]
  by_cases h37 : j = 37
  · rw [if_pos h37.symm, if_pos (by decide), if_pos h37]
  rw [if_neg (fun e => h37 e.symm), if_neg h37, List.getElem?_set, foldl_set_length,
    foldl_set_length, hl2]
  by_cases h36 : j = 36
  · rw [if_pos h36.symm, if_pos (by decide), if_pos h36]
  rw [if_neg (fun e => h36 e.symm), if_neg h36,
    foldl_set_getElem? _ _ _ _ _ (by rw [foldl_set_length, hl2]; omega)]
  by_cases h27 : 27 ≤ j ∧ j < 27 + 9
  · rw [if_pos h27, if_pos h27]
  rw [if_neg h27, if_neg h27, foldl_set_getElem? _ _ _ _ _ (by rw [hl2]; omega)]
  by_cases h18 : 18 ≤ j ∧ j < 18 + 9
  · rw [if_pos h18, if_pos h18]
  rw [if_neg h18, if_neg h18]
  by_cases h2 : s.specialOne ≠ SPECIAL_NOT_SET <;> by_cases h1 : s.specialTwo ≠ SPECIAL_NOT_SET
  · rw [if_pos h2, if_pos h1]
    simp only [h1, h2, setAt_getElem?, setAt_length, List.length_replicate,
      List.getElem?_replicate, ne_eq, not_false_eq_true, true_and]
  · rw [if_pos h2, if_neg h1]
    simp only [h1, h2, setAt_getElem?, setAt_length, List.length_replicate,
      List.getElem?_replicate, ne_eq, not_false_eq_true, true_and, false_and, if_false]
  · rw [if_neg h2, if_pos h1]
    simp only [h1, h2, setAt_getElem?, setAt_length, List.length_replicate,
      List.getElem?_replicate, ne_eq, not_false_eq_true, true_and, false_and, if_false]
  · rw [if_neg h2, if_neg h1]
    simp only [h1, h2, List.getElem?_replicate, false_and, if_false]

theorem moveByCell_range (c : Int) (h0 : 0 ≤ c) (h18 : c < 18) :
    0 ≤ moveByCell c ∧ moveByCell c ≤ 8 := by
  unfold moveByCell
  split_ifs <;> omega

theorem copyAt_getElem? (dst src : List ℚ) (pos j : Nat) (hpos : pos ≤ dst.length) :
    (copyAt dst pos src)[j]? =
      if j < pos then dst[j]?
      else if j < pos + src.length then src[j - pos]?
      else dst[j]? := by
  unfold copyAt
  have htake : (dst.take pos).length = pos := by
    rw [List.length_take]; omega
  by_cases h1 : j < pos
  · rw [if_pos h1, List.append_assoc, List.getElem?_append_left (by rw [htake]; exact h1),
      List.getElem?_take_of_lt h1]
  · rw [if_neg h1, List.append_assoc, List.getElem?_append_right (by rw [htake]; omega), htake]
    by_cases h2 : j < pos + src.length
    · rw [if_pos h2, List.getElem?_append_left (by omega)]
    · rw [if_neg h2, List.getElem?_append_right (by omega), List.getElem?_drop]
      congr 1
      omega

theorem copyAt_length (dst src : List ℚ) (pos : Nat) (h : pos + src.length ≤ dst.length) :
    (copyAt dst pos src).length = dst.length := by
  unfold copyAt
  simp only [List.length_append, List.length_take, List.length_drop]
  omega

/-- What `encode` returns: the features of the position in entries 0..37 and
the vector of `estimateMoveValues` in entries 38..46. -/
theorem GameState.encode_spec (s : GameState) :
    ∃ out ev : List ℚ, s.encode = some out ∧ estimateMoveValues s = some ev ∧
      out.length = 47 ∧ ev.length = 9 ∧
      (∀ j : Nat, j < 38 → out[j]? = s.encodeFeatures[j]?) ∧
      (∀ i : Nat, i < 9 → out[38 + i]? = ev[i]?) := by
  obtain ⟨ev, hev, hlen, -⟩ := estimateMoveValues_spec s
  have hf := s.encodeFeatures_length
  refine ⟨copyAt s.encodeFeatures 38 ev, ev, ?_, hev, ?_, hlen, ?_, ?_⟩
  · unfold GameState.encode
    rw [hev]
  · rw [copyAt_length _ _ _ (by omega), hf]
  · intro j hj
    rw [copyAt_getElem? _ _ _ _ (by omega), if_pos hj]
  · intro i hi
    rw [copyAt_getElem? _ _ _ _ (by omega), if_neg (by omega), if_pos (by omega)]
    congr 1
    omega

/-- C14: for a state with current player ONE or TWO and specials that are -1
or cells `0..17`, `encode()` returns 47 values laid out from the perspective of
the player to move: entry `k` of `0..8` is 1 when the mover's special is set
and `k = moveByCell` of it, else 0; entry `9 + k` likewise for the opponent's
special; entry `18 + i` is `cells[boardCell(i)] / 81`, non-zero exactly when
move `i` is allowed; entry `27 + i` is `cells[9 + i] / 81` when ONE moves and
`cells[8 - i] / 81` when TWO moves; entry 36 is the mover's score over 81, entry
37 the opponent's; entries `38..46` are the vector of `estimateMoveValues`. -/
theorem encode_layout (s : GameState)
    (hp : s.currentPlayer = Player.ONE ∨ s.currentPlayer = Player.TWO)
    (h1 : s.specialOne = SPECIAL_NOT_SET ∨ (0 ≤ s.specialOne ∧ s.specialOne < 18))
    (h2 : s.specialTwo = SPECIAL_NOT_SET ∨ (0 ≤ s.specialTwo ∧ s.specialTwo < 18)) :
    ∃ out ev : List ℚ, s.encode = some out ∧ estimateMoveValues s = some ev ∧
      out.length = 47 ∧ ev.length = 9 ∧
      (∀ k : Nat, k < 9 → out[k]? = some
        (if s.moverSpecial ≠ SPECIAL_NOT_SET ∧ (k : Int) = moveByCell s.moverSpecial
          then 1 else 0)) ∧
      (∀ k : Nat, k < 9 → out[9 + k]? = some
        (if s.opponentSpecial ≠ SPECIAL_NOT_SET ∧ (k : Int) = moveByCell s.opponentSpecial
          then 1 else 0)) ∧
      (∀ i : Nat, i < 9 →
        out[18 + i]? = some ((s.cells.get (s.boardCell (i : Int)) : ℚ) / 81) ∧
        (((s.cells.get (s.boardCell (i : Int)) : ℚ) / 81 ≠ 0) ↔
          s.isMoveAllowed (i : Int) = true)) ∧
      (∀ i : Nat, i < 9 → out[27 + i]? = some
        ((if s.currentPlayer = Player.ONE then (s.cells.get (9 + (i : Int)) : ℚ)
          else (s.cells.get (8 - (i : Int)) : ℚ)) / 81)) ∧
      out[36]? = some ((s.moverScore : ℚ) / 81) ∧
      out[37]? = some ((s.opponentScore : ℚ) / 81) ∧
      (∀ i : Nat, i < 9 → out[38 + i]? = ev[i]?) := by
  obtain ⟨out, ev, ho, hev, hlen, hevl, hfeat, hvals⟩ := s.encode_spec
  have hm1 : s.specialOne ≠ SPECIAL_NOT_SET →
      0 ≤ moveByCell s.specialOne ∧ moveByCell s.specialOne ≤ 8 := by
    intro h
    rcases h1 with h1 | h1
    · exact absurd h1 h
    · exact moveByCell_range _ h1.1 h1.2
  have hm2 : s.specialTwo ≠ SPECIAL_NOT_SET →
      0 ≤ moveByCell s.specialTwo ∧ moveByCell s.specialTwo ≤ 8 := by
    intro h
    rcases h2 with h2 | h2
    · exact absurd h2 h
    · exact moveByCell_range _ h2.1 h2.2
  have hallowed : ∀ i : Nat, (((s.cells.get (s.boardCell (i : Int)) : ℚ) / 81 ≠ 0) ↔
      s.isMoveAllowed (i : Int) = true) := by
    intro i
    rw [s.isMoveAllowed_iff]
    constructor
    · intro h e
      apply h
      rw [e]
      norm_num
    · intro h e
      apply h
      have h81 : ((81 : ℚ)) ≠ 0 := by norm_num
      have := (div_eq_zero_iff.1 e).resolve_right h81
      exact_mod_cast this
  refine ⟨out, ev, ho, hev, hlen, hevl, ?_, ?_, ?_, ?_, ?_, ?_, hvals⟩
  · intro k hk
    rw [hfeat k (by omega)]
    rcases hp with hp | hp
    · rw [s.encodeFeatures_ONE hp]
      simp only [GameState.moverSpecial, hp, if_true]
      rw [if_neg (by omega), if_neg (by omega), if_neg (by omega), if_neg (by omega)]
      by_cases hs2 : s.specialTwo ≠ SPECIAL_NOT_SET
      · have := hm2 hs2
        rw [if_neg (by omega)]
        split_ifs <;> first | rfl | omega
      · rw [if_neg (by tauto)]
        split_ifs <;> first | rfl | omega
    · have hp1 : s.currentPlayer ≠ Player.ONE := by rw [hp]; decide
      rw [s.encodeFeatures_not_ONE hp1]
      simp only [GameState.moverSpecial, hp1, if_false]
      rw [if_neg (by omega), if_neg (by omega), if_neg (by omega), if_neg (by omega)]
      by_cases hs1 : s.specialOne ≠ SPECIAL_NOT_SET
      · have := hm1 hs1
        rw [if_neg (by omega)]
        split_ifs <;> first | rfl | omega
      · rw [if_neg (by tauto)]
        split_ifs <;> first | rfl | omega
  · intro k hk
    rw [hfeat (9 + k) (by omega)]
    rcases hp with hp | hp
    · rw [s.encodeFeatures_ONE hp]
      simp only [GameState.opponentSpecial, hp, if_true]
      rw [if_neg (by omega), if_neg (by omega), if_neg (by omega), if_neg (by omega)]
      push_cast
      by_cases hs2 : s.specialTwo ≠ SPECIAL_NOT_SET <;>
        by_cases hs1 : s.specialOne ≠ SPECIAL_NOT_SET
      · have := hm1 hs1
        have := hm2 hs2
        split_ifs <;> first | rfl | omega
      · have := hm2 hs2
        split_ifs <;> first | rfl | omega
      · have := hm1 hs1
        split_ifs <;> first | rfl | omega
      · split_ifs <;> first | rfl | omega
    · have hp1 : s.currentPlayer ≠ Player.ONE := by rw [hp]; decide
      rw [s.encodeFeatures_not_ONE hp1]
      simp only [GameState.opponentSpecial, hp1, if_false]
      rw [if_neg (by omega), if_neg (by omega), if_neg (by omega), if_neg (by omega)]
      push_cast
      by_cases hs2 : s.specialTwo ≠ SPECIAL_NOT_SET <;>
        by_cases hs1 : s.specialOne ≠ SPECIAL_NOT_SET
      · have := hm1 hs1
        have := hm2 hs2
        split_ifs <;> first | rfl | omega
      · have := hm2 hs2
        split_ifs <;> first | rfl | omega
      · have := hm1 hs1
        split_ifs <;> first | rfl | omega
      · split_ifs <;> first | rfl | omega
  · intro i hi
    refine ⟨?_, hallowed i⟩
    rw [hfeat (18 + i) (by omega)]
    rcases hp with hp | hp
    · rw [s.encodeFeatures_ONE hp]
      rw [if_neg (by omega), if_neg (by omega), if_neg (by omega), if_pos (by omega)]
      simp only [GameState.boardCell, hp, if_true, Nat.add_sub_cancel_left]
    · have hp1 : s.currentPlayer ≠ Player.ONE := by rw [hp]; decide
      rw [s.encodeFeatures_not_ONE hp1]
      rw [if_neg (by omega), if_neg (by omega), if_neg (by omega), if_pos (by omega)]
      simp only [GameState.boardCell, hp1, if_false, Nat.add_sub_cancel_left]
  · intro i hi
    rw [hfeat (27 + i) (by omega)]
    rcases hp with hp | hp
    · rw [s.encodeFeatures_ONE hp]
      rw [if_neg (by omega), if_neg (by omega), if_pos (by omega)]
      simp only [hp, if_true, Nat.add_sub_cancel_left]
    · have hp1 : s.currentPlayer ≠ Player.ONE := by rw [hp]; decide
      rw [s.encodeFeatures_not_ONE hp1]
      rw [if_neg (by omega), if_neg (by omega), if_pos (by omega)]
      simp only [hp1, if_false, Nat.add_sub_cancel_left]
  · rw [hfeat 36 (by omega)]
    rcases hp with hp | hp
    · rw [s.encodeFeatures_ONE hp]
      simp only [GameState.moverScore, hp, if_true]
      rfl
    · have hp1 : s.currentPlayer ≠ Player.ONE := by rw [hp]; decide
      rw [s.encodeFeatures_not_ONE hp1]
      simp only [GameState.moverScore, hp1, if_false]
      rfl
  · rw [hfeat 37 (by omega)]
    rcases hp with hp | hp
    · rw [s.encodeFeatures_ONE hp]
      simp only [GameState.opponentScore, hp, if_true]
    · have hp1 : s.currentPlayer ≠ Player.ONE := by rw [hp]; decide
      rw [s.encodeFeatures_not_ONE hp1]
      simp only [GameState.opponentScore, hp1, if_false, if_true]

theorem encode_layout_witness :
    ∃ out ev : List ℚ, sparseTestState.encode = some out ∧
      estimateMoveValues sparseTestState = some ev ∧
      out.length = 47 ∧ ev.length = 9 ∧
      (∀ k : Nat, k < 9 → out[k]? = some
        (if sparseTestState.moverSpecial ≠ SPECIAL_NOT_SET ∧
            (k : Int) = moveByCell sparseTestState.moverSpecial
          then 1 else 0)) ∧
      (∀ k : Nat, k < 9 → out[9 + k]? = some
        (if sparseTestState.opponentSpecial ≠ SPECIAL_NOT_SET ∧
            (k : Int) = moveByCell sparseTestState.opponentSpecial
          then 1 else 0)) ∧
      (∀ i : Nat, i < 9 →
        out[18 + i]? =
          some ((sparseTestState.cells.get (sparseTestState.boardCell (i : Int)) : ℚ) / 81) ∧
        (((sparseTestState.cells.get (sparseTestState.boardCell (i : Int)) : ℚ) / 81 ≠ 0) ↔
          sparseTestState.isMoveAllowed (i : Int) = true)) ∧
      (∀ i : Nat, i < 9 → out[27 + i]? = some
        ((if sparseTestState.currentPlayer = Player.ONE
          then (sparseTestState.cells.get (9 + (i : Int)) : ℚ)
          else (sparseTestState.cells.get (8 - (i : Int)) : ℚ)) / 81)) ∧
      out[36]? = some ((sparseTestState.moverScore : ℚ) / 81) ∧
      out[37]? = some ((sparseTestState.opponentScore : ℚ) / 81) ∧
      (∀ i : Nat, i < 9 → out[38 + i]? = ev[i]?) :=
  encode_layout sparseTestState (by decide) (by decide) (by decide)

/-! ## Claim C16, and the bounds of the entries of `encode` -/

/-! ### Scores never decrease -/

theorem GameState.ruleB_scores_le (s : GameState) (w : Sow) (hn : w.newCells.NonNeg) :
    w.newScoreOne ≤ (s.ruleB w).newScoreOne ∧ w.newScoreTwo ≤ (s.ruleB w).newScoreTwo := by
  have hg := hn.get w.currentCell
  unfold GameState.ruleB
  simp only
  split_ifs <;> constructor <;> (try dsimp only) <;> omega

theorem GameState.ruleD_scores_le (s : GameState) (w : Sow) :
    w.newScoreOne ≤ (s.ruleD w).newScoreOne ∧ w.newScoreTwo ≤ (s.ruleD w).newScoreTwo := by
  cases hp : s.currentPlayer
  · rw [GameState.ruleD_ONE _ _ hp]
    split_ifs <;> constructor <;> (try dsimp only) <;> omega
  · rw [GameState.ruleD_TWO _ _ hp]
    split_ifs <;> constructor <;> (try dsimp only) <;> omega
  · rw [GameState.ruleD_NONE _ _ hp]
    exact ⟨le_refl _, le_refl _⟩

theorem GameState.ruleC_scores_le (s : GameState) (w : Sow) :
    w.newScoreOne ≤ (s.ruleC w).newScoreOne ∧ w.newScoreTwo ≤ (s.ruleC w).newScoreTwo := by
  rw [s.ruleC_newScoreOne, s.ruleC_newScoreTwo]
  constructor <;> split_ifs <;> omega

theorem GameState.sowBody_scores_le (s : GameState) (n : Nat) (w : Sow)
    (hn : w.newCells.NonNeg) :
    w.newScoreOne ≤ (s.sowBody n w).newScoreOne ∧
    w.newScoreTwo ≤ (s.sowBody n w).newScoreTwo := by
  have hC := s.ruleC_scores_le w
  have hB := s.ruleB_scores_le (s.ruleC w) (s.ruleC_nonNeg w hn)
  have hD := s.ruleD_scores_le (s.ruleB (s.ruleC w))
  unfold GameState.sowBody
  simp only
  split_ifs
  · show _ ≤ (s.ruleD (s.ruleB (s.ruleC w))).newScoreOne ∧
      _ ≤ (s.ruleD (s.ruleB (s.ruleC w))).newScoreTwo
    constructor <;> omega
  · exact hC

theorem GameState.sowLoop_scores_le (s : GameState) (n : Nat) (w : Sow)
    (hn : w.newCells.NonNeg) :
    w.newScoreOne ≤ (s.sowLoop n w).newScoreOne ∧
    w.newScoreTwo ≤ (s.sowLoop n w).newScoreTwo := by
  induction n generalizing w with
  | zero => exact ⟨le_refl _, le_refl _⟩
  | succ n ih =>
    have h1 := s.sowBody_scores_le n w hn
    have h2 := ih (s.sowBody n w) (s.sowBody_nonNeg n w hn)
    rw [GameState.sowLoop]
    constructor <;> omega

/-- A move from a board without negative counts lowers neither score. -/
theorem GameState.move_scores_le (s t : GameState) (m : Int) (hn : s.cells.NonNeg)
    (ht : s.move m = some t) : s.scoreOne ≤ t.scoreOne ∧ s.scoreTwo ≤ t.scoreTwo := by
  obtain ⟨u, hu, -, h1, h2, -⟩ := s.move_eq m (move_isMoveAllowed s t m ht)
  rw [hu] at ht
  cases ht
  rw [h1, h2]
  exact s.sowLoop_scores_le _ _ (hn.set _ _ (le_refl 0))

theorem Reachable.scores_nonneg {s : GameState} (h : Reachable s) :
    0 ≤ s.scoreOne ∧ 0 ≤ s.scoreTwo := by
  induction h with
  | init => exact ⟨le_refl _, le_refl _⟩
  | move m hs _ _ ht ih =>
    have := GameState.move_scores_le _ _ m hs.nonNeg ht
    constructor <;> omega

/-! ### Every count is at most 162 -/

theorem Cells.NonNeg.le_total {c : Cells} (h : c.NonNeg) (j : Fin 18) : c j ≤ c.total := by
  rw [Cells.total_eq_sum]
  exact Finset.single_le_sum (fun i _ => h i) (Finset.mem_univ j)

theorem Cells.NonNeg.total_nonneg {c : Cells} (h : c.NonNeg) : 0 ≤ c.total := by
  rw [Cells.total_eq_sum]
  exact Finset.sum_nonneg (fun i _ => h i)

theorem Cells.get_le (c : Cells) (b : Int) (hb : 0 ≤ b) (h : ∀ j : Fin 18, c j ≤ b) (i : Int) :
    c.get i ≤ b := by
  unfold Cells.get
  split
  · exact h _
  · exact hb

theorem Reachable.bounds {s : GameState} (h : Reachable s) :
    (∀ i : Int, 0 ≤ s.cells.get i ∧ s.cells.get i ≤ 162) ∧
    (0 ≤ s.scoreOne ∧ s.scoreOne ≤ 162) ∧ (0 ≤ s.scoreTwo ∧ s.scoreTwo ≤ 162) ∧
    s.scoreOne + s.scoreTwo ≤ 162 := by
  have hp := h.pebbles
  have hs := h.scores_nonneg
  have ht := h.nonNeg.total_nonneg
  unfold GameState.pebbles GameState.cellSum at hp
  refine ⟨fun i => ⟨h.nonNeg.get i, ?_⟩, ⟨hs.1, by omega⟩, ⟨hs.2, by omega⟩, by omega⟩
  refine Cells.get_le _ _ (by decide) (fun j => ?_) i
  have := h.nonNeg.le_total j
  omega

theorem Reachable.isGameOver_eq {s : GameState} (h : Reachable s) :
    s.isGameOver = s.checkGameOver := by
  cases h with
  | init => decide
  | move m _ _ _ ht =>
    rename_i s0
    unfold GameState.move at ht
    split_ifs at ht
    exact (Built.explicit _ _ _ _ _ _ _ ht).spec.1

theorem Reachable.scores_le_of_not_over {s : GameState} (h : Reachable s)
    (hg : s.isGameOver = false) : s.scoreOne ≤ 81 ∧ s.scoreTwo ≤ 81 := by
  rw [h.isGameOver_eq] at hg
  have := s.checkGameOver_iff
  rw [hg] at this
  simp only [Bool.false_eq_true, false_iff, not_or] at this
  omega

theorem div81_bounds (n : Int) (h0 : 0 ≤ n) (h1 : n ≤ 162) :
    (0 : ℚ) ≤ (n : ℚ) / 81 ∧ (n : ℚ) / 81 ≤ 2 := by
  have a : (0 : ℚ) ≤ (n : ℚ) := by exact_mod_cast h0
  have b : (n : ℚ) ≤ 162 := by exact_mod_cast h1
  constructor
  · exact div_nonneg a (by norm_num)
  · rw [div_le_iff₀ (by norm_num)]
    linarith

theorem div81_le_one (n : Int) (h1 : n ≤ 81) : (n : ℚ) / 81 ≤ 1 := by
  have b : (n : ℚ) ≤ 81 := by exact_mod_cast h1
  rw [div_le_iff₀ (by norm_num)]
  linarith

/-- The features of a reachable state, entry by entry: an indicator 0 or 1 in
entries 0..17, a count over 81 between 0 and 2 in entries 18..37, and at most 1
in entries 36 and 37 when the game is not over. -/
theorem Reachable.encodeFeatures_bounds {s : GameState} (h : Reachable s) (j : Nat)
    (hj : j < 38) :
    ∃ x : ℚ, s.encodeFeatures[j]? = some x ∧ 0 ≤ x ∧ x ≤ 2 ∧
      (j < 18 → x = 0 ∨ x = 1) ∧
      (s.isGameOver = false → 36 ≤ j → x ≤ 1) := by
  obtain ⟨hc, hs1, hs2, -⟩ := h.bounds
  have hcell : ∀ i : Int, (0 : ℚ) ≤ (s.cells.get i : ℚ) / 81 ∧ (s.cells.get i : ℚ) / 81 ≤ 2 :=
    fun i => div81_bounds _ (hc i).1 (hc i).2
  have hone : s.isGameOver = false → (s.scoreOne : ℚ) / 81 ≤ 1 :=
    fun hg => div81_le_one _ (h.scores_le_of_not_over hg).1
  have htwo : s.isGameOver = false → (s.scoreTwo : ℚ) / 81 ≤ 1 :=
    fun hg => div81_le_one _ (h.scores_le_of_not_over hg).2
  have b1 := div81_bounds _ hs1.1 hs1.2
  have b2 := div81_bounds _ hs2.1 hs2.2
  by_cases hp : s.currentPlayer = Player.ONE
  · rw [s.encodeFeatures_ONE hp]
    split_ifs with c1 c2 c3 c4 c5 c6 c7
    · exact ⟨_, rfl, b2.1, b2.2, fun hl => by omega, fun hg _ => htwo hg⟩
    · exact ⟨_, rfl, b1.1, b1.2, fun hl => by omega, fun hg _ => hone hg⟩
    · exact ⟨_, rfl, (hcell _).1, (hcell _).2, fun hl => by omega, fun _ hl => by omega⟩
    · exact ⟨_, rfl, (hcell _).1, (hcell _).2, fun hl => by omega, fun _ hl => by omega⟩
    · exact ⟨1, rfl, by norm_num, by norm_num, fun _ => Or.inr rfl, fun _ hl => by omega⟩
    · exact ⟨1, rfl, by norm_num, by norm_num, fun _ => Or.inr rfl, fun _ hl => by omega⟩
    · exact ⟨0, rfl, by norm_num, by norm_num, fun _ => Or.inl rfl, fun _ hl => by omega⟩
    · omega
  · rw [s.encodeFeatures_not_ONE hp]
    split_ifs with c1 c2 c3 c4 c5 c6 c7
    · exact ⟨_, rfl, b1.1, b1.2, fun hl => by omega, fun hg _ => hone hg⟩
    · exact ⟨_, rfl, b2.1, b2.2, fun hl => by omega, fun hg _ => htwo hg⟩
    · exact ⟨_, rfl, (hcell _).1, (hcell _).2, fun hl => by omega, fun _ hl => by omega⟩
    · exact ⟨_, rfl, (hcell _).1, (hcell _).2, fun hl => by omega, fun _ hl => by omega⟩
    · exact ⟨1, rfl, by norm_num, by norm_num, fun _ => Or.inr rfl, fun _ hl => by omega⟩
    · exact ⟨1, rfl, by norm_num, by norm_num, fun _ => Or.inr rfl, fun _ hl => by omega⟩
    · exact ⟨0, rfl, by norm_num, by norm_num, fun _ => Or.inl rfl, fun _ hl => by omega⟩
    · omega

/-- The heuristic value of a move from a reachable state lies between -2 and 2. -/
theorem Reachable.moveValue_bounds {s t : GameState} (h : Reachable s) (m : Int)
    (h0 : 0 ≤ m) (h8 : m ≤ 8) (ht : s.move m = some t) :
    (-2 : ℚ) ≤ (scoreDiff s t - scoreDiff s s) / 81 ∧
      (scoreDiff s t - scoreDiff s s) / 81 ≤ 2 := by
  obtain ⟨-, ⟨a1, -⟩, ⟨a2, -⟩, -⟩ := h.bounds
  obtain ⟨-, ⟨-, b1⟩, ⟨-, b2⟩, -⟩ := (Reachable.move m h h0 h8 ht).bounds
  obtain ⟨m1, m2⟩ := GameState.move_scores_le s t m h.nonNeg ht
  unfold scoreDiff
  split_ifs
  · rw [← Int.cast_sub, le_div_iff₀ (by norm_num), div_le_iff₀ (by norm_num)]
    constructor
    · have : (-162 : Int) ≤ t.scoreOne - t.scoreTwo - (s.scoreOne - s.scoreTwo) := by omega
      have := (Int.cast_le (R := ℚ)).2 this
      push_cast at this ⊢
      linarith
    · have : t.scoreOne - t.scoreTwo - (s.scoreOne - s.scoreTwo) ≤ (162 : Int) := by omega
      have := (Int.cast_le (R := ℚ)).2 this
      push_cast at this ⊢
      linarith
  · rw [← Int.cast_sub, le_div_iff₀ (by norm_num), div_le_iff₀ (by norm_num)]
    constructor
    · have : (-162 : Int) ≤ t.scoreTwo - t.scoreOne - (s.scoreTwo - s.scoreOne) := by omega
      have := (Int.cast_le (R := ℚ)).2 this
      push_cast at this ⊢
      linarith
    · have : t.scoreTwo - t.scoreOne - (s.scoreTwo - s.scoreOne) ≤ (162 : Int) := by omega
      have := (Int.cast_le (R := ℚ)).2 this
      push_cast at this ⊢
      linarith

/-- C16, refuted as stated: on the default start entry 39 of `encode()`, the
heuristic value of move 1, is 10/81 and not 1/81 (move 1 sows its last pebble
on cell 9, which then holds 10 pebbles, and captures them). -/
theorem encode_init_counterexample :
    GameState.init.encode.map (fun out => out[39]?) = some (some (10 / 81)) ∧
    (10 / 81 : ℚ) ≠ 1 / 81 ∧
    GameState.init.encode ≠ some
      [0, 0, 0, 0, 0, 0, 0, 0, 0, 0, 0, 0, 0, 0, 0, 0, 0, 0,
       1 / 9, 1 / 9, 1 / 9, 1 / 9, 1 / 9, 1 / 9, 1 / 9, 1 / 9, 1 / 9,
       1 / 9, 1 / 9, 1 / 9, 1 / 9, 1 / 9, 1 / 9, 1 / 9, 1 / 9, 1 / 9,
       0, 0,
       0, 1 / 81, 1 / 81, 1 / 81, 1 / 81, 1 / 81, 1 / 81, 1 / 81, 1 / 81] :=
  ⟨by decide!, by norm_num, by decide!⟩

/-- C16, amended: on the default start, `encode()` equals 18 zeros, then 18
entries equal to 1/9, then two zeros (the scores), then the nine heuristic
entries 0, 10/81, 10/81, 10/81, 10/81, 10/81, 10/81, 10/81, 10/81. -/
theorem encode_init :
    GameState.init.encode = some
      [0, 0, 0, 0, 0, 0, 0, 0, 0, 0, 0, 0, 0, 0, 0, 0, 0, 0,
       1 / 9, 1 / 9, 1 / 9, 1 / 9, 1 / 9, 1 / 9, 1 / 9, 1 / 9, 1 / 9,
       1 / 9, 1 / 9, 1 / 9, 1 / 9, 1 / 9, 1 / 9, 1 / 9, 1 / 9, 1 / 9,
       0, 0,
       0, 10 / 81, 10 / 81, 10 / 81, 10 / 81, 10 / 81, 10 / 81, 10 / 81, 10 / 81] := by
  decide!

/-! ## Claims C17 and C18: `AverageValue` -/

/-- C17: for `p` ONE or TWO and every value `v`, `fromEvaluation(p, v)` on any
`AverageValue` returns normally and leaves an object with support 1, with
`getValue(p) = v` and `getValue(opponent(p)) = -v`; `fromEvaluation(NONE, v)`
throws. -/
theorem fromEvaluation_getValue (a : AverageValue) (v : ℚ) :
    (∀ p : Player, p = Player.ONE ∨ p = Player.TWO →
      ∃ b : AverageValue, a.fromEvaluation p v = Except.ok b ∧ b.support = 1 ∧
        b.getValue p = some v ∧ b.getValue (opponent p) = some (-v)) ∧
    (∃ b : AverageValue, a.fromEvaluation Player.NONE v = Except.error b) := by
  refine ⟨fun p hp => ?_, ⟨_, rfl⟩⟩
  rcases hp with hp | hp
  · subst hp
    refine ⟨_, rfl, rfl, ?_, ?_⟩
    · simp [AverageValue.getValue]
    · simp [AverageValue.getValue, opponent]
  · subst hp
    refine ⟨_, rfl, rfl, ?_, ?_⟩
    · simp [AverageValue.getValue]
    · simp [AverageValue.getValue, opponent]

theorem fromEvaluation_getValue_witness :
    ∃ b : AverageValue,
      ({ playerOneValue := 5, support := 7 } : AverageValue).fromEvaluation Player.TWO (3 / 5)
        = Except.ok b ∧
      b.support = 1 ∧ b.getValue Player.TWO = some (3 / 5) ∧
      b.getValue (opponent Player.TWO) = some (-(3 / 5)) :=
  (fromEvaluation_getValue { playerOneValue := 5, support := 7 } (3 / 5)).1 Player.TWO
    (Or.inr rfl)

/-- C18: `getValue` returns 0 for every player, NONE included, when the support
is 0; when the support is positive it returns `playerOneValue / support` for
ONE, the negation of that for TWO, and throws for NONE; `getValue(NONE)` throws
if and only if the support is not 0. -/
theorem getValue_cases (a : AverageValue) :
    (a.support = 0 → ∀ p : Player, a.getValue p = some 0) ∧
    (a.support > 0 →
      a.getValue Player.ONE = some (a.playerOneValue / (a.support : ℚ)) ∧
      a.getValue Player.TWO = some (-(a.playerOneValue / (a.support : ℚ))) ∧
      a.getValue Player.NONE = none) ∧
    (a.getValue Player.NONE = none ↔ a.support ≠ 0) := by
  refine ⟨fun h p => ?_, fun h => ?_, ?_⟩
  · simp [AverageValue.getValue, h]
  · have h0 : a.support ≠ 0 := by omega
    simp [AverageValue.getValue, h0, neg_div]
  · by_cases h : a.support = 0 <;> simp [AverageValue.getValue, h]

theorem getValue_cases_witness :
    (({ playerOneValue := 5 / 2, support := 5 } : AverageValue).getValue Player.ONE
        = some ((5 / 2 : ℚ) / ((5 : Int) : ℚ)) ∧
      ({ playerOneValue := 5 / 2, support := 5 } : AverageValue).getValue Player.TWO
        = some (-((5 / 2 : ℚ) / ((5 : Int) : ℚ))) ∧
      ({ playerOneValue := 5 / 2, support := 5 } : AverageValue).getValue Player.NONE = none) ∧
    (∀ p : Player, ({} : AverageValue).getValue p = some 0) :=
  ⟨(getValue_cases { playerOneValue := 5 / 2, support := 5 }).2.1 (by decide),
    (getValue_cases {}).1 rfl⟩

/-! ## Claim C20: `Outcomes::winRateFor` -/

theorem Outcomes.addWinner_nonneg (o : Outcomes) (w : Player)
    (h : 0 ≤ o.first ∧ 0 ≤ o.second ∧ 0 ≤ o.ties) :
    0 ≤ (o.addWinner w).first ∧ 0 ≤ (o.addWinner w).second ∧ 0 ≤ (o.addWinner w).ties := by
  cases w <;> simp only [Outcomes.addWinner] <;> omega

theorem Outcomes.foldl_addWinner_nonneg (winners : List Player) (o : Outcomes)
    (h : 0 ≤ o.first ∧ 0 ≤ o.second ∧ 0 ≤ o.ties) :
    0 ≤ (winners.foldl Outcomes.addWinner o).first ∧
    0 ≤ (winners.foldl Outcomes.addWinner o).second ∧
    0 ≤ (winners.foldl Outcomes.addWinner o).ties := by
  induction winners generalizing o with
  | nil => exact h
  | cons w ws ih => exact ih _ (o.addWinner_nonneg w h)

theorem Outcomes.tally_nonneg (winners : List Player) :
    0 ≤ (Outcomes.tally winners).first ∧ 0 ≤ (Outcomes.tally winners).second ∧
    0 ≤ (Outcomes.tally winners).ties :=
  Outcomes.foldl_addWinner_nonneg winners {} ⟨le_refl _, le_refl _, le_refl _⟩

/-- The win rate of a tally without negative counters lies between 0 and 1. -/
theorem Outcomes.winRateFor_bounds (o : Outcomes) (p : Player)
    (h : 0 ≤ o.first ∧ 0 ≤ o.second ∧ 0 ≤ o.ties) :
    0 ≤ o.winRateFor p ∧ o.winRateFor p ≤ 1 := by
  obtain ⟨h1, h2, h3⟩ := h
  have q1 : (0 : ℚ) ≤ (o.first : ℚ) := by exact_mod_cast h1
  have q2 : (0 : ℚ) ≤ (o.second : ℚ) := by exact_mod_cast h2
  have q3 : (0 : ℚ) ≤ (o.ties : ℚ) := by exact_mod_cast h3
  unfold Outcomes.winRateFor
  simp only
  split_ifs with h0
  · exact ⟨le_refl _, by norm_num⟩
  · have hpos : (0 : ℚ) < (o.getTotalOutcomes : ℚ) := by
      have : 0 < o.getTotalOutcomes := by
        unfold Outcomes.getTotalOutcomes at h0 ⊢
        omega
      exact_mod_cast this
    have htot : (o.getTotalOutcomes : ℚ) = (o.first : ℚ) + (o.second : ℚ) + (o.ties : ℚ) := by
      unfold Outcomes.getTotalOutcomes
      push_cast
      ring
    cases p <;> simp only [] <;> constructor
    · exact div_nonneg (by linarith) hpos.le
    · rw [div_le_one hpos, htot]; linarith
    · exact div_nonneg (by linarith) hpos.le
    · rw [div_le_one hpos, htot]; linarith
    · exact div_nonneg (by linarith) hpos.le
    · rw [div_le_one hpos, htot]; linarith

/-- C20: for every tally obtained from the empty tally by `addWinner` calls, the
three counters are not negative; `winRateFor` returns 0 when the total is 0,
and otherwise `(wins_p + ties / 2) / total` for `p` ONE or TWO and
`ties / total` for NONE; the result always lies in [0, 1]. -/
theorem winRateFor_tally (winners : List Player) (p : Player) :
    (0 ≤ (Outcomes.tally winners).first ∧ 0 ≤ (Outcomes.tally winners).second ∧
      0 ≤ (Outcomes.tally winners).ties) ∧
    ((Outcomes.tally winners).getTotalOutcomes = 0 → (Outcomes.tally winners).winRateFor p = 0) ∧
    ((Outcomes.tally winners).getTotalOutcomes ≠ 0 →
      (Outcomes.tally winners).winRateFor Player.ONE =
        (((Outcomes.tally winners).first : ℚ) + ((Outcomes.tally winners).ties : ℚ) / 2) /
          ((Outcomes.tally winners).getTotalOutcomes : ℚ) ∧
      (Outcomes.tally winners).winRateFor Player.TWO =
        (((Outcomes.tally winners).second : ℚ) + ((Outcomes.tally winners).ties : ℚ) / 2) /
          ((Outcomes.tally winners).getTotalOutcomes : ℚ) ∧
      (Outcomes.tally winners).winRateFor Player.NONE =
        ((Outcomes.tally winners).ties : ℚ) / ((Outcomes.tally winners).getTotalOutcomes : ℚ)) ∧
    0 ≤ (Outcomes.tally winners).winRateFor p ∧ (Outcomes.tally winners).winRateFor p ≤ 1 := by
  have hn := Outcomes.tally_nonneg winners
  refine ⟨hn, fun h0 => ?_, fun h0 => ?_, (Outcomes.tally winners).winRateFor_bounds p hn⟩
  · simp only [Outcomes.winRateFor, h0, if_true]
  · refine ⟨?_, ?_, ?_⟩
    · simp only [Outcomes.winRateFor, h0, if_false, one_mul]
      congr 1; ring
    · simp only [Outcomes.winRateFor, h0, if_false, one_mul]
      congr 1; ring
    · simp only [Outcomes.winRateFor, h0, if_false, one_mul]

theorem winRateFor_tally_witness :
    (Outcomes.tally [Player.ONE, Player.NONE, Player.TWO, Player.ONE]).winRateFor Player.ONE
      = 5 / 8 ∧
    0 ≤ (Outcomes.tally [Player.ONE, Player.NONE, Player.TWO, Player.ONE]).winRateFor
      Player.ONE ∧
    (Outcomes.tally [Player.ONE, Player.NONE, Player.TWO, Player.ONE]).winRateFor
      Player.ONE ≤ 1 :=
  ⟨by decide!,
    (winRateFor_tally [Player.ONE, Player.NONE, Player.TWO, Player.ONE] Player.ONE).2.2.2⟩

/-! ## The accessors of `TreeNode` -/

theorem TreeNode.eta (n : TreeNode) :
    n = TreeNode.mk n.state n.evaluation n.getAverageValue n.getOutcomes n.getChildStates
      n.isInitialized := by
  cases n; rfl

theorem TreeNode.ext_fields {a b : TreeNode} (h1 : a.state = b.state)
    (h2 : a.evaluation = b.evaluation) (h3 : a.getAverageValue = b.getAverageValue)
    (h4 : a.getOutcomes = b.getOutcomes) (h5 : a.getChildStates = b.getChildStates)
    (h6 : a.isInitialized = b.isInitialized) : a = b := by
  rw [a.eta, b.eta, h1, h2, h3, h4, h5, h6]

@[simp] theorem TreeNode.state_mk (s e a o c i) : (TreeNode.mk s e a o c i).state = s := rfl
@[simp] theorem TreeNode.evaluation_mk (s e a o c i) :
    (TreeNode.mk s e a o c i).evaluation = e := rfl
@[simp] theorem TreeNode.getAverageValue_mk (s e a o c i) :
    (TreeNode.mk s e a o c i).getAverageValue = a := rfl
@[simp] theorem TreeNode.getOutcomes_mk (s e a o c i) :
    (TreeNode.mk s e a o c i).getOutcomes = o := rfl
@[simp] theorem TreeNode.getChildStates_mk (s e a o c i) :
    (TreeNode.mk s e a o c i).getChildStates = c := rfl
@[simp] theorem TreeNode.isInitialized_mk (s e a o c i) :
    (TreeNode.mk s e a o c i).isInitialized = i := rfl

@[simp] theorem TreeNode.state_setEvaluation (n : TreeNode) (e : StateEvaluation) :
    (n.setEvaluation e).state = n.state := by cases n; rfl
@[simp] theorem TreeNode.evaluation_setEvaluation (n : TreeNode) (e : StateEvaluation) :
    (n.setEvaluation e).evaluation = e := by cases n; rfl
@[simp] theorem TreeNode.getAverageValue_setEvaluation (n : TreeNode) (e : StateEvaluation) :
    (n.setEvaluation e).getAverageValue = n.getAverageValue := by cases n; rfl
@[simp] theorem TreeNode.getOutcomes_setEvaluation (n : TreeNode) (e : StateEvaluation) :
    (n.setEvaluation e).getOutcomes = n.getOutcomes := by cases n; rfl
@[simp] theorem TreeNode.getChildStates_setEvaluation (n : TreeNode) (e : StateEvaluation) :
    (n.setEvaluation e).getChildStates = n.getChildStates := by cases n; rfl
@[simp] theorem TreeNode.isInitialized_setEvaluation (n : TreeNode) (e : StateEvaluation) :
    (n.setEvaluation e).isInitialized = n.isInitialized := by cases n; rfl

@[simp] theorem TreeNode.state_setAverageValue (n : TreeNode) (a : AverageValue) :
    (n.setAverageValue a).state = n.state := by cases n; rfl
@[simp] theorem TreeNode.evaluation_setAverageValue (n : TreeNode) (a : AverageValue) :
    (n.setAverageValue a).evaluation = n.evaluation := by cases n; rfl
@[simp] theorem TreeNode.getAverageValue_setAverageValue (n : TreeNode) (a : AverageValue) :
    (n.setAverageValue a).getAverageValue = a := by cases n; rfl
@[simp] theorem TreeNode.getOutcomes_setAverageValue (n : TreeNode) (a : AverageValue) :
    (n.setAverageValue a).getOutcomes = n.getOutcomes := by cases n; rfl
@[simp] theorem TreeNode.getChildStates_setAverageValue (n : TreeNode) (a : AverageValue) :
    (n.setAverageValue a).getChildStates = n.getChildStates := by cases n; rfl
@[simp] theorem TreeNode.isInitialized_setAverageValue (n : TreeNode) (a : AverageValue) :
    (n.setAverageValue a).isInitialized = n.isInitialized := by cases n; rfl

@[simp] theorem TreeNode.state_setChildStates (n : TreeNode) (c : List (Option TreeNode)) :
    (n.setChildStates c).state = n.state := by cases n; rfl
@[simp] theorem TreeNode.evaluation_setChildStates (n : TreeNode) (c : List (Option TreeNode)) :
    (n.setChildStates c).evaluation = n.evaluation := by cases n; rfl
@[simp] theorem TreeNode.getAverageValue_setChildStates (n : TreeNode)
    (c : List (Option TreeNode)) :
    (n.setChildStates c).getAverageValue = n.getAverageValue := by cases n; rfl
@[simp] theorem TreeNode.getOutcomes_setChildStates (n : TreeNode) (c : List (Option TreeNode)) :
    (n.setChildStates c).getOutcomes = n.getOutcomes := by cases n; rfl
@[simp] theorem TreeNode.getChildStates_setChildStates (n : TreeNode)
    (c : List (Option TreeNode)) : (n.setChildStates c).getChildStates = c := by cases n; rfl
@[simp] theorem TreeNode.isInitialized_setChildStates (n : TreeNode)
    (c : List (Option TreeNode)) :
    (n.setChildStates c).isInitialized = n.isInitialized := by cases n; rfl

@[simp] theorem TreeNode.state_setInitialized (n : TreeNode) (i : Bool) :
    (n.setInitialized i).state = n.state := by cases n; rfl
@[simp] theorem TreeNode.evaluation_setInitialized (n : TreeNode) (i : Bool) :
    (n.setInitialized i).evaluation = n.evaluation := by cases n; rfl
@[simp] theorem TreeNode.getAverageValue_setInitialized (n : TreeNode) (i : Bool) :
    (n.setInitialized i).getAverageValue = n.getAverageValue := by cases n; rfl
@[simp] theorem TreeNode.getOutcomes_setInitialized (n : TreeNode) (i : Bool) :
    (n.setInitialized i).getOutcomes = n.getOutcomes := by cases n; rfl
@[simp] theorem TreeNode.getChildStates_setInitialized (n : TreeNode) (i : Bool) :
    (n.setInitialized i).getChildStates = n.getChildStates := by cases n; rfl
@[simp] theorem TreeNode.isInitialized_setInitialized (n : TreeNode) (i : Bool) :
    (n.setInitialized i).isInitialized = i := by cases n; rfl

@[simp] theorem TreeNode.state_update (n : TreeNode) (w : Player) (a : AverageValue) :
    (n.update w a).state = n.state := by cases n; rfl
@[simp] theorem TreeNode.evaluation_update (n : TreeNode) (w : Player) (a : AverageValue) :
    (n.update w a).evaluation = n.evaluation := by cases n; rfl
@[simp] theorem TreeNode.getAverageValue_update (n : TreeNode) (w : Player) (a : AverageValue) :
    (n.update w a).getAverageValue = n.getAverageValue.addAssign a := by cases n; rfl
@[simp] theorem TreeNode.getOutcomes_update (n : TreeNode) (w : Player) (a : AverageValue) :
    (n.update w a).getOutcomes = n.getOutcomes.addWinner w := by cases n; rfl
@[simp] theorem TreeNode.getChildStates_update (n : TreeNode) (w : Player) (a : AverageValue) :
    (n.update w a).getChildStates = n.getChildStates := by cases n; rfl
@[simp] theorem TreeNode.isInitialized_update (n : TreeNode) (w : Player) (a : AverageValue) :
    (n.update w a).isInitialized = n.isInitialized := by cases n; rfl

@[simp] theorem TreeNode.state_create (s : GameState) (k : Nat) :
    (TreeNode.create s k).state = s := rfl
@[simp] theorem TreeNode.evaluation_create (s : GameState) (k : Nat) :
    (TreeNode.create s k).evaluation = StateEvaluation.create k := rfl
@[simp] theorem TreeNode.getAverageValue_create (s : GameState) (k : Nat) :
    (TreeNode.create s k).getAverageValue = {} := rfl
@[simp] theorem TreeNode.getOutcomes_create (s : GameState) (k : Nat) :
    (TreeNode.create s k).getOutcomes = {} := rfl
@[simp] theorem TreeNode.getChildStates_create (s : GameState) (k : Nat) :
    (TreeNode.create s k).getChildStates = List.replicate k none := rfl
@[simp] theorem TreeNode.isInitialized_create (s : GameState) (k : Nat) :
    (TreeNode.create s k).isInitialized = false := rfl

theorem Outcomes.getTotalOutcomes_addWinner (o : Outcomes) (w : Player) :
    (o.addWinner w).getTotalOutcomes = o.getTotalOutcomes + 1 := by
  cases w <;> simp only [Outcomes.addWinner, Outcomes.getTotalOutcomes] <;> omega

theorem TreeNode.getVisits_update (n : TreeNode) (w : Player) (a : AverageValue) :
    (n.update w a).getVisits = n.getVisits + 1 := by
  simp only [TreeNode.getVisits, TreeNode.getOutcomes_update,
    Outcomes.getTotalOutcomes_addWinner]

theorem TreeNode.child_create (s : GameState) (k move : Nat) :
    (TreeNode.create s k).child move = none := by
  unfold TreeNode.child
  rw [TreeNode.getChildStates_create, List.getElem?_replicate]
  split <;> rfl

/-! ## Claim C21: `TreeNode::update` and the constructor -/

theorem ZeroValueUniformEvaluator.create_nine : ZeroValueUniformEvaluator.create 9 = 1 / 9 := by
  norm_num [ZeroValueUniformEvaluator.create]

theorem ZeroValueUniformEvaluator.call_eq (policyValue : ℚ) (nodes : List (Option TreeNode)) :
    ZeroValueUniformEvaluator.call policyValue nodes =
      Except.ok (nodes.map (ZeroValueUniformEvaluator.visit policyValue)) := rfl

theorem ZeroValueUniformEvaluator.evaluatedFrom (policyValue : ℚ) (slot : Option TreeNode) :
    EvaluatedFrom slot (ZeroValueUniformEvaluator.visit policyValue slot) := by
  cases slot with
  | none => exact True.intro
  | some node =>
    rcases Bool.eq_false_or_eq_true node.state.isGameOver with h | h
    · have hv : ZeroValueUniformEvaluator.visit policyValue (some node) = some node := by
        simp [ZeroValueUniformEvaluator.visit, h]
      rw [hv]
      exact ⟨node.evaluation, by cases node; rfl, rfl⟩
    · have hv : ZeroValueUniformEvaluator.visit policyValue (some node) =
          some (node.setEvaluation
            { value := 0,
              policy := List.replicate node.evaluation.policy.length policyValue }) := by
        simp [ZeroValueUniformEvaluator.visit, h]
      rw [hv]
      exact ⟨_, rfl, List.length_replicate _ _⟩

theorem ZeroValueUniformEvaluator.writesEvaluations (policyValue : ℚ) :
    (ZeroValueUniformEvaluator.call policyValue).WritesEvaluations := by
  intro nodes
  simp only [Evaluator.nodesAfter, ZeroValueUniformEvaluator.call_eq, List.length_map,
    List.getElem?_map, true_and]
  intro i
  cases h : nodes[i]? with
  | none => exact True.intro
  | some slot => exact ZeroValueUniformEvaluator.evaluatedFrom policyValue slot

theorem ZeroValueUniformEvaluator.returns (policyValue : ℚ) :
    (ZeroValueUniformEvaluator.call policyValue).Returns :=
  fun _ => ⟨_, rfl⟩

theorem sum_replicate_ninth : (List.replicate 9 (1 / 9 : ℚ)).sum = 1 := by
  norm_num [List.sum_replicate]

/-! ## Claim C27 -/

/-- C27: on every batch, `ZeroValueUniformEvaluator(9)` returns normally and
leaves a batch of the same length in which a null slot is still null, a node
whose state is terminal is unchanged, and a node whose state is not terminal
has evaluation value 0 and every policy entry equal to 1/9, the policy keeping
its size (so a policy of 9 entries sums to 1), with the state, the
`AverageValue`, the outcomes, the children and the initialized flag of the node
unchanged.  The evaluation of a node just constructed has value 0 and 9 policy
entries 0, so that of a fresh terminal node stays zero. -/
theorem zeroValueUniform_batch (nodes : List (Option TreeNode)) (s : GameState) :
    (∃ out : List (Option TreeNode),
      ZeroValueUniformEvaluator.call (ZeroValueUniformEvaluator.create 9) nodes = Except.ok out ∧
      out.length = nodes.length ∧
      ∀ i : Nat, i < nodes.length →
        (nodes[i]? = some none → out[i]? = some none) ∧
        ∀ node : TreeNode, nodes[i]? = some (some node) →
          (node.state.isGameOver = true → out[i]? = some (some node)) ∧
          (node.state.isGameOver = false →
            ∃ node1 : TreeNode, out[i]? = some (some node1) ∧
              node1.evaluation.value = 0 ∧
              node1.evaluation.policy.length = node.evaluation.policy.length ∧
              (∀ j : Nat, j < node.evaluation.policy.length →
                node1.evaluation.policy[j]? = some (1 / 9)) ∧
              (node.evaluation.policy.length = 9 → node1.evaluation.policy.sum = 1) ∧
              node1.state = node.state ∧ node1.getAverageValue = node.getAverageValue ∧
              node1.getOutcomes = node.getOutcomes ∧
              node1.getChildStates = node.getChildStates ∧
              node1.isInitialized = node.isInitialized)) ∧
    ((TreeNode.create s NUM_MOVES).evaluation.value = 0 ∧
      (TreeNode.create s NUM_MOVES).evaluation.policy = List.replicate 9 0) := by
  refine ⟨⟨_, rfl, List.length_map _ _, ?_⟩, rfl, rfl⟩
  intro i _
  rw [List.getElem?_map, ZeroValueUniformEvaluator.create_nine]
  refine ⟨fun h => by rw [h]; rfl, fun node h => ?_⟩
  rw [h]
  refine ⟨fun hover => ?_, fun hover => ?_⟩
  · simp [ZeroValueUniformEvaluator.visit, hover]
  · refine ⟨node.setEvaluation
      { value := 0, policy := List.replicate node.evaluation.policy.length (1 / 9) }, ?_,
      ?_, ?_, ?_, ?_, ?_, ?_, ?_, ?_, ?_⟩
    · simp [ZeroValueUniformEvaluator.visit, hover]
    · simp
    · simp
    · intro j hj
      simp [List.getElem?_replicate, hj]
    · intro h9
      rw [TreeNode.evaluation_setEvaluation, h9]
      exact sum_replicate_ninth
    · simp
    · simp
    · simp
    · simp
    · simp

/-! ## The loops of `TreeNode::initChildren` -/

theorem TreeNode.child_eq_some (n : TreeNode) (i : Nat) (c : TreeNode) :
    n.child i = some c ↔ n.getChildStates[i]? = some (some c) := by
  unfold TreeNode.child
  exact Option.join_eq_some

theorem TreeNode.child_isSome_lt (n : TreeNode) (i : Nat) (h : (n.child i).isSome = true) :
    i < n.getChildStates.length := by
  obtain ⟨c, hc⟩ := Option.isSome_iff_exists.1 h
  rw [TreeNode.child_eq_some] at hc
  exact (List.getElem?_eq_some.1 hc).1

/-- The first loop of `initChildren` does not leave the defined behaviour when
the moves it visits are inside the vector of children: it fills the slot of
every allowed move and leaves the other slots. -/
theorem TreeNode.createChildren_spec (state : GameState) (k : Nat) (l : List Nat)
    (cs : List (Option TreeNode)) (hnd : l.Nodup) (hl : ∀ i ∈ l, i < cs.length) :
    ∃ out : List (Option TreeNode),
      TreeNode.createChildren state k l cs = some out ∧ out.length = cs.length ∧
      (∀ i ∈ l, state.isMoveAllowed (i : Int) = true →
        ∃ t, state.move (i : Int) = some t ∧ out[i]? = some (some (TreeNode.create t k))) ∧
      (∀ j, j ∉ l ∨ state.isMoveAllowed (j : Int) = false → out[j]? = cs[j]?) := by
  induction l generalizing cs with
  | nil => exact ⟨cs, rfl, rfl, by simp, fun _ _ => rfl⟩
  | cons i l ih =>
    have hil : i ∉ l := (List.nodup_cons.1 hnd).1
    have hnd1 : l.Nodup := (List.nodup_cons.1 hnd).2
    have hi : i < cs.length := hl i (List.mem_cons_self _ _)
    rcases Bool.eq_false_or_eq_true (state.isMoveAllowed (i : Int)) with ha | ha
    · obtain ⟨t, ht, -⟩ := state.move_eq (i : Int) ha
      obtain ⟨out, ho, hlen, hy, hrest⟩ := ih (cs.set i (some (TreeNode.create t k))) hnd1
        (fun j hj => by rw [List.length_set]; exact hl j (List.mem_cons_of_mem _ hj))
      refine ⟨out, ?_, ?_, ?_, ?_⟩
      · simp only [TreeNode.createChildren, ha, Bool.not_true, Bool.false_eq_true, if_false, ht,
          hi, if_true]
        exact ho
      · rw [hlen, List.length_set]
      · intro j hj hja
        rcases List.mem_cons.1 hj with e | hj1
        · subst e
          refine ⟨t, ht, ?_⟩
          rw [hrest j (Or.inl hil), List.getElem?_set_self hi]
        · exact hy j hj1 hja
      · intro j hj
        have hne : i ≠ j := by
          rintro rfl
          rcases hj with hj | hj
          · exact hj (List.mem_cons_self _ _)
          · rw [ha] at hj; cases hj
        rw [hrest j (hj.imp (fun h hm => h (List.mem_cons_of_mem _ hm)) id),
          List.getElem?_set_ne hne]
    · obtain ⟨out, ho, hlen, hy, hrest⟩ := ih cs hnd1
        (fun j hj => hl j (List.mem_cons_of_mem _ hj))
      refine ⟨out, ?_, hlen, ?_, ?_⟩
      · simp only [TreeNode.createChildren, ha, Bool.not_false, if_true]
        exact ho
      · intro j hj hja
        rcases List.mem_cons.1 hj with e | hj1
        · subst e; rw [ha] at hja; cases hja
        · exact hy j hj1 hja
      · intro j hj
        by_cases hji : j = i
        · subst hji
          exact hrest j (Or.inl hil)
        · refine hrest j (hj.imp (fun h hm => h ?_) id)
          exact List.mem_cons_of_mem _ hm

theorem AverageValue.fromEvaluation_ONE (a : AverageValue) (v : ℚ) :
    a.fromEvaluation Player.ONE v = Except.ok { playerOneValue := v, support := 1 } := rfl

theorem AverageValue.fromEvaluation_TWO (a : AverageValue) (v : ℚ) :
    a.fromEvaluation Player.TWO v = Except.ok { playerOneValue := -v, support := 1 } := rfl

theorem AverageValue.fromEvaluation_NONE (a : AverageValue) (v : ℚ) :
    a.fromEvaluation Player.NONE v = Except.error { a with support := 1 } := rfl

/-- The `AverageValue` that the last loop of `initChildren` leaves in a child
whose player to move is ONE or TWO. -/
theorem TreeNode.fromEvaluation_seed (c : TreeNode) (h : c.state.currentPlayer ≠ Player.NONE) :
    c.getAverageValue.fromEvaluation c.state.currentPlayer c.evaluation.value =
      Except.ok { playerOneValue := seedValue (some c), support := 1 } := by
  unfold seedValue
  cases hp : c.state.currentPlayer with
  | ONE => simp [AverageValue.fromEvaluation_ONE, hp]
  | TWO => simp [AverageValue.fromEvaluation_TWO, hp]
  | NONE => exact absurd hp h

/-- What the last loop of `initChildren` has done when it ends normally. -/
theorem TreeNode.seedChildren_returned (l : List Nat) (cs : List (Option TreeNode))
    (acc : AverageValue) (out : List (Option TreeNode)) (v : AverageValue) (hnd : l.Nodup)
    (h : TreeNode.seedChildren l cs acc = Call.returned out v) :
    out.length = cs.length ∧
    (∀ i ∈ l, i < cs.length) ∧
    (∀ i ∈ l, ∀ c, cs[i]? = some (some c) →
      c.state.currentPlayer ≠ Player.NONE ∧
      out[i]? = some (some (c.setAverageValue
        { playerOneValue := seedValue (some c), support := 1 }))) ∧
    (∀ j, j ∉ l ∨ cs[j]? = some none → out[j]? = cs[j]?) ∧
    v.support = acc.support + ((l.filter (fun i => ((cs[i]?).join).isSome)).length : Int) ∧
    v.playerOneValue = acc.playerOneValue + (l.map (fun i => seedValue (cs[i]?).join)).sum := by
  induction l generalizing cs acc with
  | nil =>
    simp only [TreeNode.seedChildren, Call.returned.injEq] at h
    obtain ⟨rfl, rfl⟩ := h
    simp
  | cons i l ih =>
    have hil : i ∉ l := (List.nodup_cons.1 hnd).1
    have hnd1 : l.Nodup := (List.nodup_cons.1 hnd).2
    cases hci : cs[i]? with
    | none => simp [TreeNode.seedChildren, hci] at h
    | some slot =>
      have hi : i < cs.length := (List.getElem?_eq_some.1 hci).1
      cases slot with
      | none =>
        simp only [TreeNode.seedChildren, hci] at h
        obtain ⟨h1, h2, h3, h4, h5, h6⟩ := ih cs acc hnd1 h
        refine ⟨h1, ?_, ?_, ?_, ?_, ?_⟩
        · intro j hj
          rcases List.mem_cons.1 hj with e | hj1
          · subst e; exact hi
          · exact h2 j hj1
        · intro j hj c hc
          rcases List.mem_cons.1 hj with e | hj1
          · subst e; rw [hci] at hc; cases hc
          · exact h3 j hj1 c hc
        · intro j hj
          by_cases hji : j = i
          · subst hji; exact h4 j (Or.inl hil)
          · refine h4 j (hj.imp (fun h hm => h (List.mem_cons_of_mem _ hm)) id)
        · rw [h5, List.filter_cons]
          simp [hci]
        · rw [h6, List.map_cons, List.sum_cons]
          simp [hci, seedValue]
      | some c =>
        by_cases hp : c.state.currentPlayer = Player.NONE
        · simp [TreeNode.seedChildren, hci, hp, AverageValue.fromEvaluation_NONE] at h
        · have hf := TreeNode.fromEvaluation_seed c hp
          simp only [TreeNode.seedChildren, hci, hf] at h
          have hne : ∀ j ∈ l, i ≠ j := fun j hj e => hil (by rw [e]; exact hj)
          obtain ⟨h1, h2, h3, h4, h5, h6⟩ := ih _ _ hnd1 h
          rw [List.length_set] at h1 h2
          refine ⟨h1, ?_, ?_, ?_, ?_, ?_⟩
          · intro j hj
            rcases List.mem_cons.1 hj with e | hj1
            · subst e; exact hi
            · exact h2 j hj1
          · intro j hj d hd
            rcases List.mem_cons.1 hj with e | hj1
            · subst e
              rw [hci] at hd
              cases hd
              refine ⟨hp, ?_⟩
              rw [h4 j (Or.inl hil), List.getElem?_set_self hi]
            · exact h3 j hj1 d (by rw [List.getElem?_set_ne (hne j hj1)]; exact hd)
          · intro j hj
            have hji : i ≠ j := by
              rintro rfl
              rcases hj with hj | hj
              · exact hj (List.mem_cons_self _ _)
              · rw [hci] at hj; cases hj
            rw [h4 j (by
              rcases hj with hj | hj
              · exact Or.inl (fun hm => hj (List.mem_cons_of_mem _ hm))
              · exact Or.inr (by rw [List.getElem?_set_ne hji]; exact hj)),
              List.getElem?_set_ne hji]
          · have hj : ((cs[i]?).join).isSome = true := by rw [hci]; rfl
            have hfe : l.filter (fun j => (((cs.set i (some (c.setAverageValue
                { playerOneValue := seedValue (some c), support := 1 })))[j]?).join).isSome) =
                l.filter (fun j => ((cs[j]?).join).isSome) := by
              apply List.filter_congr
              intro j hj
              rw [List.getElem?_set_ne (hne j hj)]
            have hfc : (i :: l).filter (fun j => ((cs[j]?).join).isSome) =
                i :: l.filter (fun j => ((cs[j]?).join).isSome) :=
              List.filter_cons_of_pos hj
            rw [h5, hfe, hfc, List.length_cons]
            simp only [AverageValue.addAssign]
            push_cast
            ring
          · have hj : (cs[i]?).join = some c := by rw [hci]; rfl
            have hme : l.map (fun j => seedValue ((cs.set i (some (c.setAverageValue
                { playerOneValue := seedValue (some c), support := 1 })))[j]?).join) =
                l.map (fun j => seedValue (cs[j]?).join) := by
              apply List.map_congr_left
              intro j hj
              rw [List.getElem?_set_ne (hne j hj)]
            rw [h6, hme, List.map_cons, List.sum_cons]
            simp only [hj, AverageValue.addAssign]
            ring

/-- The last loop of `initChildren` ends normally when the moves it visits are
inside the vector of children and no child has NONE to move. -/
theorem TreeNode.seedChildren_total (l : List Nat) (cs : List (Option TreeNode))
    (acc : AverageValue) (hl : ∀ i ∈ l, i < cs.length)
    (hp : ∀ i ∈ l, ∀ c, cs[i]? = some (some c) → c.state.currentPlayer ≠ Player.NONE) :
    ∃ out v, TreeNode.seedChildren l cs acc = Call.returned out v := by
  induction l generalizing cs acc with
  | nil => exact ⟨cs, acc, rfl⟩
  | cons i l ih =>
    have hi : i < cs.length := hl i (List.mem_cons_self _ _)
    cases hci : cs[i]? with
    | none =>
      have := List.getElem?_eq_none_iff.1 hci
      omega
    | some slot =>
      cases slot with
      | none =>
        simp only [TreeNode.seedChildren, hci]
        exact ih cs acc (fun j hj => hl j (List.mem_cons_of_mem _ hj))
          (fun j hj => hp j (List.mem_cons_of_mem _ hj))
      | some c =>
        have hf := TreeNode.fromEvaluation_seed c (hp i (List.mem_cons_self _ _) c hci)
        simp only [TreeNode.seedChildren, hci, hf]
        refine ih _ _ (fun j hj => by
          rw [List.length_set]; exact hl j (List.mem_cons_of_mem _ hj)) ?_
        intro j hj d hd
        by_cases hji : i = j
        · subst hji
          rw [List.getElem?_set_self hi] at hd
          cases hd
          rw [TreeNode.state_setAverageValue]
          exact hp i (List.mem_cons_self _ _) c hci
        · rw [List.getElem?_set_ne hji] at hd
          exact hp j (List.mem_cons_of_mem _ hj) d hd

/-- The last loop of `initChildren` keeps the length of the vector of children
and which of its slots are empty, also when it throws. -/
theorem TreeNode.seedChildren_thrown (l : List Nat) (cs : List (Option TreeNode))
    (acc : AverageValue) (left : List (Option TreeNode))
    (h : TreeNode.seedChildren l cs acc = Call.thrown left) :
    left.length = cs.length ∧
    ∀ j : Nat, ((left[j]?).join).isSome = ((cs[j]?).join).isSome := by
  induction l generalizing cs acc with
  | nil => simp [TreeNode.seedChildren] at h
  | cons i l ih =>
    cases hci : cs[i]? with
    | none => simp [TreeNode.seedChildren, hci] at h
    | some slot =>
      have hi : i < cs.length := (List.getElem?_eq_some.1 hci).1
      have key : ∀ (x : TreeNode) (j : Nat), slot.isSome = true →
          (((cs.set i (some x))[j]?).join).isSome = ((cs[j]?).join).isSome := by
        intro x j hs
        by_cases hji : i = j
        · subst hji
          rw [List.getElem?_set_self hi, hci]
          simpa using hs.symm
        · rw [List.getElem?_set_ne hji]
      cases slot with
      | none =>
        simp only [TreeNode.seedChildren, hci] at h
        exact ih cs acc h
      | some c =>
        simp only [TreeNode.seedChildren, hci] at h
        cases hf : c.getAverageValue.fromEvaluation c.state.currentPlayer c.evaluation.value with
        | error a =>
          rw [hf] at h
          simp only [Call.thrown.injEq] at h
          subst h
          exact ⟨List.length_set _ _ _, fun j => key _ j rfl⟩
        | ok a =>
          rw [hf] at h
          obtain ⟨h1, h2⟩ := ih _ _ h
          rw [List.length_set] at h1
          exact ⟨h1, fun j => by rw [h2 j, key _ j rfl]⟩

/-! ## `TreeNode::initChildren` -/

theorem TreeNode.initChildren_initialized (n : TreeNode) (evaluator : Evaluator)
    (h : n.isInitialized = true) : n.initChildren evaluator = Call.returned n none := by
  simp [TreeNode.initChildren, h]

/-- The batch that `initChildren` passes to the evaluator on a node that it has
not been called on: a new node for every allowed move, in the slot of the move,
and null pointers elsewhere. -/
theorem TreeNode.batch_spec (n : TreeNode) (hn : n.Unexpanded) :
    TreeNode.createChildren n.state NUM_MOVES (List.range NUM_MOVES) n.getChildStates =
      some n.batch ∧
    n.batch.length = NUM_MOVES ∧
    ∀ m : Nat, m < NUM_MOVES →
      (n.state.isMoveAllowed (m : Int) = true →
        ∃ t, n.state.move (m : Int) = some t ∧
          n.batch[m]? = some (some (TreeNode.create t NUM_MOVES))) ∧
      (n.state.isMoveAllowed (m : Int) = false → n.batch[m]? = some none) := by
  obtain ⟨-, hk, hc⟩ := hn
  have hlen : n.getChildStates.length = NUM_MOVES := by rw [hc, List.length_replicate]
  obtain ⟨out, ho, hl, hy, hrest⟩ := TreeNode.createChildren_spec n.state NUM_MOVES
    (List.range NUM_MOVES) n.getChildStates (List.nodup_range _)
    (fun i hi => by rw [hlen]; exact List.mem_range.1 hi)
  have hb : n.batch = out := by
    unfold TreeNode.batch StateEvaluation.getNumberOfMoves
    rw [hk, ho]; rfl
  rw [hb]
  refine ⟨ho, hl.trans hlen, fun m hm => ⟨fun ha => hy m (List.mem_range.2 hm) ha, fun ha => ?_⟩⟩
  rw [hrest m (Or.inr ha), hc, List.getElem?_replicate, if_pos hm]

/-- The three ways `initChildren` ends on a node that it has not been called
on. -/
theorem TreeNode.initChildren_eq (n : TreeNode) (evaluator : Evaluator) (hn : n.Unexpanded) :
    n.initChildren evaluator =
      match evaluator n.batch with
      | Except.error left => Call.thrown ((n.setInitialized true).setChildStates left)
      | Except.ok evaluated =>
        match TreeNode.seedChildren (List.range NUM_MOVES) evaluated {} with
        | Call.undefined => Call.undefined
        | Call.thrown left => Call.thrown ((n.setInitialized true).setChildStates left)
        | Call.returned seeded childrenAverageValue =>
          Call.returned ((n.setInitialized true).setChildStates seeded)
            (some childrenAverageValue) := by
  obtain ⟨hb, -, -⟩ := n.batch_spec hn
  obtain ⟨hi, hk, -⟩ := hn
  unfold TreeNode.initChildren
  simp only [hi, Bool.false_eq_true, if_false, TreeNode.evaluation_setInitialized,
    TreeNode.state_setInitialized, TreeNode.getChildStates_setInitialized,
    StateEvaluation.getNumberOfMoves, hk, hb]

/-- What an evaluator that keeps to its interface leaves in a slot of the
batch. -/
theorem Evaluator.WritesEvaluations.slot {evaluator : Evaluator}
    (h : evaluator.WritesEvaluations) (nodes : List (Option TreeNode)) (i : Nat)
    (hi : i < nodes.length) :
    (nodes[i]? = some none → (evaluator.nodesAfter nodes)[i]? = some none) ∧
    (∀ c, nodes[i]? = some (some c) →
      ∃ e : StateEvaluation,
        (evaluator.nodesAfter nodes)[i]? = some (some (c.setEvaluation e)) ∧
          e.policy.length = c.evaluation.policy.length) := by
  obtain ⟨hlen, hs⟩ := h nodes
  have hs := hs i
  have hi1 : i < (evaluator.nodesAfter nodes).length := by rw [hlen]; exact hi
  obtain ⟨slot, hslot⟩ : ∃ slot, (evaluator.nodesAfter nodes)[i]? = some slot := by
    cases ho : (evaluator.nodesAfter nodes)[i]? with
    | none =>
      have := List.getElem?_eq_none_iff.1 ho
      omega
    | some slot => exact ⟨slot, rfl⟩
  rw [hslot] at hs ⊢
  constructor
  · intro hn
    rw [hn] at hs
    cases slot with
    | none => rfl
    | some x => exact hs.elim
  · intro c hc
    rw [hc] at hs
    cases slot with
    | none => exact hs.elim
    | some x =>
      obtain ⟨e, he, hl⟩ := hs
      exact ⟨e, by rw [he], hl⟩

theorem Evaluator.nodesAfter_ok {evaluator : Evaluator} {nodes out : List (Option TreeNode)}
    (h : evaluator nodes = Except.ok out) : evaluator.nodesAfter nodes = out := by
  simp [Evaluator.nodesAfter, h]

theorem Evaluator.nodesAfter_error {evaluator : Evaluator} {nodes out : List (Option TreeNode)}
    (h : evaluator nodes = Except.error out) : evaluator.nodesAfter nodes = out := by
  simp [Evaluator.nodesAfter, h]

/-- The children that an evaluator that keeps to its interface leaves, whether
it returns or throws, on a node that `initChildren` has not been called on. -/
theorem TreeNode.evaluated_spec (n : TreeNode) (evaluator : Evaluator) (hn : n.Unexpanded)
    (hev : evaluator.WritesEvaluations) :
    (evaluator.nodesAfter n.batch).length = NUM_MOVES ∧
    ∀ m : Nat, m < NUM_MOVES →
      (n.state.isMoveAllowed (m : Int) = true →
        ∃ t e, n.state.move (m : Int) = some t ∧ e.policy.length = NUM_MOVES ∧
          (evaluator.nodesAfter n.batch)[m]? =
            some (some ((TreeNode.create t NUM_MOVES).setEvaluation e))) ∧
      (n.state.isMoveAllowed (m : Int) = false →
        (evaluator.nodesAfter n.batch)[m]? = some none) := by
  obtain ⟨-, hl, hb⟩ := n.batch_spec hn
  refine ⟨by rw [(hev n.batch).1, hl], fun m hm => ⟨fun ha => ?_, fun ha => ?_⟩⟩
  · obtain ⟨t, ht, hbm⟩ := (hb m hm).1 ha
    obtain ⟨e, he, hel⟩ := (hev.slot n.batch m (by rw [hl]; exact hm)).2 _ hbm
    exact ⟨t, e, ht, by rw [hel]; simp [StateEvaluation.create], he⟩
  · exact (hev.slot n.batch m (by rw [hl]; exact hm)).1 ((hb m hm).2 ha)

/-- The node and the value that `initChildren` returns on a node that it has
not been called on, with an evaluator that keeps to its interface. -/
theorem TreeNode.initChildren_returned_spec (n n1 : TreeNode) (evaluator : Evaluator)
    (r : Option AverageValue) (hn : n.Unexpanded) (hev : evaluator.WritesEvaluations)
    (h : n.initChildren evaluator = Call.returned n1 r) :
    ∃ (v : AverageValue) (evaluated : List (Option TreeNode)),
      r = some v ∧ evaluator n.batch = Except.ok evaluated ∧
      n1.isInitialized = true ∧ n1.state = n.state ∧ n1.evaluation = n.evaluation ∧
      n1.getAverageValue = n.getAverageValue ∧ n1.getOutcomes = n.getOutcomes ∧
      n1.getChildStates.length = NUM_MOVES ∧
      (∀ m : Nat, m < NUM_MOVES →
        (n.state.isMoveAllowed (m : Int) = false →
          evaluated[m]? = some none ∧ n1.child m = none) ∧
        (n.state.isMoveAllowed (m : Int) = true →
          ∃ t e, n.state.move (m : Int) = some t ∧ e.policy.length = NUM_MOVES ∧
            t.currentPlayer ≠ Player.NONE ∧
            evaluated[m]? = some (some ((TreeNode.create t NUM_MOVES).setEvaluation e)) ∧
            n1.child m = some (((TreeNode.create t NUM_MOVES).setEvaluation e).setAverageValue
              { playerOneValue :=
                  seedValue (some ((TreeNode.create t NUM_MOVES).setEvaluation e)),
                support := 1 }))) ∧
      v.support = (n.state.legalMoves.length : Int) ∧
      v.playerOneValue = ((List.range NUM_MOVES).map (fun m => seedValue (n1.child m))).sum := by
  rw [n.initChildren_eq evaluator hn] at h
  cases hevb : evaluator n.batch with
  | error left => simp only [hevb] at h; cases h
  | ok evaluated =>
    simp only [hevb] at h
    obtain ⟨hlen, hslots⟩ := n.evaluated_spec evaluator hn hev
    rw [Evaluator.nodesAfter_ok hevb] at hlen hslots
    cases hseed : TreeNode.seedChildren (List.range NUM_MOVES) evaluated {} with
    | undefined => simp only [hseed] at h; cases h
    | thrown left => simp only [hseed] at h; cases h
    | returned seeded v =>
      simp only [hseed, Call.returned.injEq] at h
      obtain ⟨rfl, rfl⟩ := h
      obtain ⟨h1, -, h3, h4, h5, h6⟩ := TreeNode.seedChildren_returned _ _ _ _ _
        (List.nodup_range _) hseed
      have hchild : ∀ m : Nat, m < NUM_MOVES →
          (n.state.isMoveAllowed (m : Int) = false →
            evaluated[m]? = some none ∧
              ((n.setInitialized true).setChildStates seeded).child m = none) ∧
          (n.state.isMoveAllowed (m : Int) = true →
            ∃ t e, n.state.move (m : Int) = some t ∧ e.policy.length = NUM_MOVES ∧
              t.currentPlayer ≠ Player.NONE ∧
              evaluated[m]? = some (some ((TreeNode.create t NUM_MOVES).setEvaluation e)) ∧
              ((n.setInitialized true).setChildStates seeded).child m =
                some (((TreeNode.create t NUM_MOVES).setEvaluation e).setAverageValue
                  { playerOneValue :=
                      seedValue (some ((TreeNode.create t NUM_MOVES).setEvaluation e)),
                    support := 1 })) := by
        intro m hm
        constructor
        · intro ha
          have he := (hslots m hm).2 ha
          refine ⟨he, ?_⟩
          unfold TreeNode.child
          rw [TreeNode.getChildStates_setChildStates, h4 m (Or.inr he), he]
          rfl
        · intro ha
          obtain ⟨t, e, ht, hel, he⟩ := (hslots m hm).1 ha
          obtain ⟨hp, ho⟩ := h3 m (List.mem_range.2 hm) _ he
          refine ⟨t, e, ht, hel, ?_, he, ?_⟩
          · simpa using hp
          · unfold TreeNode.child
            rw [TreeNode.getChildStates_setChildStates, ho]
            rfl
      refine ⟨v, evaluated, rfl, rfl, by simp, by simp, by simp, by simp, by simp, ?_, hchild,
        ?_, ?_⟩
      · rw [TreeNode.getChildStates_setChildStates, h1, hlen]
      · rw [h5]
        have hf : (List.range NUM_MOVES).filter (fun i => ((evaluated[i]?).join).isSome) =
            n.state.legalMoves := by
          unfold GameState.legalMoves
          apply List.filter_congr
          intro m hm
          have hm1 := List.mem_range.1 hm
          rcases Bool.eq_false_or_eq_true (n.state.isMoveAllowed (m : Int)) with ha | ha
          · obtain ⟨t, e, -, -, he⟩ := (hslots m hm1).1 ha
            rw [he, ha]; rfl
          · rw [(hslots m hm1).2 ha, ha]; rfl
        rw [hf]
        show (0 : Int) + _ = _
        rw [zero_add]
      · rw [h6]
        have hf : (List.range NUM_MOVES).map (fun i => seedValue (evaluated[i]?).join) =
            (List.range NUM_MOVES).map
              (fun m => seedValue (((n.setInitialized true).setChildStates seeded).child m)) := by
          apply List.map_congr_left
          intro m hm
          have hm1 := List.mem_range.1 hm
          rcases Bool.eq_false_or_eq_true (n.state.isMoveAllowed (m : Int)) with ha | ha
          · obtain ⟨t, e, -, -, -, he, hc⟩ := (hchild m hm1).2 ha
            rw [he, hc]
            simp [seedValue]
          · obtain ⟨he, hc⟩ := (hchild m hm1).1 ha
            rw [he, hc]; rfl
        rw [hf]
        show (0 : ℚ) + _ = _
        rw [zero_add]

/-- `initChildren` returns a value on a node that it has not been called on when
the evaluator keeps to its interface and returns, and ONE or TWO is to move. -/
theorem TreeNode.initChildren_total (n : TreeNode) (evaluator : Evaluator) (hn : n.Unexpanded)
    (hev : evaluator.WritesEvaluations) (hret : ∃ out, evaluator n.batch = Except.ok out)
    (hp : n.state.currentPlayer ≠ Player.NONE) :
    ∃ n1 v, n.initChildren evaluator = Call.returned n1 (some v) := by
  obtain ⟨evaluated, hevb⟩ := hret
  obtain ⟨hlen, hslots⟩ := n.evaluated_spec evaluator hn hev
  rw [Evaluator.nodesAfter_ok hevb] at hlen hslots
  obtain ⟨seeded, v, hseed⟩ := TreeNode.seedChildren_total (List.range NUM_MOVES) evaluated {}
    (fun i hi => by rw [hlen]; exact List.mem_range.1 hi)
    (fun i hi c hc => by
      have hm := List.mem_range.1 hi
      rcases Bool.eq_false_or_eq_true (n.state.isMoveAllowed (i : Int)) with ha | ha
      · obtain ⟨t, e, ht, -, he⟩ := (hslots i hm).1 ha
        rw [he] at hc
        cases hc
        obtain ⟨u, hu, hpu, -⟩ := n.state.move_eq (i : Int) ha
        rw [hu] at ht
        cases ht
        rw [TreeNode.state_setEvaluation, TreeNode.state_create, hpu]
        intro hq
        apply hp
        revert hq
        cases n.state.currentPlayer <;> simp [opponent]
      · rw [(hslots i hm).2 ha] at hc
        cases hc)
  refine ⟨(n.setInitialized true).setChildStates seeded, v, ?_⟩
  rw [n.initChildren_eq evaluator hn]
  simp only [hevb, hseed]

theorem TreeNode.unexpanded_create (s : GameState) : (TreeNode.create s NUM_MOVES).Unexpanded :=
  ⟨rfl, List.length_replicate _ _, rfl⟩

/-- However `initChildren` ends on a node that is not initialized, it leaves the
node initialized, with the state, the evaluation, the `AverageValue` and the
outcomes it had; and when it returns, it returns a value. -/
theorem TreeNode.initChildren_uninitialized (n : TreeNode) (evaluator : Evaluator)
    (hi : n.isInitialized = false) :
    (∀ n1 r, n.initChildren evaluator = Call.returned n1 r →
      r.isSome = true ∧ n1.isInitialized = true ∧ n1.state = n.state ∧
      n1.evaluation = n.evaluation ∧ n1.getAverageValue = n.getAverageValue ∧
      n1.getOutcomes = n.getOutcomes) ∧
    (∀ n1, n.initChildren evaluator = Call.thrown n1 →
      n1.isInitialized = true ∧ n1.state = n.state ∧
      n1.evaluation = n.evaluation ∧ n1.getAverageValue = n.getAverageValue ∧
      n1.getOutcomes = n.getOutcomes) := by
  unfold TreeNode.initChildren
  simp only [hi, Bool.false_eq_true, if_false]
  cases TreeNode.createChildren (n.setInitialized true).state
      (n.setInitialized true).evaluation.getNumberOfMoves
      (List.range (n.setInitialized true).evaluation.getNumberOfMoves)
      (n.setInitialized true).getChildStates with
  | none => exact ⟨fun _ _ h => (by cases h), fun _ h => (by cases h)⟩
  | some created =>
    dsimp only
    cases evaluator created with
    | error left =>
      refine ⟨fun _ _ h => (by cases h), fun n1 h => ?_⟩
      simp only [Call.thrown.injEq] at h
      subst h
      simp
    | ok evaluated =>
      dsimp only
      cases TreeNode.seedChildren (List.range (n.setInitialized true).evaluation.getNumberOfMoves)
          evaluated {} with
      | undefined => exact ⟨fun _ _ h => (by cases h), fun _ h => (by cases h)⟩
      | thrown left =>
        refine ⟨fun _ _ h => (by cases h), fun n1 h => ?_⟩
        simp only [Call.thrown.injEq] at h
        subst h
        simp
      | returned seeded v =>
        refine ⟨fun n1 r h => ?_, fun _ h => (by cases h)⟩
        simp only [Call.returned.injEq] at h
        obtain ⟨rfl, rfl⟩ := h
        simp

theorem TreeNode.initChildren_thrown_uninitialized (n n1 : TreeNode) (evaluator : Evaluator)
    (h : n.initChildren evaluator = Call.thrown n1) : n.isInitialized = false := by
  rcases Bool.eq_false_or_eq_true n.isInitialized with hi | hi
  · rw [n.initChildren_initialized evaluator hi] at h; cases h
  · exact hi

/-! ## Claims C23, C24 and C25: `TreeNode::initChildren` -/

/-- C23: after `initChildren` has returned on a node of state `s` that it had not
been called on (not initialized, 9 empty child slots), with an evaluator that
keeps to its interface, for every move `m` of `0..8` the child slot `m` is
non-empty if and only if `s.isMoveAllowed(m)`; and then the state of the child
is `s.move(m)`, its player to move is the opponent of that of `s`, and the child
is not initialized and has 0 visits. -/
theorem initChildren_children (n n1 : TreeNode) (evaluator : Evaluator)
    (r : Option AverageValue) (hn : n.Unexpanded) (hev : evaluator.WritesEvaluations)
    (h : n.initChildren evaluator = Call.returned n1 r) :
    ∀ m : Nat, m < 9 →
      ((n1.child m).isSome = true ↔ n.state.isMoveAllowed (m : Int) = true) ∧
      ∀ c, n1.child m = some c →
        n.state.move (m : Int) = some c.state ∧
        c.state.currentPlayer = opponent n.state.currentPlayer ∧
        c.isInitialized = false ∧ c.getVisits = 0 := by
  obtain ⟨v, evaluated, -, -, -, -, -, -, -, -, hc, -, -⟩ :=
    n.initChildren_returned_spec n1 evaluator r hn hev h
  intro m hm
  rcases Bool.eq_false_or_eq_true (n.state.isMoveAllowed (m : Int)) with ha | ha
  · obtain ⟨t, e, ht, -, -, -, hcm⟩ := (hc m hm).2 ha
    obtain ⟨u, hu, hpu, -⟩ := n.state.move_eq (m : Int) ha
    rw [hu] at ht
    cases ht
    rw [hcm]
    refine ⟨by simp [ha], fun c hcc => ?_⟩
    cases hcc
    exact ⟨by simpa using hu, by simpa using hpu, by simp, rfl⟩
  · obtain ⟨-, hcm⟩ := (hc m hm).1 ha
    rw [hcm]
    exact ⟨by simp [ha], fun c hcc => by cases hcc⟩

theorem initChildren_children_witness :
    ∃ (n1 : TreeNode) (v : AverageValue),
      (TreeNode.create GameState.init NUM_MOVES).initChildren
        (ZeroValueUniformEvaluator.call (ZeroValueUniformEvaluator.create 9)) =
          Call.returned n1 (some v) ∧
      ∀ m : Nat, m < 9 →
        ((n1.child m).isSome = true ↔ GameState.init.isMoveAllowed (m : Int) = true) ∧
        ∀ c, n1.child m = some c →
          GameState.init.move (m : Int) = some c.state ∧
          c.state.currentPlayer = opponent GameState.init.currentPlayer ∧
          c.isInitialized = false ∧ c.getVisits = 0 := by
  obtain ⟨n1, v, h⟩ := (TreeNode.create GameState.init NUM_MOVES).initChildren_total
    (ZeroValueUniformEvaluator.call (ZeroValueUniformEvaluator.create 9))
    (TreeNode.unexpanded_create _) (ZeroValueUniformEvaluator.writesEvaluations _)
    ⟨_, rfl⟩ (by decide)
  exact ⟨n1, v, h, initChildren_children (TreeNode.create GameState.init NUM_MOVES) n1
    (ZeroValueUniformEvaluator.call (ZeroValueUniformEvaluator.create 9)) (some v)
    (TreeNode.unexpanded_create _) (ZeroValueUniformEvaluator.writesEvaluations _) h⟩

/-- What `initChildren` leaves when the evaluator throws on the batch. -/
theorem TreeNode.initChildren_evaluator_error (n : TreeNode) (evaluator : Evaluator)
    (left : List (Option TreeNode)) (hn : n.Unexpanded)
    (hfail : evaluator n.batch = Except.error left) :
    n.initChildren evaluator = Call.thrown ((n.setInitialized true).setChildStates left) := by
  rw [n.initChildren_eq evaluator hn]
  simp only [hfail]

/-- C25, counterexample: on the fresh node of the default start, with an
evaluator that throws, `initChildren` throws and leaves the node initialized
and with a child in each of its 9 slots, and a later `initChildren` returns
empty whatever the evaluator: the node is not evaluated again. -/
theorem initChildren_rollback_counterexample :
    ∃ n1 : TreeNode,
      (TreeNode.create GameState.init NUM_MOVES).initChildren failingEvaluator =
        Call.thrown n1 ∧
      (TreeNode.create GameState.init NUM_MOVES).isInitialized = false ∧
      n1.isInitialized = true ∧
      (∀ m : Nat, m < 9 → (TreeNode.create GameState.init NUM_MOVES).child m = none ∧
        (n1.child m).isSome = true) ∧
      ∀ ev : Evaluator, n1.initChildren ev = Call.returned n1 none := by
  have hn := TreeNode.unexpanded_create GameState.init
  refine ⟨_, TreeNode.initChildren_evaluator_error _ failingEvaluator _ hn rfl, rfl, by simp,
    fun m hm => ⟨TreeNode.child_create _ _ _, ?_⟩,
    fun ev => TreeNode.initChildren_initialized _ ev (by simp)⟩
  have ha : GameState.init.isMoveAllowed (m : Int) = true := by
    have : ∀ k : Fin 9, GameState.init.isMoveAllowed ((k : Nat) : Int) = true := by decide
    exact this ⟨m, hm⟩
  obtain ⟨t, -, hb⟩ := ((TreeNode.batch_spec _ hn).2.2 m hm).1 ha
  unfold TreeNode.child
  rw [TreeNode.getChildStates_setChildStates, hb]
  rfl

/-- C25, as amended: when the evaluator throws on the batch that `initChildren`
passes to it on a node that it had not been called on (not initialized, 9 empty
child slots), `initChildren` throws, and it leaves the node initialized, its
child slots as the evaluator left the batch, and its state, evaluation,
`AverageValue` and outcomes as before the call; when the evaluator keeps to its
interface, slot `m` holds a child if and only if move `m` is allowed, and that
child is a node of the state `move(m)` that is not initialized and whose
`AverageValue` has support 0; a later `initChildren` on the node returns empty
and leaves the node as it is, whatever the evaluator. -/
theorem initChildren_evaluator_throws (n : TreeNode) (evaluator : Evaluator)
    (left : List (Option TreeNode)) (hn : n.Unexpanded)
    (hfail : evaluator n.batch = Except.error left) :
    ∃ n1 : TreeNode,
      n.initChildren evaluator = Call.thrown n1 ∧
      n1.isInitialized = true ∧ n1.getChildStates = left ∧
      n1.state = n.state ∧ n1.evaluation = n.evaluation ∧
      n1.getAverageValue = n.getAverageValue ∧ n1.getOutcomes = n.getOutcomes ∧
      (evaluator.WritesEvaluations →
        ∀ m : Nat, m < 9 →
          ((n1.child m).isSome = true ↔ n.state.isMoveAllowed (m : Int) = true) ∧
          ∀ c, n1.child m = some c →
            n.state.move (m : Int) = some c.state ∧ c.isInitialized = false ∧
            c.getAverageValue.support = 0) ∧
      ∀ ev : Evaluator, n1.initChildren ev = Call.returned n1 none := by
  refine ⟨_, n.initChildren_evaluator_error evaluator left hn hfail, by simp, by simp, by simp,
    by simp, by simp, by simp, fun hev m hm => ?_,
    fun ev => TreeNode.initChildren_initialized _ ev (by simp)⟩
  obtain ⟨-, hslots⟩ := n.evaluated_spec evaluator hn hev
  rw [Evaluator.nodesAfter_error hfail] at hslots
  unfold TreeNode.child
  rw [TreeNode.getChildStates_setChildStates]
  rcases Bool.eq_false_or_eq_true (n.state.isMoveAllowed (m : Int)) with ha | ha
  · obtain ⟨t, e, ht, -, he⟩ := (hslots m hm).1 ha
    rw [he]
    refine ⟨by simp [ha], fun c hcc => ?_⟩
    have hcc1 : some ((TreeNode.create t NUM_MOVES).setEvaluation e) = some c := hcc
    cases hcc1
    exact ⟨by simpa using ht, by simp, by simp⟩
  · rw [(hslots m hm).2 ha]
    exact ⟨by simp [ha], fun c hcc => by cases hcc⟩

theorem initChildren_evaluator_throws_witness :
    ∃ n1 : TreeNode,
      (TreeNode.create GameState.init NUM_MOVES).initChildren failingEvaluator =
        Call.thrown n1 ∧
      n1.isInitialized = true ∧
      n1.getChildStates = (TreeNode.create GameState.init NUM_MOVES).batch ∧
      ∀ ev : Evaluator, n1.initChildren ev = Call.returned n1 none := by
  obtain ⟨n1, h1, h2, h3, -, -, -, -, -, h4⟩ := initChildren_evaluator_throws
    (TreeNode.create GameState.init NUM_MOVES) failingEvaluator
    (TreeNode.create GameState.init NUM_MOVES).batch (TreeNode.unexpanded_create _) rfl
  exact ⟨n1, h1, h2, h3, h4⟩

/-! ## `TreeNode::encode` -/

theorem TreeNode.childVisits_of_some (n : TreeNode) (m : Nat) (c : TreeNode)
    (h : n.child m = some c) : n.childVisits m = (c.getVisits : ℚ) := by
  simp [TreeNode.childVisits, h]

theorem TreeNode.childVisits_of_none (n : TreeNode) (m : Nat) (h : n.child m = none) :
    n.childVisits m = 0 := by
  simp [TreeNode.childVisits, h]

theorem TreeNode.encodeCount_none (n : TreeNode) (acc : List ℚ × ℚ) (move : Nat)
    (h : n.child move = none) : n.encodeCount acc move = acc := by
  simp [TreeNode.encodeCount, h]

theorem TreeNode.encodeCount_some (n : TreeNode) (acc : List ℚ × ℚ) (move : Nat) (c : TreeNode)
    (h : n.child move = some c) (hlt : move + 1 < acc.1.length) :
    n.encodeCount acc move =
      (acc.1.set (move + 1) (c.getVisits : ℚ), acc.2 + (c.getVisits : ℚ)) := by
  simp [TreeNode.encodeCount, h, List.getD_eq_getElem?_getD, List.getElem?_set_self hlt]

/-- The first loop of `encode` after `k` rounds: the visits of the children in
entries `1..k`, and their sum. -/
theorem TreeNode.encode_count (n : TreeNode) (out0 : List ℚ) (k : Nat)
    (hk : k < out0.length) (hz : ∀ j : Nat, 1 ≤ j → j ≤ k → out0[j]? = some 0) :
    ((List.range k).foldl n.encodeCount (out0, 0)).1.length = out0.length ∧
    (∀ j : Nat, ((List.range k).foldl n.encodeCount (out0, 0)).1[j]? =
      if 1 ≤ j ∧ j ≤ k then some (n.childVisits (j - 1)) else out0[j]?) ∧
    ((List.range k).foldl n.encodeCount (out0, 0)).2 =
      ((List.range k).map n.childVisits).sum := by
  induction k with
  | zero =>
    refine ⟨rfl, fun j => ?_, rfl⟩
    rw [if_neg (by omega)]
    rfl
  | succ k ih =>
    obtain ⟨h1, h2, h3⟩ := ih (by omega) (fun j hj1 hj2 => hz j hj1 (by omega))
    rw [List.range_succ, List.foldl_append, List.foldl_cons, List.foldl_nil,
      List.map_append, List.map_cons, List.map_nil, List.sum_append, List.sum_cons,
      List.sum_nil, add_zero]
    cases hc : n.child k with
    | none =>
      rw [n.encodeCount_none _ k hc]
      refine ⟨h1, fun j => ?_, ?_⟩
      · rw [h2 j]
        by_cases hj : j = k + 1
        · subst hj
          rw [if_neg (by omega), if_pos (by omega), hz (k + 1) (by omega) (by omega)]
          simp [n.childVisits_of_none k hc]
        · by_cases hj2 : 1 ≤ j ∧ j ≤ k
          · rw [if_pos hj2, if_pos (by omega)]
          · rw [if_neg hj2, if_neg (by omega)]
      · rw [h3, n.childVisits_of_none k hc, add_zero]
    | some c =>
      have hlt : k + 1 < ((List.range k).foldl n.encodeCount (out0, 0)).1.length := by
        rw [h1]; exact hk
      rw [n.encodeCount_some _ k c hc hlt]
      refine ⟨by rw [List.length_set]; exact h1, fun j => ?_, ?_⟩
      · by_cases hj : j = k + 1
        · subst hj
          rw [List.getElem?_set_self hlt, if_pos (by omega)]
          simp [n.childVisits_of_some k c hc]
        · rw [List.getElem?_set_ne (Ne.symm hj), h2 j]
          by_cases hj2 : 1 ≤ j ∧ j ≤ k
          · rw [if_pos hj2, if_pos (by omega)]
          · rw [if_neg hj2, if_neg (by omega)]
      · rw [h3, n.childVisits_of_some k c hc]

theorem TreeNode.encodeNormalize_eq (total : ℚ) (out : List ℚ) (move : Nat) :
    TreeNode.encodeNormalize total out move =
      out.set (move + 1) (out.getD (move + 1) 0 / total) := rfl

/-- The second loop of `encode` after `k` rounds: entries `1..k` divided by the
total. -/
theorem TreeNode.encode_normalize (total : ℚ) (e : List ℚ) (k : Nat) :
    ((List.range k).foldl (TreeNode.encodeNormalize total) e).length = e.length ∧
    ∀ j : Nat, ((List.range k).foldl (TreeNode.encodeNormalize total) e)[j]? =
      if 1 ≤ j ∧ j ≤ k then (e[j]?).map (fun x => x / total) else e[j]? := by
  induction k with
  | zero =>
    refine ⟨rfl, fun j => ?_⟩
    rw [if_neg (by omega)]
    rfl
  | succ k ih =>
    obtain ⟨h1, h2⟩ := ih
    rw [List.range_succ, List.foldl_append, List.foldl_cons, List.foldl_nil,
      TreeNode.encodeNormalize_eq]
    refine ⟨by rw [List.length_set]; exact h1, fun j => ?_⟩
    by_cases hj : j = k + 1
    · subst hj
      rw [if_pos (by omega)]
      by_cases hlt : k + 1 < e.length
      · rw [List.getElem?_set_self (by rw [h1]; exact hlt), List.getD_eq_getElem?_getD,
          h2 (k + 1), if_neg (by omega), List.getElem?_eq_getElem hlt]
        rfl
      · rw [List.getElem?_eq_none (by rw [List.length_set, h1]; omega),
          List.getElem?_eq_none (by omega)]
        rfl
    · rw [List.getElem?_set_ne (Ne.symm hj), h2 j]
      by_cases hj2 : 1 ≤ j ∧ j ≤ k
      · rw [if_pos hj2, if_pos (by omega)]
      · rw [if_neg hj2, if_neg (by omega)]

/-- What `encode` computes: the value of the node for its player to move,
followed by the visits of the child slots divided by their total. -/
theorem TreeNode.encode_eq (n : TreeNode) :
    n.encode =
      if n.isLeaf = true then none
      else
        match n.getAverageValue.getValue n.state.currentPlayer with
        | none => none
        | some value =>
          if n.totalChildVisits = 0 then none
          else
            some (value :: (List.range n.getChildStates.length).map
              (fun m => n.childVisits m / n.totalChildVisits)) := by
  unfold TreeNode.encode
  by_cases hleaf : n.isLeaf = true
  · simp [hleaf]
  · simp only [hleaf, Bool.false_eq_true, if_false]
    cases hval : n.getAverageValue.getValue n.state.currentPlayer with
    | none => rfl
    | some value =>
      dsimp only
      have hlen0 : ((List.replicate (n.getChildStates.length + 1) (0 : ℚ)).set 0 value).length =
          n.getChildStates.length + 1 := by simp
      obtain ⟨-, h2, h3⟩ := n.encode_count
        ((List.replicate (n.getChildStates.length + 1) (0 : ℚ)).set 0 value)
        n.getChildStates.length (by rw [hlen0]; omega)
        (fun j hj1 hj2 => by
          rw [List.getElem?_set_ne (by omega), List.getElem?_replicate, if_pos (by omega)])
      rw [h3, show ((List.range n.getChildStates.length).map n.childVisits).sum =
        n.totalChildVisits from rfl]
      by_cases ht : n.totalChildVisits = 0
      · rw [if_pos ht, if_pos ht]
      · rw [if_neg ht, if_neg ht]
        congr 1
        obtain ⟨-, g2⟩ := TreeNode.encode_normalize n.totalChildVisits
          ((List.range n.getChildStates.length).foldl n.encodeCount
            ((List.replicate (n.getChildStates.length + 1) (0 : ℚ)).set 0 value, 0)).1
          n.getChildStates.length
        apply List.ext_getElem?
        intro j
        rw [g2 j, h2 j]
        cases j with
        | zero =>
          rw [if_neg (by omega), if_neg (by omega)]
          simp
        | succ j =>
          by_cases hj : j < n.getChildStates.length
          · rw [if_pos (by omega), if_pos (by omega)]
            simp [hj]
          · rw [if_neg (by omega), if_neg (by omega), List.getElem?_set_ne (by omega),
              List.getElem?_eq_none (by rw [List.length_replicate]; omega),
              List.getElem?_cons_succ,
              List.getElem?_eq_none (by rw [List.length_map, List.length_range]; omega)]

theorem AverageValue.getValue_eq_none_iff (a : AverageValue) (p : Player) :
    a.getValue p = none ↔ p = Player.NONE ∧ a.support ≠ 0 := by
  unfold AverageValue.getValue
  by_cases hs : a.support = 0
  · simp [hs]
  · cases p <;> simp [hs]

theorem AverageValue.getValue_isSome (a : AverageValue) (p : Player) (hp : p ≠ Player.NONE) :
    ∃ e, a.getValue p = some e := by
  cases h : a.getValue p with
  | none => exact absurd ((a.getValue_eq_none_iff p).1 h).1 hp
  | some e => exact ⟨e, rfl⟩

theorem TreeNode.totalChildVisits_nonneg (n : TreeNode)
    (hv : ∀ m c, n.child m = some c → 0 ≤ c.getVisits) : 0 ≤ n.totalChildVisits := by
  unfold TreeNode.totalChildVisits
  apply List.sum_nonneg
  intro x hx
  obtain ⟨m, -, rfl⟩ := List.mem_map.1 hx
  cases hc : n.child m with
  | none => rw [n.childVisits_of_none m hc]
  | some c =>
    rw [n.childVisits_of_some m c hc]
    exact_mod_cast hv m c hc

theorem TreeNode.childVisits_nonneg (n : TreeNode)
    (hv : ∀ m c, n.child m = some c → 0 ≤ c.getVisits) (m : Nat) : 0 ≤ n.childVisits m := by
  cases hc : n.child m with
  | none => rw [n.childVisits_of_none m hc]
  | some c =>
    rw [n.childVisits_of_some m c hc]
    exact_mod_cast hv m c hc

theorem sum_map_div_const (l : List Nat) (f : Nat → ℚ) (t : ℚ) :
    (l.map (fun m => f m / t)).sum = (l.map f).sum / t := by
  induction l with
  | nil => simp
  | cons a l ih => simp only [List.map_cons, List.sum_cons, ih, add_div]

/-! ## Claim C26: `TreeNode::encode` -/

/-- C26, counterexample: the node `noneToMoveVisited` is initialized, its state
is not terminal, so it is not a leaf, and its children have 1 visit in total;
yet `encode` throws on it (NONE is to move and the support of the node is not
0). -/
theorem treeNode_encode_counterexample :
    noneToMoveVisited.isInitialized = true ∧ noneToMoveVisited.state.isGameOver = false ∧
    noneToMoveVisited.isLeaf = false ∧ noneToMoveVisited.totalChildVisits = 1 ∧
    noneToMoveVisited.state.currentPlayer = Player.NONE ∧
    noneToMoveVisited.getAverageValue.support = 1 ∧
    noneToMoveVisited.encode = none := by
  decide!

/-- C26, as amended: on a node of 9 child slots, `encode` throws if and only if
the node is a leaf (not initialized, or of a terminal state), or NONE is to move
in its state while the support of its `AverageValue` is not 0, or the total of
the visits of its children is zero.  Otherwise, so on every initialized node of
a non-terminal state with ONE or TWO to move whose children have a visit, it
returns 10 values: entry 0 is `averageValue.getValue` for the player to move,
and entry `1 + m` is the visits of child `m` divided by the total visits of the
children, 0 for an empty slot; the entries `1..9` sum to 1, and they are
non-negative when no child has a negative count of visits. -/
theorem treeNode_encode (n : TreeNode) (hlen : n.getChildStates.length = 9) :
    (n.encode = none ↔
      n.isLeaf = true ∨
      (n.state.currentPlayer = Player.NONE ∧ n.getAverageValue.support ≠ 0) ∨
      n.totalChildVisits = 0) ∧
    (n.isInitialized = true → n.state.isGameOver = false →
      n.state.currentPlayer ≠ Player.NONE → n.totalChildVisits ≠ 0 →
      ∃ out, n.encode = some out) ∧
    (∀ out : List ℚ, n.encode = some out →
      out.length = 10 ∧
      out[0]? = n.getAverageValue.getValue n.state.currentPlayer ∧
      (∀ m : Nat, m < 9 → out[m + 1]? = some (n.childVisits m / n.totalChildVisits)) ∧
      (∀ m : Nat, m < 9 → n.child m = none → out[m + 1]? = some 0) ∧
      (∀ (m : Nat) (c : TreeNode), m < 9 → n.child m = some c →
        out[m + 1]? = some ((c.getVisits : ℚ) / n.totalChildVisits)) ∧
      (out.drop 1).sum = 1 ∧
      ((∀ m c, n.child m = some c → 0 ≤ c.getVisits) →
        ∀ m : Nat, m < 9 → ∃ x, out[m + 1]? = some x ∧ 0 ≤ x)) := by
  have hiff : n.encode = none ↔
      n.isLeaf = true ∨
      (n.state.currentPlayer = Player.NONE ∧ n.getAverageValue.support ≠ 0) ∨
      n.totalChildVisits = 0 := by
    rw [n.encode_eq]
    by_cases hleaf : n.isLeaf = true
    · simp [hleaf]
    · rw [if_neg hleaf]
      cases hval : n.getAverageValue.getValue n.state.currentPlayer with
      | none =>
        have := (n.getAverageValue.getValue_eq_none_iff _).1 hval
        simp [hleaf, this]
      | some value =>
        have hne : ¬(n.state.currentPlayer = Player.NONE ∧ n.getAverageValue.support ≠ 0) :=
          fun h => by
            rw [(n.getAverageValue.getValue_eq_none_iff _).2 h] at hval
            cases hval
        by_cases ht : n.totalChildVisits = 0
        · simp [ht]
        · simp only [if_neg ht]
          constructor
          · intro h; cases h
          · rintro (h | h | h)
            · exact absurd h hleaf
            · exact absurd h hne
            · exact absurd h ht
  refine ⟨hiff, ?_, ?_⟩
  · intro hi ho hp ht
    cases he : n.encode with
    | some out => exact ⟨out, rfl⟩
    | none =>
      rcases hiff.1 he with h | h | h
      · simp [TreeNode.isLeaf, hi, ho] at h
      · exact absurd h.1 hp
      · exact absurd h ht
  · intro out hout
    have hnn : ¬(n.isLeaf = true ∨
        (n.state.currentPlayer = Player.NONE ∧ n.getAverageValue.support ≠ 0) ∨
        n.totalChildVisits = 0) := fun h => by
      rw [hiff.2 h] at hout
      cases hout
    have hleaf : ¬n.isLeaf = true := fun h => hnn (Or.inl h)
    have ht : n.totalChildVisits ≠ 0 := fun h => hnn (Or.inr (Or.inr h))
    rw [n.encode_eq, if_neg hleaf] at hout
    cases hval : n.getAverageValue.getValue n.state.currentPlayer with
    | none => rw [hval] at hout; cases hout
    | some value =>
      rw [hval] at hout
      simp only [ht, if_false, Option.some.injEq] at hout
      subst hout
      have hentry : ∀ m : Nat, m < 9 →
          (value :: (List.range n.getChildStates.length).map
            (fun m => n.childVisits m / n.totalChildVisits))[m + 1]? =
            some (n.childVisits m / n.totalChildVisits) := by
        intro m hm
        rw [List.getElem?_cons_succ, List.getElem?_map,
          List.getElem?_range (by rw [hlen]; exact hm)]
        rfl
      refine ⟨by simp [hlen], List.getElem?_cons_zero, hentry, ?_, ?_, ?_, ?_⟩
      · intro m hm hc
        rw [hentry m hm, n.childVisits_of_none m hc, zero_div]
      · intro m c hm hc
        rw [hentry m hm, n.childVisits_of_some m c hc]
      · rw [List.drop_one, List.tail_cons]
        rw [sum_map_div_const]
        exact div_self ht
      · intro hv m hm
        exact ⟨_, hentry m hm,
          div_nonneg (n.childVisits_nonneg hv m) (n.totalChildVisits_nonneg hv)⟩

theorem treeNode_encode_witness :
    encodeTestNode.getChildStates.length = 9 ∧
    encodeTestNode.encode = some [9 / 10, 1 / 2, 1 / 4, 1 / 4, 0, 0, 0, 0, 0, 0] ∧
    ∀ out : List ℚ, encodeTestNode.encode = some out → out.length = 10 ∧ (out.drop 1).sum = 1 := by
  have h := treeNode_encode encodeTestNode (by decide!)
  refine ⟨by decide!, by decide!, fun out hout => ?_⟩
  obtain ⟨h1, -, -, -, -, h2, -⟩ := h.2.2 out hout
  exact ⟨h1, h2⟩

/-! ## Pointers into the tree -/

theorem TreeNode.get?_nil (n : TreeNode) : n.get? [] = some n := rfl

theorem TreeNode.get?_cons (n : TreeNode) (i : Nat) (p : TreeNode.Path) :
    n.get? (i :: p) = (n.child i).bind (fun c => c.get? p) := by
  simp only [TreeNode.get?]
  cases n.child i <;> rfl

theorem TreeNode.get?_append (n : TreeNode) (p q : TreeNode.Path) :
    n.get? (p ++ q) = (n.get? p).bind (fun x => x.get? q) := by
  induction p generalizing n with
  | nil => rfl
  | cons i p ih =>
    rw [List.cons_append, TreeNode.get?_cons, TreeNode.get?_cons]
    cases n.child i with
    | none => rfl
    | some c => exact ih c

theorem TreeNode.get?_of_append (n x : TreeNode) (p q : TreeNode.Path)
    (h : n.get? (p ++ q) = some x) : ∃ y, n.get? p = some y := by
  rw [TreeNode.get?_append] at h
  cases hp : n.get? p with
  | none => rw [hp] at h; cases h
  | some y => exact ⟨y, rfl⟩

theorem TreeNode.modify_nil (f : TreeNode → TreeNode) (n : TreeNode) :
    TreeNode.modify f n [] = f n := rfl

theorem TreeNode.modify_cons_some (f : TreeNode → TreeNode) (n c : TreeNode) (i : Nat)
    (p : TreeNode.Path) (h : n.child i = some c) :
    TreeNode.modify f n (i :: p) =
      n.setChildStates (n.getChildStates.set i (some (TreeNode.modify f c p))) := by
  simp only [TreeNode.modify, h]

theorem TreeNode.modify_cons_none (f : TreeNode → TreeNode) (n : TreeNode) (i : Nat)
    (p : TreeNode.Path) (h : n.child i = none) : TreeNode.modify f n (i :: p) = n := by
  simp only [TreeNode.modify, h]

theorem TreeNode.child_setChild (n x : TreeNode) (i j : Nat) (hi : i < n.getChildStates.length) :
    (n.setChildStates (n.getChildStates.set i (some x))).child j =
      if j = i then some x else n.child j := by
  unfold TreeNode.child
  rw [TreeNode.getChildStates_setChildStates]
  by_cases hj : j = i
  · subst hj
    rw [if_pos rfl, List.getElem?_set_self hi]
    rfl
  · rw [if_neg hj, List.getElem?_set_ne (Ne.symm hj)]

theorem TreeNode.child_lt (n c : TreeNode) (i : Nat) (h : n.child i = some c) :
    i < n.getChildStates.length :=
  n.child_isSome_lt i (by rw [h]; rfl)

/-- A mutation below the root leaves the members of the root other than its
children. -/
theorem TreeNode.modify_cons_fields (f : TreeNode → TreeNode) (n : TreeNode) (i : Nat)
    (p : TreeNode.Path) :
    (TreeNode.modify f n (i :: p)).state = n.state ∧
    (TreeNode.modify f n (i :: p)).evaluation = n.evaluation ∧
    (TreeNode.modify f n (i :: p)).getAverageValue = n.getAverageValue ∧
    (TreeNode.modify f n (i :: p)).getOutcomes = n.getOutcomes ∧
    (TreeNode.modify f n (i :: p)).isInitialized = n.isInitialized ∧
    (TreeNode.modify f n (i :: p)).getChildStates.length = n.getChildStates.length := by
  cases h : n.child i with
  | none => rw [TreeNode.modify_cons_none f n i p h]; simp
  | some c => rw [TreeNode.modify_cons_some f n c i p h]; simp

theorem TreeNode.child_modify_cons (f : TreeNode → TreeNode) (n : TreeNode) (i j : Nat)
    (p : TreeNode.Path) :
    (TreeNode.modify f n (i :: p)).child j =
      if j = i then (n.child i).map (fun c => TreeNode.modify f c p) else n.child j := by
  cases h : n.child i with
  | none =>
    rw [TreeNode.modify_cons_none f n i p h]
    by_cases hj : j = i
    · subst hj; rw [if_pos rfl, h]; rfl
    · rw [if_neg hj]
  | some c =>
    rw [TreeNode.modify_cons_some f n c i p h, TreeNode.child_setChild _ _ _ _ (n.child_lt c i h)]
    rfl

/-- The node a pointer points to, and the nodes below it, after the node has
been mutated. -/
theorem TreeNode.get?_modify_append (f : TreeNode → TreeNode) (t : TreeNode)
    (p q : TreeNode.Path) :
    (TreeNode.modify f t p).get? (p ++ q) = (t.get? p).bind (fun n => (f n).get? q) := by
  induction p generalizing t with
  | nil => rfl
  | cons i p ih =>
    rw [List.cons_append, TreeNode.get?_cons, TreeNode.get?_cons, TreeNode.child_modify_cons,
      if_pos rfl]
    cases t.child i with
    | none => rfl
    | some c => exact ih c

theorem TreeNode.get?_modify_self (f : TreeNode → TreeNode) (t : TreeNode) (p : TreeNode.Path) :
    (TreeNode.modify f t p).get? p = (t.get? p).map f := by
  have h := TreeNode.get?_modify_append f t p []
  rw [List.append_nil] at h
  rw [h]
  cases t.get? p <;> rfl

/-! ## The invariant of the trees that `expand` grows -/

theorem TreeNode.AllSound.sound {t : TreeNode} (h : t.AllSound) : t.Sound := h [] t rfl

theorem TreeNode.AllSound.child {t c : TreeNode} {i : Nat} (h : t.AllSound)
    (hc : t.child i = some c) : c.AllSound := by
  intro p n hn
  exact h (i :: p) n (by rw [TreeNode.get?_cons, hc]; exact hn)

theorem TreeNode.AllSound.of {t : TreeNode} (hs : t.Sound)
    (hc : ∀ i c, t.child i = some c → c.AllSound) : t.AllSound := by
  intro p n hn
  cases p with
  | nil =>
    cases hn
    exact hs
  | cons i p =>
    rw [TreeNode.get?_cons] at hn
    cases hci : t.child i with
    | none => rw [hci] at hn; cases hn
    | some c =>
      rw [hci] at hn
      exact hc i c hci p n hn

theorem TreeNode.AllSound.get? {t n : TreeNode} {p : TreeNode.Path} (h : t.AllSound)
    (hn : t.get? p = some n) : n.AllSound := by
  intro q x hx
  exact h (p ++ q) x (by rw [TreeNode.get?_append, hn]; exact hx)

theorem TreeNode.child_update (n : TreeNode) (w : Player) (a : AverageValue) (i : Nat) :
    (n.update w a).child i = n.child i := by
  unfold TreeNode.child
  rw [TreeNode.getChildStates_update]

theorem TreeNode.Sound.update_node {n : TreeNode} (h : n.Sound) (w : Player) (a : AverageValue) :
    (n.update w a).Sound := by
  obtain ⟨h1, h2, h3, h4, h5, h6⟩ := h
  refine ⟨by simpa using h1, by simpa using h2, by simpa using h3, by simpa using h4,
    by simpa using h5, ?_⟩
  intro hi ho
  obtain ⟨i, hc⟩ := h6 (by simpa using hi) (by simpa using ho)
  exact ⟨i, by rw [TreeNode.child_update]; exact hc⟩

theorem TreeNode.AllSound.update {n : TreeNode} (h : n.AllSound) (w : Player)
    (a : AverageValue) : (n.update w a).AllSound :=
  TreeNode.AllSound.of (h.sound.update_node w a)
    (fun i c hc => h.child (by rw [TreeNode.child_update] at hc; exact hc))

theorem TreeNode.Sound.setChild {n c : TreeNode} (h : n.Sound) (i : Nat) (x : TreeNode)
    (hc : n.child i = some c) :
    (n.setChildStates (n.getChildStates.set i (some x))).Sound := by
  obtain ⟨h1, h2, h3, h4, h5, h6⟩ := h
  have hi := n.child_lt c i hc
  have hinit : n.isInitialized = true := by
    rcases Bool.eq_false_or_eq_true n.isInitialized with hh | hh
    · exact hh
    · have hr := h5 hh
      unfold TreeNode.child at hc
      rw [hr, List.getElem?_replicate] at hc
      split at hc <;> cases hc
  refine ⟨by simpa using h1, by simpa using h2, by simpa using h3, ?_, ?_, ?_⟩
  · rw [TreeNode.getChildStates_setChildStates, List.length_set]; exact h4
  · intro hf
    rw [TreeNode.isInitialized_setChildStates, hinit] at hf
    cases hf
  · intro _ _
    exact ⟨i, by rw [TreeNode.child_setChild _ _ _ _ hi, if_pos rfl]; rfl⟩

/-- A mutation that keeps the invariant of the node it is applied to keeps the
invariant of the tree. -/
theorem TreeNode.AllSound.modify {t : TreeNode} (h : t.AllSound) (f : TreeNode → TreeNode)
    (hf : ∀ n, n.AllSound → (f n).AllSound) (p : TreeNode.Path) :
    (TreeNode.modify f t p).AllSound := by
  induction p generalizing t with
  | nil => exact hf t h
  | cons i p ih =>
    cases hc : t.child i with
    | none => rw [TreeNode.modify_cons_none f t i p hc]; exact h
    | some c =>
      rw [TreeNode.modify_cons_some f t c i p hc]
      refine TreeNode.AllSound.of (h.sound.setChild i _ hc) (fun j d hd => ?_)
      rw [TreeNode.child_setChild _ _ _ _ (t.child_lt c i hc)] at hd
      by_cases hj : j = i
      · rw [if_pos hj] at hd
        cases hd
        exact ih (h.child hc)
      · rw [if_neg hj] at hd
        exact h.child hd

theorem Built.move {s t : GameState} (m : Int) (h : s.move m = some t) : Built t := by
  unfold GameState.move at h
  by_cases ha : s.isMoveAllowed m = true
  · simp only [ha, Bool.not_true, Bool.false_eq_true, if_false] at h
    exact Built.explicit _ _ _ _ _ _ t h
  · simp [ha] at h

theorem Built.init : Built GameState.init :=
  Built.explicit Player.ONE 0 0 SPECIAL_NOT_SET SPECIAL_NOT_SET (Cells.fill 9) GameState.init rfl

theorem TreeNode.AllSound.create {s : GameState} (hb : Built s)
    (hp : s.currentPlayer ≠ Player.NONE) : (TreeNode.create s NUM_MOVES).AllSound := by
  refine TreeNode.AllSound.of ⟨hb, hp, List.length_replicate _ _, List.length_replicate _ _,
    fun _ => rfl, fun h => by cases h⟩ (fun i c hc => ?_)
  rw [TreeNode.child_create] at hc
  cases hc

theorem TreeNode.Sound.unexpanded {n : TreeNode} (h : n.Sound) (hi : n.isInitialized = false) :
    n.Unexpanded :=
  ⟨hi, h.2.2.1, h.2.2.2.2.1 hi⟩

/-- `initChildren` keeps the invariant. -/
theorem TreeNode.AllSound.initChildren {n n1 : TreeNode} (h : n.AllSound)
    (evaluator : Evaluator) (hev : evaluator.WritesEvaluations) (r : Option AverageValue)
    (hr : n.initChildren evaluator = Call.returned n1 r) : n1.AllSound := by
  rcases Bool.eq_false_or_eq_true n.isInitialized with hi | hi
  · rw [n.initChildren_initialized evaluator hi] at hr
    cases hr
    exact h
  · have hn := h.sound.unexpanded hi
    obtain ⟨v, evaluated, -, -, h1, h2, h3, -, -, h6, h7, -, -⟩ :=
      n.initChildren_returned_spec n1 evaluator r hn hev hr
    obtain ⟨s1, s2, s3, -, -, -⟩ := h.sound
    have hchild : ∀ i c, n1.child i = some c →
        i < NUM_MOVES ∧ n.state.isMoveAllowed (i : Int) = true ∧
          ∃ t e, n.state.move (i : Int) = some t ∧ e.policy.length = NUM_MOVES ∧
            t.currentPlayer ≠ Player.NONE ∧
            c = ((TreeNode.create t NUM_MOVES).setEvaluation e).setAverageValue
              { playerOneValue :=
                  seedValue (some ((TreeNode.create t NUM_MOVES).setEvaluation e)),
                support := 1 } := by
      intro i c hc
      have hlt : i < NUM_MOVES := by rw [← h6]; exact n1.child_lt c i hc
      rcases Bool.eq_false_or_eq_true (n.state.isMoveAllowed (i : Int)) with ha | ha
      · obtain ⟨t, e, ht, he, hp, -, hcc⟩ := (h7 i hlt).2 ha
        rw [hcc] at hc
        cases hc
        exact ⟨hlt, ha, t, e, ht, he, hp, rfl⟩
      · rw [((h7 i hlt).1 ha).2] at hc
        cases hc
    refine TreeNode.AllSound.of ⟨by rw [h2]; exact s1, by rw [h2]; exact s2,
      by rw [h3]; exact s3, h6, fun hf => (by rw [h1] at hf; cases hf), fun _ ho => ?_⟩
      (fun i c hc => ?_)
    · rw [h2] at ho
      have hcg : n.state.checkGameOver = false := by
        rw [← (Built.spec s1).1]; exact ho
      have hany : n.state.anyMoveAllowed = true := by
        by_contra hne
        have hne1 : n.state.anyMoveAllowed = false := by simpa using hne
        have := (n.state.checkGameOver_iff).2
          (Or.inr (Or.inr (Or.inr ((n.state.anyMoveAllowed_eq_false_iff).1 hne1))))
        rw [hcg] at this
        cases this
      obtain ⟨m, h0, h8, hm⟩ := (n.state.anyMoveAllowed_iff).1 hany
      have hm1 : n.state.isMoveAllowed ((m.toNat : Nat) : Int) = true := by
        rw [Int.toNat_of_nonneg h0]; exact hm
      obtain ⟨t, e, -, -, -, -, hcc⟩ := (h7 m.toNat (by unfold NUM_MOVES; omega)).2 hm1
      exact ⟨m.toNat, by rw [hcc]; rfl⟩
    · obtain ⟨-, -, t, e, ht, he, hp, rfl⟩ := hchild i c hc
      refine TreeNode.AllSound.of ⟨by simpa using Built.move _ ht, by simpa using hp,
        by simpa using he, by simp, fun _ => by simp, fun hf => by simp at hf⟩
        (fun j d hd => ?_)
      have hd1 : (TreeNode.create t NUM_MOVES).child j = some d := by
        unfold TreeNode.child at hd ⊢
        simpa using hd
      rw [TreeNode.child_create] at hd1
      cases hd1

/-! ## The descent of `MonteCarloTreeSearch::expand` -/

theorem MonteCarloTreeSearch.select_none (m : MonteCarloTreeSearch) (left : Nat)
    (root : TreeNode) (d : Descent) (h : root.get? d.currentNode = none) :
    m.select left root d = Call.undefined := by
  cases left with
  | zero => unfold MonteCarloTreeSearch.select; rw [h]
  | succ k => unfold MonteCarloTreeSearch.select; rw [h]

theorem MonteCarloTreeSearch.select_zero (m : MonteCarloTreeSearch)
    (root node : TreeNode) (d : Descent) (h : root.get? d.currentNode = some node) :
    m.select 0 root d = Call.returned root d := by
  unfold MonteCarloTreeSearch.select; rw [h]

theorem MonteCarloTreeSearch.select_over (m : MonteCarloTreeSearch) (left : Nat)
    (root node : TreeNode) (d : Descent) (h : root.get? d.currentNode = some node)
    (ho : node.state.isGameOver = true) :
    m.select left root d = Call.returned root d := by
  cases left with
  | zero => exact m.select_zero root node d h
  | succ k =>
    unfold MonteCarloTreeSearch.select
    rw [h]
    simp only [ho, if_true]

theorem MonteCarloTreeSearch.select_succ (m : MonteCarloTreeSearch) (left : Nat)
    (root node : TreeNode) (d : Descent) (h : root.get? d.currentNode = some node)
    (ho : node.state.isGameOver = false) :
    m.select (left + 1) root d =
      match node.initChildren m.evaluator_ with
      | Call.undefined => Call.undefined
      | Call.thrown node1 => Call.thrown (root.modify (fun _ => node1) d.currentNode)
      | Call.returned node1 child_value =>
        if child_value.isSome then
          Call.returned (root.modify (fun _ => node1) d.currentNode)
            { currentNode := d.currentNode,
              backprop_stack := d.backprop_stack ++ [(d.currentNode, child_value)] }
        else
          match m.expansion_strategy_ node1 with
          | none => Call.thrown (root.modify (fun _ => node1) d.currentNode)
          | some move_idx =>
            if move_idx < 0 then Call.undefined
            else
              m.select left (root.modify (fun _ => node1) d.currentNode)
                { currentNode := d.currentNode ++ [move_idx.toNat],
                  backprop_stack := d.backprop_stack ++ [(d.currentNode, child_value)] } := by
  conv_lhs => unfold MonteCarloTreeSearch.select
  rw [h]
  simp only [ho, Bool.false_eq_true, if_false]

/-- Writing a node with the state and the outcomes of the node a pointer points
to leaves the state and the outcomes of the root. -/
theorem TreeNode.modify_const_fields (t node x : TreeNode) (p : TreeNode.Path)
    (hn : t.get? p = some node) (hs : x.state = node.state)
    (ho : x.getOutcomes = node.getOutcomes) :
    (TreeNode.modify (fun _ => x) t p).state = t.state ∧
    (TreeNode.modify (fun _ => x) t p).getOutcomes = t.getOutcomes := by
  cases p with
  | nil =>
    cases hn
    exact ⟨hs, ho⟩
  | cons i p =>
    obtain ⟨h1, -, -, h4, -, -⟩ := TreeNode.modify_cons_fields (fun _ => x) t i p
    exact ⟨h1, h4⟩

/-- `initChildren` leaves the state and the outcomes of the node. -/
theorem TreeNode.initChildren_fields (n n1 : TreeNode) (evaluator : Evaluator)
    (r : Option AverageValue) (h : n.initChildren evaluator = Call.returned n1 r) :
    n1.state = n.state ∧ n1.getOutcomes = n.getOutcomes := by
  rcases Bool.eq_false_or_eq_true n.isInitialized with hi | hi
  · rw [n.initChildren_initialized evaluator hi] at h
    cases h
    exact ⟨rfl, rfl⟩
  · obtain ⟨-, -, h3, -, -, h6⟩ := (n.initChildren_uninitialized evaluator hi).1 n1 r h
    exact ⟨h3, h6⟩

/-- What the descent of `expand` leaves when it ends normally: the state and
the outcomes of the root are as before, and the path has grown by the pointer
it started from, followed by pointers below the root, all of them leading
towards the pointer it ends at. -/
theorem MonteCarloTreeSearch.select_returned (m : MonteCarloTreeSearch) (left : Nat)
    (root t : TreeNode) (d d1 : Descent) (h : m.select left root d = Call.returned t d1) :
    t.state = root.state ∧ t.getOutcomes = root.getOutcomes ∧
    d.currentNode <+: d1.currentNode ∧
    ∃ ext : List (TreeNode.Path × Option AverageValue),
      d1.backprop_stack = d.backprop_stack ++ ext ∧
      (∀ e ∈ ext, e.1 <+: d1.currentNode) ∧
      (ext = [] ∨ ∃ cv rest, ext = (d.currentNode, cv) :: rest ∧ ∀ e ∈ rest, e.1 ≠ []) ∧
      (ext = [] → left = 0 ∨
        ∃ node, root.get? d.currentNode = some node ∧ node.state.isGameOver = true) := by
  induction left generalizing root d with
  | zero =>
    cases hn : root.get? d.currentNode with
    | none => rw [m.select_none 0 root d hn] at h; cases h
    | some node =>
      rw [m.select_zero root node d hn] at h
      cases h
      exact ⟨rfl, rfl, List.prefix_refl _, [], (List.append_nil _).symm, by simp, Or.inl rfl,
        fun _ => Or.inl rfl⟩
  | succ left ih =>
    cases hn : root.get? d.currentNode with
    | none => rw [m.select_none _ root d hn] at h; cases h
    | some node =>
      rcases Bool.eq_false_or_eq_true node.state.isGameOver with ho | ho
      · rw [m.select_over _ root node d hn ho] at h
        cases h
        exact ⟨rfl, rfl, List.prefix_refl _, [], (List.append_nil _).symm, by simp, Or.inl rfl,
          fun _ => Or.inr ⟨node, rfl, ho⟩⟩
      · rw [m.select_succ left root node d hn ho] at h
        cases hc : node.initChildren m.evaluator_ with
        | undefined => simp only [hc] at h; cases h
        | thrown node1 => simp only [hc] at h; cases h
        | returned node1 child_value =>
          simp only [hc] at h
          obtain ⟨f1, f2⟩ := node.initChildren_fields node1 m.evaluator_ child_value hc
          obtain ⟨g1, g2⟩ := TreeNode.modify_const_fields root node node1 d.currentNode hn f1 f2
          by_cases hv : child_value.isSome = true
          · rw [if_pos hv] at h
            cases h
            refine ⟨g1, g2, List.prefix_refl _, [(d.currentNode, child_value)], rfl, ?_,
              Or.inr ⟨child_value, [], rfl, by simp⟩, fun he => by cases he⟩
            intro e he
            rw [List.mem_singleton] at he
            subst he
            exact List.prefix_refl _
          · rw [if_neg hv] at h
            cases hs : m.expansion_strategy_ node1 with
            | none => simp only [hs] at h; cases h
            | some move_idx =>
              simp only [hs] at h
              by_cases hneg : move_idx < 0
              · rw [if_pos hneg] at h; cases h
              · rw [if_neg hneg] at h
                obtain ⟨k1, k2, k3, ext, k4, k5, k6, -⟩ := ih _ _ h
                dsimp only at k3 k4 k6
                have hpre : d.currentNode <+: d1.currentNode :=
                  List.IsPrefix.trans (List.prefix_append _ _) k3
                refine ⟨k1.trans g1, k2.trans g2, hpre, (d.currentNode, child_value) :: ext, ?_,
                  ?_, Or.inr ⟨child_value, ext, rfl, ?_⟩, fun he => by cases he⟩
                · rw [k4, List.append_assoc]; rfl
                · intro e he
                  rcases List.mem_cons.1 he with rfl | he1
                  · exact hpre
                  · exact k5 e he1
                · intro e he
                  rcases k6 with rfl | ⟨cv, rest, rfl, k7⟩
                  · cases he
                  · rcases List.mem_cons.1 he with rfl | he1
                    · simp
                    · exact k7 e he1

/-- The descent of `expand` ends normally, on a tree that keeps the invariant,
when the evaluator keeps to its interface and returns and the strategy returns
the index of an existing child. -/
theorem MonteCarloTreeSearch.select_total (m : MonteCarloTreeSearch)
    (hev : m.evaluator_.WritesEvaluations) (hret : m.evaluator_.Returns)
    (hst : m.expansion_strategy_.PicksChild) (left : Nat) (root node : TreeNode) (d : Descent)
    (hs : root.AllSound) (hn : root.get? d.currentNode = some node) :
    ∃ t d1, m.select left root d = Call.returned t d1 ∧ t.AllSound ∧
      ∃ node1, t.get? d1.currentNode = some node1 := by
  induction left generalizing root node d with
  | zero => exact ⟨root, d, m.select_zero root node d hn, hs, node, hn⟩
  | succ left ih =>
    rcases Bool.eq_false_or_eq_true node.state.isGameOver with ho | ho
    · exact ⟨root, d, m.select_over _ root node d hn ho, hs, node, hn⟩
    · rw [m.select_succ left root node d hn ho]
      have hnode : node.AllSound := hs.get? hn
      rcases Bool.eq_false_or_eq_true node.isInitialized with hi | hi
      · rw [node.initChildren_initialized m.evaluator_ hi]
        obtain ⟨i, hsi, hci⟩ := hst node hi ho (hnode.sound.2.2.2.2.2 hi ho)
        obtain ⟨c, hc⟩ := Option.isSome_iff_exists.1 hci
        simp only [Option.isSome_none, Bool.false_eq_true, if_false, hsi]
        rw [if_neg (by omega), Int.toNat_ofNat]
        refine ih (TreeNode.modify (fun _ => node) root d.currentNode) c _
          (hs.modify _ (fun _ _ => hnode) _) ?_
        show (TreeNode.modify (fun _ => node) root d.currentNode).get? (d.currentNode ++ [i]) =
          some c
        rw [TreeNode.get?_modify_append, hn]
        show node.get? [i] = some c
        rw [TreeNode.get?_cons, hc]
        rfl
      · obtain ⟨n1, v, hr⟩ := node.initChildren_total m.evaluator_
          (hnode.sound.unexpanded hi) hev (hret _) hnode.sound.2.1
        rw [hr]
        simp only [Option.isSome_some, if_true]
        have hn1 : n1.AllSound := hnode.initChildren m.evaluator_ hev _ hr
        refine ⟨_, _, rfl, hs.modify _ (fun _ _ => hn1) _, n1, ?_⟩
        show (TreeNode.modify (fun _ => n1) root d.currentNode).get? d.currentNode = some n1
        rw [TreeNode.get?_modify_self, hn]
        rfl

/-! ## Backpropagation and `MonteCarloTreeSearch::expand` -/

theorem MonteCarloTreeSearch.backpropagate_allSound (w : Player) (a : AverageValue)
    (t : TreeNode) (stack : List (TreeNode.Path × Option AverageValue)) (h : t.AllSound) :
    (MonteCarloTreeSearch.backpropagate w a t stack).AllSound := by
  unfold MonteCarloTreeSearch.backpropagate
  generalize stack.reverse = l
  induction l generalizing t with
  | nil => exact h
  | cons e l ih =>
    rw [List.foldl_cons]
    exact ih _ (h.modify _ (fun n hn => hn.update w a) _)

theorem MonteCarloTreeSearch.foldl_update_fields (w : Player) (a : AverageValue)
    (l : List (TreeNode.Path × Option AverageValue)) (t : TreeNode)
    (hl : ∀ e ∈ l, e.1 ≠ []) :
    (l.foldl (fun (t : TreeNode) (item : TreeNode.Path × Option AverageValue) =>
      t.modify (fun path_node => path_node.update w a) item.1) t).state = t.state ∧
    (l.foldl (fun (t : TreeNode) (item : TreeNode.Path × Option AverageValue) =>
      t.modify (fun path_node => path_node.update w a) item.1) t).getOutcomes =
        t.getOutcomes := by
  induction l generalizing t with
  | nil => exact ⟨rfl, rfl⟩
  | cons e l ih =>
    rw [List.foldl_cons]
    obtain ⟨h1, h2⟩ := ih (TreeNode.modify (fun path_node => path_node.update w a) t e.1)
      (fun x hx => hl x (List.mem_cons_of_mem _ hx))
    have hne := hl e (List.mem_cons_self _ _)
    cases he : e.1 with
    | nil => exact absurd he hne
    | cons i p =>
      rw [he] at h1 h2
      obtain ⟨g1, -, -, g4, -, -⟩ :=
        TreeNode.modify_cons_fields (fun path_node => path_node.update w a) t i p
      exact ⟨h1.trans g1, h2.trans g4⟩

/-- Backpropagation along a path that starts at the root and continues below
it updates the root exactly once. -/
theorem MonteCarloTreeSearch.backpropagate_fields (w : Player) (a : AverageValue)
    (t : TreeNode) (cv : Option AverageValue)
    (rest : List (TreeNode.Path × Option AverageValue)) (hrest : ∀ e ∈ rest, e.1 ≠ []) :
    (MonteCarloTreeSearch.backpropagate w a t (([], cv) :: rest)).state = t.state ∧
    (MonteCarloTreeSearch.backpropagate w a t (([], cv) :: rest)).getOutcomes =
      t.getOutcomes.addWinner w := by
  unfold MonteCarloTreeSearch.backpropagate
  rw [List.reverse_cons, List.foldl_append, List.foldl_cons, List.foldl_nil]
  obtain ⟨h1, h2⟩ := MonteCarloTreeSearch.foldl_update_fields w a rest.reverse t
    (fun e he => hrest e (List.mem_reverse.1 he))
  show (TreeNode.update _ w a).state = _ ∧ (TreeNode.update _ w a).getOutcomes = _
  rw [TreeNode.state_update, TreeNode.getOutcomes_update, h1, h2]
  exact ⟨rfl, rfl⟩

/-- One call of `expand` on a tree that keeps the invariant and whose root is
not terminal: it returns, the tree keeps the invariant, and the root has been
updated exactly once. -/
theorem MonteCarloTreeSearch.expand_step (m : MonteCarloTreeSearch)
    (hev : m.evaluator_.WritesEvaluations) (hret : m.evaluator_.Returns)
    (hst : m.expansion_strategy_.PicksChild) (root : TreeNode) (hs : root.AllSound)
    (hover : root.state.isGameOver = false) :
    ∃ (t : TreeNode) (w : Player), m.expand root = Call.returned t () ∧ t.AllSound ∧
      t.state = root.state ∧ t.getOutcomes = root.getOutcomes.addWinner w := by
  obtain ⟨t, d1, hsel, ht, node1, hnode1⟩ := m.select_total hev hret hst 200 root root
    { currentNode := [], backprop_stack := [] } hs rfl
  obtain ⟨k1, k2, -, ext, k4, k5, k6, k7⟩ := m.select_returned 200 root t _ d1 hsel
  rw [List.nil_append] at k4
  obtain ⟨cv, rest, hext, hrest⟩ : ∃ cv rest, ext = ([], cv) :: rest ∧ ∀ e ∈ rest, e.1 ≠ [] := by
    rcases k6 with he | h
    · rcases k7 he with h0 | ⟨node, hn, ho⟩
      · cases h0
      · cases hn
        rw [hover] at ho
        cases ho
    · exact h
  have key : ∀ (w : Player) (a : AverageValue) (t1 : TreeNode), t1.AllSound →
      t1.state = t.state → t1.getOutcomes = t.getOutcomes →
      ∃ (t2 : TreeNode) (w2 : Player),
        Call.returned (MonteCarloTreeSearch.backpropagate w a t1 d1.backprop_stack) () =
          (Call.returned t2 () : Call TreeNode Unit) ∧
        t2.AllSound ∧ t2.state = root.state ∧ t2.getOutcomes = root.getOutcomes.addWinner w2 := by
    intro w a t1 h1 h2 h3
    obtain ⟨f1, f2⟩ := MonteCarloTreeSearch.backpropagate_fields w a t1 cv rest hrest
    refine ⟨_, w, rfl, MonteCarloTreeSearch.backpropagate_allSound w a t1 _ h1, ?_, ?_⟩
    · rw [k4, hext, f1, h2, k1]
    · rw [k4, hext, f2, h3, k2]
  obtain ⟨last, hlast⟩ : ∃ last, d1.backprop_stack.getLast? = some last := by
    rw [k4, hext]
    cases hl : (([], cv) :: rest : List (TreeNode.Path × Option AverageValue)).getLast? with
    | none => simp at hl
    | some last => exact ⟨last, rfl⟩
  have hmem : last ∈ ext := by
    rw [← k4]
    exact List.mem_of_getLast?_eq_some hlast
  obtain ⟨q, hq⟩ := k5 last hmem
  obtain ⟨expanded, hexp⟩ := t.get?_of_append node1 last.1 q (by rw [hq]; exact hnode1)
  unfold MonteCarloTreeSearch.expand
  simp only [hsel, hlast]
  cases hl2 : last.2 with
  | some child_value =>
    simp only [hexp]
    exact key _ _ t ht rfl rfl
  | none =>
    simp only [hnode1]
    rcases Bool.eq_false_or_eq_true node1.state.isGameOver with ho | ho
    · simp only [ho, if_true]
      cases hcur : d1.currentNode with
      | nil =>
        rw [hcur] at hnode1
        cases hnode1
        rw [k1, hover] at ho
        cases ho
      | cons i p =>
        obtain ⟨g1, -, -, g4, -, -⟩ := TreeNode.modify_cons_fields
          (fun n => n.update (node1.state.winner.getD Player.NONE)
            (({} : AverageValue).addWinner (node1.state.winner.getD Player.NONE))) t i p
        exact key _ _ _ (ht.modify _ (fun n hn => hn.update _ _) _) g1 g4
    · simp only [ho, Bool.false_eq_true, if_false]
      exact key _ _ t ht rfl rfl

theorem TreeNode.getVisits_addWinner (t root : TreeNode) (w : Player)
    (h : t.getOutcomes = root.getOutcomes.addWinner w) : t.getVisits = root.getVisits + 1 := by
  unfold TreeNode.getVisits
  rw [h, Outcomes.getTotalOutcomes_addWinner]

/-- After `K` calls of `expand` on a tree that keeps the invariant and whose
root is not terminal, the visits of the root have grown by `K`. -/
theorem MonteCarloTreeSearch.expandTimes_spec (m : MonteCarloTreeSearch)
    (hev : m.evaluator_.WritesEvaluations) (hret : m.evaluator_.Returns)
    (hst : m.expansion_strategy_.PicksChild) (K : Nat) (root : TreeNode) (hs : root.AllSound)
    (hover : root.state.isGameOver = false) :
    ∃ t : TreeNode, m.expandTimes K root = Call.returned t () ∧ t.AllSound ∧
      t.state = root.state ∧ t.getVisits = root.getVisits + (K : Int) := by
  induction K generalizing root with
  | zero => exact ⟨root, rfl, hs, rfl, by simp⟩
  | succ K ih =>
    obtain ⟨t, w, h1, h2, h3, h4⟩ := m.expand_step hev hret hst root hs hover
    obtain ⟨u, g1, g2, g3, g4⟩ := ih t h2 (by rw [h3]; exact hover)
    refine ⟨u, ?_, g2, g3.trans h3, ?_⟩
    · simp only [MonteCarloTreeSearch.expandTimes, h1]
      exact g1
    · rw [g4, TreeNode.getVisits_addWinner t root w h4]
      push_cast
      ring

theorem firstChild_picksChild : ExpansionStrategy.PicksChild firstChild := by
  intro n _ _ hex
  obtain ⟨i0, hi0⟩ := hex
  cases hf : (List.range n.getChildStates.length).find? (fun i => (n.child i).isSome) with
  | none =>
    have := List.find?_eq_none.1 hf i0 (List.mem_range.2 (n.child_isSome_lt i0 hi0))
    exact absurd hi0 this
  | some k =>
    have hk : (fun i => (n.child i).isSome) k = true :=
      @List.find?_some Nat (fun i => (n.child i).isSome) k _ hf
    exact ⟨k, by simp [firstChild, hf], hk⟩

/-! ## Claims C29 and C30: `MonteCarloTreeSearch::expand` -/

/-- C29, counterexample: the evaluator `ZeroValueUniformEvaluator(9)` does not
fail, the strategy `firstChild` returns the index of an existing child, and
the state `noneToMoveState` is not terminal; yet the first call of `expand` on
its fresh node throws, and leaves the root with 0 visits. -/
theorem expand_visits_counterexample :
    Evaluator.Returns uniformSearch.evaluator_ ∧
    ExpansionStrategy.PicksChild uniformSearch.expansion_strategy_ ∧
    noneToMoveState.isGameOver = false ∧
    (TreeNode.create noneToMoveState NUM_MOVES).isInitialized = false ∧
    (TreeNode.create noneToMoveState NUM_MOVES).getVisits = 0 ∧
    (uniformSearch.expand (TreeNode.create noneToMoveState NUM_MOVES)).isThrown = true ∧
    (uniformSearch.expand (TreeNode.create noneToMoveState NUM_MOVES)).state?.map
      TreeNode.getVisits = some 0 ∧
    (uniformSearch.expandTimes 1 (TreeNode.create noneToMoveState NUM_MOVES)).visits = none :=
  ⟨ZeroValueUniformEvaluator.returns _, firstChild_picksChild, by decide!, rfl, rfl, by decide!,
    by decide!, by decide!⟩

/-- C29, as amended: for every fresh root node of 9 moves whose state is not
terminal and has ONE or TWO to move, every `K`, every evaluator that keeps to
its interface and does not fail, and every strategy that returns the index of
an existing child: the `K` calls of `expand(root)` return, and after them
`root.getVisits() = K` and `root.getOutcomes().getTotalOutcomes() = K`. -/
theorem expand_visits (m : MonteCarloTreeSearch) (s : GameState) (K : Nat)
    (hb : Built s) (hp : s.currentPlayer ≠ Player.NONE) (hover : s.isGameOver = false)
    (hev : Evaluator.WritesEvaluations m.evaluator_) (hret : Evaluator.Returns m.evaluator_)
    (hst : ExpansionStrategy.PicksChild m.expansion_strategy_) :
    ∃ t : TreeNode,
      m.expandTimes K (TreeNode.create s NUM_MOVES) = Call.returned t () ∧
      t.getVisits = (K : Int) ∧ t.getOutcomes.getTotalOutcomes = (K : Int) := by
  obtain ⟨t, h1, -, -, h4⟩ := m.expandTimes_spec hev hret hst K (TreeNode.create s NUM_MOVES)
    (TreeNode.AllSound.create hb hp) hover
  have hz : (TreeNode.create s NUM_MOVES).getVisits = 0 := rfl
  rw [hz, zero_add] at h4
  exact ⟨t, h1, h4, h4⟩

theorem expand_visits_witness :
    ∃ t : TreeNode,
      uniformSearch.expandTimes 3 (TreeNode.create GameState.init NUM_MOVES) =
        Call.returned t () ∧
      t.getVisits = 3 ∧ t.getOutcomes.getTotalOutcomes = 3 :=
  expand_visits uniformSearch GameState.init 3 Built.init (by decide) rfl
    (ZeroValueUniformEvaluator.writesEvaluations _) (ZeroValueUniformEvaluator.returns _)
    firstChild_picksChild

/-- C30: when the state of the root passed to `expand` is terminal, the first
loop does not run, so `backprop_stack` is empty when `expand` reads
`backprop_stack.back()`: the call leaves the defined behaviour of C++, for
every strategy and every evaluator, before any update of the root. -/
theorem expand_terminal_root (m : MonteCarloTreeSearch) (root : TreeNode)
    (h : root.state.isGameOver = true) :
    m.select 200 root { currentNode := [], backprop_stack := [] } =
      Call.returned root { currentNode := [], backprop_stack := [] } ∧
    m.expand root = Call.undefined := by
  have hsel := m.select_over 200 root root { currentNode := [], backprop_stack := [] } rfl h
  refine ⟨hsel, ?_⟩
  unfold MonteCarloTreeSearch.expand
  simp only [hsel, List.getLast?_nil]

theorem expand_terminal_root_witness :
    (stateAfter shortestGame).isGameOver = true ∧
    uniformSearch.expand (TreeNode.create (stateAfter shortestGame) NUM_MOVES) =
      Call.undefined :=
  ⟨by decide,
    (expand_terminal_root uniformSearch (TreeNode.create (stateAfter shortestGame) NUM_MOVES)
      (by decide)).2⟩

/-! ## A descent that ends at a terminal node below the root -/

/-- An update of a node leaves the nodes below it. -/
theorem TreeNode.get?_modify_update_below (w : Player) (a : AverageValue) (t : TreeNode)
    (p q : TreeNode.Path) (i : Nat) :
    (TreeNode.modify (fun n => n.update w a) t p).get? (p ++ i :: q) =
      t.get? (p ++ i :: q) := by
  rw [TreeNode.get?_modify_append, TreeNode.get?_append]
  cases t.get? p with
  | none => rfl
  | some n =>
    show (n.update w a).get? (i :: q) = n.get? (i :: q)
    rw [TreeNode.get?_cons, TreeNode.get?_cons, TreeNode.child_update]

/-- Backpropagation along pointers that lead strictly above a node leaves the
node. -/
theorem MonteCarloTreeSearch.foldl_update_get? (w : Player) (a : AverageValue)
    (cur : TreeNode.Path) (l : List (TreeNode.Path × Option AverageValue)) (t : TreeNode)
    (hl : ∀ e ∈ l, e.1 <+: cur ∧ e.1.length < cur.length) :
    (l.foldl (fun (t : TreeNode) (item : TreeNode.Path × Option AverageValue) =>
      t.modify (fun path_node => path_node.update w a) item.1) t).get? cur = t.get? cur := by
  induction l generalizing t with
  | nil => rfl
  | cons e l ih =>
    rw [List.foldl_cons, ih _ (fun x hx => hl x (List.mem_cons_of_mem _ hx))]
    obtain ⟨⟨r, hr⟩, hlen⟩ := hl e (List.mem_cons_self _ _)
    cases r with
    | nil =>
      rw [List.append_nil] at hr
      rw [hr] at hlen
      exact absurd hlen (lt_irrefl _)
    | cons i q =>
      rw [← hr]
      exact TreeNode.get?_modify_update_below w a t e.1 q i

/-- When the descent of `expand` ends at a node whose state is terminal, it has
not stopped at an expansion: no entry of the path holds a value, and every
entry points strictly above that node. -/
theorem MonteCarloTreeSearch.select_terminal (m : MonteCarloTreeSearch) (left : Nat)
    (root t node : TreeNode) (d d1 : Descent)
    (h : m.select left root d = Call.returned t d1)
    (hn : t.get? d1.currentNode = some node) (ho : node.state.isGameOver = true) :
    ∃ ext : List (TreeNode.Path × Option AverageValue),
      d1.backprop_stack = d.backprop_stack ++ ext ∧
      ∀ e ∈ ext, e.2 = none ∧ e.1 <+: d1.currentNode ∧ e.1.length < d1.currentNode.length := by
  induction left generalizing root d with
  | zero =>
    cases hg : root.get? d.currentNode with
    | none => rw [m.select_none 0 root d hg] at h; cases h
    | some node0 =>
      rw [m.select_zero root node0 d hg] at h
      cases h
      exact ⟨[], (List.append_nil _).symm, by simp⟩
  | succ left ih =>
    cases hg : root.get? d.currentNode with
    | none => rw [m.select_none _ root d hg] at h; cases h
    | some node0 =>
      rcases Bool.eq_false_or_eq_true node0.state.isGameOver with ho0 | ho0
      · rw [m.select_over _ root node0 d hg ho0] at h
        cases h
        exact ⟨[], (List.append_nil _).symm, by simp⟩
      · rw [m.select_succ left root node0 d hg ho0] at h
        cases hc : node0.initChildren m.evaluator_ with
        | undefined => simp only [hc] at h; cases h
        | thrown node1 => simp only [hc] at h; cases h
        | returned node1 child_value =>
          simp only [hc] at h
          by_cases hv : child_value.isSome = true
          · rw [if_pos hv] at h
            cases h
            have hself : (TreeNode.modify (fun _ => node1) root d.currentNode).get?
                d.currentNode = some node1 := by
              rw [TreeNode.get?_modify_self, hg]; rfl
            rw [hself] at hn
            cases hn
            rw [(node0.initChildren_fields node m.evaluator_ child_value hc).1, ho0] at ho
            cases ho
          · rw [if_neg hv] at h
            have hcv : child_value = none := by
              cases child_value with
              | none => rfl
              | some v => exact absurd rfl hv
            cases hs : m.expansion_strategy_ node1 with
            | none => simp only [hs] at h; cases h
            | some move_idx =>
              simp only [hs] at h
              by_cases hneg : move_idx < 0
              · rw [if_pos hneg] at h; cases h
              · rw [if_neg hneg] at h
                obtain ⟨-, -, k3, -⟩ := m.select_returned left _ t _ d1 h
                obtain ⟨ext, k4, k5⟩ := ih _ _ h
                dsimp only at k3 k4
                have hpre : d.currentNode <+: d1.currentNode :=
                  List.IsPrefix.trans (List.prefix_append _ _) k3
                have hlen : d.currentNode.length < d1.currentNode.length := by
                  have := List.IsPrefix.length_le k3
                  rw [List.length_append, List.length_singleton] at this
                  omega
                refine ⟨(d.currentNode, child_value) :: ext, ?_, fun e he => ?_⟩
                · rw [k4, List.append_assoc]; rfl
                · rcases List.mem_cons.1 he with rfl | he1
                  · exact ⟨hcv, hpre, hlen⟩
                  · exact k5 e he1

/-- When the descent of `expand` from a root that is not terminal ends at a node
whose state is terminal, `expand` returns, and in the tree it leaves that node
is the node it was, updated exactly once, with the winner of its state (NONE
when the state has none) and an `AverageValue` of support 1 whose
`playerOneValue` is 1, -1 or 0 for the winner ONE, TWO or NONE. -/
theorem MonteCarloTreeSearch.expand_terminal_below_root (m : MonteCarloTreeSearch)
    (root t node : TreeNode) (d : Descent)
    (hsel : m.select 200 root { currentNode := [], backprop_stack := [] } = Call.returned t d)
    (hn : t.get? d.currentNode = some node) (ho : node.state.isGameOver = true)
    (hroot : root.state.isGameOver = false) :
    ∃ (t1 : TreeNode) (accumulated_value : AverageValue),
      m.expand root = Call.returned t1 () ∧
      t1.get? d.currentNode =
        some (node.update (node.state.winner.getD Player.NONE) accumulated_value) ∧
      accumulated_value.support = 1 ∧
      accumulated_value.playerOneValue =
        (if node.state.winner.getD Player.NONE = Player.ONE then 1
         else if node.state.winner.getD Player.NONE = Player.TWO then -1 else 0) ∧
      d.currentNode ≠ [] := by
  obtain ⟨ext, k4, k5⟩ := m.select_terminal 200 root t node _ d hsel hn ho
  obtain ⟨-, -, -, ext1, j4, -, j6, j7⟩ := m.select_returned 200 root t _ d hsel
  rw [List.nil_append] at k4 j4
  have hne : ext ≠ [] := by
    rw [← k4, j4]
    intro he
    rcases j7 he with h0 | ⟨node0, hn0, ho0⟩
    · cases h0
    · cases hn0
      rw [hroot] at ho0
      cases ho0
  obtain ⟨last, hlast⟩ : ∃ last, d.backprop_stack.getLast? = some last := by
    rw [k4]
    cases hl : ext.getLast? with
    | none => exact absurd (List.getLast?_eq_none_iff.1 hl) hne
    | some last => exact ⟨last, rfl⟩
  have hmem : last ∈ ext := by
    rw [← k4]
    exact List.mem_of_getLast?_eq_some hlast
  have hcur : d.currentNode ≠ [] := by
    intro hc
    have := (k5 last hmem).2.2
    rw [hc] at this
    exact absurd this (Nat.not_lt_zero _)
  refine ⟨MonteCarloTreeSearch.backpropagate (node.state.winner.getD Player.NONE)
      (({} : AverageValue).addWinner (node.state.winner.getD Player.NONE))
      (t.modify (fun n => n.update (node.state.winner.getD Player.NONE)
        (({} : AverageValue).addWinner (node.state.winner.getD Player.NONE))) d.currentNode)
      d.backprop_stack,
    ({} : AverageValue).addWinner (node.state.winner.getD Player.NONE), ?_, ?_, ?_, ?_, hcur⟩
  · unfold MonteCarloTreeSearch.expand
    simp only [hsel, hlast, (k5 last hmem).1, hn, ho, if_true]
  · unfold MonteCarloTreeSearch.backpropagate
    rw [MonteCarloTreeSearch.foldl_update_get? _ _ d.currentNode _ _
      (fun e he => by
        rw [k4] at he
        exact (k5 e (List.mem_reverse.1 he)).2),
      TreeNode.get?_modify_self, hn]
    rfl
  · cases node.state.winner.getD Player.NONE <;> rfl
  · cases node.state.winner.getD Player.NONE <;> simp [AverageValue.addWinner]

/-- The descent of the second `expand` of `lastMoveSearch` from the root of the
shortest game ends at the terminal child of move 8, which `expand` updates
once, with the winner ONE and the value 1 of support 1. -/
theorem expand_terminal_below_root_example :
    shortestGameRoot.state.isGameOver = false ∧
    ∃ (t1 node : TreeNode),
      lastMoveSearch.expand shortestGameRoot = Call.returned t1 () ∧
      shortestGameRoot.get? [8] = some node ∧ node.state.isGameOver = true ∧
      node.state.winner = some Player.ONE ∧
      t1.get? [8] = some (node.update Player.ONE { playerOneValue := 1, support := 1 }) := by
  refine ⟨by decide!, ?_⟩
  have hfacts : (shortestGameRoot.get? [8]).map
      (fun n => (n.state.isGameOver, n.state.winner)) = some (true, some Player.ONE) := by
    decide!
  cases hnode : shortestGameRoot.get? [8] with
  | none => rw [hnode] at hfacts; cases hfacts
  | some node =>
    rw [hnode] at hfacts
    simp only [Option.map_some', Option.some.injEq, Prod.mk.injEq] at hfacts
    obtain ⟨ho, hw⟩ := hfacts
    have hsel : lastMoveSearch.select 200 shortestGameRoot
        { currentNode := [], backprop_stack := [] } =
        Call.returned shortestGameRoot
          { currentNode := [8], backprop_stack := [([], none)] } := by
      rw [lastMoveSearch.select_succ 199 shortestGameRoot shortestGameRoot
        { currentNode := [], backprop_stack := [] } (TreeNode.get?_nil _) (by decide!),
        shortestGameRoot.initChildren_initialized _ (by decide!)]
      exact lastMoveSearch.select_over 199 shortestGameRoot node
        { currentNode := [8], backprop_stack := [([], none)] } hnode ho
    obtain ⟨t1, a, h1, h2, h3, h4, -⟩ := lastMoveSearch.expand_terminal_below_root
      shortestGameRoot shortestGameRoot node _ hsel hnode ho (by decide!)
    rw [hw] at h2 h4
    have ha : a = { playerOneValue := 1, support := 1 } := by
      cases a
      simp only [Option.getD_some, if_true] at h4
      simp only at h3
      rw [h3, h4]
    rw [ha] at h2
    exact ⟨t1, node, h1, rfl, ho, hw, h2⟩

/-! ## Claims C32 and C33: the geometry of the board -/

/-- C32: for ONE or TWO to move and every move `m` of `0..8`, `boardCell(m)` is
`8 - m` when ONE is to move and `9 + m` when TWO is to move, and
`moveByCell(boardCell(m)) = m`; and for a cell `c` of `0..17`,
`boardCell(moveByCell(c)) = c` exactly when `c` is in the row of the player to
move (`0..8` for ONE, `9..17` for TWO). -/
theorem boardCell_moveByCell (s : GameState)
    (hp : s.currentPlayer = Player.ONE ∨ s.currentPlayer = Player.TWO) :
    (∀ m : Int, 0 ≤ m → m ≤ 8 →
      (s.currentPlayer = Player.ONE → s.boardCell m = 8 - m) ∧
      (s.currentPlayer = Player.TWO → s.boardCell m = 9 + m) ∧
      moveByCell (s.boardCell m) = m) ∧
    (∀ c : Int, 0 ≤ c → c ≤ 17 →
      (s.currentPlayer = Player.ONE → (s.boardCell (moveByCell c) = c ↔ c ≤ 8)) ∧
      (s.currentPlayer = Player.TWO → (s.boardCell (moveByCell c) = c ↔ 9 ≤ c))) := by
  constructor
  · intro m h0 h8
    rcases hp with hp | hp
    · refine ⟨fun _ => ?_, fun h => ?_, ?_⟩
      · simp [GameState.boardCell, hp]
      · rw [hp] at h
        cases h
      · simp only [GameState.boardCell, hp, if_true, moveByCell]
        split_ifs <;> omega
    · refine ⟨fun h => ?_, fun _ => ?_, ?_⟩
      · rw [hp] at h
        cases h
      · simp [GameState.boardCell, hp]
      · simp only [GameState.boardCell, hp, moveByCell]
        split_ifs <;> omega
  · intro c h0 h17
    constructor
    · intro hp1
      simp only [GameState.boardCell, hp1, if_true, moveByCell]
      split_ifs <;> constructor <;> intro <;> omega
    · intro hp2
      simp only [GameState.boardCell, hp2, moveByCell]
      split_ifs <;> first | contradiction | (constructor <;> intro <;> omega)

theorem boardCell_moveByCell_witness :
    (∀ m : Int, 0 ≤ m → m ≤ 8 →
      (GameState.init.currentPlayer = Player.ONE → GameState.init.boardCell m = 8 - m) ∧
      (GameState.init.currentPlayer = Player.TWO → GameState.init.boardCell m = 9 + m) ∧
      moveByCell (GameState.init.boardCell m) = m) ∧
    (∀ c : Int, 0 ≤ c → c ≤ 17 →
      (GameState.init.currentPlayer = Player.ONE →
        (GameState.init.boardCell (moveByCell c) = c ↔ c ≤ 8)) ∧
      (GameState.init.currentPlayer = Player.TWO →
        (GameState.init.boardCell (moveByCell c) = c ↔ 9 ≤ c))) :=
  boardCell_moveByCell GameState.init (Or.inl rfl)

/-- C33: `nextCell` maps `0..17` into `0..17`, is injective and surjective
there, 18 applications lead from every cell back to it and no smaller positive
number does; from cell 8 the order is 8, 7, ..., 0, 9, 10, ..., 17, 8. -/
theorem nextCell_cycle :
    (∀ c : Int, 0 ≤ c → c ≤ 17 → 0 ≤ nextCell c ∧ nextCell c ≤ 17) ∧
    (∀ a b : Int, 0 ≤ a → a ≤ 17 → 0 ≤ b → b ≤ 17 → nextCell a = nextCell b → a = b) ∧
    (∀ c : Int, 0 ≤ c → c ≤ 17 → ∃ a : Int, 0 ≤ a ∧ a ≤ 17 ∧ nextCell a = c) ∧
    (∀ c : Int, 0 ≤ c → c ≤ 17 → nextCell^[18] c = c) ∧
    (∀ (c : Int) (k : Nat), 0 ≤ c → c ≤ 17 → 0 < k → k < 18 → nextCell^[k] c ≠ c) ∧
    (List.range 19).map (fun k => nextCell^[k] 8) =
      [8, 7, 6, 5, 4, 3, 2, 1, 0, 9, 10, 11, 12, 13, 14, 15, 16, 17, 8] := by
  refine ⟨?_, ?_, ?_, ?_, ?_, by decide⟩
  · intro c h0 h17
    have := nextCell_range c h0 (by omega)
    omega
  · intro a b _ _ _ _ h
    unfold nextCell at h
    split_ifs at h <;> omega
  · intro c h0 h17
    have key : ∀ c : Fin 18, ∃ a : Fin 18, nextCell (a.val : Int) = c.val := by decide
    obtain ⟨a, ha⟩ := key ⟨c.toNat, by omega⟩
    simp only [Int.toNat_of_nonneg h0] at ha
    exact ⟨a.val, by omega, by omega, ha⟩
  · intro c h0 h17
    have key : ∀ c : Fin 18, nextCell^[18] (c.val : Int) = c.val := by decide
    have := key ⟨c.toNat, by omega⟩
    simp only [Int.toNat_of_nonneg h0] at this
    exact this
  · intro c k h0 h17 hk0 hk
    exact nextCell_iterate_ne k c h0 (by omega) hk0 hk

/-! ## Claim C34: a move keeps the pebbles -/

theorem GameState.boardCell_range_of_allowed (s : GameState) (m : Int)
    (ha : s.isMoveAllowed m = true) : 0 ≤ s.boardCell m ∧ s.boardCell m < 18 := by
  rw [s.isMoveAllowed_iff] at ha
  by_contra hc
  apply ha
  unfold Cells.get
  rw [dif_neg hc]

theorem GameState.sowCell_eq_iterate (s : GameState) (m : Int) (k : Nat) :
    s.sowCell m k = nextCell^[k] (s.sowStart m).currentCell := by
  unfold GameState.sowCell GameState.sowPrefix
  exact s.sowPlain_iterate_currentCell k _

theorem GameState.sowStart_currentCell_range_of_allowed (s : GameState) (m : Int)
    (ha : s.isMoveAllowed m = true) :
    0 ≤ (s.sowStart m).currentCell ∧ (s.sowStart m).currentCell < 18 := by
  have hb := s.boardCell_range_of_allowed m ha
  show 0 ≤ (if s.cells.get (s.boardCell m) = 1 then nextCell (s.boardCell m)
      else s.boardCell m) ∧
    (if s.cells.get (s.boardCell m) = 1 then nextCell (s.boardCell m)
      else s.boardCell m) < 18
  split_ifs
  · exact nextCell_range _ hb.1 hb.2
  · exact hb

theorem GameState.sowCell_range (s : GameState) (m : Int) (k : Nat)
    (ha : s.isMoveAllowed m = true) : 0 ≤ s.sowCell m k ∧ s.sowCell m k < 18 := by
  rw [s.sowCell_eq_iterate]
  have h := s.sowStart_currentCell_range_of_allowed m ha
  exact nextCell_iterate_range k _ h.1 h.2

theorem GameState.ruleB_newScoreOne_of_not_ONE (s : GameState) (w : Sow)
    (hp : s.currentPlayer ≠ Player.ONE) : (s.ruleB w).newScoreOne = w.newScoreOne := by
  unfold GameState.ruleB
  simp only [hp, if_false]
  split_ifs <;> rfl

theorem GameState.ruleB_newScoreTwo_of_not_TWO (s : GameState) (w : Sow)
    (hp : s.currentPlayer ≠ Player.TWO) : (s.ruleB w).newScoreTwo = w.newScoreTwo := by
  unfold GameState.ruleB
  simp only [hp, if_false]
  split_ifs <;> rfl

theorem GameState.ruleD_newScoreOne_of_not_ONE (s : GameState) (w : Sow)
    (hp : s.currentPlayer ≠ Player.ONE) : (s.ruleD w).newScoreOne = w.newScoreOne := by
  cases hpl : s.currentPlayer
  · exact absurd hpl hp
  · rw [GameState.ruleD_TWO _ _ hpl]
    split_ifs <;> rfl
  · rw [GameState.ruleD_NONE _ _ hpl]

theorem GameState.ruleD_newScoreTwo_of_not_TWO (s : GameState) (w : Sow)
    (hp : s.currentPlayer ≠ Player.TWO) : (s.ruleD w).newScoreTwo = w.newScoreTwo := by
  cases hpl : s.currentPlayer
  · rw [GameState.ruleD_ONE _ _ hpl]
    split_ifs <;> rfl
  · exact absurd hpl hp
  · rw [GameState.ruleD_NONE _ _ hpl]

/-- Rules B and D leave the score of ONE when ONE is not the player to move. -/
theorem GameState.sowEnd_newScoreOne_of_not_ONE (s : GameState) (m : Int) (hh : 1 ≤ s.hand m)
    (hp : s.currentPlayer ≠ Player.ONE) :
    (s.sowEnd m).newScoreOne = (s.sowLastDeposit m).newScoreOne := by
  rw [s.sowEnd_eq m hh]
  unfold GameState.sowBody GameState.sowLastDeposit
  simp only
  split_ifs
  · show (s.ruleD (s.ruleB (s.ruleC (s.sowBeforeLast m)))).newScoreOne = _
    rw [s.ruleD_newScoreOne_of_not_ONE _ hp, s.ruleB_newScoreOne_of_not_ONE _ hp]
  · rfl

/-- Rules B and D leave the score of TWO when TWO is not the player to move. -/
theorem GameState.sowEnd_newScoreTwo_of_not_TWO (s : GameState) (m : Int) (hh : 1 ≤ s.hand m)
    (hp : s.currentPlayer ≠ Player.TWO) :
    (s.sowEnd m).newScoreTwo = (s.sowLastDeposit m).newScoreTwo := by
  rw [s.sowEnd_eq m hh]
  unfold GameState.sowBody GameState.sowLastDeposit
  simp only
  split_ifs
  · show (s.ruleD (s.ruleB (s.ruleC (s.sowBeforeLast m)))).newScoreTwo = _
    rw [s.ruleD_newScoreTwo_of_not_TWO _ hp, s.ruleB_newScoreTwo_of_not_TWO _ hp]
  · rfl

/-- The score of a player who is not moving grows by the number of pebbles
that the move sows on the special cell of that player. -/
theorem GameState.move_score_of_not_mover (s : GameState) (m : Int) (hn : s.cells.NonNeg)
    (ha : s.isMoveAllowed m = true) :
    ∃ t, s.move m = some t ∧
      (s.currentPlayer ≠ Player.ONE →
        t.scoreOne = s.scoreOne + s.pebblesSownOn m (fun c => decide (c = s.specialOne))) ∧
      (s.currentPlayer ≠ Player.TWO →
        t.scoreTwo = s.scoreTwo +
          s.pebblesSownOn m (fun c => decide (c = s.specialTwo ∧ c ≠ s.specialOne))) := by
  obtain ⟨t, ht, -, h1, h2, -⟩ := s.move_eq m ha
  have hh := s.one_le_hand m hn ha
  have hd := s.sowLastDeposit_scores m hh
  refine ⟨t, ht, fun hp => ?_, fun hp => ?_⟩
  · rw [h1, s.sowEnd_newScoreOne_of_not_ONE m hh hp, hd.1]
  · rw [h2, s.sowEnd_newScoreTwo_of_not_TWO m hh hp, hd.2]

theorem GameState.pebblesSownOn_pos (s : GameState) (m : Int) (p : Int → Bool)
    (h : 0 < s.pebblesSownOn m p) :
    ∃ k : Nat, (k : Int) < s.hand m ∧ p (s.sowCell m k) = true := by
  unfold GameState.pebblesSownOn at h
  obtain ⟨k, hk⟩ := List.exists_mem_of_length_pos h
  rw [List.mem_filter, List.mem_range] at hk
  exact ⟨k, by omega, hk.2⟩

theorem GameState.pebblesSownOn_eq_zero (s : GameState) (m : Int) (p : Int → Bool)
    (h : ∀ k : Nat, p (s.sowCell m k) = false) : s.pebblesSownOn m p = 0 := by
  unfold GameState.pebblesSownOn
  rw [List.length_eq_zero, List.filter_eq_nil_iff]
  intro k _
  rw [h k]
  decide

/-! ## No score decreases, in the integers -/

/-- A negative entry of `estimateMoveValues`: the move sows a pebble on the
special cell of the opponent of the player to move. -/
theorem estimateMoveValues_neg (s t : GameState) (i : Nat) (hn : s.cells.NonNeg)
    (ht : s.move (i : Int) = some t)
    (hx : (scoreDiff s t - scoreDiff s s) / 81 < 0) :
    s.opponentSpecial ≠ SPECIAL_NOT_SET ∧
    ∃ k : Nat, (k : Int) < s.hand (i : Int) ∧ s.sowCell (i : Int) k = s.opponentSpecial := by
  have ha := move_isMoveAllowed s t _ ht
  have hle := s.move_scores_le t _ hn ht
  obtain ⟨u, hu, h1, h2⟩ := s.move_score_of_not_mover _ hn ha
  rw [ht] at hu
  cases hu
  have hnum : scoreDiff s t - scoreDiff s s < 0 := by
    by_contra hc
    push_neg at hc
    have : (0 : ℚ) ≤ (scoreDiff s t - scoreDiff s s) / 81 := div_nonneg hc (by norm_num)
    linarith
  have key : ∀ (p : Int → Bool) (c : Int), 0 < s.pebblesSownOn (i : Int) p →
      (∀ x : Int, p x = true → x = c) →
      c ≠ SPECIAL_NOT_SET ∧ ∃ k : Nat, (k : Int) < s.hand (i : Int) ∧ s.sowCell (i : Int) k = c := by
    intro p c hpos hp
    obtain ⟨k, hk, hpk⟩ := s.pebblesSownOn_pos _ p hpos
    have hc := hp _ hpk
    have hr := s.sowCell_range _ k ha
    refine ⟨?_, k, hk, hc⟩
    rw [← hc]
    unfold SPECIAL_NOT_SET
    omega
  by_cases hp : s.currentPlayer = Player.ONE
  · have hpt : s.currentPlayer ≠ Player.TWO := by rw [hp]; decide
    have h2 := h2 hpt
    simp only [scoreDiff, hp, if_true] at hnum
    have hint : (t.scoreOne - t.scoreTwo) - (s.scoreOne - s.scoreTwo) < 0 := by
      exact_mod_cast hnum
    have hpos : 0 < s.pebblesSownOn (i : Int)
        (fun c => decide (c = s.specialTwo ∧ c ≠ s.specialOne)) := by omega
    have hopp : s.opponentSpecial = s.specialTwo := by simp [GameState.opponentSpecial, hp]
    rw [hopp]
    exact key _ _ hpos (fun x hx => (of_decide_eq_true hx).1)
  · have h1 := h1 hp
    simp only [scoreDiff, hp, if_false] at hnum
    have hint : (t.scoreTwo - t.scoreOne) - (s.scoreTwo - s.scoreOne) < 0 := by
      exact_mod_cast hnum
    have hpos : 0 < s.pebblesSownOn (i : Int) (fun c => decide (c = s.specialOne)) := by omega
    have hopp : s.opponentSpecial = s.specialOne := by simp [GameState.opponentSpecial, hp]
    rw [hopp]
    exact key _ _ hpos (fun x hx => of_decide_eq_true hx)

/-- With the counts and the scores taken as integers: from a state without
negative cells `move` computes a state in which neither score is lower, the
score of a player who is not moving and has no special cell is the same, and
a negative entry `i` of `estimateMoveValues` means that move `i` sows a pebble
on the special cell of the opponent of the player to move. -/
theorem scores_monotone_integers :
    (∀ (s : GameState) (m : Int), s.cells.NonNeg → s.isMoveAllowed m = true →
      ∃ t, s.move m = some t ∧ s.scoreOne ≤ t.scoreOne ∧ s.scoreTwo ≤ t.scoreTwo ∧
        (s.currentPlayer ≠ Player.ONE → s.specialOne = SPECIAL_NOT_SET →
          t.scoreOne = s.scoreOne) ∧
        (s.currentPlayer ≠ Player.TWO → s.specialTwo = SPECIAL_NOT_SET →
          t.scoreTwo = s.scoreTwo)) ∧
    (∀ s : GameState, s.cells.NonNeg →
      ∃ out : List ℚ, estimateMoveValues s = some out ∧ out.length = 9 ∧
        (s.opponentSpecial = SPECIAL_NOT_SET → ∀ x ∈ out, 0 ≤ x) ∧
        (∀ (i : Nat) (x : ℚ), out[i]? = some x → x < 0 →
          s.opponentSpecial ≠ SPECIAL_NOT_SET ∧
          ∃ k : Nat, (k : Int) < s.hand (i : Int) ∧
            s.sowCell (i : Int) k = s.opponentSpecial)) := by
  constructor
  · intro s m hn ha
    obtain ⟨t, ht, h1, h2⟩ := s.move_score_of_not_mover m hn ha
    have hle := s.move_scores_le t m hn ht
    have hz : ∀ (p : Int → Bool) (c : Int), c = SPECIAL_NOT_SET →
        (∀ x : Int, p x = true → x = c) → s.pebblesSownOn m p = 0 := by
      intro p c hc hp
      apply s.pebblesSownOn_eq_zero
      intro k
      have hr := s.sowCell_range m k ha
      cases hpk : p (s.sowCell m k)
      · rfl
      · have := hp _ hpk
        rw [hc] at this
        unfold SPECIAL_NOT_SET at this
        omega
    refine ⟨t, ht, hle.1, hle.2, fun hp hsp => ?_, fun hp hsp => ?_⟩
    · rw [h1 hp, hz _ _ hsp (fun x hx => of_decide_eq_true hx)]
      simp
    · rw [h2 hp, hz _ _ hsp (fun x hx => (of_decide_eq_true hx).1)]
      simp
  · intro s hn
    obtain ⟨out, hout, hlen, hna, hal⟩ := estimateMoveValues_spec s
    have hneg : ∀ (i : Nat) (x : ℚ), out[i]? = some x → x < 0 →
        s.opponentSpecial ≠ SPECIAL_NOT_SET ∧
        ∃ k : Nat, (k : Int) < s.hand (i : Int) ∧
          s.sowCell (i : Int) k = s.opponentSpecial := by
      intro i x hi hx
      have hi9 : i < 9 := by
        have := (List.getElem?_eq_some_iff.1 hi).1
        omega
      cases hallow : s.isMoveAllowed (i : Int)
      · have := hna i hi9 hallow
        rw [hi] at this
        cases this
        exact absurd hx (lt_irrefl _)
      · obtain ⟨t, ht, hv⟩ := hal i hi9 hallow
        rw [hi] at hv
        cases hv
        exact estimateMoveValues_neg s t i hn ht hx
    refine ⟨out, hout, hlen, fun hsp x hxm => ?_, hneg⟩
    obtain ⟨i, hi⟩ := List.mem_iff_getElem?.1 hxm
    by_contra hc
    push_neg at hc
    exact (hneg i x hi hc).1 hsp

/-! ## Where Rule D creates a special cell -/

theorem GameState.lastCell_range (s : GameState) (m : Int) (ha : s.isMoveAllowed m = true) :
    0 ≤ s.lastCell m ∧ s.lastCell m < 18 :=
  s.sowCell_range m _ ha

theorem GameState.sowBeforeLast_specials (s : GameState) (m : Int) :
    (s.sowBeforeLast m).newSpecialOne = s.specialOne ∧
    (s.sowBeforeLast m).newSpecialTwo = s.specialTwo :=
  s.sowPlain_iterate_specials _ (s.sowStart m)

/-- The last iteration of the loop changes the special cell of ONE only when
ONE is to move and the cell sown is reachable and not in column 8; the cell
becomes the special cell and is emptied. -/
theorem GameState.sowBody_zero_newSpecialOne (s : GameState) (w : Sow)
    (h0 : 0 ≤ w.currentCell) (h18 : w.currentCell < 18)
    (h : (s.sowBody 0 w).newSpecialOne ≠ w.newSpecialOne) :
    s.currentPlayer = Player.ONE ∧ s.isReachable w.currentCell = true ∧
    (s.sowBody 0 w).newSpecialOne = w.currentCell ∧ moveByCell w.currentCell ≠ 8 ∧
    (s.sowBody 0 w).newCells.get w.currentCell = 0 := by
  cases hr : s.isReachable w.currentCell
  · rw [s.sowBody_zero_of_not_reachable w hr] at h
    exact absurd (s.ruleC_newSpecialOne w) h
  · rw [s.sowBody_zero_of_reachable w hr] at h ⊢
    have hcur : (s.ruleB (s.ruleC w)).currentCell = w.currentCell := by
      rw [s.ruleB_currentCell, s.ruleC_currentCell]
    have hsp : (s.ruleB (s.ruleC w)).newSpecialOne = w.newSpecialOne := by
      rw [(s.ruleB_specials _).1, s.ruleC_newSpecialOne]
    cases hp : s.currentPlayer
    · rw [GameState.ruleD_ONE _ _ hp] at h ⊢
      split_ifs at h ⊢ with hc
      · refine ⟨rfl, rfl, hcur, ?_, ?_⟩
        · rw [← hcur]
          exact hc.2.2.1
        · show ((s.ruleB (s.ruleC w)).newCells.set (s.ruleB (s.ruleC w)).currentCell 0).get
            w.currentCell = 0
          rw [hcur]
          exact Cells.get_set_same _ _ _ h0 h18
      · exact absurd hsp h
    · rw [GameState.ruleD_TWO _ _ hp] at h
      split_ifs at h
      · exact absurd hsp h
      · exact absurd hsp h
    · rw [GameState.ruleD_NONE _ _ hp] at h
      exact absurd hsp h

/-- The last iteration of the loop changes the special cell of TWO only when
TWO is to move and the cell sown is reachable and not in column 8; the cell
becomes the special cell and is emptied. -/
theorem GameState.sowBody_zero_newSpecialTwo (s : GameState) (w : Sow)
    (h0 : 0 ≤ w.currentCell) (h18 : w.currentCell < 18)
    (h : (s.sowBody 0 w).newSpecialTwo ≠ w.newSpecialTwo) :
    s.currentPlayer = Player.TWO ∧ s.isReachable w.currentCell = true ∧
    (s.sowBody 0 w).newSpecialTwo = w.currentCell ∧ moveByCell w.currentCell ≠ 8 ∧
    (s.sowBody 0 w).newCells.get w.currentCell = 0 := by
  cases hr : s.isReachable w.currentCell
  · rw [s.sowBody_zero_of_not_reachable w hr] at h
    exact absurd (s.ruleC_newSpecialTwo w) h
  · rw [s.sowBody_zero_of_reachable w hr] at h ⊢
    have hcur : (s.ruleB (s.ruleC w)).currentCell = w.currentCell := by
      rw [s.ruleB_currentCell, s.ruleC_currentCell]
    have hsp : (s.ruleB (s.ruleC w)).newSpecialTwo = w.newSpecialTwo := by
      rw [(s.ruleB_specials _).2, s.ruleC_newSpecialTwo]
    cases hp : s.currentPlayer
    · rw [GameState.ruleD_ONE _ _ hp] at h
      split_ifs at h
      · exact absurd hsp h
      · exact absurd hsp h
    · rw [GameState.ruleD_TWO _ _ hp] at h ⊢
      split_ifs at h ⊢ with hc
      · refine ⟨rfl, rfl, hcur, ?_, ?_⟩
        · rw [← hcur]
          exact hc.2.2.1
        · show ((s.ruleB (s.ruleC w)).newCells.set (s.ruleB (s.ruleC w)).currentCell 0).get
            w.currentCell = 0
          rw [hcur]
          exact Cells.get_set_same _ _ _ h0 h18
      · exact absurd hsp h
    · rw [GameState.ruleD_NONE _ _ hp] at h
      exact absurd hsp h

/-- A move that changes the special cell of ONE: ONE moved, the last pebble
was sown on a reachable cell outside column 8, and that cell is the new
special cell and is empty. -/
theorem GameState.move_newSpecialOne (s t : GameState) (m : Int) (hn : s.cells.NonNeg)
    (ht : s.move m = some t) (h : t.specialOne ≠ s.specialOne) :
    s.currentPlayer = Player.ONE ∧ s.isReachable (s.lastCell m) = true ∧
    t.specialOne = s.lastCell m ∧ moveByCell (s.lastCell m) ≠ 8 ∧
    t.cells.get (s.lastCell m) = 0 := by
  have ha := move_isMoveAllowed s t m ht
  obtain ⟨u, hu, -, -, -, h1, -, hc⟩ := s.move_eq m ha
  rw [ht] at hu
  cases hu
  have hh := s.one_le_hand m hn ha
  have hr := s.lastCell_range m ha
  rw [h1, hc, s.sowEnd_eq m hh]
  rw [h1, s.sowEnd_eq m hh, ← (s.sowBeforeLast_specials m).1] at h
  exact s.sowBody_zero_newSpecialOne (s.sowBeforeLast m) hr.1 hr.2 h

/-- A move that changes the special cell of TWO: TWO moved, the last pebble
was sown on a reachable cell outside column 8, and that cell is the new
special cell and is empty. -/
theorem GameState.move_newSpecialTwo (s t : GameState) (m : Int) (hn : s.cells.NonNeg)
    (ht : s.move m = some t) (h : t.specialTwo ≠ s.specialTwo) :
    s.currentPlayer = Player.TWO ∧ s.isReachable (s.lastCell m) = true ∧
    t.specialTwo = s.lastCell m ∧ moveByCell (s.lastCell m) ≠ 8 ∧
    t.cells.get (s.lastCell m) = 0 := by
  have ha := move_isMoveAllowed s t m ht
  obtain ⟨u, hu, -, -, -, -, h2, hc⟩ := s.move_eq m ha
  rw [ht] at hu
  cases hu
  have hh := s.one_le_hand m hn ha
  have hr := s.lastCell_range m ha
  rw [h2, hc, s.sowEnd_eq m hh]
  rw [h2, s.sowEnd_eq m hh, ← (s.sowBeforeLast_specials m).2] at h
  exact s.sowBody_zero_newSpecialTwo (s.sowBeforeLast m) hr.1 hr.2 h

theorem Reachable.specialsPlaced {s : GameState} (h : Reachable s) : s.SpecialsPlaced := by
  induction h with
  | init => exact ⟨Or.inl rfl, Or.inl rfl⟩
  | @move s t m hs _ _ ht ih =>
    have hr := s.lastCell_range m (move_isMoveAllowed s t m ht)
    constructor
    · by_cases hc : t.specialOne = s.specialOne
      · rw [hc]
        exact ih.1
      · obtain ⟨hp, hre, heq, hcol, -⟩ := s.move_newSpecialOne t m hs.nonNeg ht hc
        rw [s.isReachable_ONE _ hp] at hre
        right
        rw [heq]
        unfold moveByCell at hcol
        split_ifs at hcol <;> omega
    · by_cases hc : t.specialTwo = s.specialTwo
      · rw [hc]
        exact ih.2
      · obtain ⟨hp, hre, heq, hcol, -⟩ := s.move_newSpecialTwo t m hs.nonNeg ht hc
        rw [s.isReachable_TWO _ hp] at hre
        right
        rw [heq]
        unfold moveByCell at hcol
        split_ifs at hcol
        omega

theorem Reachable.specialsEmpty {s : GameState} (h : Reachable s) : s.SpecialsEmpty := by
  induction h with
  | init => exact ⟨fun h => absurd rfl h, fun h => absurd rfl h⟩
  | @move s t m hs _ _ ht ih =>
    have ha := move_isMoveAllowed s t m ht
    obtain ⟨u, hu, -, -, -, -, -, hcells⟩ := s.move_eq m ha
    rw [ht] at hu
    cases hu
    have hnt : t.cells.NonNeg := s.move_nonNeg t m hs.nonNeg ht
    have hpl := hs.specialsPlaced
    have hle : ∀ c : Int, 0 ≤ c → c < 18 → (c = s.specialOne ∨ c = s.specialTwo) →
        s.cells.get c = 0 → t.cells.get c = 0 := by
      intro c h0 h18 hc hz
      have h1 := s.sowEnd_get_le_of_special m c hs.nonNeg h0 h18 hc
      have h2 := hnt.get c
      rw [hcells]
      rw [hcells] at h2
      omega
    constructor
    · intro hset
      by_cases hc : t.specialOne = s.specialOne
      · rw [hc] at hset ⊢
        rcases hpl.1 with h1 | h1
        · exact absurd h1 hset
        · exact hle _ (by omega) (by omega) (Or.inl rfl) (ih.1 hset)
      · obtain ⟨-, -, heq, -, hz⟩ := s.move_newSpecialOne t m hs.nonNeg ht hc
        rw [heq]
        exact hz
    · intro hset
      by_cases hc : t.specialTwo = s.specialTwo
      · rw [hc] at hset ⊢
        rcases hpl.2 with h1 | h1
        · exact absurd h1 hset
        · exact hle _ (by omega) (by omega) (Or.inr rfl) (ih.2 hset)
      · obtain ⟨-, -, heq, -, hz⟩ := s.move_newSpecialTwo t m hs.nonNeg ht hc
        rw [heq]
        exact hz

/-! ## The last pebble on a cell that is not reachable, or on a special cell -/

/-- A move whose last pebble is sown on a cell that is not reachable: the
locals at the end of the loop are those after Rule C of the last iteration. -/
theorem GameState.move_of_not_reachable (s : GameState) (m : Int) (hn : s.cells.NonNeg)
    (ha : s.isMoveAllowed m = true) (hown : s.isReachable (s.lastCell m) = false) :
    ∃ t, s.move m = some t ∧ t.specialOne = s.specialOne ∧ t.specialTwo = s.specialTwo ∧
      t.cells = (s.sowLastDeposit m).newCells ∧
      t.scoreOne = (s.sowLastDeposit m).newScoreOne ∧
      t.scoreTwo = (s.sowLastDeposit m).newScoreTwo := by
  obtain ⟨t, ht, -, h1, h2, h3, h4, h5⟩ := s.move_eq m ha
  have hh := s.one_le_hand m hn ha
  have he : s.sowEnd m =
      { s.ruleC (s.sowBeforeLast m) with currentCell := nextCell (s.sowBeforeLast m).currentCell } := by
    rw [s.sowEnd_eq m hh]
    exact s.sowBody_zero_of_not_reachable _ hown
  rw [he] at h1 h2 h3 h4 h5
  refine ⟨t, ht, ?_, ?_, h5, h1, h2⟩
  · rw [h3]
    show (s.ruleC (s.sowBeforeLast m)).newSpecialOne = _
    rw [s.ruleC_newSpecialOne, (s.sowBeforeLast_specials m).1]
  · rw [h4]
    show (s.ruleC (s.sowBeforeLast m)).newSpecialTwo = _
    rw [s.ruleC_newSpecialTwo, (s.sowBeforeLast_specials m).2]

theorem GameState.sowPlain_iterate_get_of_special (s : GameState) (k : Nat) (w : Sow) (c : Int)
    (hc : s.isSpecial c ≠ Player.NONE) :
    ((s.sowPlain)^[k] w).newCells.get c = w.newCells.get c := by
  induction k with
  | zero => rfl
  | succ k ih =>
    rw [Function.iterate_succ_apply', s.sowPlain_newCells, s.ruleC_get_of_special _ c hc, ih]

theorem GameState.isSpecial_ne_NONE (s : GameState) (c : Int)
    (hc : c = s.specialOne ∨ c = s.specialTwo) : s.isSpecial c ≠ Player.NONE := by
  unfold GameState.isSpecial
  split_ifs with h1 h2
  · decide
  · decide
  · rcases hc with h | h
    · exact absurd h.symm h1
    · exact absurd h.symm h2

/-- A special cell that holds no pebble holds none when the last pebble of a
move is about to be sown. -/
theorem GameState.sowBeforeLast_get_special (s : GameState) (m c : Int)
    (hc : c = s.specialOne ∨ c = s.specialTwo) (hz : s.cells.get c = 0)
    (h0 : 0 ≤ c) (h18 : c < 18) : (s.sowBeforeLast m).newCells.get c = 0 := by
  unfold GameState.sowBeforeLast GameState.sowPrefix
  rw [s.sowPlain_iterate_get_of_special _ _ c (s.isSpecial_ne_NONE c hc)]
  show (s.cells.set (s.boardCell m) 0).get c = 0
  by_cases h : c = s.boardCell m
  · rw [← h]
    exact Cells.get_set_same _ _ _ h0 h18
  · rw [Cells.get_set_ne _ _ _ _ h]
    exact hz

theorem GameState.ruleC_newCells_of_special (s : GameState) (w : Sow)
    (hc : s.isSpecial w.currentCell ≠ Player.NONE) : (s.ruleC w).newCells = w.newCells := by
  unfold GameState.ruleC
  simp only [hc, if_false]
  split_ifs <;> rfl

/-- The last iteration of the loop on a special cell that holds no pebble:
the pebble goes to the owner of the cell by Rule C, Rule B captures the 0
pebbles of the cell, and Rule D does nothing. -/
theorem GameState.sowBody_zero_of_special (s : GameState) (w : Sow)
    (hc : s.isSpecial w.currentCell ≠ Player.NONE) (hz : w.newCells.get w.currentCell = 0) :
    (∀ j : Int, (s.sowBody 0 w).newCells.get j = w.newCells.get j) ∧
    (s.sowBody 0 w).newScoreOne = (s.ruleC w).newScoreOne ∧
    (s.sowBody 0 w).newScoreTwo = (s.ruleC w).newScoreTwo ∧
    (s.sowBody 0 w).newSpecialOne = w.newSpecialOne ∧
    (s.sowBody 0 w).newSpecialTwo = w.newSpecialTwo := by
  have hcells := s.ruleC_newCells_of_special w hc
  cases hr : s.isReachable w.currentCell
  · rw [s.sowBody_zero_of_not_reachable w hr]
    refine ⟨fun j => ?_, rfl, rfl, s.ruleC_newSpecialOne w, s.ruleC_newSpecialTwo w⟩
    show (s.ruleC w).newCells.get j = _
    rw [hcells]
  · rw [s.sowBody_zero_of_reachable w hr]
    have hgC : (s.ruleC w).newCells.get (s.ruleC w).currentCell = 0 := by
      rw [hcells, s.ruleC_currentCell]
      exact hz
    have hB : (∀ j : Int, (s.ruleB (s.ruleC w)).newCells.get j = w.newCells.get j) ∧
        (s.ruleB (s.ruleC w)).newScoreOne = (s.ruleC w).newScoreOne ∧
        (s.ruleB (s.ruleC w)).newScoreTwo = (s.ruleC w).newScoreTwo := by
      unfold GameState.ruleB
      have ht : Int.tmod (0 : Int) 2 = 0 := by decide
      simp only [hgC, ht, if_true]
      have hset : ∀ j : Int, ((s.ruleC w).newCells.set (s.ruleC w).currentCell 0).get j =
          w.newCells.get j := by
        intro j
        by_cases hj : j = (s.ruleC w).currentCell
        · rw [hj]
          by_cases hin : 0 ≤ (s.ruleC w).currentCell ∧ (s.ruleC w).currentCell < 18
          · rw [Cells.get_set_same _ _ _ hin.1 hin.2, ← hcells, hgC]
          · unfold Cells.get
            rw [dif_neg hin, dif_neg hin]
        · rw [Cells.get_set_ne _ _ _ _ hj, hcells]
      split_ifs <;> refine ⟨hset, ?_, ?_⟩ <;> simp [hgC]
    have hgB : (s.ruleB (s.ruleC w)).newCells.get (s.ruleB (s.ruleC w)).currentCell ≠ 3 := by
      rw [hB.1, s.ruleB_currentCell, s.ruleC_currentCell, hz]
      decide
    rw [s.ruleD_of_ne_three _ hgB]
    refine ⟨hB.1, hB.2.1, hB.2.2, ?_, ?_⟩
    · show (s.ruleB (s.ruleC w)).newSpecialOne = _
      rw [(s.ruleB_specials _).1, s.ruleC_newSpecialOne]
    · show (s.ruleB (s.ruleC w)).newSpecialTwo = _
      rw [(s.ruleB_specials _).2, s.ruleC_newSpecialTwo]

/-- In a reachable state a cell on which the last pebble of a move leaves a
pebble is not a special cell. -/
theorem Reachable.lastCell_not_special {s : GameState} (hs : Reachable s) (m : Int)
    (h : (s.sowLastDeposit m).newCells.get (s.lastCell m) ≠ 0)
    (hr : 0 ≤ s.lastCell m ∧ s.lastCell m < 18) :
    s.isSpecial (s.lastCell m) = Player.NONE := by
  by_contra hc
  apply h
  have hsp : s.lastCell m = s.specialOne ∨ s.lastCell m = s.specialTwo := by
    unfold GameState.isSpecial at hc
    split_ifs at hc with h1 h2
    · exact Or.inl h1.symm
    · exact Or.inr h2.symm
    · exact absurd rfl hc
  have hz : s.cells.get (s.lastCell m) = 0 := by
    have he := hs.specialsEmpty
    rcases hsp with h1 | h1
    · rw [h1]
      apply he.1
      rw [← h1]
      unfold SPECIAL_NOT_SET
      omega
    · rw [h1]
      apply he.2
      rw [← h1]
      unfold SPECIAL_NOT_SET
      omega
  unfold GameState.sowLastDeposit
  rw [s.ruleC_newCells_of_special _ hc]
  exact s.sowBeforeLast_get_special m _ hsp hz hr.1 hr.2

/-! ## Claims C35 and C36: the special cells of a reachable state -/

/-- C35: in every state reachable from the default start `specialOne` is -1 or
one of the cells `9..16` and `specialTwo` is -1 or one of the cells `1..8`;
and a move whose last pebble leaves exactly 3 pebbles on a cell that is not
reachable for the mover (a cell of the mover's own row) returns a state with
the same two specials, the 3 pebbles still on the cell, and the scores as they
were once the pebble was sown, which in a reachable state are the scores
before that pebble: Rules B and D credit nothing. -/
theorem special_in_reachable_row :
    (∀ s : GameState, Reachable s →
      (s.specialOne = SPECIAL_NOT_SET ∨ (9 ≤ s.specialOne ∧ s.specialOne ≤ 16)) ∧
      (s.specialTwo = SPECIAL_NOT_SET ∨ (1 ≤ s.specialTwo ∧ s.specialTwo ≤ 8))) ∧
    (∀ (s : GameState) (m : Int), s.cells.NonNeg → s.isMoveAllowed m = true →
      s.isReachable (s.lastCell m) = false →
      (s.sowLastDeposit m).newCells.get (s.lastCell m) = 3 →
      ∃ t, s.move m = some t ∧ t.specialOne = s.specialOne ∧ t.specialTwo = s.specialTwo ∧
        t.cells.get (s.lastCell m) = 3 ∧
        t.scoreOne = (s.sowLastDeposit m).newScoreOne ∧
        t.scoreTwo = (s.sowLastDeposit m).newScoreTwo ∧
        (Reachable s →
          t.scoreOne = (s.sowBeforeLast m).newScoreOne ∧
          t.scoreTwo = (s.sowBeforeLast m).newScoreTwo)) := by
  refine ⟨fun s hs => hs.specialsPlaced, ?_⟩
  intro s m hn ha hown h3
  obtain ⟨t, ht, h1, h2, hc, hs1, hs2⟩ := s.move_of_not_reachable m hn ha hown
  refine ⟨t, ht, h1, h2, ?_, hs1, hs2, fun hs => ?_⟩
  · rw [hc]
    exact h3
  · have hnsp := hs.lastCell_not_special m (by rw [h3]; decide) (s.lastCell_range m ha)
    rw [hs1, hs2]
    unfold GameState.sowLastDeposit
    rw [s.ruleC_of_not_special _ hnsp]
    exact ⟨rfl, rfl⟩

/-- C36: in every state reachable from the default start a cell recorded as
`specialOne` or `specialTwo` holds 0 pebbles; so the source cell of an allowed
move is not a special cell, and a move whose last pebble is sown on a special
cell returns a state with the board as it was before that pebble, the cell
still empty, the same two specials, one point more for the owner of the cell
and nothing more for either player. -/
theorem special_cells_empty :
    (∀ s : GameState, Reachable s →
      (s.specialOne ≠ SPECIAL_NOT_SET → s.cells.get s.specialOne = 0) ∧
      (s.specialTwo ≠ SPECIAL_NOT_SET → s.cells.get s.specialTwo = 0)) ∧
    (∀ (s : GameState) (m : Int), Reachable s → s.isMoveAllowed m = true →
      s.boardCell m ≠ s.specialOne ∧ s.boardCell m ≠ s.specialTwo) ∧
    (∀ (s : GameState) (m : Int), Reachable s → s.isMoveAllowed m = true →
      (s.lastCell m = s.specialOne ∨ s.lastCell m = s.specialTwo) →
      ∃ t, s.move m = some t ∧
        (∀ j : Int, t.cells.get j = (s.sowBeforeLast m).newCells.get j) ∧
        t.cells.get (s.lastCell m) = 0 ∧
        t.specialOne = s.specialOne ∧ t.specialTwo = s.specialTwo ∧
        (s.lastCell m = s.specialOne →
          t.scoreOne = (s.sowBeforeLast m).newScoreOne + 1 ∧
          t.scoreTwo = (s.sowBeforeLast m).newScoreTwo) ∧
        (s.lastCell m = s.specialTwo →
          t.scoreTwo = (s.sowBeforeLast m).newScoreTwo + 1 ∧
          t.scoreOne = (s.sowBeforeLast m).newScoreOne)) := by
  refine ⟨fun s hs => hs.specialsEmpty, ?_, ?_⟩
  · intro s m hs ha
    have he := hs.specialsEmpty
    have hb := s.boardCell_range_of_allowed m ha
    rw [s.isMoveAllowed_iff] at ha
    constructor
    · intro h
      apply ha
      rw [h]
      apply he.1
      rw [← h]
      unfold SPECIAL_NOT_SET
      omega
    · intro h
      apply ha
      rw [h]
      apply he.2
      rw [← h]
      unfold SPECIAL_NOT_SET
      omega
  · intro s m hs ha hsp
    have he := hs.specialsEmpty
    have hr := s.lastCell_range m ha
    have hne : ∀ c : Int, c = s.lastCell m → c ≠ SPECIAL_NOT_SET := by
      intro c hc
      rw [hc]
      unfold SPECIAL_NOT_SET
      omega
    have hz : s.cells.get (s.lastCell m) = 0 := by
      rcases hsp with h1 | h1
      · rw [h1]
        exact he.1 (hne _ h1.symm)
      · rw [h1]
        exact he.2 (hne _ h1.symm)
    have hzw := s.sowBeforeLast_get_special m _ hsp hz hr.1 hr.2
    have hspn := s.isSpecial_ne_NONE _ hsp
    obtain ⟨hcells, hs1, hs2, hp1, hp2⟩ :=
      s.sowBody_zero_of_special (s.sowBeforeLast m) hspn hzw
    obtain ⟨t, ht, -, h1, h2, h3, h4, h5⟩ := s.move_eq m ha
    have hh := s.one_le_hand m hs.nonNeg ha
    rw [s.sowEnd_eq m hh] at h1 h2 h3 h4 h5
    have hok := hs.specialsOk
    refine ⟨t, ht, fun j => ?_, ?_, ?_, ?_, fun hone => ?_, fun htwo => ?_⟩
    · rw [h5, hcells]
    · rw [h5, hcells]
      exact hzw
    · rw [h3, hp1, (s.sowBeforeLast_specials m).1]
    · rw [h4, hp2, (s.sowBeforeLast_specials m).2]
    · rw [h1, h2, hs1, hs2, s.ruleC_of_specialOne _ hone]
      exact ⟨rfl, rfl⟩
    · have hne1 : (s.sowBeforeLast m).currentCell ≠ s.specialOne := by
        intro hone
        have e1 : s.specialOne = s.lastCell m := hone.symm
        have e2 : s.specialTwo = s.lastCell m := htwo.symm
        exact hok.1 (hne _ e1) (hne _ e2) (e1.trans e2.symm)
      rw [h1, h2, hs1, hs2, s.ruleC_of_specialTwo _ htwo hne1]
      exact ⟨rfl, rfl⟩

/-! ## The mirror image of the board and of the sowing loop -/

theorem Cells.get_mirror (c : Cells) (i : Int) : c.mirror.get (17 - i) = c.get i := by
  unfold Cells.get
  by_cases h : 0 ≤ i ∧ i < 18
  · have h' : 0 ≤ 17 - i ∧ 17 - i < 18 := by omega
    rw [dif_pos h, dif_pos h']
    show c (Fin.rev _) = c _
    congr 1
    apply Fin.ext
    rw [Fin.val_rev]
    show 18 - ((17 - i).toNat + 1) = i.toNat
    omega
  · have h' : ¬ (0 ≤ 17 - i ∧ 17 - i < 18) := by omega
    rw [dif_neg h, dif_neg h']

theorem Cells.mirror_set (c : Cells) (i v : Int) :
    (c.set i v).mirror = c.mirror.set (17 - i) v := by
  funext j
  show (if ((Fin.rev j).val : Int) = i then v else c (Fin.rev j)) =
    (if (j.val : Int) = 17 - i then v else c (Fin.rev j))
  have hj := j.isLt
  have hr : ((Fin.rev j).val : Int) = 17 - (j.val : Int) := by
    rw [Fin.val_rev]
    omega
  rw [hr]
  by_cases h : (j.val : Int) = 17 - i
  · rw [if_pos h, if_pos (by omega)]
  · rw [if_neg h, if_neg (by omega)]

theorem mirrorSpecial_eq_iff (sp x : Int) (h0 : 0 ≤ x) (h17 : x ≤ 17) :
    mirrorSpecial sp = 17 - x ↔ sp = x := by
  unfold mirrorSpecial
  unfold SPECIAL_NOT_SET at *
  split_ifs <;> constructor <;> intro <;> omega

theorem mirrorSpecial_eq_unset_iff (sp : Int) (hsp : SpecialInRange sp) :
    mirrorSpecial sp = SPECIAL_NOT_SET ↔ sp = SPECIAL_NOT_SET := by
  unfold mirrorSpecial
  unfold SpecialInRange SPECIAL_NOT_SET at *
  split_ifs <;> constructor <;> intro <;> omega

theorem mirrorSpecial_of_set (sp : Int) (h : sp ≠ SPECIAL_NOT_SET) :
    mirrorSpecial sp = 17 - sp := by
  unfold mirrorSpecial
  rw [if_neg h]

theorem SpecialInRange.mirror {sp : Int} (h : SpecialInRange sp) :
    SpecialInRange (mirrorSpecial sp) := by
  unfold mirrorSpecial
  unfold SpecialInRange SPECIAL_NOT_SET at *
  split_ifs <;> omega

theorem moveByCell_mirror (x : Int) : moveByCell (17 - x) = moveByCell x := by
  unfold moveByCell
  split_ifs <;> omega

theorem nextCell_mirror (x : Int) (h0 : 0 ≤ x) (h17 : x ≤ 17) :
    nextCell (17 - x) = 17 - nextCell x := by
  unfold nextCell
  split_ifs <;> omega

theorem opponent_opponent (p : Player) : opponent (opponent p) = p := by
  cases p <;> rfl

theorem GameState.mirror_currentPlayer_ONE (s : GameState) (hp : s.currentPlayer = Player.ONE) :
    s.mirror.currentPlayer = Player.TWO := by
  show opponent s.currentPlayer = _
  rw [hp]
  rfl

theorem GameState.mirror_currentPlayer_TWO (s : GameState) (hp : s.currentPlayer = Player.TWO) :
    s.mirror.currentPlayer = Player.ONE := by
  show opponent s.currentPlayer = _
  rw [hp]
  rfl

theorem GameState.isSpecial_mirror (s : GameState) (hs : s.Regular) (x : Int)
    (h0 : 0 ≤ x) (h17 : x ≤ 17) : s.mirror.isSpecial (17 - x) = opponent (s.isSpecial x) := by
  obtain ⟨-, -, -, hd⟩ := hs
  unfold GameState.isSpecial
  show (if mirrorSpecial s.specialTwo = 17 - x then Player.ONE
    else if mirrorSpecial s.specialOne = 17 - x then Player.TWO else Player.NONE) = _
  simp only [mirrorSpecial_eq_iff _ _ h0 h17]
  by_cases a : s.specialOne = x <;> by_cases b : s.specialTwo = x
  · exfalso
    refine hd ?_ ?_ (a.trans b.symm)
    · rw [a]
      unfold SPECIAL_NOT_SET
      omega
    · rw [b]
      unfold SPECIAL_NOT_SET
      omega
  · simp [a, b, opponent]
  · simp [a, b, opponent]
  · simp [a, b, opponent]

theorem GameState.isReachable_mirror (s : GameState)
    (hp : s.currentPlayer = Player.ONE ∨ s.currentPlayer = Player.TWO) (x : Int) :
    s.mirror.isReachable (17 - x) = s.isReachable x := by
  rcases hp with hp | hp
  · have hm := s.mirror_currentPlayer_ONE hp
    unfold GameState.isReachable
    simp only [hp, hm, if_true, reduceCtorEq, if_false, decide_eq_decide]
    omega
  · have hm := s.mirror_currentPlayer_TWO hp
    unfold GameState.isReachable
    simp only [hp, hm, if_true, reduceCtorEq, if_false, decide_eq_decide]
    omega

theorem GameState.boardCell_mirror (s : GameState)
    (hp : s.currentPlayer = Player.ONE ∨ s.currentPlayer = Player.TWO) (m : Int) :
    s.mirror.boardCell m = 17 - s.boardCell m := by
  rcases hp with hp | hp
  · have hm := s.mirror_currentPlayer_ONE hp
    unfold GameState.boardCell
    simp only [hp, hm, if_true, reduceCtorEq, if_false]
    omega
  · have hm := s.mirror_currentPlayer_TWO hp
    unfold GameState.boardCell
    simp only [hp, hm, if_true, reduceCtorEq, if_false]
    omega

theorem GameState.hand_mirror (s : GameState)
    (hp : s.currentPlayer = Player.ONE ∨ s.currentPlayer = Player.TWO) (m : Int) :
    s.mirror.cells.get (s.mirror.boardCell m) = s.cells.get (s.boardCell m) := by
  rw [s.boardCell_mirror hp]
  exact Cells.get_mirror _ _

theorem GameState.isMoveAllowed_mirror (s : GameState)
    (hp : s.currentPlayer = Player.ONE ∨ s.currentPlayer = Player.TWO) (m : Int) :
    s.mirror.isMoveAllowed m = s.isMoveAllowed m := by
  unfold GameState.isMoveAllowed
  rw [s.hand_mirror hp]

/-! ## The rules of the sowing loop commute with the mirror image -/

theorem GameState.ruleC_mirror (s : GameState) (hs : s.Regular) (w : Sow)
    (h0 : 0 ≤ w.currentCell) (h17 : w.currentCell ≤ 17) :
    s.mirror.ruleC w.mirror = (s.ruleC w).mirror := by
  have hsp : s.mirror.isSpecial (17 - w.currentCell) = opponent (s.isSpecial w.currentCell) :=
    s.isSpecial_mirror hs w.currentCell h0 h17
  cases h : s.isSpecial w.currentCell
  · rw [h] at hsp
    have e1 : w.currentCell = s.specialOne := ((s.isSpecial_eq_ONE_iff _).1 h).symm
    have e2 := (s.mirror.isSpecial_eq_TWO_iff _).1 hsp
    rw [s.ruleC_of_specialOne w e1,
      s.mirror.ruleC_of_specialTwo w.mirror e2.2.symm (fun hc => e2.1 hc.symm)]
    rfl
  · rw [h] at hsp
    have e1 := (s.isSpecial_eq_TWO_iff _).1 h
    have e2 : w.mirror.currentCell = s.mirror.specialOne :=
      ((s.mirror.isSpecial_eq_ONE_iff _).1 hsp).symm
    rw [s.ruleC_of_specialTwo w e1.2.symm (fun hc => e1.1 hc.symm),
      s.mirror.ruleC_of_specialOne w.mirror e2]
    rfl
  · rw [h] at hsp
    rw [s.ruleC_of_not_special w h, s.mirror.ruleC_of_not_special w.mirror hsp]
    show ({ w.mirror with
      newCells := w.newCells.mirror.set (17 - w.currentCell)
        (w.newCells.mirror.get (17 - w.currentCell) + 1) } : Sow) = _
    rw [Cells.get_mirror, ← Cells.mirror_set]
    rfl

theorem GameState.ruleB_mirror (s : GameState)
    (hp : s.currentPlayer = Player.ONE ∨ s.currentPlayer = Player.TWO) (w : Sow) :
    s.mirror.ruleB w.mirror = (s.ruleB w).mirror := by
  have hg : w.mirror.newCells.get w.mirror.currentCell = w.newCells.get w.currentCell :=
    Cells.get_mirror _ _
  have hset : w.mirror.newCells.set w.mirror.currentCell 0 =
      (w.newCells.set w.currentCell 0).mirror := (Cells.mirror_set _ _ _).symm
  rcases hp with hp | hp
  · rw [s.ruleB_ONE w hp, s.mirror.ruleB_TWO w.mirror (s.mirror_currentPlayer_ONE hp), hg, hset]
    split_ifs <;> rfl
  · rw [s.ruleB_TWO w hp, s.mirror.ruleB_ONE w.mirror (s.mirror_currentPlayer_TWO hp), hg, hset]
    split_ifs <;> rfl

theorem GameState.ruleD_mirror (s : GameState)
    (hp : s.currentPlayer = Player.ONE ∨ s.currentPlayer = Player.TWO) (w : Sow)
    (h0 : 0 ≤ w.currentCell) (h1 : SpecialInRange w.newSpecialOne)
    (h2 : SpecialInRange w.newSpecialTwo) :
    s.mirror.ruleD w.mirror = (s.ruleD w).mirror := by
  have hg : w.mirror.newCells.get w.mirror.currentCell = w.newCells.get w.currentCell :=
    Cells.get_mirror _ _
  have hset : w.mirror.newCells.set w.mirror.currentCell 0 =
      (w.newCells.set w.currentCell 0).mirror := (Cells.mirror_set _ _ _).symm
  have hcol : moveByCell w.mirror.currentCell = moveByCell w.currentCell :=
    moveByCell_mirror _
  have hu1 : w.mirror.newSpecialTwo = SPECIAL_NOT_SET ↔ w.newSpecialOne = SPECIAL_NOT_SET :=
    mirrorSpecial_eq_unset_iff _ h1
  have hu2 : w.mirror.newSpecialOne = SPECIAL_NOT_SET ↔ w.newSpecialTwo = SPECIAL_NOT_SET :=
    mirrorSpecial_eq_unset_iff _ h2
  have hm1 : w.newSpecialOne ≠ SPECIAL_NOT_SET →
      moveByCell w.mirror.newSpecialTwo = moveByCell w.newSpecialOne := by
    intro h
    show moveByCell (mirrorSpecial w.newSpecialOne) = _
    rw [mirrorSpecial_of_set _ h, moveByCell_mirror]
  have hm2 : w.newSpecialTwo ≠ SPECIAL_NOT_SET →
      moveByCell w.mirror.newSpecialOne = moveByCell w.newSpecialTwo := by
    intro h
    show moveByCell (mirrorSpecial w.newSpecialTwo) = _
    rw [mirrorSpecial_of_set _ h, moveByCell_mirror]
  have hcur : mirrorSpecial w.currentCell = 17 - w.currentCell := by
    apply mirrorSpecial_of_set
    unfold SPECIAL_NOT_SET
    omega
  rcases hp with hp | hp
  · rw [s.ruleD_ONE w hp, s.mirror.ruleD_TWO w.mirror (s.mirror_currentPlayer_ONE hp), hg, hset,
      hcol]
    by_cases hc : w.newCells.get w.currentCell = 3 ∧ w.newSpecialOne = SPECIAL_NOT_SET ∧
        moveByCell w.currentCell ≠ 8 ∧
        (w.newSpecialTwo = SPECIAL_NOT_SET ∨
          moveByCell w.currentCell ≠ moveByCell w.newSpecialTwo)
    · have hc' : w.newCells.get w.currentCell = 3 ∧ w.mirror.newSpecialTwo = SPECIAL_NOT_SET ∧
          moveByCell w.currentCell ≠ 8 ∧
          (w.mirror.newSpecialOne = SPECIAL_NOT_SET ∨
            moveByCell w.currentCell ≠ moveByCell w.mirror.newSpecialOne) := by
        refine ⟨hc.1, hu1.2 hc.2.1, hc.2.2.1, ?_⟩
        by_cases hz : w.newSpecialTwo = SPECIAL_NOT_SET
        · exact Or.inl (hu2.2 hz)
        · right
          rw [hm2 hz]
          exact hc.2.2.2.resolve_left hz
      rw [if_pos hc, if_pos hc']
      show ({ w.mirror with
        newScoreTwo := w.newScoreOne + 3,
        newCells := (w.newCells.set w.currentCell 0).mirror,
        newSpecialTwo := 17 - w.currentCell } : Sow) = _
      rw [← hcur]
      rfl
    · have hc' : ¬ (w.newCells.get w.currentCell = 3 ∧ w.mirror.newSpecialTwo = SPECIAL_NOT_SET ∧
          moveByCell w.currentCell ≠ 8 ∧
          (w.mirror.newSpecialOne = SPECIAL_NOT_SET ∨
            moveByCell w.currentCell ≠ moveByCell w.mirror.newSpecialOne)) := by
        intro hx
        apply hc
        refine ⟨hx.1, hu1.1 hx.2.1, hx.2.2.1, ?_⟩
        by_cases hz : w.newSpecialTwo = SPECIAL_NOT_SET
        · exact Or.inl hz
        · right
          rw [← hm2 hz]
          exact hx.2.2.2.resolve_left (fun h => hz (hu2.1 h))
      rw [if_neg hc, if_neg hc']
  · rw [s.ruleD_TWO w hp, s.mirror.ruleD_ONE w.mirror (s.mirror_currentPlayer_TWO hp), hg, hset,
      hcol]
    by_cases hc : w.newCells.get w.currentCell = 3 ∧ w.newSpecialTwo = SPECIAL_NOT_SET ∧
        moveByCell w.currentCell ≠ 8 ∧
        (w.newSpecialOne = SPECIAL_NOT_SET ∨
          moveByCell w.currentCell ≠ moveByCell w.newSpecialOne)
    · have hc' : w.newCells.get w.currentCell = 3 ∧ w.mirror.newSpecialOne = SPECIAL_NOT_SET ∧
          moveByCell w.currentCell ≠ 8 ∧
          (w.mirror.newSpecialTwo = SPECIAL_NOT_SET ∨
            moveByCell w.currentCell ≠ moveByCell w.mirror.newSpecialTwo) := by
        refine ⟨hc.1, hu2.2 hc.2.1, hc.2.2.1, ?_⟩
        by_cases hz : w.newSpecialOne = SPECIAL_NOT_SET
        · exact Or.inl (hu1.2 hz)
        · right
          rw [hm1 hz]
          exact hc.2.2.2.resolve_left hz
      rw [if_pos hc, if_pos hc']
      show ({ w.mirror with
        newScoreOne := w.newScoreTwo + 3,
        newCells := (w.newCells.set w.currentCell 0).mirror,
        newSpecialOne := 17 - w.currentCell } : Sow) = _
      rw [← hcur]
      rfl
    · have hc' : ¬ (w.newCells.get w.currentCell = 3 ∧ w.mirror.newSpecialOne = SPECIAL_NOT_SET ∧
          moveByCell w.currentCell ≠ 8 ∧
          (w.mirror.newSpecialTwo = SPECIAL_NOT_SET ∨
            moveByCell w.currentCell ≠ moveByCell w.mirror.newSpecialTwo)) := by
        intro hx
        apply hc
        refine ⟨hx.1, hu2.1 hx.2.1, hx.2.2.1, ?_⟩
        by_cases hz : w.newSpecialOne = SPECIAL_NOT_SET
        · exact Or.inl hz
        · right
          rw [← hm1 hz]
          exact hx.2.2.2.resolve_left (fun h => hz (hu1.1 h))
      rw [if_neg hc, if_neg hc']

/-- One iteration of the sowing loop on the mirror image is the mirror image of
the iteration. -/
theorem GameState.sowBody_mirror (s : GameState) (hs : s.Regular) (n : Nat) (w : Sow)
    (h0 : 0 ≤ w.currentCell) (h17 : w.currentCell ≤ 17) (h1 : SpecialInRange w.newSpecialOne)
    (h2 : SpecialInRange w.newSpecialTwo) :
    s.mirror.sowBody n w.mirror = (s.sowBody n w).mirror := by
  have hnext : ∀ x : Sow, x.currentCell = w.currentCell →
      ({ x.mirror with currentCell := nextCell x.mirror.currentCell } : Sow) =
        ({ x with currentCell := nextCell x.currentCell } : Sow).mirror := by
    intro x hx
    show ({ x.mirror with currentCell := nextCell (17 - x.currentCell) } : Sow) = _
    rw [hx, nextCell_mirror _ h0 h17, ← hx]
    rfl
  have hC := s.ruleC_mirror hs w h0 h17
  have hCc := s.ruleC_currentCell w
  have hre : s.mirror.isReachable (s.ruleC w).mirror.currentCell =
      s.isReachable (s.ruleC w).currentCell := s.isReachable_mirror hs.1 _
  unfold GameState.sowBody
  simp only [hC, hre]
  split_ifs with hcond
  · have hB := s.ruleB_mirror hs.1 (s.ruleC w)
    have hBc : (s.ruleB (s.ruleC w)).currentCell = w.currentCell := by
      rw [s.ruleB_currentCell, hCc]
    have hD := s.ruleD_mirror hs.1 (s.ruleB (s.ruleC w)) (by rw [hBc]; exact h0)
      (by rw [(s.ruleB_specials _).1, s.ruleC_newSpecialOne]; exact h1)
      (by rw [(s.ruleB_specials _).2, s.ruleC_newSpecialTwo]; exact h2)
    rw [hB, hD]
    exact hnext _ (by rw [s.ruleD_currentCell, hBc])
  · exact hnext _ hCc

/-! ## A move on the mirror image -/

theorem GameState.sowLoop_mirror (s : GameState) (hs : s.Regular) (n : Nat) (w : Sow)
    (h0 : 0 ≤ w.currentCell) (h17 : w.currentCell ≤ 17) (h1 : SpecialInRange w.newSpecialOne)
    (h2 : SpecialInRange w.newSpecialTwo) :
    s.mirror.sowLoop n w.mirror = (s.sowLoop n w).mirror := by
  induction n generalizing w with
  | zero => rfl
  | succ n ih =>
    show s.mirror.sowLoop n (s.mirror.sowBody n w.mirror) = (s.sowLoop n (s.sowBody n w)).mirror
    rw [s.sowBody_mirror hs n w h0 h17 h1 h2]
    have hc := s.sowBody_currentCell n w
    have hn := nextCell_range w.currentCell h0 (by omega)
    have hsp := s.sowBody_specials n w
    have hcur : SpecialInRange w.currentCell := Or.inr ⟨h0, h17⟩
    apply ih
    · rw [hc]
      exact hn.1
    · rw [hc]
      omega
    · rcases hsp with h | h | h
      · rw [h.1]
        exact h1
      · rw [h.2.2.1]
        exact hcur
      · rw [h.2.2.2.1]
        exact h1
    · rcases hsp with h | h | h
      · rw [h.2]
        exact h2
      · rw [h.2.2.2.1]
        exact h2
      · rw [h.2.2.1]
        exact hcur

theorem GameState.sowStart_mirror (s : GameState)
    (hp : s.currentPlayer = Player.ONE ∨ s.currentPlayer = Player.TWO) (m : Int)
    (h0 : 0 ≤ m) (h8 : m ≤ 8) : s.mirror.sowStart m = (s.sowStart m).mirror := by
  have hb := s.boardCell_mirror hp m
  have hh := s.hand_mirror hp m
  have hr := s.boardCell_range m h0 h8
  show ({
      currentCell := if s.mirror.cells.get (s.mirror.boardCell m) = 1
        then nextCell (s.mirror.boardCell m) else s.mirror.boardCell m,
      newCells := s.mirror.cells.set (s.mirror.boardCell m) 0,
      newScoreOne := s.mirror.scoreOne,
      newScoreTwo := s.mirror.scoreTwo,
      newSpecialOne := s.mirror.specialOne,
      newSpecialTwo := s.mirror.specialTwo } : Sow) =
    {
      currentCell := 17 - (if s.cells.get (s.boardCell m) = 1
        then nextCell (s.boardCell m) else s.boardCell m),
      newCells := (s.cells.set (s.boardCell m) 0).mirror,
      newScoreOne := s.scoreTwo,
      newScoreTwo := s.scoreOne,
      newSpecialOne := mirrorSpecial s.specialTwo,
      newSpecialTwo := mirrorSpecial s.specialOne }
  rw [hh, hb, nextCell_mirror _ hr.1 (by omega), Cells.mirror_set]
  congr 1
  split_ifs <;> rfl

/-- The locals at the end of the sowing loop of a move on the mirror image are
the mirror image of those of the move. -/
theorem GameState.sowEnd_mirror (s : GameState) (hs : s.Regular) (m : Int)
    (h0 : 0 ≤ m) (h8 : m ≤ 8) : s.mirror.sowEnd m = (s.sowEnd m).mirror := by
  have hh := s.hand_mirror hs.1 m
  have hr := s.sowStart_currentCell_range m h0 h8
  unfold GameState.sowEnd
  rw [hh, s.sowStart_mirror hs.1 m h0 h8]
  exact s.sowLoop_mirror hs _ _ hr.1 (by omega) hs.2.1 hs.2.2.1

theorem GameState.ext_of_fields (a b : GameState) (h1 : a.currentPlayer = b.currentPlayer)
    (h2 : a.isGameOver = b.isGameOver) (h3 : a.winner = b.winner)
    (h4 : a.scoreOne = b.scoreOne) (h5 : a.scoreTwo = b.scoreTwo)
    (h6 : a.specialOne = b.specialOne) (h7 : a.specialTwo = b.specialTwo)
    (h8 : a.cells = b.cells) : a = b := by
  cases a
  cases b
  dsimp only at h1 h2 h3 h4 h5 h6 h7 h8
  subst h1 h2 h3 h4 h5 h6 h7 h8
  rfl

/-- Everything about the state that `move` returns for an allowed move. -/
theorem GameState.move_spec (s : GameState) (m : Int) (ha : s.isMoveAllowed m = true) :
    ∃ t, s.move m = some t ∧
      t.currentPlayer = opponent s.currentPlayer ∧
      t.scoreOne = (s.sowEnd m).newScoreOne ∧ t.scoreTwo = (s.sowEnd m).newScoreTwo ∧
      t.specialOne = (s.sowEnd m).newSpecialOne ∧ t.specialTwo = (s.sowEnd m).newSpecialTwo ∧
      t.cells = (s.sowEnd m).newCells ∧
      t.isGameOver = t.checkGameOver ∧
      t.winner =
        (if t.isGameOver = false then none
         else if t.scoreOne > 81 then some Player.ONE
         else if t.scoreTwo > 81 then some Player.TWO
         else if t.scoreOne = 81 ∧ t.scoreTwo = 81 then some Player.NONE
         else some (opponent t.currentPlayer)) := by
  obtain ⟨u, hu, h1, h2, h3, h4, h5, h6, h7, h8⟩ :=
    GameState.create_eq (opponent s.currentPlayer)
      (s.sowEnd m).newScoreOne (s.sowEnd m).newScoreTwo (s.sowEnd m).newSpecialOne
      (s.sowEnd m).newSpecialTwo (s.sowEnd m).newCells
  refine ⟨u, ?_, h1, h2, h3, h4, h5, h6, h7, ?_⟩
  · unfold GameState.move
    simp [ha, hu]
  · rw [h8, h1, h2, h3]

theorem GameState.checkGameOver_congr (a b : GameState)
    (hp : a.currentPlayer = b.currentPlayer) (h1 : a.scoreOne = b.scoreOne)
    (h2 : a.scoreTwo = b.scoreTwo) (hc : a.cells = b.cells) :
    a.checkGameOver = b.checkGameOver := by
  simp only [GameState.checkGameOver, GameState.anyMoveAllowed, GameState.isMoveAllowed,
    GameState.boardCell, hp, h1, h2, hc]

theorem GameState.checkGameOver_mirror (t : GameState)
    (hp : t.currentPlayer = Player.ONE ∨ t.currentPlayer = Player.TWO) :
    t.mirror.checkGameOver = t.checkGameOver := by
  rw [Bool.eq_iff_iff, GameState.checkGameOver_iff, GameState.checkGameOver_iff]
  have hh := t.hand_mirror hp
  simp only [hh]
  show (t.scoreTwo > 81 ∨ t.scoreOne > 81 ∨ (t.scoreTwo = 81 ∧ t.scoreOne = 81) ∨ _) ↔ _
  tauto

/-- A move on the mirror image returns the mirror image of what the move
returns, except that with both scores above 81 the winner is ONE on both
sides. -/
theorem GameState.move_mirror_spec (s : GameState) (hs : s.Regular) (m : Int)
    (h0 : 0 ≤ m) (h8 : m ≤ 8) (ha : s.isMoveAllowed m = true) :
    ∃ t u, s.move m = some t ∧ s.mirror.move m = some u ∧
      u.currentPlayer = t.mirror.currentPlayer ∧ u.isGameOver = t.mirror.isGameOver ∧
      u.scoreOne = t.mirror.scoreOne ∧ u.scoreTwo = t.mirror.scoreTwo ∧
      u.specialOne = t.mirror.specialOne ∧ u.specialTwo = t.mirror.specialTwo ∧
      u.cells = t.mirror.cells ∧
      (¬ (t.scoreOne > 81 ∧ t.scoreTwo > 81) → u = t.mirror) := by
  obtain ⟨t, ht, t1, t2, t3, t4, t5, t6, t7, t8⟩ := s.move_spec m ha
  have ha' : s.mirror.isMoveAllowed m = true := by rw [s.isMoveAllowed_mirror hs.1, ha]
  obtain ⟨u, hu, u1, u2, u3, u4, u5, u6, u7, u8⟩ := s.mirror.move_spec m ha'
  have he := s.sowEnd_mirror hs m h0 h8
  rw [he] at u2 u3 u4 u5 u6
  have hp : u.currentPlayer = t.mirror.currentPlayer := by
    show _ = opponent t.currentPlayer
    rw [u1, t1]
    rfl
  have hs1 : u.scoreOne = t.mirror.scoreOne := by
    show _ = t.scoreTwo
    rw [u2, t3]
    rfl
  have hs2 : u.scoreTwo = t.mirror.scoreTwo := by
    show _ = t.scoreOne
    rw [u3, t2]
    rfl
  have hp1 : u.specialOne = t.mirror.specialOne := by
    show _ = mirrorSpecial t.specialTwo
    rw [u4, t5]
    rfl
  have hp2 : u.specialTwo = t.mirror.specialTwo := by
    show _ = mirrorSpecial t.specialOne
    rw [u5, t4]
    rfl
  have hc : u.cells = t.mirror.cells := by
    show _ = t.cells.mirror
    rw [u6, t6]
    rfl
  have htp : t.currentPlayer = Player.ONE ∨ t.currentPlayer = Player.TWO := by
    rw [t1]
    rcases hs.1 with h | h
    · right
      rw [h]
      rfl
    · left
      rw [h]
      rfl
  have hover : u.isGameOver = t.mirror.isGameOver := by
    show _ = t.isGameOver
    rw [u7, t7, ← t.checkGameOver_mirror htp]
    exact GameState.checkGameOver_congr _ _ hp hs1 hs2 hc
  refine ⟨t, u, ht, hu, hp, hover, hs1, hs2, hp1, hp2, hc, fun hboth => ?_⟩
  refine GameState.ext_of_fields _ _ hp hover ?_ hs1 hs2 hp1 hp2 hc
  have ho : u.isGameOver = t.isGameOver := hover
  have e1 : u.scoreOne = t.scoreTwo := hs1
  have e2 : u.scoreTwo = t.scoreOne := hs2
  have e3 : u.currentPlayer = opponent t.currentPlayer := hp
  show u.winner = t.winner.map opponent
  rw [u8, t8, ho, e1, e2, e3]
  cases t.isGameOver
  · rfl
  · simp only [Bool.true_eq_false, if_false]
    by_cases a1 : t.scoreOne > 81
    · have a2 : ¬ t.scoreTwo > 81 := fun h => hboth ⟨a1, h⟩
      simp [a1, a2, opponent]
    · by_cases a2 : t.scoreTwo > 81
      · simp [a1, a2, opponent]
      · by_cases a3 : t.scoreOne = 81 ∧ t.scoreTwo = 81
        · simp [a1, a2, a3, opponent]
        · have a3' : ¬ (t.scoreTwo = 81 ∧ t.scoreOne = 81) := fun h => a3 ⟨h.2, h.1⟩
          simp [a1, a2, a3, a3']

/-! ## Claim C37: the rules are symmetric between the players -/

/-- C37, counterexample: in the state the sparse constructor builds for ONE to
move with scores 81 and 100, no special cell, 1 pebble on cell 0 and 1 pebble
on cell 9, only one score is above 81 and move 8 is allowed; it captures 2
pebbles, so the state it returns has scores 83 and 100 and winner ONE, whose
mirror image has winner TWO, while move 8 on the mirror image of the state
returns a state with scores 100 and 83 and winner ONE. -/
theorem move_mirror_counterexample :
    GameState.createSparse Player.ONE [(0, 1), (9, 1)] 81 100 SPECIAL_NOT_SET SPECIAL_NOT_SET =
      some lateCaptureState ∧
    lateCaptureState.currentPlayer = Player.ONE ∧
    lateCaptureState.specialOne = -1 ∧ lateCaptureState.specialTwo = -1 ∧
    ¬ (lateCaptureState.scoreOne > 81 ∧ lateCaptureState.scoreTwo > 81) ∧
    lateCaptureState.isMoveAllowed 8 = true ∧
    (lateCaptureState.move 8).map (fun t => (t.scoreOne, t.scoreTwo, t.winner)) =
      some (83, 100, some Player.ONE) ∧
    (lateCaptureState.move 8).map (fun t => t.mirror.winner) = some (some Player.TWO) ∧
    (lateCaptureState.mirror.move 8).map (fun u => (u.scoreOne, u.scoreTwo, u.winner)) =
      some (100, 83, some Player.ONE) ∧
    lateCaptureState.mirror.move 8 ≠ (lateCaptureState.move 8).map GameState.mirror := by
  have hw : (lateCaptureState.move 8).map (fun t => t.mirror.winner) =
      some (some Player.TWO) := by decide
  have hu : (lateCaptureState.mirror.move 8).map (fun u => (u.scoreOne, u.scoreTwo, u.winner)) =
      some (100, 83, some Player.ONE) := by decide
  refine ⟨?_, by decide, by decide, by decide, by decide, by decide, by decide, hw, hu, ?_⟩
  · unfold lateCaptureState
    cases h : GameState.createSparse Player.ONE [(0, 1), (9, 1)] 81 100
        SPECIAL_NOT_SET SPECIAL_NOT_SET with
    | none =>
      have : (GameState.createSparse Player.ONE [(0, 1), (9, 1)] 81 100
          SPECIAL_NOT_SET SPECIAL_NOT_SET).isSome = true := by decide
      rw [h] at this
      cases this
    | some t => rfl
  · intro h
    have h1 : (lateCaptureState.mirror.move 8).map (fun u => u.winner) =
        (lateCaptureState.move 8).map (fun t => t.mirror.winner) := by
      rw [h, Option.map_map]
      rfl
    rw [hw] at h1
    have h2 : (lateCaptureState.mirror.move 8).map (fun u => u.winner) =
        some (some Player.ONE) := by decide
    rw [h2] at h1
    cases h1

/-- C37, amended: for every state with ONE or TWO to move whose specials are -1
or cells of `0..17` and are different cells when both are set, and every move
`m` of `0..8`: the move is allowed in the mirror image of the state exactly
when it is allowed in the state, and then `move(m)` returns on both; the state
it returns on the mirror image has the current player, `isGameOver`, the
scores, the specials and the cells of the mirror image of the state it returns
on the state, and is that mirror image, winner mapped by `opponent` included,
when at most one score is above 81 in the state returned. -/
theorem move_mirror (s : GameState) (m : Int)
    (hp : s.currentPlayer = Player.ONE ∨ s.currentPlayer = Player.TWO)
    (h1 : s.specialOne = -1 ∨ (0 ≤ s.specialOne ∧ s.specialOne ≤ 17))
    (h2 : s.specialTwo = -1 ∨ (0 ≤ s.specialTwo ∧ s.specialTwo ≤ 17))
    (hd : s.specialOne ≠ -1 → s.specialTwo ≠ -1 → s.specialOne ≠ s.specialTwo)
    (h0 : 0 ≤ m) (h8 : m ≤ 8) :
    s.mirror.isMoveAllowed m = s.isMoveAllowed m ∧
    (s.isMoveAllowed m = true →
      ∃ t u, s.move m = some t ∧ s.mirror.move m = some u ∧
        u.currentPlayer = t.mirror.currentPlayer ∧ u.isGameOver = t.mirror.isGameOver ∧
        u.scoreOne = t.mirror.scoreOne ∧ u.scoreTwo = t.mirror.scoreTwo ∧
        u.specialOne = t.mirror.specialOne ∧ u.specialTwo = t.mirror.specialTwo ∧
        u.cells = t.mirror.cells ∧
        (¬ (t.scoreOne > 81 ∧ t.scoreTwo > 81) → u = t.mirror)) :=
  ⟨s.isMoveAllowed_mirror hp m, s.move_mirror_spec ⟨hp, h1, h2, hd⟩ m h0 h8⟩

theorem move_mirror_witness :
    GameState.init.mirror.isMoveAllowed 3 = GameState.init.isMoveAllowed 3 ∧
    (GameState.init.isMoveAllowed 3 = true →
      ∃ t u, GameState.init.move 3 = some t ∧ GameState.init.mirror.move 3 = some u ∧
        u.currentPlayer = t.mirror.currentPlayer ∧ u.isGameOver = t.mirror.isGameOver ∧
        u.scoreOne = t.mirror.scoreOne ∧ u.scoreTwo = t.mirror.scoreTwo ∧
        u.specialOne = t.mirror.specialOne ∧ u.specialTwo = t.mirror.specialTwo ∧
        u.cells = t.mirror.cells ∧
        (¬ (t.scoreOne > 81 ∧ t.scoreTwo > 81) → u = t.mirror)) :=
  move_mirror GameState.init 3 (Or.inl rfl) (Or.inl rfl) (Or.inl rfl)
    (fun h => absurd rfl h) (by decide) (by decide)

/-! ## Claim C38: the encoding sees the position from the side of the mover -/

theorem Cells.get_mirror_right (c : Cells) (i : Int) : c.mirror.get i = c.get (17 - i) := by
  have h := Cells.get_mirror c (17 - i)
  have e : 17 - (17 - i) = i := by omega
  rw [e] at h
  exact h

theorem moveByCell_mirrorSpecial (sp : Int) (h : sp ≠ SPECIAL_NOT_SET) :
    moveByCell (mirrorSpecial sp) = moveByCell sp := by
  rw [mirrorSpecial_of_set _ h, moveByCell_mirror]

/-- The 38 features of the mirror image of a state are those of the state. -/
theorem GameState.encodeFeatures_mirror (s : GameState) (hs : s.Regular) (j : Nat) :
    s.mirror.encodeFeatures[j]? = s.encodeFeatures[j]? := by
  obtain ⟨hp, h1, h2, -⟩ := hs
  have c1 : ∀ k : Nat, s.mirror.cells.get (8 - (k : Int)) = s.cells.get (9 + (k : Int)) := by
    intro k
    show s.cells.mirror.get _ = _
    rw [Cells.get_mirror_right]
    congr 1
    omega
  have c2 : ∀ k : Nat, s.mirror.cells.get (9 + (k : Int)) = s.cells.get (8 - (k : Int)) := by
    intro k
    show s.cells.mirror.get _ = _
    rw [Cells.get_mirror_right]
    congr 1
    omega
  have e1 : ∀ b : Int, (s.mirror.specialOne ≠ SPECIAL_NOT_SET ∧
        (j : Int) = b + moveByCell s.mirror.specialOne ∧ j < 47) ↔
      (s.specialTwo ≠ SPECIAL_NOT_SET ∧ (j : Int) = b + moveByCell s.specialTwo ∧ j < 47) := by
    intro b
    have hu : s.mirror.specialOne = SPECIAL_NOT_SET ↔ s.specialTwo = SPECIAL_NOT_SET :=
      mirrorSpecial_eq_unset_iff _ h2
    constructor
    · rintro ⟨a, b', c⟩
      have a' : s.specialTwo ≠ SPECIAL_NOT_SET := fun h => a (hu.2 h)
      refine ⟨a', ?_, c⟩
      rw [b']
      show _ + moveByCell (mirrorSpecial s.specialTwo) = _
      rw [moveByCell_mirrorSpecial _ a']
    · rintro ⟨a, b', c⟩
      refine ⟨fun h => a (hu.1 h), ?_, c⟩
      rw [b']
      show _ = _ + moveByCell (mirrorSpecial s.specialTwo)
      rw [moveByCell_mirrorSpecial _ a]
  have e2 : ∀ b : Int, (s.mirror.specialTwo ≠ SPECIAL_NOT_SET ∧
        (j : Int) = b + moveByCell s.mirror.specialTwo ∧ j < 47) ↔
      (s.specialOne ≠ SPECIAL_NOT_SET ∧ (j : Int) = b + moveByCell s.specialOne ∧ j < 47) := by
    intro b
    have hu : s.mirror.specialTwo = SPECIAL_NOT_SET ↔ s.specialOne = SPECIAL_NOT_SET :=
      mirrorSpecial_eq_unset_iff _ h1
    constructor
    · rintro ⟨a, b', c⟩
      have a' : s.specialOne ≠ SPECIAL_NOT_SET := fun h => a (hu.2 h)
      refine ⟨a', ?_, c⟩
      rw [b']
      show _ + moveByCell (mirrorSpecial s.specialOne) = _
      rw [moveByCell_mirrorSpecial _ a']
    · rintro ⟨a, b', c⟩
      refine ⟨fun h => a (hu.1 h), ?_, c⟩
      rw [b']
      show _ = _ + moveByCell (mirrorSpecial s.specialOne)
      rw [moveByCell_mirrorSpecial _ a]
  have e1' := e1 9
  have e2' := e2 9
  have e10 : (s.mirror.specialOne ≠ SPECIAL_NOT_SET ∧
        (j : Int) = moveByCell s.mirror.specialOne ∧ j < 47) ↔
      (s.specialTwo ≠ SPECIAL_NOT_SET ∧ (j : Int) = moveByCell s.specialTwo ∧ j < 47) := by
    have := e1 0
    simpa using this
  have e20 : (s.mirror.specialTwo ≠ SPECIAL_NOT_SET ∧
        (j : Int) = moveByCell s.mirror.specialTwo ∧ j < 47) ↔
      (s.specialOne ≠ SPECIAL_NOT_SET ∧ (j : Int) = moveByCell s.specialOne ∧ j < 47) := by
    have := e2 0
    simpa using this
  have s1 : s.mirror.scoreOne = s.scoreTwo := rfl
  have s2 : s.mirror.scoreTwo = s.scoreOne := rfl
  rcases hp with hp | hp
  · have hm : s.mirror.currentPlayer ≠ Player.ONE := by
      rw [s.mirror_currentPlayer_ONE hp]
      decide
    rw [s.encodeFeatures_ONE hp, s.mirror.encodeFeatures_not_ONE hm]
    simp only [c1, c2, e1', e20, s1, s2]
  · have hm : s.mirror.currentPlayer = Player.ONE := s.mirror_currentPlayer_TWO hp
    have hn : s.currentPlayer ≠ Player.ONE := by
      rw [hp]
      decide
    rw [s.encodeFeatures_not_ONE hn, s.mirror.encodeFeatures_ONE hm]
    simp only [c1, c2, e2', e10, s1, s2]

theorem scoreDiff_mirror (s t u : GameState)
    (hp : s.currentPlayer = Player.ONE ∨ s.currentPlayer = Player.TWO)
    (h1 : u.scoreOne = t.scoreTwo) (h2 : u.scoreTwo = t.scoreOne) :
    scoreDiff s.mirror u = scoreDiff s t := by
  unfold scoreDiff
  rw [h1, h2]
  rcases hp with hp | hp
  · simp [hp, s.mirror_currentPlayer_ONE hp]
  · simp [hp, s.mirror_currentPlayer_TWO hp]

/-- The heuristic values of the mirror image of a state are those of the
state. -/
theorem estimateMoveValues_mirror (s : GameState) (hs : s.Regular) :
    estimateMoveValues s.mirror = estimateMoveValues s := by
  obtain ⟨ev, hev, hl, hna, hal⟩ := estimateMoveValues_spec s
  obtain ⟨ev', hev', hl', hna', hal'⟩ := estimateMoveValues_spec s.mirror
  rw [hev, hev']
  congr 1
  apply List.ext_getElem?
  intro i
  by_cases hi : i < 9
  · have hallow := s.isMoveAllowed_mirror hs.1 (i : Int)
    cases ha : s.isMoveAllowed (i : Int)
    · rw [hna i hi ha, hna' i hi (by rw [hallow, ha])]
    · obtain ⟨t, ht, hv⟩ := hal i hi ha
      obtain ⟨u, hu, hv'⟩ := hal' i hi (by rw [hallow, ha])
      obtain ⟨t0, u0, ht0, hu0, -, -, q1, q2, -⟩ :=
        s.move_mirror_spec hs (i : Int) (by omega) (by omega) ha
      rw [ht] at ht0
      rw [hu] at hu0
      cases ht0
      cases hu0
      rw [hv, hv', scoreDiff_mirror s t u hs.1 q1 q2,
        scoreDiff_mirror s s s.mirror hs.1 rfl rfl]
  · rw [List.getElem?_eq_none (by omega), List.getElem?_eq_none (by omega)]

/-- C38: for every state with ONE or TWO to move whose specials are -1 or cells
of `0..17` and are different cells when both are set, negative cells or not,
`encode()` returns 47 values, and returns the same 47 values, the heuristic
entries 38..46 included, on the state obtained by swapping the players,
swapping the scores, replacing `cells[c]` by `cells[17 - c]` and exchanging the
specials through `c -> 17 - c`. -/
theorem encode_mirror (s : GameState)
    (hp : s.currentPlayer = Player.ONE ∨ s.currentPlayer = Player.TWO)
    (h1 : s.specialOne = -1 ∨ (0 ≤ s.specialOne ∧ s.specialOne ≤ 17))
    (h2 : s.specialTwo = -1 ∨ (0 ≤ s.specialTwo ∧ s.specialTwo ≤ 17))
    (hd : s.specialOne ≠ -1 → s.specialTwo ≠ -1 → s.specialOne ≠ s.specialTwo) :
    ∃ out : List ℚ, s.encode = some out ∧ s.mirror.encode = some out ∧ out.length = 47 := by
  have hs : s.Regular := ⟨hp, h1, h2, hd⟩
  obtain ⟨out, ev, he, hev, hl, -, hf, hh⟩ := s.encode_spec
  obtain ⟨out', ev', he', hev', hl', -, hf', hh'⟩ := s.mirror.encode_spec
  refine ⟨out, he, ?_, hl⟩
  rw [he']
  congr 1
  rw [estimateMoveValues_mirror s hs, hev] at hev'
  cases hev'
  apply List.ext_getElem?
  intro j
  by_cases hj : j < 38
  · rw [hf j hj, hf' j hj, s.encodeFeatures_mirror hs]
  · by_cases hj2 : j < 47
    · have e : j = 38 + (j - 38) := by omega
      rw [e, hh (j - 38) (by omega), hh' (j - 38) (by omega)]
    · rw [List.getElem?_eq_none (by omega), List.getElem?_eq_none (by omega)]

theorem encode_mirror_witness :
    ∃ out : List ℚ, (stateAfter [0, 2, 1, 0]).encode = some out ∧
      (stateAfter [0, 2, 1, 0]).mirror.encode = some out ∧ out.length = 47 :=
  encode_mirror (stateAfter [0, 2, 1, 0]) (by decide) (by decide) (by decide) (by decide)

/-! ## Examples for claims C35 and C36 -/

theorem special_in_reachable_row_witness :
    ∃ t, (stateAfter [0, 0, 8]).move 8 = some t ∧
      t.specialOne = (stateAfter [0, 0, 8]).specialOne ∧
      t.specialTwo = (stateAfter [0, 0, 8]).specialTwo ∧
      t.cells.get ((stateAfter [0, 0, 8]).lastCell 8) = 3 ∧
      t.scoreOne = ((stateAfter [0, 0, 8]).sowLastDeposit 8).newScoreOne ∧
      t.scoreTwo = ((stateAfter [0, 0, 8]).sowLastDeposit 8).newScoreTwo ∧
      (Reachable (stateAfter [0, 0, 8]) →
        t.scoreOne = ((stateAfter [0, 0, 8]).sowBeforeLast 8).newScoreOne ∧
        t.scoreTwo = ((stateAfter [0, 0, 8]).sowBeforeLast 8).newScoreTwo) :=
  special_in_reachable_row.2 (stateAfter [0, 0, 8]) 8 (by unfold Cells.NonNeg; decide)
    (by decide) (by decide) (by decide)

theorem special_cells_empty_witness :
    ∃ t, (stateAfter [3, 0, 2, 3]).move 2 = some t ∧
      (∀ j : Int, t.cells.get j = ((stateAfter [3, 0, 2, 3]).sowBeforeLast 2).newCells.get j) ∧
      t.cells.get ((stateAfter [3, 0, 2, 3]).lastCell 2) = 0 ∧
      t.specialOne = (stateAfter [3, 0, 2, 3]).specialOne ∧
      t.specialTwo = (stateAfter [3, 0, 2, 3]).specialTwo ∧
      ((stateAfter [3, 0, 2, 3]).lastCell 2 = (stateAfter [3, 0, 2, 3]).specialOne →
        t.scoreOne = ((stateAfter [3, 0, 2, 3]).sowBeforeLast 2).newScoreOne + 1 ∧
        t.scoreTwo = ((stateAfter [3, 0, 2, 3]).sowBeforeLast 2).newScoreTwo) ∧
      ((stateAfter [3, 0, 2, 3]).lastCell 2 = (stateAfter [3, 0, 2, 3]).specialTwo →
        t.scoreTwo = ((stateAfter [3, 0, 2, 3]).sowBeforeLast 2).newScoreTwo + 1 ∧
        t.scoreOne = ((stateAfter [3, 0, 2, 3]).sowBeforeLast 2).newScoreOne) :=
  special_cells_empty.2.2 (stateAfter [3, 0, 2, 3]) 2
    (Reachable.stateAfter [3, 0, 2, 3] (by
      intro m hm
      simp only [List.mem_cons, List.mem_singleton, List.not_mem_nil, or_false] at hm
      omega))
    (by decide) (by decide)

/-! ## Mutations through a pointer, seen from another pointer -/

theorem TreeNode.setChildStates_getChildStates (n : TreeNode) :
    n.setChildStates n.getChildStates = n := by
  cases n
  rfl

theorem list_set_of_getElem? {α : Type} (l : List α) (i : Nat) (x : α) (h : l[i]? = some x) :
    l.set i x = l := by
  apply List.ext_getElem?
  intro j
  by_cases hj : i = j
  · subst hj
    rw [List.getElem?_set_self (List.getElem?_eq_some_iff.1 h).1, h]
  · rw [List.getElem?_set_ne hj]

/-- Writing to a pointer the node it points to leaves the tree. -/
theorem TreeNode.modify_const_self (t node : TreeNode) (p : TreeNode.Path)
    (h : t.get? p = some node) : TreeNode.modify (fun _ => node) t p = t := by
  induction p generalizing t with
  | nil =>
    cases h
    rfl
  | cons i p ih =>
    rw [TreeNode.get?_cons] at h
    cases hc : t.child i with
    | none => exact TreeNode.modify_cons_none _ t i p hc
    | some c =>
      rw [hc] at h
      rw [TreeNode.modify_cons_some _ t c i p hc, ih c h]
      rw [list_set_of_getElem? _ _ _ ((t.child_eq_some i c).1 hc),
        TreeNode.setChildStates_getChildStates]

/-- A mutation through a pointer leaves the members other than the children
of a node strictly above it. -/
theorem TreeNode.get?_modify_above (f : TreeNode → TreeNode) (t n : TreeNode)
    (p q : TreeNode.Path) (i : Nat) (h : t.get? p = some n) :
    ∃ n1, (TreeNode.modify f t (p ++ i :: q)).get? p = some n1 ∧
      n1.state = n.state ∧ n1.evaluation = n.evaluation ∧
      n1.getAverageValue = n.getAverageValue ∧ n1.getOutcomes = n.getOutcomes ∧
      n1.isInitialized = n.isInitialized ∧
      n1.getChildStates.length = n.getChildStates.length := by
  induction p generalizing t with
  | nil =>
    cases h
    exact ⟨_, rfl, TreeNode.modify_cons_fields f _ i q⟩
  | cons j p ih =>
    rw [TreeNode.get?_cons] at h
    cases hc : t.child j with
    | none =>
      rw [hc] at h
      cases h
    | some c =>
      rw [hc] at h
      obtain ⟨n1, h1, hf⟩ := ih c h
      refine ⟨n1, ?_, hf⟩
      rw [List.cons_append, TreeNode.get?_cons, TreeNode.child_modify_cons, if_pos rfl, hc]
      exact h1

/-- A mutation through a pointer leaves the nodes that are neither above nor
below it. -/
theorem TreeNode.get?_modify_off (f : TreeNode → TreeNode) (t : TreeNode)
    (e p : TreeNode.Path) (h1 : ¬ p <+: e) (h2 : ¬ e <+: p) :
    (TreeNode.modify f t e).get? p = t.get? p := by
  induction e generalizing t p with
  | nil => exact absurd List.nil_prefix h2
  | cons j e ih =>
    cases p with
    | nil => exact absurd List.nil_prefix h1
    | cons i p =>
      rw [TreeNode.get?_cons, TreeNode.get?_cons, TreeNode.child_modify_cons]
      by_cases hij : i = j
      · subst hij
        rw [if_pos rfl]
        cases t.child i with
        | none => rfl
        | some c =>
          exact ih c p (fun h => h1 (List.cons_prefix_cons.2 ⟨rfl, h⟩))
            (fun h => h2 (List.cons_prefix_cons.2 ⟨rfl, h⟩))
      · rw [if_neg hij]

/-- A mutation through a pointer creates no node, except below the pointer. -/
theorem TreeNode.get?_modify_none (f : TreeNode → TreeNode) (t : TreeNode)
    (e p : TreeNode.Path) (h : t.get? p = none) (h2 : ¬ e <+: p) :
    (TreeNode.modify f t e).get? p = none := by
  induction e generalizing t p with
  | nil => exact absurd List.nil_prefix h2
  | cons j e ih =>
    cases p with
    | nil => cases h
    | cons i p =>
      rw [TreeNode.get?_cons] at h
      rw [TreeNode.get?_cons, TreeNode.child_modify_cons]
      by_cases hij : i = j
      · subst hij
        rw [if_pos rfl]
        cases hc : t.child i with
        | none => rfl
        | some c =>
          rw [hc] at h
          exact ih c p h (fun h' => h2 (List.cons_prefix_cons.2 ⟨rfl, h'⟩))
      · rw [if_neg hij]
        exact h

theorem prefix_strict_split {p e : List Nat} (h : p <+: e) (hne : p ≠ e) :
    ∃ i q, e = p ++ i :: q := by
  obtain ⟨r, hr⟩ := h
  cases r with
  | nil =>
    rw [List.append_nil] at hr
    exact absurd hr hne
  | cons i q => exact ⟨i, q, hr.symm⟩

/-! ## Updates of the nodes of a path -/

theorem TreeNode.UpdatedTimes.refl (w : Player) (a : AverageValue) (n : TreeNode) :
    TreeNode.UpdatedTimes w a 0 n n :=
  ⟨rfl, rfl, rfl, rfl, rfl, rfl⟩

theorem TreeNode.UpdatedTimes.update_once (w : Player) (a : AverageValue) (n : TreeNode) :
    TreeNode.UpdatedTimes w a 1 n (n.update w a) := by
  refine ⟨?_, ?_, ?_, ?_, ?_, ?_⟩ <;> simp

theorem TreeNode.UpdatedTimes.trans {w : Player} {a : AverageValue} {k1 k2 : Nat}
    {n n1 n2 : TreeNode} (h1 : TreeNode.UpdatedTimes w a k1 n n1)
    (h2 : TreeNode.UpdatedTimes w a k2 n1 n2) : TreeNode.UpdatedTimes w a (k2 + k1) n n2 := by
  obtain ⟨a1, a2, a3, a4, a5, a6⟩ := h1
  obtain ⟨b1, b2, b3, b4, b5, b6⟩ := h2
  refine ⟨b1.trans a1, b2.trans a2, b3.trans a3, b4.trans a4, ?_, ?_⟩
  · rw [b5, a5, Function.iterate_add_apply]
  · rw [b6, a6, Function.iterate_add_apply]

theorem TreeNode.UpdatedTimes.getVisits {w : Player} {a : AverageValue} {k : Nat}
    {n n1 : TreeNode} (h : TreeNode.UpdatedTimes w a k n n1) :
    n1.getVisits = n.getVisits + (k : Int) := by
  have key : ∀ (k : Nat) (o : Outcomes),
      ((fun o : Outcomes => o.addWinner w)^[k] o).getTotalOutcomes =
        o.getTotalOutcomes + (k : Int) := by
    intro k
    induction k with
    | zero => intro o; simp
    | succ k ih =>
      intro o
      rw [Function.iterate_succ_apply', Outcomes.getTotalOutcomes_addWinner, ih]
      push_cast
      ring
  unfold TreeNode.getVisits
  rw [h.2.2.2.2.1, key]

/-- An update through a pointer, seen from another pointer: the node there has
been updated once when the two pointers are the same and not at all otherwise,
and it is the same node unless it lies on the way to the pointer. -/
theorem TreeNode.get?_modify_update (w : Player) (a : AverageValue) (t : TreeNode)
    (e p : TreeNode.Path) :
    (∀ n, t.get? p = some n →
      ∃ n1, (TreeNode.modify (fun x => x.update w a) t e).get? p = some n1 ∧
        TreeNode.UpdatedTimes w a (if p = e then 1 else 0) n n1 ∧
        (¬ p <+: e → n1 = n)) ∧
    (t.get? p = none → (TreeNode.modify (fun x => x.update w a) t e).get? p = none) := by
  by_cases h1 : p <+: e
  · by_cases heq : p = e
    · subst heq
      constructor
      · intro n hn
        refine ⟨n.update w a, ?_, ?_, fun h => absurd h1 h⟩
        · rw [TreeNode.get?_modify_self, hn]
          rfl
        · rw [if_pos rfl]
          exact TreeNode.UpdatedTimes.update_once w a n
      · intro hn
        rw [TreeNode.get?_modify_self, hn]
        rfl
    · obtain ⟨i, q, he⟩ := prefix_strict_split h1 heq
      subst he
      constructor
      · intro n hn
        obtain ⟨n1, g1, g2, g3, g4, g5, g6, g7⟩ :=
          TreeNode.get?_modify_above (fun x => x.update w a) t n p q i hn
        refine ⟨n1, g1, ?_, fun h => absurd h1 h⟩
        rw [if_neg heq]
        exact ⟨g2, g3, g6, g7, g5, g4⟩
      · intro hn
        apply TreeNode.get?_modify_none _ _ _ _ hn
        intro h
        exact heq (List.IsPrefix.eq_of_length h1 (Nat.le_antisymm h1.length_le h.length_le))
  · have hne : p ≠ e := fun h => h1 (h ▸ List.prefix_refl _)
    by_cases h2 : e <+: p
    · obtain ⟨i, q, hp⟩ := prefix_strict_split h2 (Ne.symm hne)
      subst hp
      have key : (TreeNode.modify (fun x => x.update w a) t e).get? (e ++ i :: q) =
          t.get? (e ++ i :: q) := TreeNode.get?_modify_update_below w a t e q i
      constructor
      · intro n hn
        refine ⟨n, by rw [key, hn], ?_, fun _ => rfl⟩
        rw [if_neg hne]
        exact TreeNode.UpdatedTimes.refl w a n
      · intro hn
        rw [key, hn]
    · have key := TreeNode.get?_modify_off (fun x => x.update w a) t e p h1 h2
      constructor
      · intro n hn
        refine ⟨n, by rw [key, hn], ?_, fun _ => rfl⟩
        rw [if_neg hne]
        exact TreeNode.UpdatedTimes.refl w a n
      · intro hn
        rw [key, hn]

/-- The backpropagation loop, seen from a pointer: the node there has been
updated once for every entry of the path that is that pointer, and it is the
same node unless it lies on the way to an entry. -/
theorem MonteCarloTreeSearch.foldl_update_spec (w : Player) (a : AverageValue)
    (l : List (TreeNode.Path × Option AverageValue)) (t : TreeNode) (p : TreeNode.Path) :
    (∀ n, t.get? p = some n →
      ∃ n1, (l.foldl (fun (t : TreeNode) (item : TreeNode.Path × Option AverageValue) =>
          t.modify (fun path_node => path_node.update w a) item.1) t).get? p = some n1 ∧
        TreeNode.UpdatedTimes w a ((l.map Prod.fst).count p) n n1 ∧
        ((∀ e ∈ l, ¬ p <+: e.1) → n1 = n)) ∧
    (t.get? p = none →
      (l.foldl (fun (t : TreeNode) (item : TreeNode.Path × Option AverageValue) =>
        t.modify (fun path_node => path_node.update w a) item.1) t).get? p = none) := by
  induction l generalizing t with
  | nil =>
    exact ⟨fun n hn => ⟨n, hn, TreeNode.UpdatedTimes.refl w a n, fun _ => rfl⟩, fun hn => hn⟩
  | cons e l ih =>
    obtain ⟨b1, b2⟩ := TreeNode.get?_modify_update w a t e.1 p
    obtain ⟨i1, i2⟩ := ih (TreeNode.modify (fun x => x.update w a) t e.1)
    rw [List.foldl_cons]
    constructor
    · intro n hn
      obtain ⟨n1, g1, g2, g3⟩ := b1 n hn
      obtain ⟨n2, k1, k2, k3⟩ := i1 n1 g1
      refine ⟨n2, k1, ?_, fun hoff => ?_⟩
      · have := g2.trans k2
        rw [List.map_cons, List.count_cons]
        have hb : (e.1 == p) = decide (p = e.1) := by
          by_cases hpe : p = e.1
          · simp [hpe]
          · have : ¬ e.1 = p := fun h => hpe h.symm
            simp [hpe, this]
        rw [hb]
        by_cases hpe : p = e.1
        · simpa [hpe] using this
        · simpa [hpe] using this
      · rw [k3 (fun x hx => hoff x (List.mem_cons_of_mem _ hx)),
          g3 (hoff e (List.mem_cons_self _ _))]
    · intro hn
      exact i2 (b2 hn)

/-! ## What the descent of `expand` leaves -/

/-- `initChildren` returns no value exactly on an initialized node, which it
leaves as it is. -/
theorem TreeNode.initChildren_returned_none (n n1 : TreeNode) (evaluator : Evaluator)
    (h : n.initChildren evaluator = Call.returned n1 none) :
    n.isInitialized = true ∧ n1 = n := by
  rcases Bool.eq_false_or_eq_true n.isInitialized with hi | hi
  · rw [n.initChildren_initialized evaluator hi] at h
    cases h
    exact ⟨hi, rfl⟩
  · have := ((n.initChildren_uninitialized evaluator hi).1 n1 none h).1
    cases this

/-- `initChildren` returns a value only on a node that is not initialized. -/
theorem TreeNode.initChildren_returned_some (n n1 : TreeNode) (evaluator : Evaluator)
    (v : AverageValue) (h : n.initChildren evaluator = Call.returned n1 (some v)) :
    n.isInitialized = false := by
  rcases Bool.eq_false_or_eq_true n.isInitialized with hi | hi
  · rw [n.initChildren_initialized evaluator hi] at h
    cases h
  · exact hi

theorem prefix_between {b p Q : List Nat} {i : Nat} (h1 : b <+: p) (h2 : p <+: b ++ i :: Q)
    (hne : p ≠ b) : b ++ [i] <+: p := by
  obtain ⟨r, rfl⟩ := h1
  rw [List.prefix_append_right_inj] at h2
  rw [List.prefix_append_right_inj]
  rcases List.prefix_cons_iff.1 h2 with h | ⟨q, hq, -⟩
  · subst h
    exact absurd (List.append_nil b) hne
  · subst hq
    exact List.cons_prefix_cons.2 ⟨rfl, List.nil_prefix⟩

/-- What the descent of `expand` leaves when it ends normally.  The path has
grown by the pointers from the one it started from to the one it ends at, the
last one excluded, each once and each to an initialized node of a state that is
not terminal, without a value; and either the node it ends at was not
initialized, `initChildren` has returned a value on it, and the path ends with
that pointer and that value, or nothing in the tree has changed and the node it
ends at has a terminal state or is the one reached when the bound of 200
rounds ran out. -/
theorem MonteCarloTreeSearch.select_spec (m : MonteCarloTreeSearch) (left : Nat)
    (root t : TreeNode) (d d1 : Descent) (h : m.select left root d = Call.returned t d1) :
    ∃ pre : List (TreeNode.Path × Option AverageValue),
      d.currentNode <+: d1.currentNode ∧
      (∀ x ∈ pre, x.2 = none) ∧
      (pre.map Prod.fst).Nodup ∧
      (∀ p, p ∈ pre.map Prod.fst ↔
        (d.currentNode <+: p ∧ p <+: d1.currentNode ∧ p ≠ d1.currentNode)) ∧
      (∀ p ∈ pre.map Prod.fst, ∃ n, root.get? p = some n ∧ n.isInitialized = true ∧
        n.state.isGameOver = false) ∧
      ((∃ e e1 v, root.get? d1.currentNode = some e ∧ e.state.isGameOver = false ∧
          e.isInitialized = false ∧
          e.initChildren m.evaluator_ = Call.returned e1 (some v) ∧
          t = root.modify (fun _ => e1) d1.currentNode ∧
          d1.backprop_stack = d.backprop_stack ++ pre ++ [(d1.currentNode, some v)]) ∨
        (t = root ∧ d1.backprop_stack = d.backprop_stack ++ pre ∧
          ∃ e, root.get? d1.currentNode = some e ∧
            (e.state.isGameOver = true ∨
              (e.state.isGameOver = false ∧
                d1.currentNode.length = d.currentNode.length + left)))) := by
  have hbase : ∀ (left : Nat) (root node : TreeNode) (d : Descent),
      root.get? d.currentNode = some node →
      (node.state.isGameOver = true ∨ (node.state.isGameOver = false ∧ left = 0)) →
      ∃ pre : List (TreeNode.Path × Option AverageValue),
        d.currentNode <+: d.currentNode ∧
        (∀ x ∈ pre, x.2 = none) ∧
        (pre.map Prod.fst).Nodup ∧
        (∀ p, p ∈ pre.map Prod.fst ↔
          (d.currentNode <+: p ∧ p <+: d.currentNode ∧ p ≠ d.currentNode)) ∧
        (∀ p ∈ pre.map Prod.fst, ∃ n, root.get? p = some n ∧ n.isInitialized = true ∧
          n.state.isGameOver = false) ∧
        ((∃ e e1 v, root.get? d.currentNode = some e ∧ e.state.isGameOver = false ∧
            e.isInitialized = false ∧
            e.initChildren m.evaluator_ = Call.returned e1 (some v) ∧
            root = root.modify (fun _ => e1) d.currentNode ∧
            d.backprop_stack = d.backprop_stack ++ pre ++ [(d.currentNode, some v)]) ∨
          (root = root ∧ d.backprop_stack = d.backprop_stack ++ pre ∧
            ∃ e, root.get? d.currentNode = some e ∧
              (e.state.isGameOver = true ∨
                (e.state.isGameOver = false ∧
                  d.currentNode.length = d.currentNode.length + left)))) := by
    intro left root node d hn ho
    refine ⟨[], List.prefix_refl _, by simp, by simp, ?_, by simp,
      Or.inr ⟨rfl, (List.append_nil _).symm, node, hn, ?_⟩⟩
    · intro p
      constructor
      · intro hp
        simp at hp
      · rintro ⟨a1, a2, a3⟩
        exact absurd (List.IsPrefix.eq_of_length a2
          (Nat.le_antisymm a2.length_le a1.length_le)) a3
    · rcases ho with ho | ⟨ho, hl⟩
      · exact Or.inl ho
      · exact Or.inr ⟨ho, by rw [hl]; rfl⟩
  induction left generalizing root d with
  | zero =>
    cases hn : root.get? d.currentNode with
    | none => rw [m.select_none 0 root d hn] at h; cases h
    | some node =>
      rw [m.select_zero root node d hn] at h
      cases h
      rcases Bool.eq_false_or_eq_true node.state.isGameOver with ho | ho
      · exact hbase 0 _ node _ hn (Or.inl ho)
      · exact hbase 0 _ node _ hn (Or.inr ⟨ho, rfl⟩)
  | succ left ih =>
    cases hn : root.get? d.currentNode with
    | none => rw [m.select_none _ root d hn] at h; cases h
    | some node =>
      rcases Bool.eq_false_or_eq_true node.state.isGameOver with ho | ho
      · rw [m.select_over _ root node d hn ho] at h
        cases h
        exact hbase (left + 1) _ node _ hn (Or.inl ho)
      · rw [m.select_succ left root node d hn ho] at h
        cases hc : node.initChildren m.evaluator_ with
        | undefined => simp only [hc] at h; cases h
        | thrown node1 => simp only [hc] at h; cases h
        | returned node1 child_value =>
          simp only [hc] at h
          cases child_value with
          | some v =>
            simp only [Option.isSome_some, if_true] at h
            cases h
            refine ⟨[], List.prefix_refl _, by simp, by simp, ?_, by simp,
              Or.inl ⟨node, node1, v, hn, ho, node.initChildren_returned_some node1 _ v hc, hc,
                rfl, by simp⟩⟩
            intro p
            constructor
            · intro hp
              simp at hp
            · rintro ⟨a1, a2, a3⟩
              exact absurd (List.IsPrefix.eq_of_length a2
                (Nat.le_antisymm a2.length_le a1.length_le)) a3
          | none =>
            simp only [Option.isSome_none, Bool.false_eq_true, if_false] at h
            obtain ⟨hinit, hsame⟩ := node.initChildren_returned_none node1 _ hc
            subst hsame
            rw [TreeNode.modify_const_self root node1 d.currentNode hn] at h
            cases hs : m.expansion_strategy_ node1 with
            | none => simp only [hs] at h; cases h
            | some move_idx =>
              simp only [hs] at h
              by_cases hneg : move_idx < 0
              · rw [if_pos hneg] at h; cases h
              · rw [if_neg hneg] at h
                obtain ⟨pre, a1, a2, a3, a4, a5, a6⟩ := ih _ _ h
                dsimp only at a1 a4 a6
                obtain ⟨Q, hQ⟩ := a1
                have hQ' : d.currentNode ++ move_idx.toNat :: Q = d1.currentNode := by
                  rw [← hQ, List.append_assoc]
                  rfl
                have hpre : d.currentNode <+: d1.currentNode := ⟨_, hQ'⟩
                have hne : d.currentNode ≠ d1.currentNode := by
                  intro heq
                  have := congrArg List.length hQ'
                  rw [← heq, List.length_append, List.length_cons] at this
                  omega
                have hnot : d.currentNode ∉ pre.map Prod.fst := by
                  intro hmem
                  have := ((a4 _).1 hmem).1.length_le
                  rw [List.length_append, List.length_singleton] at this
                  omega
                refine ⟨(d.currentNode, none) :: pre, hpre, ?_, ?_, ?_, ?_, ?_⟩
                · intro x hx
                  rcases List.mem_cons.1 hx with rfl | hx
                  · rfl
                  · exact a2 x hx
                · rw [List.map_cons]
                  exact List.nodup_cons.2 ⟨hnot, a3⟩
                · intro p
                  rw [List.map_cons, List.mem_cons, a4]
                  constructor
                  · rintro (rfl | ⟨b1, b2, b3⟩)
                    · exact ⟨List.prefix_refl _, hpre, hne⟩
                    · exact ⟨List.IsPrefix.trans (List.prefix_append _ _) b1, b2, b3⟩
                  · rintro ⟨b1, b2, b3⟩
                    by_cases hp : p = d.currentNode
                    · exact Or.inl hp
                    · right
                      have b2' := b2
                      rw [← hQ'] at b2'
                      exact ⟨prefix_between b1 b2' hp, b2, b3⟩
                · intro p hp
                  rw [List.map_cons, List.mem_cons] at hp
                  rcases hp with rfl | hp
                  · exact ⟨node1, hn, hinit, ho⟩
                  · exact a5 p hp
                · rcases a6 with ⟨e, e1, v, b1, b2, b3, b4, b5, b6⟩ | ⟨b1, b2, e, b3, b4⟩
                  · refine Or.inl ⟨e, e1, v, b1, b2, b3, b4, b5, ?_⟩
                    rw [b6]
                    simp
                  · refine Or.inr ⟨b1, ?_, e, b3, ?_⟩
                    · rw [b2]
                      simp
                    · rcases b4 with b4 | ⟨b4, b5⟩
                      · exact Or.inl b4
                      · right
                        refine ⟨b4, ?_⟩
                        rw [b5, List.length_append, List.length_singleton]
                        omega

/-! ## What one call of `expand` does to the tree -/

theorem path_count_of_nodup (l : List TreeNode.Path) (p : TreeNode.Path) (hnd : l.Nodup) :
    l.count p = if p ∈ l then 1 else 0 := by
  induction l with
  | nil => simp
  | cons x l ih =>
    have hx := (List.nodup_cons.1 hnd).1
    rw [List.count_cons, ih (List.nodup_cons.1 hnd).2]
    by_cases hpx : p = x
    · subst hpx
      simp [hx]
    · have hxp : ¬ x = p := fun h => hpx h.symm
      simp [hpx, hxp]

/-- The backpropagation loop over a path whose pointers are, each once, the
pointers that lead to `P`. -/
theorem MonteCarloTreeSearch.foldl_updatedAlong (w : Player) (a : AverageValue)
    (P : TreeNode.Path) (last : Bool) (l : List (TreeNode.Path × Option AverageValue))
    (base : TreeNode) (hnd : (l.map Prod.fst).Nodup)
    (hmem : ∀ p, p ∈ l.map Prod.fst ↔ (p <+: P ∧ (p = P → last = true))) :
    TreeNode.UpdatedAlong w a P last base
      (l.foldl (fun (t : TreeNode) (item : TreeNode.Path × Option AverageValue) =>
        t.modify (fun path_node => path_node.update w a) item.1) base) := by
  intro p
  obtain ⟨h1, h2⟩ := MonteCarloTreeSearch.foldl_update_spec w a l base p
  refine ⟨fun n hn => ?_, h2⟩
  obtain ⟨n1, g1, g2, g3⟩ := h1 n hn
  refine ⟨n1, g1, fun hp => ?_, fun hp => ?_, fun hp => ?_⟩
  · rw [path_count_of_nodup _ p hnd, if_pos ((hmem p).2 hp)] at g2
    exact g2
  · rw [path_count_of_nodup _ p hnd, if_neg (fun hm => hp ((hmem p).1 hm))] at g2
    exact g2
  · apply g3
    intro e he hpe
    have := (hmem e.1).1 (List.mem_map_of_mem _ he)
    exact hp (List.IsPrefix.trans hpe this.1)

/-- One call of `expand` that returns, on a root whose state is not terminal.
The descent has led to a node through initialized nodes of states that are not
terminal, and one of three things has happened.  The node was not initialized:
`initChildren` has returned a value on it, and every node on the way, that one
included, has been updated with the player to move in it and that value.  Or
the state of the node is terminal: every node on the way, that one included,
has been updated with the winner of that state and the value of support 1 that
`addWinner` makes of it.  Or the node is the one reached after 200 rounds: every
node strictly above it has been updated with NONE and the empty value. -/
theorem MonteCarloTreeSearch.expand_spec (m : MonteCarloTreeSearch) (root t : TreeNode)
    (hover : root.state.isGameOver = false) (h : m.expand root = Call.returned t ()) :
    ∃ (P : TreeNode.Path) (e : TreeNode), root.get? P = some e ∧
      (∀ p, p <+: P → p ≠ P →
        ∃ n, root.get? p = some n ∧ n.isInitialized = true ∧ n.state.isGameOver = false) ∧
      ((∃ e1 v, e.state.isGameOver = false ∧ e.isInitialized = false ∧
          e.initChildren m.evaluator_ = Call.returned e1 (some v) ∧
          TreeNode.UpdatedAlong e.state.currentPlayer v P true
            (root.modify (fun _ => e1) P) t) ∨
        (e.state.isGameOver = true ∧
          TreeNode.UpdatedAlong (e.state.winner.getD Player.NONE)
            (({} : AverageValue).addWinner (e.state.winner.getD Player.NONE)) P true root t) ∨
        (e.state.isGameOver = false ∧ P.length = 200 ∧ m.ReachesBound root ∧
          TreeNode.UpdatedAlong Player.NONE {} P false root t)) := by
  cases hsel : m.select 200 root { currentNode := [], backprop_stack := [] } with
  | undefined =>
    unfold MonteCarloTreeSearch.expand at h
    simp only [hsel] at h
    cases h
  | thrown t1 =>
    unfold MonteCarloTreeSearch.expand at h
    simp only [hsel] at h
    cases h
  | returned ts d =>
    obtain ⟨pre, -, a2, a3, a4, a5, a6⟩ := m.select_spec 200 root ts _ d hsel
    dsimp only at a4 a6
    have hmemPre : ∀ p, p ∈ pre.map Prod.fst ↔ (p <+: d.currentNode ∧ p ≠ d.currentNode) := by
      intro p
      rw [a4]
      exact ⟨fun hp => ⟨hp.2.1, hp.2.2⟩, fun hp => ⟨List.nil_prefix, hp.1, hp.2⟩⟩
    have habove : ∀ p, p <+: d.currentNode → p ≠ d.currentNode →
        ∃ n, root.get? p = some n ∧ n.isInitialized = true ∧ n.state.isGameOver = false :=
      fun p hp hne => a5 p ((hmemPre p).2 ⟨hp, hne⟩)
    rw [List.nil_append] at a6
    unfold MonteCarloTreeSearch.expand at h
    simp only [hsel] at h
    rcases a6 with ⟨e, e1, v, b1, b2, b3, b4, b5, b6⟩ | ⟨b1, b2, e, b3, b4⟩
    · -- the descent ended with an expansion
      have hlast : d.backprop_stack.getLast? = some (d.currentNode, some v) := by
        rw [b6]
        simp
      have hget : ts.get? d.currentNode = some e1 := by
        rw [b5, TreeNode.get?_modify_self, b1]
        rfl
      simp only [hlast, hget] at h
      cases h
      refine ⟨d.currentNode, e, b1, habove, Or.inl ⟨e1, v, b2, b3, b4, ?_⟩⟩
      rw [← (e.initChildren_fields e1 _ _ b4).1, ← b5]
      unfold MonteCarloTreeSearch.backpropagate
      apply MonteCarloTreeSearch.foldl_updatedAlong
      · rw [List.map_reverse, List.nodup_reverse, b6, List.map_append, List.map_singleton]
        rw [List.nodup_append]
        refine ⟨a3, List.nodup_singleton _, ?_⟩
        intro x hx hx2
        rw [List.mem_singleton] at hx2
        subst hx2
        exact ((hmemPre _).1 hx).2 rfl
      · intro p
        rw [List.map_reverse, List.mem_reverse, b6, List.map_append, List.map_singleton,
          List.mem_append, List.mem_singleton, hmemPre]
        constructor
        · rintro (⟨c1, -⟩ | rfl)
          · exact ⟨c1, fun _ => rfl⟩
          · exact ⟨List.prefix_refl _, fun _ => rfl⟩
        · rintro ⟨c1, -⟩
          by_cases hp : p = d.currentNode
          · exact Or.inr hp
          · exact Or.inl ⟨c1, hp⟩
    · -- the descent ended without an expansion
      subst b1
      have hne : pre ≠ [] := by
        intro hp
        subst hp
        have h0 : ([] : TreeNode.Path) ∉ ([] : List TreeNode.Path) := by simp
        by_cases hcur : d.currentNode = []
        · rw [hcur] at b3
          cases b3
          rcases b4 with b4 | ⟨-, b5⟩
          · rw [hover] at b4
            cases b4
          · rw [hcur] at b5
            simp at b5
        · exact h0 ((hmemPre []).2 ⟨List.nil_prefix, fun hc => hcur hc.symm⟩)
      obtain ⟨lastItem, hlast⟩ : ∃ lastItem, d.backprop_stack.getLast? = some lastItem := by
        rw [b2]
        cases hl : pre.getLast? with
        | none => exact absurd (List.getLast?_eq_none_iff.1 hl) hne
        | some x => exact ⟨x, rfl⟩
      have hl2 : lastItem.2 = none := by
        apply a2
        rw [← b2]
        exact List.mem_of_getLast?_eq_some hlast
      simp only [hlast, hl2, b3] at h
      have hndr : ((pre.reverse).map Prod.fst).Nodup := by
        rw [List.map_reverse, List.nodup_reverse]
        exact a3
      rcases b4 with b4 | ⟨b4, b5⟩
      · -- at a terminal node
        simp only [b4, if_true] at h
        cases h
        refine ⟨d.currentNode, e, b3, habove, Or.inr (Or.inl ⟨b4, ?_⟩)⟩
        unfold MonteCarloTreeSearch.backpropagate
        rw [b2]
        have hfold := MonteCarloTreeSearch.foldl_updatedAlong (e.state.winner.getD Player.NONE)
          (({} : AverageValue).addWinner (e.state.winner.getD Player.NONE)) d.currentNode true
          ((d.currentNode, none) :: pre.reverse) ts ?_ ?_
        · rw [List.foldl_cons] at hfold
          exact hfold
        · rw [List.map_cons]
          refine List.nodup_cons.2 ⟨?_, hndr⟩
          rw [List.map_reverse, List.mem_reverse]
          intro hx
          exact ((hmemPre _).1 hx).2 rfl
        · intro p
          rw [List.map_cons, List.mem_cons, List.map_reverse, List.mem_reverse, hmemPre]
          constructor
          · rintro (rfl | ⟨c1, -⟩)
            · exact ⟨List.prefix_refl _, fun _ => rfl⟩
            · exact ⟨c1, fun _ => rfl⟩
          · rintro ⟨c1, -⟩
            by_cases hp : p = d.currentNode
            · exact Or.inl hp
            · exact Or.inr ⟨c1, hp⟩
      · -- at the bound of 200 rounds
        simp only [b4, Bool.false_eq_true, if_false] at h
        cases h
        refine ⟨d.currentNode, e, b3, habove, Or.inr (Or.inr ⟨b4, ?_, ?_, ?_⟩)⟩
        · rw [b5]
          rfl
        · refine ⟨_, d, e, hsel, ?_, b3, b4⟩
          rw [b5]
          rfl
        · unfold MonteCarloTreeSearch.backpropagate
          rw [b2]
          apply MonteCarloTreeSearch.foldl_updatedAlong
          · exact hndr
          · intro p
            rw [List.map_reverse, List.mem_reverse, hmemPre]
            constructor
            · rintro ⟨c1, c2⟩
              exact ⟨c1, fun hc => absurd hc c2⟩
            · rintro ⟨c1, c2⟩
              refine ⟨c1, fun hc => ?_⟩
              have := c2 hc
              cases this

/-! ## Claim C31: one call of `expand` updates every node of the path once -/

theorem TreeNode.get?_cons_of_unexpanded {n : TreeNode} (h : n.Unexpanded) (i : Nat)
    (q : TreeNode.Path) : n.get? (i :: q) = none := by
  have hc : n.child i = none := by
    unfold TreeNode.child
    rw [h.2.2, List.getElem?_replicate]
    split <;> rfl
  rw [TreeNode.get?_cons, hc]
  rfl

theorem TreeNode.UpdatedTimes.one {w : Player} {a : AverageValue} {n n1 : TreeNode}
    (h : TreeNode.UpdatedTimes w a 1 n n1) :
    n1.state = n.state ∧ n1.evaluation = n.evaluation ∧
    n1.isInitialized = n.isInitialized ∧
    n1.getChildStates.length = n.getChildStates.length ∧
    n1.getOutcomes = n.getOutcomes.addWinner w ∧
    n1.getAverageValue = n.getAverageValue.addAssign a ∧
    n1.getVisits = n.getVisits + 1 := by
  have hv := h.getVisits
  obtain ⟨a1, a2, a3, a4, a5, a6⟩ := h
  exact ⟨a1, a2, a3, a4, a5, a6, by simpa using hv⟩

theorem TreeNode.UpdatedTimes.zero {w : Player} {a : AverageValue} {n n1 : TreeNode}
    (h : TreeNode.UpdatedTimes w a 0 n n1) :
    n1.state = n.state ∧ n1.evaluation = n.evaluation ∧
    n1.isInitialized = n.isInitialized ∧
    n1.getChildStates.length = n.getChildStates.length ∧
    n1.getOutcomes = n.getOutcomes ∧
    n1.getAverageValue = n.getAverageValue ∧
    n1.getVisits = n.getVisits := by
  have hv := h.getVisits
  obtain ⟨a1, a2, a3, a4, a5, a6⟩ := h
  exact ⟨a1, a2, a3, a4, a5, a6, by simpa using hv⟩

/-- The tree in which `initChildren` has replaced the node that a pointer `P`
points to, seen from the tree before: the nodes strictly above `P` have their
members other than the children, and a node that is neither above nor below
`P` is the same node. -/
theorem TreeNode.get?_modify_const (root e e1 : TreeNode) (P p : TreeNode.Path)
    (he : root.get? P = some e) (n : TreeNode) (hn : root.get? p = some n)
    (hbelow : ∀ i q, p ≠ P ++ i :: q) :
    ∃ nb, (root.modify (fun _ => e1) P).get? p = some nb ∧
      (p = P → nb = e1) ∧
      (p ≠ P → nb.state = n.state ∧ nb.evaluation = n.evaluation ∧
        nb.getAverageValue = n.getAverageValue ∧ nb.getOutcomes = n.getOutcomes ∧
        nb.isInitialized = n.isInitialized ∧
        nb.getChildStates.length = n.getChildStates.length) ∧
      (¬ p <+: P → nb = n) := by
  by_cases h1 : p <+: P
  · by_cases heq : p = P
    · subst heq
      refine ⟨e1, ?_, fun _ => rfl, fun h => absurd rfl h, fun h => absurd h1 h⟩
      rw [TreeNode.get?_modify_self, he]
      rfl
    · obtain ⟨i, q, hP⟩ := prefix_strict_split h1 heq
      subst hP
      obtain ⟨nb, g1, g2⟩ := TreeNode.get?_modify_above (fun _ => e1) root n p q i hn
      exact ⟨nb, g1, fun h => absurd h heq, fun _ => g2, fun h => absurd h1 h⟩
  · have h2 : ¬ P <+: p := by
      intro h
      have hne : P ≠ p := fun hc => h1 (hc ▸ List.prefix_refl _)
      obtain ⟨i, q, hp⟩ := prefix_strict_split h hne
      exact hbelow i q hp
    have hne : p ≠ P := fun hc => h1 (hc ▸ List.prefix_refl _)
    refine ⟨n, ?_, fun h => absurd h hne, fun _ => ⟨rfl, rfl, rfl, rfl, rfl, rfl⟩, fun _ => rfl⟩
    rw [TreeNode.get?_modify_off _ _ _ _ h1 h2, hn]

/-- C31: one call of `expand` on a tree grown from a fresh root of 9 moves,
with a root whose state is not terminal.  The call returns when the evaluator
keeps to its interface and returns and the strategy returns the index of an
existing child; and when it returns, there are a pointer `P` to a node `e` of
the tree, a winner `w` and a value `a` such that every node on the way to `P`
(`e` itself is one of them unless the descent stopped at the bound of 200
rounds) has been updated exactly once, with `w` and `a`, every other node has
the outcomes, the value and the visits it had, and the nodes off the way to `P`
are the nodes they were; and `(w, a)` is the player to move in `e` and the
value that `initChildren` returned on `e` when the call expanded `e`, the
winner of the state of `e` and the value of support 1 (1, -1 or 0 for ONE, TWO
or NONE) when that state is terminal, and NONE and the empty value when the
descent stopped at the bound. -/
theorem expand_path_updates (m : MonteCarloTreeSearch) (root : TreeNode)
    (hs : root.AllSound) (hover : root.state.isGameOver = false) :
    (m.evaluator_.WritesEvaluations → m.evaluator_.Returns →
      m.expansion_strategy_.PicksChild → ∃ t, m.expand root = Call.returned t ()) ∧
    ∀ t, m.expand root = Call.returned t () →
      ∃ (P : TreeNode.Path) (e : TreeNode) (w : Player) (a : AverageValue) (last : Bool),
        root.get? P = some e ∧
        (∀ p n, p <+: P → (p = P → last = true) → root.get? p = some n →
          ∃ n1, t.get? p = some n1 ∧ n1.state = n.state ∧ n1.evaluation = n.evaluation ∧
            n1.getOutcomes = n.getOutcomes.addWinner w ∧
            n1.getAverageValue = n.getAverageValue.addAssign a ∧
            n1.getVisits = n.getVisits + 1) ∧
        (∀ p n, ¬ (p <+: P ∧ (p = P → last = true)) → root.get? p = some n →
          ∃ n1, t.get? p = some n1 ∧ n1.getOutcomes = n.getOutcomes ∧
            n1.getAverageValue = n.getAverageValue ∧ n1.getVisits = n.getVisits ∧
            (¬ p <+: P → n1 = n)) ∧
        ((last = true ∧ e.state.isGameOver = false ∧ e.isInitialized = false ∧
            w = e.state.currentPlayer ∧
            ∃ e1, e.initChildren m.evaluator_ = Call.returned e1 (some a)) ∨
          (last = true ∧ e.state.isGameOver = true ∧ w = e.state.winner.getD Player.NONE ∧
            a = ({} : AverageValue).addWinner w ∧ a.support = 1 ∧
            a.playerOneValue =
              (if w = Player.ONE then 1 else if w = Player.TWO then -1 else 0)) ∨
          (last = false ∧ e.state.isGameOver = false ∧ P.length = 200 ∧
            w = Player.NONE ∧ a = {})) := by
  constructor
  · intro hev hret hst
    obtain ⟨t, -, ht, -⟩ := m.expand_step hev hret hst root hs hover
    exact ⟨t, ht⟩
  · intro t ht
    obtain ⟨P, e, he, -, hkind⟩ := m.expand_spec root t hover ht
    rcases hkind with ⟨e1, v, k1, k2, k3, k4⟩ | ⟨k1, k4⟩ | ⟨k1, k2, -, k4⟩
    · -- the call expanded `e`
      have hun : e.Unexpanded := (hs.get? he).sound.unexpanded k2
      have hnb : ∀ p n, root.get? p = some n → ∀ i q, p ≠ P ++ i :: q := by
        intro p n hn i q hp
        rw [hp, TreeNode.get?_append, he] at hn
        have := TreeNode.get?_cons_of_unexpanded hun i q
        rw [Option.some_bind, this] at hn
        cases hn
      obtain ⟨f1, f2, f3, f4, f5, f6⟩ := (e.initChildren_uninitialized m.evaluator_ k2).1 e1 _ k3
      refine ⟨P, e, e.state.currentPlayer, v, true, he, ?_, ?_,
        Or.inl ⟨rfl, k1, k2, rfl, e1, k3⟩⟩
      · intro p n hp _ hn
        obtain ⟨nb, g1, g2, g3, -⟩ := TreeNode.get?_modify_const root e e1 P p he n hn (hnb p n hn)
        obtain ⟨n1, u1, u2, -, -⟩ := (k4 p).1 nb g1
        obtain ⟨v1, v2, -, -, v5, v6, v7⟩ := (u2 ⟨hp, fun _ => rfl⟩).one
        refine ⟨n1, u1, ?_⟩
        by_cases heq : p = P
        · subst heq
          rw [he] at hn
          cases hn
          have hb := g2 rfl
          subst hb
          refine ⟨v1.trans f3, v2.trans f4, ?_, ?_, ?_⟩
          · rw [v5, f6]
          · rw [v6, f5]
          · rw [v7]
            unfold TreeNode.getVisits
            rw [f6]
        · obtain ⟨w1, w2, w3, w4, -, -⟩ := g3 heq
          refine ⟨v1.trans w1, v2.trans w2, ?_, ?_, ?_⟩
          · rw [v5, w4]
          · rw [v6, w3]
          · rw [v7]
            unfold TreeNode.getVisits
            rw [w4]
      · intro p n hnot hn
        have hnp : ¬ p <+: P := fun h => hnot ⟨h, fun _ => rfl⟩
        obtain ⟨nb, g1, -, -, g4⟩ := TreeNode.get?_modify_const root e e1 P p he n hn (hnb p n hn)
        have hb := g4 hnp
        subst hb
        obtain ⟨n1, u1, -, -, u4⟩ := (k4 p).1 nb g1
        have := u4 hnp
        subst this
        exact ⟨n1, u1, rfl, rfl, rfl, fun _ => rfl⟩
    · -- the descent ended at a terminal node
      refine ⟨P, e, e.state.winner.getD Player.NONE,
        ({} : AverageValue).addWinner (e.state.winner.getD Player.NONE), true, he, ?_, ?_,
        Or.inr (Or.inl ⟨rfl, k1, rfl, rfl, ?_, ?_⟩)⟩
      · intro p n hp _ hn
        obtain ⟨n1, u1, u2, -, -⟩ := (k4 p).1 n hn
        obtain ⟨v1, v2, -, -, v5, v6, v7⟩ := (u2 ⟨hp, fun _ => rfl⟩).one
        exact ⟨n1, u1, v1, v2, v5, v6, v7⟩
      · intro p n hnot hn
        obtain ⟨n1, u1, -, u3, u4⟩ := (k4 p).1 n hn
        obtain ⟨-, -, -, -, v5, v6, v7⟩ := (u3 hnot).zero
        exact ⟨n1, u1, v5, v6, v7, u4⟩
      · cases e.state.winner.getD Player.NONE <;> rfl
      · cases e.state.winner.getD Player.NONE <;> simp [AverageValue.addWinner]
    · -- the descent stopped at the bound of 200 rounds
      refine ⟨P, e, Player.NONE, {}, false, he, ?_, ?_, Or.inr (Or.inr ⟨rfl, k1, k2, rfl, rfl⟩)⟩
      · intro p n hp hl hn
        obtain ⟨n1, u1, u2, -, -⟩ := (k4 p).1 n hn
        obtain ⟨v1, v2, -, -, v5, v6, v7⟩ := (u2 ⟨hp, hl⟩).one
        exact ⟨n1, u1, v1, v2, v5, v6, v7⟩
      · intro p n hnot hn
        obtain ⟨n1, u1, -, u3, u4⟩ := (k4 p).1 n hn
        obtain ⟨-, -, -, -, v5, v6, v7⟩ := (u3 hnot).zero
        exact ⟨n1, u1, v5, v6, v7, u4⟩

theorem expand_path_updates_witness :
    ∃ t, uniformSearch.expand (TreeNode.create GameState.init NUM_MOVES) = Call.returned t () :=
  (expand_path_updates uniformSearch (TreeNode.create GameState.init NUM_MOVES)
    (TreeNode.AllSound.create Built.init (by decide)) rfl).1
    (ZeroValueUniformEvaluator.writesEvaluations _) (ZeroValueUniformEvaluator.returns _)
    firstChild_picksChild

/-! ## The visits of a node and of its children across a call of `expand` -/

theorem TreeNode.get?_snoc (t n : TreeNode) (p : TreeNode.Path) (i : Nat)
    (h : t.get? p = some n) : t.get? (p ++ [i]) = n.child i := by
  rw [TreeNode.get?_append, h, Option.some_bind, TreeNode.get?_cons]
  cases n.child i <;> rfl

theorem sum_map_range_bump (L i0 : Nat) (f g : Nat → ℚ) (hi : i0 < L)
    (h : ∀ i, g i = f i + if i = i0 then 1 else 0) :
    ((List.range L).map g).sum = ((List.range L).map f).sum + 1 := by
  have hsame : ∀ L, L ≤ i0 → ((List.range L).map g).sum = ((List.range L).map f).sum := by
    intro L
    induction L with
    | zero => intro _; rfl
    | succ L ih =>
      intro hL
      rw [List.range_succ, List.map_append, List.map_append, List.sum_append, List.sum_append,
        ih (by omega), List.map_singleton, List.map_singleton, List.sum_singleton,
        List.sum_singleton, h L, if_neg (by omega), add_zero]
  induction L with
  | zero => omega
  | succ L ih =>
    rw [List.range_succ, List.map_append, List.map_append, List.sum_append, List.sum_append,
      List.map_singleton, List.map_singleton, List.sum_singleton, List.sum_singleton]
    by_cases hL : i0 < L
    · rw [ih hL, h L, if_neg (by omega)]
      ring
    · have hLe : L = i0 := by omega
      rw [hsame L (by omega), h L, if_pos hLe]
      ring

theorem TreeNode.totalChildVisits_bump (n n1 : TreeNode) (i0 : Nat)
    (hl : n1.getChildStates.length = n.getChildStates.length) (hi : i0 < n.getChildStates.length)
    (h : ∀ i, n1.childVisits i = n.childVisits i + if i = i0 then 1 else 0) :
    n1.totalChildVisits = n.totalChildVisits + 1 := by
  unfold TreeNode.totalChildVisits
  rw [hl]
  exact sum_map_range_bump _ i0 _ _ hi h

theorem TreeNode.totalChildVisits_eq_zero (n : TreeNode) (h : ∀ i, n.childVisits i = 0) :
    n.totalChildVisits = 0 := by
  unfold TreeNode.totalChildVisits
  apply List.sum_eq_zero
  intro x hx
  obtain ⟨i, -, rfl⟩ := List.mem_map.1 hx
  exact h i

/-- The children that `initChildren` creates: nodes that are not initialized,
have no visit and no child. -/
theorem TreeNode.initChildren_child_fresh (n n1 : TreeNode) (evaluator : Evaluator)
    (r : Option AverageValue) (hn : n.Unexpanded) (hev : evaluator.WritesEvaluations)
    (h : n.initChildren evaluator = Call.returned n1 r) (i : Nat) (c : TreeNode)
    (hc : n1.child i = some c) :
    c.isInitialized = false ∧ c.getVisits = 0 ∧ ∀ j q, c.get? (j :: q) = none := by
  obtain ⟨v, evaluated, -, -, -, -, -, -, -, h6, h7, -, -⟩ :=
    n.initChildren_returned_spec n1 evaluator r hn hev h
  have hlt : i < NUM_MOVES := by rw [← h6]; exact n1.child_lt c i hc
  rcases Bool.eq_false_or_eq_true (n.state.isMoveAllowed (i : Int)) with ha | ha
  · obtain ⟨t, e, -, -, -, -, hcc⟩ := (h7 i hlt).2 ha
    rw [hc] at hcc
    cases hcc
    refine ⟨rfl, rfl, fun j q => ?_⟩
    rw [TreeNode.get?_cons]
    have : (((TreeNode.create t NUM_MOVES).setEvaluation e).setAverageValue
        { playerOneValue := seedValue (some ((TreeNode.create t NUM_MOVES).setEvaluation e)),
          support := 1 }).child j = none := by
      show (TreeNode.create t NUM_MOVES).child j = none
      exact TreeNode.child_create t NUM_MOVES j
    rw [this]
    rfl
  · rw [((h7 i hlt).1 ha).2] at hc
    cases hc

/-- A descent that reaches the bound of 200 rounds ends at a node of depth 200
of the tree. -/
theorem MonteCarloTreeSearch.ReachesBound.depth {m : MonteCarloTreeSearch} {root : TreeNode}
    (h : m.ReachesBound root) : ∃ p n, root.get? p = some n ∧ p.length = 200 := by
  obtain ⟨t, d, n, hsel, hlen, -, -⟩ := h
  obtain ⟨pre, -, -, -, -, -, a6⟩ := m.select_spec 200 root t _ d hsel
  rcases a6 with ⟨e, e1, v, b1, -⟩ | ⟨-, -, e, b3, -⟩
  · exact ⟨_, e, b1, hlen⟩
  · exact ⟨_, e, b3, hlen⟩

/-- One call of `expand` that returns, on a tree grown from a fresh root, with
a descent that does not reach the bound of 200 rounds.  The descent has led to
a node `e` through initialized nodes of states that are not terminal; every
node on the way, `e` included, has one visit more, its state and its number of
child slots; every other node of the tree is the node it was; and the only new
nodes are the children that `initChildren` has created below `e`, which are not
initialized and have no visit. -/
theorem MonteCarloTreeSearch.expand_effect (m : MonteCarloTreeSearch) (root t : TreeNode)
    (hs : root.AllSound) (hev : m.evaluator_.WritesEvaluations)
    (hover : root.state.isGameOver = false) (hb : ¬ m.ReachesBound root)
    (h : m.expand root = Call.returned t ()) :
    ∃ (P : TreeNode.Path) (e : TreeNode), root.get? P = some e ∧
      (∀ p, p <+: P → p ≠ P →
        ∃ n, root.get? p = some n ∧ n.isInitialized = true ∧ n.state.isGameOver = false) ∧
      (∀ p n, p <+: P → root.get? p = some n →
        ∃ n1, t.get? p = some n1 ∧ n1.state = n.state ∧ n1.getVisits = n.getVisits + 1 ∧
          n1.getChildStates.length = n.getChildStates.length ∧
          (p ≠ P → n1.isInitialized = n.isInitialized)) ∧
      (∀ p n, ¬ p <+: P → root.get? p = some n → t.get? p = some n) ∧
      (∀ p n1, t.get? p = some n1 → root.get? p = none →
        (∃ i, p = P ++ [i]) ∧ n1.isInitialized = false ∧ n1.getVisits = 0) ∧
      ((e.state.isGameOver = false ∧ e.isInitialized = false ∧
          ∃ n1, t.get? P = some n1 ∧ n1.isInitialized = true) ∨
        (e.state.isGameOver = true ∧
          ∃ n1, t.get? P = some n1 ∧ n1.isInitialized = e.isInitialized)) := by
  obtain ⟨P, e, he, habove, hkind⟩ := m.expand_spec root t hover h
  rcases hkind with ⟨e1, v, k1, k2, k3, k4⟩ | ⟨k1, k4⟩ | ⟨-, -, k3, -⟩
  · -- the call expanded `e`
    have hun : e.Unexpanded := (hs.get? he).sound.unexpanded k2
    have hlen : e.getChildStates.length = NUM_MOVES := (hs.get? he).sound.2.2.2.1
    have hnb : ∀ p n, root.get? p = some n → ∀ i q, p ≠ P ++ i :: q := by
      intro p n hn i q hp
      rw [hp, TreeNode.get?_append, he] at hn
      have := TreeNode.get?_cons_of_unexpanded hun i q
      rw [Option.some_bind, this] at hn
      cases hn
    obtain ⟨-, f2, f3, -, -, f6⟩ := (e.initChildren_uninitialized m.evaluator_ k2).1 e1 _ k3
    obtain ⟨-, -, -, -, -, -, -, -, -, s6, -⟩ :=
      e.initChildren_returned_spec e1 m.evaluator_ _ hun hev k3
    have hbase : (root.modify (fun _ => e1) P).get? P = some e1 := by
      rw [TreeNode.get?_modify_self, he]
      rfl
    refine ⟨P, e, he, habove, ?_, ?_, ?_, Or.inl ⟨k1, k2, ?_⟩⟩
    · intro p n hp hn
      obtain ⟨nb, g1, g2, g3, -⟩ := TreeNode.get?_modify_const root e e1 P p he n hn (hnb p n hn)
      obtain ⟨n1, u1, u2, -, -⟩ := (k4 p).1 nb g1
      obtain ⟨v1, -, v3, v4, -, -, v7⟩ := (u2 ⟨hp, fun _ => rfl⟩).one
      refine ⟨n1, u1, ?_⟩
      by_cases heq : p = P
      · have hne : n = e := by
          rw [heq, he] at hn
          cases hn
          rfl
        have hb1 := g2 heq
        rw [hne]
        rw [hb1] at v1 v4 v7
        refine ⟨v1.trans f3, ?_, ?_, fun hc => absurd heq hc⟩
        · rw [v7]
          unfold TreeNode.getVisits
          rw [f6]
        · rw [v4, s6, hlen]
      · obtain ⟨w1, -, -, w4, w5, w6⟩ := g3 heq
        refine ⟨v1.trans w1, ?_, v4.trans w6, fun _ => v3.trans w5⟩
        rw [v7]
        unfold TreeNode.getVisits
        rw [w4]
    · intro p n hnp hn
      obtain ⟨nb, g1, -, -, g4⟩ := TreeNode.get?_modify_const root e e1 P p he n hn (hnb p n hn)
      have hb1 := g4 hnp
      rw [hb1] at g1
      obtain ⟨n1, u1, -, -, u4⟩ := (k4 p).1 n g1
      rw [u4 hnp] at u1
      exact u1
    · intro p n1 hn1 hr
      cases hbp : (root.modify (fun _ => e1) P).get? p with
      | none =>
        rw [(k4 p).2 hbp] at hn1
        cases hn1
      | some nb =>
        have hPp : P <+: p := by
          by_contra hc
          rw [TreeNode.get?_modify_none _ root P p hr hc] at hbp
          cases hbp
        have hne : P ≠ p := by
          intro hc
          rw [← hc, he] at hr
          cases hr
        obtain ⟨i, q, hp⟩ := prefix_strict_split hPp hne
        have hbp0 := hbp
        rw [hp, TreeNode.get?_append, hbase, Option.some_bind, TreeNode.get?_cons] at hbp
        cases hci : e1.child i with
        | none =>
          rw [hci] at hbp
          cases hbp
        | some c =>
          rw [hci, Option.some_bind] at hbp
          obtain ⟨c1, c2, c3⟩ := e.initChildren_child_fresh e1 m.evaluator_ _ hun hev k3 i c hci
          cases q with
          | nil =>
            have hnbc : nb = c := by
              cases hbp
              rfl
            rw [hnbc] at hbp0
            obtain ⟨n2, u1, -, -, u4⟩ := (k4 p).1 c hbp0
            have hnp : ¬ p <+: P := by
              intro hc
              have := hc.length_le
              rw [hp] at this
              simp at this
            rw [u4 hnp, hn1] at u1
            cases u1
            exact ⟨⟨i, hp⟩, c1, c2⟩
          | cons j q1 =>
            rw [c3 j q1] at hbp
            cases hbp
    · obtain ⟨n1, u1, u2, -, -⟩ := (k4 P).1 e1 hbase
      exact ⟨n1, u1, (u2 ⟨List.prefix_refl _, fun _ => rfl⟩).one.2.2.1.trans f2⟩
  · -- the descent ended at a terminal node
    refine ⟨P, e, he, habove, ?_, ?_, ?_, Or.inr ⟨k1, ?_⟩⟩
    · intro p n hp hn
      obtain ⟨n1, u1, u2, -, -⟩ := (k4 p).1 n hn
      obtain ⟨v1, -, v3, v4, -, -, v7⟩ := (u2 ⟨hp, fun _ => rfl⟩).one
      exact ⟨n1, u1, v1, v7, v4, fun _ => v3⟩
    · intro p n hnp hn
      obtain ⟨n1, u1, -, -, u4⟩ := (k4 p).1 n hn
      rw [u4 hnp] at u1
      exact u1
    · intro p n1 hn1 hr
      rw [(k4 p).2 hr] at hn1
      cases hn1
    · obtain ⟨n1, u1, u2, -, -⟩ := (k4 P).1 e he
      exact ⟨n1, u1, (u2 ⟨List.prefix_refl _, fun _ => rfl⟩).one.2.2.1⟩
  · exact absurd k3 hb

theorem TreeNode.child_of_unexpanded {n : TreeNode} (h : n.Unexpanded) (i : Nat) :
    n.child i = none := by
  unfold TreeNode.child
  rw [h.2.2, List.getElem?_replicate]
  split <;> rfl

/-- One call of `expand` that returns, with a descent that does not reach the
bound of 200 rounds, keeps the count of the visits in every node. -/
theorem MonteCarloTreeSearch.expand_counted (m : MonteCarloTreeSearch) (root t : TreeNode)
    (hs : root.AllSound) (hc : root.AllCounted) (hev : m.evaluator_.WritesEvaluations)
    (hover : root.state.isGameOver = false) (hb : ¬ m.ReachesBound root)
    (h : m.expand root = Call.returned t ()) : t.AllCounted := by
  obtain ⟨P, e, he, habove, hon, hoff, hnew, hend⟩ := m.expand_effect root t hs hev hover hb h
  intro p n1 hn1
  cases hr : root.get? p with
  | none =>
    obtain ⟨-, g2, g3⟩ := hnew p n1 hn1 hr
    exact ⟨fun hi => (by rw [g2] at hi; cases hi), fun _ _ => g3, fun _ => g2⟩
  | some n =>
    have hcn := hc p n hr
    by_cases hp : p <+: P
    · obtain ⟨n2, u1, u2, u3, u4, u5⟩ := hon p n hp hr
      rw [hn1] at u1
      cases u1
      by_cases heq : p = P
      · have hne : n = e := by
          rw [heq, he] at hr
          cases hr
          rfl
        rw [hne] at hcn u2 u3
        rcases hend with ⟨k1, k2, n2, w1, w2⟩ | ⟨k1, n2, w1, w2⟩
        · -- the node that the call expanded
          rw [← heq, hn1] at w1
          cases w1
          have hz : e.getVisits = 0 := hcn.2.1 k2 k1
          have hun : e.Unexpanded := (hs.get? he).sound.unexpanded k2
          have hch : ∀ i, n1.childVisits i = 0 := by
            intro i
            unfold TreeNode.childVisits
            cases hci : n1.child i with
            | none => rfl
            | some c =>
              have hg : t.get? (p ++ [i]) = some c := by
                rw [TreeNode.get?_snoc t n1 p i hn1, hci]
              have hrn : root.get? (p ++ [i]) = none := by
                rw [heq, TreeNode.get?_snoc root e P i he]
                exact TreeNode.child_of_unexpanded hun i
              obtain ⟨-, -, g3⟩ := hnew _ c hg hrn
              show ((c.getVisits : ℚ)) = 0
              rw [g3]
              rfl
          refine ⟨fun _ => ?_, fun hi => (by rw [w2] at hi; cases hi),
            fun ht => (by rw [u2, k1] at ht; cases ht)⟩
          rw [u3, hz, TreeNode.totalChildVisits_eq_zero n1 hch]
          simp
        · -- the terminal node that the descent ended at
          rw [← heq, hn1] at w1
          cases w1
          have hni : e.isInitialized = false := hcn.2.2 k1
          exact ⟨fun hi => (by rw [w2, hni] at hi; cases hi),
            fun _ hnt => (by rw [u2, k1] at hnt; cases hnt), fun _ => by rw [w2, hni]⟩
      · -- a node strictly above
        obtain ⟨i0, q, hP⟩ := prefix_strict_split hp heq
        obtain ⟨n3, a1, a2, a3⟩ := habove p hp heq
        rw [hr] at a1
        cases a1
        have hinit : n1.isInitialized = true := (u5 heq).trans a2
        obtain ⟨c0, hc0⟩ : ∃ c0, root.get? (p ++ [i0]) = some c0 := by
          apply TreeNode.get?_of_append root e (p ++ [i0]) q
          rw [List.append_assoc, List.singleton_append, ← hP]
          exact he
        have hc0n : n.child i0 = some c0 := by
          rw [← TreeNode.get?_snoc root n p i0 hr]
          exact hc0
        have hbump : ∀ i, n1.childVisits i = n.childVisits i + if i = i0 then 1 else 0 := by
          intro i
          by_cases hi : i = i0
          · rw [if_pos hi, hi]
            have hpre : (p ++ [i0]) <+: P := by
              rw [hP]
              exact ⟨q, by simp⟩
            obtain ⟨c1, x1, -, x3, -, -⟩ := hon _ c0 hpre hc0
            have hc1 : n1.child i0 = some c1 := by
              rw [← TreeNode.get?_snoc t n1 p i0 hn1]
              exact x1
            unfold TreeNode.childVisits
            rw [hc1, hc0n]
            show (c1.getVisits : ℚ) = (c0.getVisits : ℚ) + 1
            rw [x3]
            push_cast
            rfl
          · rw [if_neg hi, add_zero]
            have hnpre : ¬ (p ++ [i]) <+: P := by
              rw [hP]
              intro hcp
              rw [List.prefix_append_right_inj] at hcp
              obtain ⟨r, hr2⟩ := hcp
              rw [List.singleton_append] at hr2
              exact hi (List.cons.inj hr2).1
            unfold TreeNode.childVisits
            cases hci : n.child i with
            | some c =>
              have hrc : root.get? (p ++ [i]) = some c := by
                rw [TreeNode.get?_snoc root n p i hr, hci]
              have htc := hoff _ c hnpre hrc
              rw [TreeNode.get?_snoc t n1 p i hn1] at htc
              rw [htc]
            | none =>
              cases hci1 : n1.child i with
              | none => rfl
              | some c1 =>
                exfalso
                have hg : t.get? (p ++ [i]) = some c1 := by
                  rw [TreeNode.get?_snoc t n1 p i hn1, hci1]
                have hrn : root.get? (p ++ [i]) = none := by
                  rw [TreeNode.get?_snoc root n p i hr, hci]
                obtain ⟨⟨j, hj⟩, -, -⟩ := hnew _ c1 hg hrn
                exact heq (List.append_inj_left' hj rfl)
        have hlt : i0 < n.getChildStates.length := n.child_lt c0 i0 hc0n
        refine ⟨fun _ => ?_, fun hi => (by rw [hinit] at hi; cases hi),
          fun ht => (by rw [u2, a3] at ht; cases ht)⟩
        rw [u3, TreeNode.totalChildVisits_bump n n1 i0 u4 hlt hbump]
        push_cast
        rw [hcn.1 a2]
        ring
    · have hsame := hoff p n hp hr
      rw [hn1] at hsame
      cases hsame
      exact hcn

/-- One call of `expand` makes the tree at most one level deeper. -/
theorem MonteCarloTreeSearch.expand_depth (m : MonteCarloTreeSearch) (root t : TreeNode)
    (hs : root.AllSound) (hev : m.evaluator_.WritesEvaluations)
    (hover : root.state.isGameOver = false) (hb : ¬ m.ReachesBound root)
    (h : m.expand root = Call.returned t ()) (k : Nat)
    (hd : ∀ p n, root.get? p = some n → p.length ≤ k) :
    ∀ p n, t.get? p = some n → p.length ≤ k + 1 := by
  obtain ⟨P, e, he, -, -, -, hnew, -⟩ := m.expand_effect root t hs hev hover hb h
  intro p n1 hn1
  cases hr : root.get? p with
  | none =>
    obtain ⟨⟨i, hi⟩, -, -⟩ := hnew p n1 hn1 hr
    have := hd P e he
    rw [hi, List.length_append, List.length_singleton]
    omega
  | some n =>
    have := hd p n hr
    omega

/-! ## Claim C40: the visits of a node and of its children -/

theorem TreeNode.allCounted_create (s : GameState) : (TreeNode.create s NUM_MOVES).AllCounted := by
  intro p n hn
  cases p with
  | nil =>
    cases hn
    exact ⟨fun hi => (by cases hi), fun _ _ => rfl, fun _ => rfl⟩
  | cons i q =>
    rw [TreeNode.get?_cons_of_unexpanded (TreeNode.unexpanded_create s) i q] at hn
    cases hn

theorem TreeNode.depth_create (s : GameState) (p : TreeNode.Path) (n : TreeNode)
    (hn : (TreeNode.create s NUM_MOVES).get? p = some n) : p.length ≤ 0 := by
  cases p with
  | nil => exact Nat.le_refl _
  | cons i q =>
    rw [TreeNode.get?_cons_of_unexpanded (TreeNode.unexpanded_create s) i q] at hn
    cases hn

/-- The trees that calls of `expand` grow, none of them with a descent that
reaches the bound of 200 rounds: they keep the invariant and the count of the
visits, the root has one visit more for every call, and the tree is one level
deeper at most for every call. -/
theorem MonteCarloTreeSearch.grown_spec (m : MonteCarloTreeSearch)
    (hev : m.evaluator_.WritesEvaluations) (hret : m.evaluator_.Returns)
    (hst : m.expansion_strategy_.PicksChild) (K : Nat) (root t : TreeNode) (k : Nat)
    (hs : root.AllSound) (hc : root.AllCounted) (hover : root.state.isGameOver = false)
    (hd : ∀ p n, root.get? p = some n → p.length ≤ k) (hg : m.Grown K root t) :
    t.AllSound ∧ t.AllCounted ∧ t.state = root.state ∧
      t.getVisits = root.getVisits + (K : Int) ∧
      (∀ p n, t.get? p = some n → p.length ≤ k + K) ∧
      m.expandTimes K root = Call.returned t () := by
  induction K generalizing root k with
  | zero =>
    cases hg
    exact ⟨hs, hc, rfl, by simp, hd, rfl⟩
  | succ K ih =>
    obtain ⟨hb, t1, h1, hg1⟩ := hg
    obtain ⟨t2, w, e1, e2, e3, e4⟩ := m.expand_step hev hret hst root hs hover
    rw [h1] at e1
    cases e1
    have hc1 := m.expand_counted root t1 hs hc hev hover hb h1
    have hd1 := m.expand_depth root t1 hs hev hover hb h1 k hd
    obtain ⟨g1, g2, g3, g4, g5, g6⟩ := ih t1 (k + 1) e2 hc1 (by rw [e3]; exact hover) hd1 hg1
    refine ⟨g1, g2, g3.trans e3, ?_, ?_, ?_⟩
    · rw [g4, TreeNode.getVisits_addWinner t1 root w e4]
      push_cast
      ring
    · intro p n hn
      have := g5 p n hn
      omega
    · simp only [MonteCarloTreeSearch.expandTimes, h1]
      exact g6

/-- On a tree grown from a fresh root, the first calls of `expand`, up to a
depth of 200, return and do not reach the bound of 200 rounds. -/
theorem MonteCarloTreeSearch.grown_total (m : MonteCarloTreeSearch)
    (hev : m.evaluator_.WritesEvaluations) (hret : m.evaluator_.Returns)
    (hst : m.expansion_strategy_.PicksChild) (K : Nat) (root : TreeNode) (k : Nat)
    (hs : root.AllSound) (hover : root.state.isGameOver = false)
    (hd : ∀ p n, root.get? p = some n → p.length ≤ k) (hk : k + K ≤ 200) :
    ∃ t, m.Grown K root t := by
  induction K generalizing root k with
  | zero => exact ⟨root, rfl⟩
  | succ K ih =>
    have hb : ¬ m.ReachesBound root := by
      intro hr
      obtain ⟨p, n, hn, hl⟩ := hr.depth
      have := hd p n hn
      omega
    obtain ⟨t1, w, e1, e2, e3, -⟩ := m.expand_step hev hret hst root hs hover
    have hd1 := m.expand_depth root t1 hs hev hover hb e1 k hd
    obtain ⟨t, ht⟩ := ih t1 (k + 1) e2 (by rw [e3]; exact hover) hd1 (by omega)
    exact ⟨t, hb, t1, e1, ht⟩

/-- C40, counterexample: the evaluator `ZeroValueUniformEvaluator(9)` keeps to
its interface and does not fail, the strategy `firstChild` returns the index of
an existing child, the state `noneToMoveState` is not terminal and no descent
reaches the bound of 200 rounds; yet the first call of `expand` on its fresh
node throws and leaves the root initialized with 0 visits, which is not one
more than the 0 visits of its children, and a second call throws again and
leaves a root whose children have 0 visits in total and whose `encode`
fails. -/
theorem expand_visit_counts_counterexample :
    Evaluator.WritesEvaluations uniformSearch.evaluator_ ∧
    Evaluator.Returns uniformSearch.evaluator_ ∧
    ExpansionStrategy.PicksChild uniformSearch.expansion_strategy_ ∧
    noneToMoveState.isGameOver = false ∧
    ¬ uniformSearch.ReachesBound (TreeNode.create noneToMoveState NUM_MOVES) ∧
    ¬ uniformSearch.ReachesBound noneToMoveSearched ∧
    uniformSearch.expand (TreeNode.create noneToMoveState NUM_MOVES) =
      Call.thrown noneToMoveSearched ∧
    noneToMoveSearched.isInitialized = true ∧ noneToMoveSearched.getVisits = 0 ∧
    noneToMoveSearched.totalChildVisits = 0 ∧
    uniformSearch.expand noneToMoveSearched = Call.thrown noneToMoveSearchedTwice ∧
    noneToMoveSearchedTwice.isInitialized = true ∧ noneToMoveSearchedTwice.getVisits = 0 ∧
    noneToMoveSearchedTwice.totalChildVisits = 0 ∧ noneToMoveSearchedTwice.encode = none := by
  have h1 : (uniformSearch.expand (TreeNode.create noneToMoveState NUM_MOVES)).isThrown = true := by
    decide!
  have h2 : (uniformSearch.expand noneToMoveSearched).isThrown = true := by decide!
  have e1 : uniformSearch.expand (TreeNode.create noneToMoveState NUM_MOVES) =
      Call.thrown noneToMoveSearched := by
    unfold noneToMoveSearched
    cases h : uniformSearch.expand (TreeNode.create noneToMoveState NUM_MOVES) with
    | thrown t => rfl
    | returned t u => rw [h] at h1; cases h1
    | undefined => rw [h] at h1; cases h1
  have e2 : uniformSearch.expand noneToMoveSearched = Call.thrown noneToMoveSearchedTwice := by
    unfold noneToMoveSearchedTwice
    cases h : uniformSearch.expand noneToMoveSearched with
    | thrown t => rfl
    | returned t u => rw [h] at h2; cases h2
    | undefined => rw [h] at h2; cases h2
  have hnb : ∀ root t, uniformSearch.expand root = Call.thrown t →
      ¬ uniformSearch.ReachesBound root := by
    intro root t he hr
    obtain ⟨ts, d, n, hsel, hlen, hn, hover⟩ := hr
    obtain ⟨pre, -, a2, -, a4, -, a6⟩ := uniformSearch.select_spec 200 root ts _ d hsel
    unfold MonteCarloTreeSearch.expand at he
    simp only [hsel] at he
    rcases a6 with ⟨e, e1, v, b1, b2, b3, b4, b5, b6⟩ | ⟨b1, b2, e, b3, b4⟩
    · have hlast : d.backprop_stack.getLast? = some (d.currentNode, some v) := by
        rw [b6]
        simp
      simp only [hlast, hn] at he
      cases he
    · cases hl : d.backprop_stack.getLast? with
      | none =>
        simp only [hl] at he
        cases he
      | some item =>
        have hl2 : item.2 = none := by
          apply a2
          have := List.mem_of_getLast?_eq_some hl
          rw [b2] at this
          simpa using this
        simp only [hl, hl2, hn, hover] at he
        cases he
  exact ⟨ZeroValueUniformEvaluator.writesEvaluations _, ZeroValueUniformEvaluator.returns _,
    firstChild_picksChild, by decide!, hnb _ _ e1, hnb _ _ e2, e1, by decide!, by decide!,
    by decide!, e2, by decide!, by decide!, by decide!, by decide!⟩

/-- C40, as amended: every tree that `K` calls of `expand` make of a fresh
root node of 9 moves whose state is not terminal and has ONE or TWO to move,
with an evaluator that keeps to its interface and does not fail, a strategy
that returns the index of an existing child, and none of the descents
reaching the bound of 200 rounds.  The `K` calls return; every initialized
node of the tree has one visit more than its existing children together, every
node that is not initialized and whose state is not terminal has no visit, and
no node of a terminal state is initialized; when `K` is 2 or more, the
children of the root have `K - 1` visits in total and `encode` of the root does
not fail; and the next call of `expand` returns too. -/
theorem expand_visit_counts (m : MonteCarloTreeSearch) (s : GameState) (K : Nat) (t : TreeNode)
    (hb : Built s) (hp : s.currentPlayer ≠ Player.NONE) (hover : s.isGameOver = false)
    (hev : Evaluator.WritesEvaluations m.evaluator_) (hret : Evaluator.Returns m.evaluator_)
    (hst : ExpansionStrategy.PicksChild m.expansion_strategy_)
    (hg : m.Grown K (TreeNode.create s NUM_MOVES) t) :
    m.expandTimes K (TreeNode.create s NUM_MOVES) = Call.returned t () ∧
    (∀ p n, t.get? p = some n →
      (n.isInitialized = true → (n.getVisits : ℚ) = 1 + n.totalChildVisits) ∧
      (n.isInitialized = false → n.state.isGameOver = false → n.getVisits = 0) ∧
      (n.state.isGameOver = true → n.isInitialized = false)) ∧
    (2 ≤ K → t.totalChildVisits = (K : ℚ) - 1 ∧ ∃ out, t.encode = some out) ∧
    (∃ t1, m.expand t = Call.returned t1 ()) := by
  obtain ⟨g1, g2, g3, g4, -, g6⟩ := MonteCarloTreeSearch.grown_spec m hev hret hst K
    (TreeNode.create s NUM_MOVES) t 0 (TreeNode.AllSound.create hb hp)
    (TreeNode.allCounted_create s) hover (TreeNode.depth_create s) hg
  have hst1 : t.state = s := g3
  have hv : t.getVisits = (K : Int) := by
    rw [g4]
    show (0 : Int) + (K : Int) = K
    simp
  have hover1 : t.state.isGameOver = false := by rw [hst1]; exact hover
  refine ⟨g6, fun p n hn => g2 p n hn, fun hK => ?_, ?_⟩
  · obtain ⟨c1, c2, -⟩ := g2 [] t rfl
    have hinit : t.isInitialized = true := by
      rcases Bool.eq_false_or_eq_true t.isInitialized with hi | hi
      · exact hi
      · have := c2 hi hover1
        rw [hv] at this
        omega
    have htot : t.totalChildVisits = (K : ℚ) - 1 := by
      have := c1 hinit
      rw [hv] at this
      push_cast at this
      linarith
    refine ⟨htot, ?_⟩
    rw [TreeNode.encode_eq]
    have hleaf : t.isLeaf = false := by simp [TreeNode.isLeaf, hinit, hover1]
    obtain ⟨value, hval⟩ := t.getAverageValue.getValue_isSome t.state.currentPlayer
      (by rw [hst1]; exact hp)
    have hne : t.totalChildVisits ≠ 0 := by
      rw [htot]
      have : (2 : ℚ) ≤ (K : ℚ) := by exact_mod_cast hK
      linarith
    rw [hleaf, hval]
    simp only [Bool.false_eq_true, if_false, if_neg hne]
    exact ⟨_, rfl⟩
  · obtain ⟨t1, -, h1, -⟩ := m.expand_step hev hret hst t g1 hover1
    exact ⟨t1, h1⟩

theorem expand_visit_counts_witness :
    ∃ t, uniformSearch.Grown 3 (TreeNode.create GameState.init NUM_MOVES) t ∧
      uniformSearch.expandTimes 3 (TreeNode.create GameState.init NUM_MOVES) =
        Call.returned t () ∧
      t.totalChildVisits = 2 ∧ ∃ out, t.encode = some out := by
  obtain ⟨t, ht⟩ := MonteCarloTreeSearch.grown_total uniformSearch
    (ZeroValueUniformEvaluator.writesEvaluations _) (ZeroValueUniformEvaluator.returns _)
    firstChild_picksChild 3 (TreeNode.create GameState.init NUM_MOVES) 0
    (TreeNode.AllSound.create Built.init (by decide)) rfl (TreeNode.depth_create _) (by decide)
  have h := expand_visit_counts uniformSearch GameState.init 3 t Built.init (by decide) rfl
    (ZeroValueUniformEvaluator.writesEvaluations _) (ZeroValueUniformEvaluator.returns _)
    firstChild_picksChild ht
  refine ⟨t, ht, h.1, ?_, (h.2.2.1 (by decide)).2⟩
  have := (h.2.2.1 (by decide)).1
  rw [this]
  norm_num

/-! ## The sowing loop with the arithmetic of `int` -/

theorem wrapInt_of_fits (x : Int) (h : FitsInt x) : wrapInt x = x := by
  unfold FitsInt INT_MIN INT_MAX at h
  unfold wrapInt
  omega

theorem wrapInt_fits (x : Int) : FitsInt (wrapInt x) := by
  unfold FitsInt INT_MIN INT_MAX wrapInt
  omega

theorem wrapInt_wrapInt_add (a b : Int) : wrapInt (wrapInt a + b) = wrapInt (a + b) := by
  unfold wrapInt
  omega

theorem wrapInt_add_wrapInt (a b : Int) : wrapInt (a + wrapInt b) = wrapInt (a + b) := by
  unfold wrapInt
  omega

theorem wrapInt_zero : wrapInt 0 = 0 := by decide

theorem wrapInt_tmod_two (x : Int) : Int.tmod (wrapInt x) 2 = 0 ↔ Int.tmod x 2 = 0 := by
  rw [tmod_two_eq_zero_iff, tmod_two_eq_zero_iff]
  unfold wrapInt
  omega

theorem wrapInt_eq_three (x : Int) (h0 : INT_MIN ≤ x) (h1 : x ≤ 4294967294) :
    wrapInt x = 3 ↔ x = 3 := by
  unfold INT_MIN at h0
  unfold wrapInt
  omega

theorem wrapInt_eq_zero (x : Int) (h0 : INT_MIN ≤ x) (h1 : x ≤ 4294967294) :
    wrapInt x = 0 ↔ x = 0 := by
  unfold INT_MIN at h0
  unfold wrapInt
  omega

theorem moveByCell32_of_cell (c : Int) (h0 : 0 ≤ c) (h1 : c < 18) :
    moveByCell32 c = moveByCell c := by
  unfold moveByCell32 moveByCell wrapInt
  split_ifs <;> omega

theorem moveByCell32_eq_iff (p sp : Int) (h0 : 0 ≤ p) (h8 : p ≤ 8) (hsp : FitsInt sp) :
    p = moveByCell32 sp ↔ p = moveByCell sp := by
  unfold FitsInt INT_MIN INT_MAX at hsp
  unfold moveByCell32 moveByCell wrapInt
  split_ifs <;> omega

theorem Cells.get_wrap (c : Cells) (i : Int) :
    Cells.get (fun j => wrapInt (c j)) i = wrapInt (c.get i) := by
  unfold Cells.get
  split_ifs
  · rfl
  · exact wrapInt_zero.symm

theorem Cells.set_wrap (c : Cells) (i v : Int) :
    Cells.set (fun j => wrapInt (c j)) i (wrapInt v) = fun j => wrapInt ((c.set i v) j) := by
  funext j
  unfold Cells.set
  split_ifs <;> rfl

theorem GameState.Sow.wrap_currentCell (w : Sow) : w.wrap.currentCell = w.currentCell := rfl

theorem GameState.ruleC32_wrap (s : GameState) (w : Sow) :
    s.ruleC32 w.wrap = (s.ruleC w).wrap := by
  unfold GameState.ruleC32 GameState.ruleC
  simp only [GameState.Sow.wrap_currentCell]
  cases hsp : s.isSpecial w.currentCell with
  | NONE =>
    simp only [if_true]
    unfold GameState.Sow.wrap
    simp only [Cells.get_wrap, wrapInt_wrapInt_add, Cells.set_wrap]
  | ONE =>
    simp only [reduceCtorEq, if_true, if_false]
    unfold GameState.Sow.wrap
    simp only [wrapInt_wrapInt_add]
  | TWO =>
    simp only [reduceCtorEq, if_true, if_false]
    unfold GameState.Sow.wrap
    simp only [wrapInt_wrapInt_add]

theorem GameState.ruleB32_wrap (s : GameState) (w : Sow) :
    s.ruleB32 w.wrap = (s.ruleB w).wrap := by
  unfold GameState.ruleB32 GameState.ruleB
  have hget : w.wrap.newCells.get w.wrap.currentCell = wrapInt (w.newCells.get w.currentCell) :=
    Cells.get_wrap _ _
  by_cases he : Int.tmod (w.newCells.get w.currentCell) 2 = 0
  · have he32 : Int.tmod (w.wrap.newCells.get w.wrap.currentCell) 2 = 0 := by
      rw [hget]
      exact (wrapInt_tmod_two _).2 he
    rw [if_pos he32, if_pos he]
    have h0 : wrapInt (0 : Int) = 0 := wrapInt_zero
    cases hp : s.currentPlayer with
    | NONE =>
      simp only [reduceCtorEq, if_false]
      unfold GameState.Sow.wrap
      simp only
      rw [← h0, Cells.set_wrap, h0]
    | ONE =>
      simp only [reduceCtorEq, if_true, if_false]
      unfold GameState.Sow.wrap
      simp only [Cells.get_wrap, wrapInt_wrapInt_add, wrapInt_add_wrapInt]
      rw [← h0, Cells.set_wrap, h0]
    | TWO =>
      simp only [reduceCtorEq, if_true, if_false]
      unfold GameState.Sow.wrap
      simp only [Cells.get_wrap, wrapInt_wrapInt_add, wrapInt_add_wrapInt]
      rw [← h0, Cells.set_wrap, h0]
  · have he32 : ¬ Int.tmod (w.wrap.newCells.get w.wrap.currentCell) 2 = 0 := by
      rw [hget]
      exact fun h => he ((wrapInt_tmod_two _).1 h)
    rw [if_neg he32, if_neg he]

theorem GameState.ruleD32_wrap (s : GameState) (w : Sow)
    (hc : 0 ≤ w.currentCell ∧ w.currentCell < 18)
    (hs1 : FitsInt w.newSpecialOne) (hs2 : FitsInt w.newSpecialTwo)
    (hv : INT_MIN ≤ w.newCells.get w.currentCell ∧ w.newCells.get w.currentCell ≤ 4294967294) :
    s.ruleD32 w.wrap = (s.ruleD w).wrap := by
  have hget : w.wrap.newCells.get w.wrap.currentCell = wrapInt (w.newCells.get w.currentCell) :=
    Cells.get_wrap _ _
  have hm : moveByCell32 w.currentCell = moveByCell w.currentCell :=
    moveByCell32_of_cell _ hc.1 hc.2
  have hr := moveByCell_range w.currentCell hc.1 hc.2
  have hq1 := moveByCell32_eq_iff (moveByCell w.currentCell) w.newSpecialOne hr.1 (by omega) hs1
  have hq2 := moveByCell32_eq_iff (moveByCell w.currentCell) w.newSpecialTwo hr.1 (by omega) hs2
  have h0 : wrapInt (0 : Int) = 0 := wrapInt_zero
  unfold GameState.ruleD32 GameState.ruleD
  by_cases h3 : w.newCells.get w.currentCell = 3
  · have h3w : w.wrap.newCells.get w.wrap.currentCell = 3 := by
      rw [hget]
      exact (wrapInt_eq_three _ hv.1 hv.2).2 h3
    rw [if_pos h3w, if_pos h3]
    simp only [GameState.Sow.wrap_currentCell, hm]
    cases hp : s.currentPlayer with
    | NONE =>
      simp only [reduceCtorEq, false_and, if_false]
    | ONE =>
      simp only [reduceCtorEq, false_and, if_false, true_and]
      have e1 : w.wrap.newSpecialOne = w.newSpecialOne := rfl
      have e2 : w.wrap.newSpecialTwo = w.newSpecialTwo := rfl
      rw [e1, e2]
      by_cases hcond : w.newSpecialOne = SPECIAL_NOT_SET ∧ (moveByCell w.currentCell != 8) = true ∧
          (w.newSpecialTwo = SPECIAL_NOT_SET ∨
            moveByCell w.currentCell ≠ moveByCell w.newSpecialTwo)
      · have hcond32 : w.newSpecialOne = SPECIAL_NOT_SET ∧
            (moveByCell w.currentCell != 8) = true ∧
            (w.newSpecialTwo = SPECIAL_NOT_SET ∨
              moveByCell w.currentCell ≠ moveByCell32 w.newSpecialTwo) :=
          ⟨hcond.1, hcond.2.1, hcond.2.2.imp id (fun h h32 => h (hq2.1 h32))⟩
        rw [if_pos hcond32, if_pos hcond]
        unfold GameState.Sow.wrap
        simp only [wrapInt_wrapInt_add]
        rw [← h0, Cells.set_wrap, h0]
      · have hcond32 : ¬ (w.newSpecialOne = SPECIAL_NOT_SET ∧
            (moveByCell w.currentCell != 8) = true ∧
            (w.newSpecialTwo = SPECIAL_NOT_SET ∨
              moveByCell w.currentCell ≠ moveByCell32 w.newSpecialTwo)) :=
          fun h => hcond ⟨h.1, h.2.1, h.2.2.imp id (fun h32 hi => h32 (hq2.2 hi))⟩
        rw [if_neg hcond32, if_neg hcond]
    | TWO =>
      simp only [reduceCtorEq, false_and, if_false, true_and]
      have e1 : w.wrap.newSpecialOne = w.newSpecialOne := rfl
      have e2 : w.wrap.newSpecialTwo = w.newSpecialTwo := rfl
      rw [e1, e2]
      by_cases hcond : w.newSpecialTwo = SPECIAL_NOT_SET ∧ (moveByCell w.currentCell != 8) = true ∧
          (w.newSpecialOne = SPECIAL_NOT_SET ∨
            moveByCell w.currentCell ≠ moveByCell w.newSpecialOne)
      · have hcond32 : w.newSpecialTwo = SPECIAL_NOT_SET ∧
            (moveByCell w.currentCell != 8) = true ∧
            (w.newSpecialOne = SPECIAL_NOT_SET ∨
              moveByCell w.currentCell ≠ moveByCell32 w.newSpecialOne) :=
          ⟨hcond.1, hcond.2.1, hcond.2.2.imp id (fun h h32 => h (hq1.1 h32))⟩
        rw [if_pos hcond32, if_pos hcond]
        unfold GameState.Sow.wrap
        simp only [wrapInt_wrapInt_add]
        rw [← h0, Cells.set_wrap, h0]
      · have hcond32 : ¬ (w.newSpecialTwo = SPECIAL_NOT_SET ∧
            (moveByCell w.currentCell != 8) = true ∧
            (w.newSpecialOne = SPECIAL_NOT_SET ∨
              moveByCell w.currentCell ≠ moveByCell32 w.newSpecialOne)) :=
          fun h => hcond ⟨h.1, h.2.1, h.2.2.imp id (fun h32 hi => h32 (hq1.2 hi))⟩
        rw [if_neg hcond32, if_neg hcond]
  · have h3w : ¬ w.wrap.newCells.get w.wrap.currentCell = 3 := by
      rw [hget]
      exact fun h => h3 ((wrapInt_eq_three _ hv.1 hv.2).1 h)
    rw [if_neg h3w, if_neg h3]

theorem GameState.Sow.wrap_with_currentCell (w : Sow) (c : Int) :
    ({ w.wrap with currentCell := c } : Sow) = ({ w with currentCell := c } : Sow).wrap := rfl

/-- Rule C raises one count by one, when it raises one at all. -/
theorem GameState.ruleC_get_bounds (s : GameState) (w : Sow) (i : Int) :
    w.newCells.get i ≤ (s.ruleC w).newCells.get i ∧
      (s.ruleC w).newCells.get i ≤ w.newCells.get i + 1 := by
  unfold GameState.ruleC
  cases hsp : s.isSpecial w.currentCell with
  | NONE =>
    simp only [if_true]
    by_cases hi : i = w.currentCell
    · subst hi
      by_cases hr : 0 ≤ w.currentCell ∧ w.currentCell < 18
      · rw [Cells.get_set_same _ _ _ hr.1 hr.2]
        omega
      · have hz : ∀ c : Cells, c.get w.currentCell = 0 := fun c => by
          unfold Cells.get
          rw [dif_neg hr]
        rw [hz, hz]
        omega
    · rw [Cells.get_set_ne _ _ _ _ hi]
      omega
  | ONE =>
    simp only [reduceCtorEq, if_true, if_false]
    omega
  | TWO =>
    simp only [reduceCtorEq, if_true, if_false]
    omega

theorem GameState.sowBody32_wrap_succ (s : GameState) (n : Nat) (w : Sow) :
    s.sowBody32 (n + 1) w.wrap = (s.sowBody (n + 1) w).wrap := by
  unfold GameState.sowBody32 GameState.sowBody
  simp only [Nat.succ_ne_zero, false_and, if_false]
  rw [GameState.ruleC32_wrap]
  rfl

theorem GameState.sowBody32_wrap_zero (s : GameState) (w : Sow)
    (hc : 0 ≤ w.currentCell ∧ w.currentCell < 18)
    (hs1 : FitsInt w.newSpecialOne) (hs2 : FitsInt w.newSpecialTwo)
    (hv : INT_MIN ≤ w.newCells.get w.currentCell ∧
      w.newCells.get w.currentCell + 1 ≤ 4294967294) :
    s.sowBody32 0 w.wrap = (s.sowBody 0 w).wrap := by
  unfold GameState.sowBody32 GameState.sowBody
  rw [GameState.ruleC32_wrap]
  simp only [true_and, GameState.Sow.wrap_currentCell]
  by_cases hr : s.isReachable (s.ruleC w).currentCell = true
  · rw [if_pos hr, if_pos hr, GameState.ruleB32_wrap, GameState.ruleD32_wrap]
    · rfl
    · rw [GameState.ruleB_currentCell, GameState.ruleC_currentCell]
      exact hc
    · rw [(s.ruleB_specials _).1, GameState.ruleC_newSpecialOne]
      exact hs1
    · rw [(s.ruleB_specials _).2, GameState.ruleC_newSpecialTwo]
      exact hs2
    · rw [GameState.ruleB_currentCell, GameState.ruleC_currentCell]
      have hb := s.ruleC_get_bounds w w.currentCell
      rcases s.ruleB_get_eq_or_zero (s.ruleC w) w.currentCell hc.1 hc.2 with e | e
      · rw [e]
        omega
      · rw [e]
        unfold INT_MIN
        omega
  · rw [if_neg hr, if_neg hr]
    rfl

/-- The loop with the arithmetic of `int` computes what the loop computes in
the integers, reduced to the range of `int`, as long as the counts it started
from are values of `int` and the hand is one too. -/
theorem GameState.sowLoop32_wrap (s : GameState) (n : Nat) (w : Sow)
    (hc : 0 ≤ w.currentCell ∧ w.currentCell < 18)
    (hs1 : FitsInt w.newSpecialOne) (hs2 : FitsInt w.newSpecialTwo)
    (hv : ∀ i : Int, INT_MIN ≤ w.newCells.get i ∧ w.newCells.get i + n ≤ 4294967294) :
    s.sowLoop32 n w.wrap = (s.sowLoop n w).wrap := by
  induction n generalizing w with
  | zero => rfl
  | succ n ih =>
    show s.sowLoop32 n (s.sowBody32 n w.wrap) = (s.sowLoop n (s.sowBody n w)).wrap
    have hstep : s.sowBody32 n w.wrap = (s.sowBody n w).wrap := by
      cases n with
      | zero =>
        apply s.sowBody32_wrap_zero w hc hs1 hs2
        have := hv w.currentCell
        constructor
        · exact this.1
        · have h2 := this.2
          push_cast at h2
          omega
      | succ k => exact s.sowBody32_wrap_succ k w
    rw [hstep]
    cases n with
    | zero => rfl
    | succ k =>
      apply ih
      · rw [GameState.sowBody_currentCell]
        exact nextCell_range _ hc.1 hc.2
      · rw [GameState.sowBody_succ]
        show FitsInt (s.ruleC w).newSpecialOne
        rw [GameState.ruleC_newSpecialOne]
        exact hs1
      · rw [GameState.sowBody_succ]
        show FitsInt (s.ruleC w).newSpecialTwo
        rw [GameState.ruleC_newSpecialTwo]
        exact hs2
      · intro i
        rw [GameState.sowBody_succ]
        show INT_MIN ≤ (s.ruleC w).newCells.get i ∧ _
        have hb := s.ruleC_get_bounds w i
        have := hv i
        constructor
        · omega
        · have h2 := this.2
          show (s.ruleC w).newCells.get i + ((k + 1 : Nat) : Int) ≤ 4294967294
          push_cast at h2 ⊢
          omega

theorem GameState.IsInt.get_fits {s : GameState} (h : s.IsInt) (i : Int) : FitsInt (s.cells.get i) := by
  unfold Cells.get
  split_ifs
  · exact h.2.2.2.2 _
  · unfold FitsInt INT_MIN INT_MAX
    omega

theorem GameState.IsInt.sowStart_wrap {s : GameState} (h : s.IsInt) (m : Int) :
    (s.sowStart m).wrap = s.sowStart m := by
  unfold GameState.Sow.wrap GameState.sowStart
  simp only
  rw [wrapInt_of_fits _ h.1, wrapInt_of_fits _ h.2.1]
  congr 1
  funext j
  apply wrapInt_of_fits
  unfold Cells.set
  split_ifs
  · unfold FitsInt INT_MIN INT_MAX
    omega
  · exact h.2.2.2.2 j

theorem GameState.IsInt.sowStart_bounds {s : GameState} (h : s.IsInt) (m : Int) (i : Int) :
    INT_MIN ≤ (s.sowStart m).newCells.get i ∧
      (s.sowStart m).newCells.get i + ((s.cells.get (s.boardCell m)).toNat : Int) ≤ 4294967294 := by
  have h1 := h.get_fits (s.boardCell m)
  have h2 : FitsInt ((s.sowStart m).newCells.get i) := by
    show FitsInt ((s.cells.set (s.boardCell m) 0).get i)
    by_cases hi : i = s.boardCell m
    · by_cases hr : 0 ≤ i ∧ i < 18
      · rw [← hi, Cells.get_set_same _ _ _ hr.1 hr.2]
        unfold FitsInt INT_MIN INT_MAX
        omega
      · unfold Cells.get
        rw [dif_neg hr]
        unfold FitsInt INT_MIN INT_MAX
        omega
    · rw [Cells.get_set_ne _ _ _ _ hi]
      exact h.get_fits i
  unfold FitsInt INT_MIN INT_MAX at h1 h2
  unfold INT_MIN
  omega

/-- The locals of `move` on exit from the loop with the arithmetic of `int`:
those computed in the integers, reduced to the range of `int`. -/
theorem GameState.sowEnd32_eq (s : GameState) (m : Int) (hi : s.IsInt)
    (h0 : 0 ≤ m) (h8 : m ≤ 8) : s.sowEnd32 m = (s.sowEnd m).wrap := by
  unfold GameState.sowEnd32 GameState.sowEnd
  have h := s.sowLoop32_wrap (s.cells.get (s.boardCell m)).toNat (s.sowStart m)
    (s.sowStart_currentCell_range m h0 h8) hi.2.2.1 hi.2.2.2.1 (hi.sowStart_bounds m)
  rw [hi.sowStart_wrap m] at h
  exact h

theorem GameState.sowPlain32_wrap (s : GameState) (w : Sow) :
    s.sowPlain32 w.wrap = (s.sowPlain w).wrap := by
  unfold GameState.sowPlain32 GameState.sowPlain
  rw [GameState.ruleC32_wrap]
  rfl

theorem GameState.sowPlain32_iterate_wrap (s : GameState) (k : Nat) (w : Sow) :
    (s.sowPlain32)^[k] w.wrap = ((s.sowPlain)^[k] w).wrap := by
  induction k generalizing w with
  | zero => rfl
  | succ k ih => rw [Function.iterate_succ_apply, Function.iterate_succ_apply,
      GameState.sowPlain32_wrap, ih]

theorem GameState.sowBeforeLast32_eq (s : GameState) (m : Int) (hi : s.IsInt) :
    s.sowBeforeLast32 m = (s.sowBeforeLast m).wrap := by
  unfold GameState.sowBeforeLast32 GameState.sowBeforeLast GameState.sowPrefix
  have h := s.sowPlain32_iterate_wrap ((s.hand m).toNat - 1) (s.sowStart m)
  rw [hi.sowStart_wrap m] at h
  exact h

theorem GameState.sowLastDeposit32_eq (s : GameState) (m : Int) (hi : s.IsInt) :
    s.sowLastDeposit32 m = (s.sowLastDeposit m).wrap := by
  unfold GameState.sowLastDeposit32 GameState.sowLastDeposit
  rw [s.sowBeforeLast32_eq m hi, GameState.ruleC32_wrap]

/-- What `move` returns for an allowed move with the arithmetic of `int`, in
terms of the locals at the end of the sowing loop computed in the integers. -/
theorem GameState.move32_eq (s : GameState) (m : Int) (hi : s.IsInt)
    (h0 : 0 ≤ m) (h8 : m ≤ 8) (ha : s.isMoveAllowed m = true) :
    ∃ t, s.move32 m = some t ∧
      t.currentPlayer = opponent s.currentPlayer ∧
      t.scoreOne = wrapInt (s.sowEnd m).newScoreOne ∧
      t.scoreTwo = wrapInt (s.sowEnd m).newScoreTwo ∧
      t.specialOne = (s.sowEnd m).newSpecialOne ∧ t.specialTwo = (s.sowEnd m).newSpecialTwo ∧
      (∀ i : Int, t.cells.get i = wrapInt ((s.sowEnd m).newCells.get i)) ∧
      t.isGameOver = t.checkGameOver := by
  obtain ⟨t, ht, t1, t2, t3, t4, t5, t6, t7, -⟩ :=
    GameState.create_eq (opponent s.currentPlayer) (s.sowEnd32 m).newScoreOne
      (s.sowEnd32 m).newScoreTwo (s.sowEnd32 m).newSpecialOne (s.sowEnd32 m).newSpecialTwo
      (s.sowEnd32 m).newCells
  refine ⟨t, ?_, t1, ?_, ?_, ?_, ?_, ?_, t7⟩
  · unfold GameState.move32
    simp only [ha, Bool.not_true, Bool.false_eq_true, if_false]
    exact ht
  · rw [t2, s.sowEnd32_eq m hi h0 h8]
    rfl
  · rw [t3, s.sowEnd32_eq m hi h0 h8]
    rfl
  · rw [t4, s.sowEnd32_eq m hi h0 h8]
    rfl
  · rw [t5, s.sowEnd32_eq m hi h0 h8]
    rfl
  · intro i
    rw [t6, s.sowEnd32_eq m hi h0 h8]
    exact Cells.get_wrap _ i

/-! ## Claim C7: Rule B -/

theorem wrapInt_emod_two (x : Int) : wrapInt x % 2 = 0 ↔ x % 2 = 0 := by
  unfold wrapInt
  omega

/-- C7, counterexample: in the state `GameState(ONE, {{0, 1}, {9, 1}}, INT_MAX,
0, -1, -1)` no special cell is set and no cell is negative, move 8 is allowed
and sows its one pebble on cell 9, in the row that is reachable for ONE, which
then holds 2 pebbles, an even count; yet the score of ONE in the state that
`move(8)` returns is -2147483647, not `INT_MAX + 2`: the addition of line 207
overflows. -/
theorem ruleB_capture_counterexample :
    intMaxCaptureState.IsInt ∧
    intMaxCaptureState.currentPlayer = Player.ONE ∧
    intMaxCaptureState.specialOne = SPECIAL_NOT_SET ∧
    intMaxCaptureState.specialTwo = SPECIAL_NOT_SET ∧
    (∀ j : Fin 18, 0 ≤ intMaxCaptureState.cells j) ∧
    intMaxCaptureState.isMoveAllowed 8 = true ∧
    intMaxCaptureState.lastCell 8 = 9 ∧
    (intMaxCaptureState.sowLastDeposit32 8).newCells.get 9 = 2 ∧
    intMaxCaptureState.scoreOne = 2147483647 ∧
    (intMaxCaptureState.move32 8).map (fun t => (t.scoreOne, t.scoreTwo, t.cells.get 9)) =
      some (-2147483647, 0, 0) := by
  refine ⟨?_, by decide, by decide, by decide, by decide, by decide, by decide, by decide,
    by decide, by decide⟩
  unfold GameState.IsInt FitsInt
  decide

/-- C7, as amended (Rule B): in a state with no special cell set and no
negative cell, for an allowed move whose last pebble is sown on a cell `L` of
the mover's reachable row (`L > 8` when ONE moves, `L < 9` when TWO moves): the
count of `L` right after that pebble is the count before it plus one, and if
that count is even then the resulting state has `cells[L] = 0`, the opponent's
score is unchanged, and the mover's score is the sum, in the arithmetic of
`int`, of the mover's score and that count, which is the score increased by
exactly that count whenever that sum is in the range of `int`.  On the default
start, move 8 sows its last pebble on cell 16, empties it and gives ONE 10
points, after which move 7 is the only move of TWO that is not allowed. -/
theorem ruleB_capture :
    (∀ (s : GameState) (m : Int), s.IsInt →
      s.specialOne = SPECIAL_NOT_SET → s.specialTwo = SPECIAL_NOT_SET → s.cells.NonNeg →
      0 ≤ m → m ≤ 8 → s.isMoveAllowed m = true →
      ((s.currentPlayer = Player.ONE ∧ s.lastCell m > 8) ∨
        (s.currentPlayer = Player.TWO ∧ s.lastCell m < 9)) →
      (s.sowLastDeposit32 m).newCells.get (s.lastCell m) % 2 = 0 →
      (s.sowLastDeposit32 m).newCells.get (s.lastCell m) =
          wrapInt ((s.sowBeforeLast32 m).newCells.get (s.lastCell m) + 1) ∧
      ∃ t, s.move32 m = some t ∧ t.cells.get (s.lastCell m) = 0 ∧
        (s.currentPlayer = Player.ONE →
          t.scoreOne =
            wrapInt (s.scoreOne + (s.sowLastDeposit32 m).newCells.get (s.lastCell m)) ∧
          (FitsInt (s.scoreOne + (s.sowLastDeposit32 m).newCells.get (s.lastCell m)) →
            t.scoreOne = s.scoreOne + (s.sowLastDeposit32 m).newCells.get (s.lastCell m)) ∧
          t.scoreTwo = s.scoreTwo) ∧
        (s.currentPlayer = Player.TWO →
          t.scoreTwo =
            wrapInt (s.scoreTwo + (s.sowLastDeposit32 m).newCells.get (s.lastCell m)) ∧
          (FitsInt (s.scoreTwo + (s.sowLastDeposit32 m).newCells.get (s.lastCell m)) →
            t.scoreTwo = s.scoreTwo + (s.sowLastDeposit32 m).newCells.get (s.lastCell m)) ∧
          t.scoreOne = s.scoreOne)) ∧
    (GameState.init.lastCell 8 = 16 ∧
      ∃ t, GameState.init.move32 8 = some t ∧ t.cells.get 16 = 0 ∧
        t.scoreOne = 10 ∧ t.scoreTwo = 0 ∧ t.currentPlayer = Player.TWO ∧
        ∀ k : Fin 9, (t.isMoveAllowed (k.val : Int) = false ↔ k.val = 7)) := by
  constructor
  · intro s m hi h1 h2 hn h0 h8 ha hL he
    have hc32 : (s.sowLastDeposit32 m).newCells.get (s.lastCell m) =
        wrapInt ((s.sowLastDeposit m).newCells.get (s.lastCell m)) := by
      rw [s.sowLastDeposit32_eq m hi]
      exact Cells.get_wrap _ _
    have hb32 : (s.sowBeforeLast32 m).newCells.get (s.lastCell m) =
        wrapInt ((s.sowBeforeLast m).newCells.get (s.lastCell m)) := by
      rw [s.sowBeforeLast32_eq m hi]
      exact Cells.get_wrap _ _
    have heI : (s.sowLastDeposit m).newCells.get (s.lastCell m) % 2 = 0 := by
      rw [hc32] at he
      exact (wrapInt_emod_two _).1 he
    obtain ⟨hdep, tI, htI, c1, c2, c3⟩ := ruleB_capture_integers.1 s m h1 h2 hn h0 h8 ha hL heI
    obtain ⟨u, hu, -, u2, u3, -, -, u6⟩ := s.move_eq m ha
    rw [htI] at hu
    cases hu
    obtain ⟨t, ht, -, t2, t3, -, -, t6, -⟩ := s.move32_eq m hi h0 h8 ha
    rw [← u2] at t2
    rw [← u3] at t3
    rw [← u6] at t6
    refine ⟨by rw [hc32, hb32, hdep, wrapInt_wrapInt_add], t, ht, ?_, ?_, ?_⟩
    · rw [t6, c1]
      exact wrapInt_zero
    · intro hp
      have e1 : t.scoreOne =
          wrapInt (s.scoreOne + (s.sowLastDeposit32 m).newCells.get (s.lastCell m)) := by
        rw [t2, (c2 hp).1, hc32, wrapInt_add_wrapInt]
      refine ⟨e1, fun hf => ?_, ?_⟩
      · rw [e1]
        exact wrapInt_of_fits _ hf
      · rw [t3, (c2 hp).2]
        exact wrapInt_of_fits _ hi.2.1
    · intro hp
      have e1 : t.scoreTwo =
          wrapInt (s.scoreTwo + (s.sowLastDeposit32 m).newCells.get (s.lastCell m)) := by
        rw [t3, (c3 hp).1, hc32, wrapInt_add_wrapInt]
      refine ⟨e1, fun hf => ?_, ?_⟩
      · rw [e1]
        exact wrapInt_of_fits _ hf
      · rw [t2, (c3 hp).2]
        exact wrapInt_of_fits _ hi.1
  · refine ⟨by decide, ?_⟩
    have h : (GameState.init.move32 8).map (fun t => decide (t.cells.get 16 = 0 ∧
        t.scoreOne = 10 ∧ t.scoreTwo = 0 ∧ t.currentPlayer = Player.TWO ∧
        ∀ k : Fin 9, (t.isMoveAllowed (k.val : Int) = false ↔ k.val = 7))) = some true := by
      decide
    obtain ⟨t, ht, hv⟩ := Option.map_eq_some'.1 h
    exact ⟨t, ht, of_decide_eq_true hv⟩

theorem ruleB_capture_witness :
    (GameState.init.sowLastDeposit32 8).newCells.get (GameState.init.lastCell 8) =
        wrapInt ((GameState.init.sowBeforeLast32 8).newCells.get (GameState.init.lastCell 8) + 1) ∧
      ∃ t, GameState.init.move32 8 = some t ∧ t.cells.get (GameState.init.lastCell 8) = 0 ∧
        (GameState.init.currentPlayer = Player.ONE →
          t.scoreOne = wrapInt (GameState.init.scoreOne +
            (GameState.init.sowLastDeposit32 8).newCells.get (GameState.init.lastCell 8)) ∧
          (FitsInt (GameState.init.scoreOne +
              (GameState.init.sowLastDeposit32 8).newCells.get (GameState.init.lastCell 8)) →
            t.scoreOne = GameState.init.scoreOne +
              (GameState.init.sowLastDeposit32 8).newCells.get (GameState.init.lastCell 8)) ∧
          t.scoreTwo = GameState.init.scoreTwo) ∧
        (GameState.init.currentPlayer = Player.TWO →
          t.scoreTwo = wrapInt (GameState.init.scoreTwo +
            (GameState.init.sowLastDeposit32 8).newCells.get (GameState.init.lastCell 8)) ∧
          (FitsInt (GameState.init.scoreTwo +
              (GameState.init.sowLastDeposit32 8).newCells.get (GameState.init.lastCell 8)) →
            t.scoreTwo = GameState.init.scoreTwo +
              (GameState.init.sowLastDeposit32 8).newCells.get (GameState.init.lastCell 8)) ∧
          t.scoreOne = GameState.init.scoreOne) :=
  ruleB_capture.1 GameState.init 8 (by unfold GameState.IsInt FitsInt; decide) rfl rfl
    Reachable.init.nonNeg (by decide) (by decide) (by decide) (Or.inl ⟨rfl, by decide⟩)
    (by decide)

/-! ## What `move` returns on 32 bits, from what it returns in the integers -/

theorem GameState.sowEnd32_eq_of_allowed (s : GameState) (m : Int) (hi : s.IsInt)
    (ha : s.isMoveAllowed m = true) : s.sowEnd32 m = (s.sowEnd m).wrap := by
  unfold GameState.sowEnd32 GameState.sowEnd
  have h := s.sowLoop32_wrap (s.cells.get (s.boardCell m)).toNat (s.sowStart m)
    (s.sowStart_currentCell_range_of_allowed m ha) hi.2.2.1 hi.2.2.2.1 (hi.sowStart_bounds m)
  rw [hi.sowStart_wrap m] at h
  exact h

/-- For an allowed move, `move` returns a state on 32 bits as it does in the
integers, and the scores of the former are those of the latter reduced to the
range of `int`. -/
theorem GameState.move32_scores (s : GameState) (m : Int) (hi : s.IsInt)
    (ha : s.isMoveAllowed m = true) :
    ∃ t u : GameState, s.move32 m = some t ∧ s.move m = some u ∧
      t.scoreOne = wrapInt u.scoreOne ∧ t.scoreTwo = wrapInt u.scoreTwo := by
  obtain ⟨u, hu, -, u2, u3, -, -, -⟩ := s.move_eq m ha
  obtain ⟨t, ht, -, t2, t3, -⟩ :=
    GameState.create_eq (opponent s.currentPlayer) (s.sowEnd32 m).newScoreOne
      (s.sowEnd32 m).newScoreTwo (s.sowEnd32 m).newSpecialOne (s.sowEnd32 m).newSpecialTwo
      (s.sowEnd32 m).newCells
  refine ⟨t, u, ?_, hu, ?_, ?_⟩
  · unfold GameState.move32
    simp only [ha, Bool.not_true, Bool.false_eq_true, if_false]
    exact ht
  · rw [t2, u2, s.sowEnd32_eq_of_allowed m hi ha]
    rfl
  · rw [t3, u3, s.sowEnd32_eq_of_allowed m hi ha]
    rfl

theorem wrapInt_wrapInt_sub_wrapInt (x y : Int) :
    wrapInt (wrapInt x - wrapInt y) = wrapInt (x - y) := by
  unfold wrapInt
  omega

/-! ## Claim C10: Rule A -/

/-- The locals of `move` on entry to the loop when the hand is one pebble. -/
theorem GameState.sowStart_of_one (s : GameState) (m : Int) (h1 : s.hand m = 1) :
    s.sowStart m =
      { currentCell := nextCell (s.boardCell m), newCells := s.cells.set (s.boardCell m) 0,
        newScoreOne := s.scoreOne, newScoreTwo := s.scoreTwo,
        newSpecialOne := s.specialOne, newSpecialTwo := s.specialTwo } := by
  unfold GameState.hand at h1
  unfold GameState.sowStart
  simp only [h1, if_true]

/-- With a hand of one pebble the loop of `move` runs once, on the cell after
the source cell. -/
theorem GameState.sowEnd32_of_one (s : GameState) (m : Int) (h1 : s.hand m = 1) :
    s.sowEnd32 m = s.sowBody32 0
      { currentCell := nextCell (s.boardCell m), newCells := s.cells.set (s.boardCell m) 0,
        newScoreOne := s.scoreOne, newScoreTwo := s.scoreTwo,
        newSpecialOne := s.specialOne, newSpecialTwo := s.specialTwo } := by
  rw [← s.sowStart_of_one m h1]
  unfold GameState.sowEnd32
  have : (s.cells.get (s.boardCell m)).toNat = 1 := by
    unfold GameState.hand at h1
    rw [h1]
    rfl
  rw [this]
  rfl

theorem GameState.ruleD32_of_ne_three (s : GameState) (w : Sow)
    (h : w.newCells.get w.currentCell ≠ 3) : s.ruleD32 w = w := by
  unfold GameState.ruleD32
  rw [if_neg h]

theorem GameState.ruleB_of_odd (s : GameState) (w : Sow)
    (h : w.newCells.get w.currentCell % 2 ≠ 0) : s.ruleB w = w := by
  unfold GameState.ruleB
  rw [if_neg (fun he => h ((tmod_two_eq_zero_iff _).1 he))]

/-- The locals of `move` on exit from the loop, in the integers, when the hand
is one pebble: those after the last iteration run on the locals of entry. -/
theorem GameState.sowEnd_of_one (s : GameState) (m : Int) (h1 : s.hand m = 1) :
    s.sowEnd m = s.sowBody 0 (s.sowStart m) := by
  have hend := s.sowEnd_eq m (by omega)
  have hbl : s.sowBeforeLast m = s.sowStart m := by
    unfold GameState.sowBeforeLast GameState.sowPrefix
    rw [h1]
    rfl
  rw [hbl] at hend
  exact hend

theorem GameState.sowBody32_succ (s : GameState) (n : Nat) (w : Sow) :
    s.sowBody32 (n + 1) w = s.sowPlain32 w := by
  simp [GameState.sowBody32, GameState.sowPlain32]

theorem GameState.sowLoop32_succ (s : GameState) (k : Nat) (w : Sow) :
    s.sowLoop32 (k + 1) w = s.sowBody32 0 ((s.sowPlain32)^[k] w) := by
  induction k generalizing w with
  | zero => rfl
  | succ k ih =>
    rw [GameState.sowLoop32, GameState.sowBody32_succ, ih, Function.iterate_succ_apply]

/-- The locals on exit from the loop are those after its last iteration, run on
the locals before it. -/
theorem GameState.sowEnd32_eq_last (s : GameState) (m : Int) (h : 1 ≤ s.hand m) :
    s.sowEnd32 m = s.sowBody32 0 (s.sowBeforeLast32 m) := by
  unfold GameState.sowEnd32 GameState.sowBeforeLast32
  unfold GameState.hand at *
  have : (s.cells.get (s.boardCell m)).toNat = ((s.cells.get (s.boardCell m)).toNat - 1) + 1 := by
    omega
  rw [this, GameState.sowLoop32_succ]
  simp

/-- C10 (Rule A): for a state whose members are values of `int` and an allowed
move `m` of `0..8` from source cell `src = boardCell(m)` holding `h` pebbles.
If `h = 1`, the loop runs once, on `nextCell(src)`: the members of the state
that `move` returns are the locals after that iteration; `src` is empty in the
result and every cell other than `src` and `nextCell(src)` keeps its count; and
the pebble is sown on `nextCell(src)`: when that cell is a special cell the
owner's score has one point more, and otherwise the cell holds one pebble more
(in the arithmetic of `int`), unless the cell is reachable for the mover and
that count is even, in which case the cell is empty and the mover's score has
grown by that count.  If `2 <= h <= 18`, pebble `k + 1` is sown on the `k`-th
cell after `src` along `nextCell` (the first one on `src` itself), `src` holds
exactly 1 pebble in the result when it is not a special cell, every cell that
is not special and receives one of the pebbles strictly between the first and
the last holds one pebble more, and every cell that is not one of those `h`
cells keeps its count; the last pebble is sown in the last iteration of the
loop, which runs on the last of those cells, a cell that holds what it held
before the move, and the members of the state that `move` returns are the
locals after that iteration. -/
theorem ruleA_sowing (s : GameState) (m : Int) (hi : s.IsInt) (h0 : 0 ≤ m) (h8 : m ≤ 8)
    (ha : s.isMoveAllowed m = true) :
    (s.hand m = 1 →
      s.sowCell m 0 = nextCell (s.boardCell m) ∧
      s.lastCell m = nextCell (s.boardCell m) ∧
      ∃ t, s.move32 m = some t ∧
        (t.scoreOne = (s.sowBody32 0
            { currentCell := nextCell (s.boardCell m), newCells := s.cells.set (s.boardCell m) 0,
              newScoreOne := s.scoreOne, newScoreTwo := s.scoreTwo,
              newSpecialOne := s.specialOne, newSpecialTwo := s.specialTwo }).newScoreOne ∧
          t.scoreTwo = (s.sowBody32 0
            { currentCell := nextCell (s.boardCell m), newCells := s.cells.set (s.boardCell m) 0,
              newScoreOne := s.scoreOne, newScoreTwo := s.scoreTwo,
              newSpecialOne := s.specialOne, newSpecialTwo := s.specialTwo }).newScoreTwo ∧
          t.specialOne = (s.sowBody32 0
            { currentCell := nextCell (s.boardCell m), newCells := s.cells.set (s.boardCell m) 0,
              newScoreOne := s.scoreOne, newScoreTwo := s.scoreTwo,
              newSpecialOne := s.specialOne, newSpecialTwo := s.specialTwo }).newSpecialOne ∧
          t.specialTwo = (s.sowBody32 0
            { currentCell := nextCell (s.boardCell m), newCells := s.cells.set (s.boardCell m) 0,
              newScoreOne := s.scoreOne, newScoreTwo := s.scoreTwo,
              newSpecialOne := s.specialOne, newSpecialTwo := s.specialTwo }).newSpecialTwo ∧
          t.cells = (s.sowBody32 0
            { currentCell := nextCell (s.boardCell m), newCells := s.cells.set (s.boardCell m) 0,
              newScoreOne := s.scoreOne, newScoreTwo := s.scoreTwo,
              newSpecialOne := s.specialOne, newSpecialTwo := s.specialTwo }).newCells) ∧
        t.cells.get (s.boardCell m) = 0 ∧
        (∀ c : Int, c ≠ s.boardCell m → c ≠ nextCell (s.boardCell m) →
          t.cells.get c = s.cells.get c) ∧
        (s.isSpecial (nextCell (s.boardCell m)) = Player.ONE →
          s.isReachable (nextCell (s.boardCell m)) = false →
          t.scoreOne = wrapInt (s.scoreOne + 1) ∧ t.scoreTwo = s.scoreTwo ∧
          t.cells.get (nextCell (s.boardCell m)) = s.cells.get (nextCell (s.boardCell m))) ∧
        (s.isSpecial (nextCell (s.boardCell m)) = Player.TWO →
          s.isReachable (nextCell (s.boardCell m)) = false →
          t.scoreTwo = wrapInt (s.scoreTwo + 1) ∧ t.scoreOne = s.scoreOne ∧
          t.cells.get (nextCell (s.boardCell m)) = s.cells.get (nextCell (s.boardCell m))) ∧
        (s.isSpecial (nextCell (s.boardCell m)) = Player.NONE →
          (s.isReachable (nextCell (s.boardCell m)) = false ∨
            (wrapInt (s.cells.get (nextCell (s.boardCell m)) + 1) % 2 ≠ 0 ∧
              wrapInt (s.cells.get (nextCell (s.boardCell m)) + 1) ≠ 3) →
            t.cells.get (nextCell (s.boardCell m)) =
              wrapInt (s.cells.get (nextCell (s.boardCell m)) + 1) ∧
            t.scoreOne = s.scoreOne ∧ t.scoreTwo = s.scoreTwo) ∧
          (s.isReachable (nextCell (s.boardCell m)) = true →
            wrapInt (s.cells.get (nextCell (s.boardCell m)) + 1) % 2 = 0 →
            t.cells.get (nextCell (s.boardCell m)) = 0 ∧
            (s.currentPlayer = Player.ONE →
              t.scoreOne = wrapInt (s.scoreOne +
                wrapInt (s.cells.get (nextCell (s.boardCell m)) + 1)) ∧
              t.scoreTwo = s.scoreTwo) ∧
            (s.currentPlayer = Player.TWO →
              t.scoreTwo = wrapInt (s.scoreTwo +
                wrapInt (s.cells.get (nextCell (s.boardCell m)) + 1)) ∧
              t.scoreOne = s.scoreOne)))) ∧
    (2 ≤ s.hand m → s.hand m ≤ 18 →
      (∀ k : Nat, (k : Int) < s.hand m → s.sowCell m k = nextCell^[k] (s.boardCell m)) ∧
      s.lastCell m = nextCell^[(s.hand m).toNat - 1] (s.boardCell m) ∧
      ∃ t, s.move32 m = some t ∧
        (s.isSpecial (s.boardCell m) = Player.NONE → t.cells.get (s.boardCell m) = 1) ∧
        (∀ k : Nat, 0 < k → (k : Int) < s.hand m - 1 →
          s.isSpecial (nextCell^[k] (s.boardCell m)) = Player.NONE →
          t.cells.get (nextCell^[k] (s.boardCell m)) =
            wrapInt (s.cells.get (nextCell^[k] (s.boardCell m)) + 1)) ∧
        (∀ c : Int, (∀ k : Nat, (k : Int) < s.hand m → c ≠ nextCell^[k] (s.boardCell m)) →
          t.cells.get c = s.cells.get c) ∧
        (s.sowBeforeLast32 m).currentCell = s.lastCell m ∧
        (s.sowBeforeLast32 m).newCells.get (s.lastCell m) = s.cells.get (s.lastCell m) ∧
        t.scoreOne = (s.sowBody32 0 (s.sowBeforeLast32 m)).newScoreOne ∧
        t.scoreTwo = (s.sowBody32 0 (s.sowBeforeLast32 m)).newScoreTwo ∧
        t.specialOne = (s.sowBody32 0 (s.sowBeforeLast32 m)).newSpecialOne ∧
        t.specialTwo = (s.sowBody32 0 (s.sowBeforeLast32 m)).newSpecialTwo ∧
        t.cells = (s.sowBody32 0 (s.sowBeforeLast32 m)).newCells) := by
  have hb := s.boardCell_range m h0 h8
  obtain ⟨u, hu, -, -, -, -, -, u6⟩ := s.move_eq m ha
  obtain ⟨t, ht, -, t2, t3, t4, t5, t6, -⟩ := s.move32_eq m hi h0 h8 ha
  have hI := ruleA_sowing_integers s m h0 h8 ha
  have hfit : ∀ c : Int, wrapInt (s.cells.get c) = s.cells.get c :=
    fun c => wrapInt_of_fits _ (hi.get_fits c)
  constructor
  · intro h1
    obtain ⟨a1, a2, v, hv, a3, a4⟩ := hI.1 h1
    rw [hu] at hv
    cases hv
    have hL := nextCell_range _ hb.1 hb.2
    have hne : nextCell (s.boardCell m) ≠ s.boardCell m := nextCell_ne _
    have hend := s.sowEnd_of_one m h1
    have hst := s.sowStart_of_one m h1
    have hcur : (s.sowStart m).currentCell = nextCell (s.boardCell m) := by rw [hst]
    have hgetL : (s.sowStart m).newCells.get (nextCell (s.boardCell m)) =
        s.cells.get (nextCell (s.boardCell m)) := by
      rw [hst]
      exact Cells.get_set_ne _ _ _ _ hne
    have hgetW : (s.sowStart m).newCells.get (s.sowStart m).currentCell =
        s.cells.get (nextCell (s.boardCell m)) := by rw [hcur]; exact hgetL
    have hs1 : (s.sowStart m).newScoreOne = s.scoreOne := rfl
    have hs2 : (s.sowStart m).newScoreTwo = s.scoreTwo := rfl
    have hgen : s.sowEnd32 m = s.sowBody32 0
        { currentCell := nextCell (s.boardCell m), newCells := s.cells.set (s.boardCell m) 0,
          newScoreOne := s.scoreOne, newScoreTwo := s.scoreTwo,
          newSpecialOne := s.specialOne, newSpecialTwo := s.specialTwo } :=
      s.sowEnd32_of_one m h1
    obtain ⟨x, hx, -, x2, x3, x4, x5, x6, -, -⟩ :=
      GameState.create_eq (opponent s.currentPlayer) (s.sowEnd32 m).newScoreOne
        (s.sowEnd32 m).newScoreTwo (s.sowEnd32 m).newSpecialOne (s.sowEnd32 m).newSpecialTwo
        (s.sowEnd32 m).newCells
    have hxt : x = t := by
      have : s.move32 m = some x := by
        unfold GameState.move32
        simp only [ha, Bool.not_true, Bool.false_eq_true, if_false]
        exact hx
      rw [ht] at this
      cases this
      rfl
    rw [hxt] at x2 x3 x4 x5 x6
    refine ⟨a1, a2, t, ht, ⟨by rw [x2, hgen], by rw [x3, hgen], by rw [x4, hgen],
      by rw [x5, hgen], by rw [x6, hgen]⟩, ?_, ?_, ?_, ?_, ?_⟩
    · rw [t6, ← u6, a3]
      exact wrapInt_zero
    · intro c hc1 hc2
      rw [t6, ← u6, a4 c hc1 hc2]
      exact hfit c
    · intro hsp hr
      have hsp1 : (s.sowStart m).currentCell = s.specialOne := by
        rw [hcur]
        exact ((s.isSpecial_eq_ONE_iff _).1 hsp).symm
      have hbody := s.sowBody_zero_of_not_reachable (s.sowStart m) (by rw [hcur]; exact hr)
      rw [s.ruleC_of_specialOne _ hsp1] at hbody
      rw [t2, t3, t6, hend, hbody]
      refine ⟨by rw [← hs1], ?_, ?_⟩
      · show wrapInt (s.sowStart m).newScoreTwo = s.scoreTwo
        rw [hs2]
        exact wrapInt_of_fits _ hi.2.1
      · show wrapInt ((s.sowStart m).newCells.get (nextCell (s.boardCell m))) = _
        rw [hgetL]
        exact hfit _
    · intro hsp hr
      obtain ⟨hn1, hn2⟩ := (s.isSpecial_eq_TWO_iff _).1 hsp
      have hsp2 : (s.sowStart m).currentCell = s.specialTwo := by
        rw [hcur]
        exact hn2.symm
      have hsp1 : (s.sowStart m).currentCell ≠ s.specialOne := by
        rw [hcur]
        exact fun h => hn1 h.symm
      have hbody := s.sowBody_zero_of_not_reachable (s.sowStart m) (by rw [hcur]; exact hr)
      rw [s.ruleC_of_specialTwo _ hsp2 hsp1] at hbody
      rw [t2, t3, t6, hend, hbody]
      refine ⟨by rw [← hs2], ?_, ?_⟩
      · show wrapInt (s.sowStart m).newScoreOne = s.scoreOne
        rw [hs1]
        exact wrapInt_of_fits _ hi.1
      · show wrapInt ((s.sowStart m).newCells.get (nextCell (s.boardCell m))) = _
        rw [hgetL]
        exact hfit _
    · intro hsp
      have hspW : s.isSpecial (s.sowStart m).currentCell = Player.NONE := by rw [hcur]; exact hsp
      have hC := s.ruleC_of_not_special _ hspW
      have hCget : (s.ruleC (s.sowStart m)).newCells.get (s.ruleC (s.sowStart m)).currentCell =
          s.cells.get (nextCell (s.boardCell m)) + 1 := by
        rw [GameState.ruleC_currentCell, hC]
        show ((s.sowStart m).newCells.set (s.sowStart m).currentCell _).get
          (s.sowStart m).currentCell = _
        rw [Cells.get_set_same _ _ _ (by rw [hcur]; exact hL.1) (by rw [hcur]; exact hL.2), hgetW]
      have hfc := hi.get_fits (nextCell (s.boardCell m))
      have hkeep : s.sowBody 0 (s.sowStart m) =
            { s.ruleC (s.sowStart m) with currentCell := nextCell (s.sowStart m).currentCell } →
          t.cells.get (nextCell (s.boardCell m)) =
              wrapInt (s.cells.get (nextCell (s.boardCell m)) + 1) ∧
            t.scoreOne = s.scoreOne ∧ t.scoreTwo = s.scoreTwo := by
        intro hbody
        rw [t2, t3, t6, hend, hbody]
        refine ⟨?_, ?_, ?_⟩
        · show wrapInt ((s.ruleC (s.sowStart m)).newCells.get (nextCell (s.boardCell m))) = _
          have := hCget
          rw [GameState.ruleC_currentCell, hcur] at this
          rw [this]
        · show wrapInt (s.ruleC (s.sowStart m)).newScoreOne = _
          rw [hC]
          exact wrapInt_of_fits _ hi.1
        · show wrapInt (s.ruleC (s.sowStart m)).newScoreTwo = _
          rw [hC]
          exact wrapInt_of_fits _ hi.2.1
      constructor
      · rintro (hr | ⟨hodd, hn3⟩)
        · exact hkeep (s.sowBody_zero_of_not_reachable (s.sowStart m) (by rw [hcur]; exact hr))
        · rcases Bool.eq_false_or_eq_true (s.isReachable (nextCell (s.boardCell m))) with hr | hr
          · have hbody := s.sowBody_zero_of_reachable (s.sowStart m) (by rw [hcur]; exact hr)
            have hoddI : (s.ruleC (s.sowStart m)).newCells.get
                (s.ruleC (s.sowStart m)).currentCell % 2 ≠ 0 := by
              rw [hCget]
              exact fun h => hodd ((wrapInt_emod_two _).2 h)
            have hn3I : (s.ruleC (s.sowStart m)).newCells.get
                (s.ruleC (s.sowStart m)).currentCell ≠ 3 := by
              rw [hCget]
              unfold FitsInt INT_MIN INT_MAX at hfc
              exact fun h => hn3 ((wrapInt_eq_three _ (by unfold INT_MIN; omega) (by omega)).2 h)
            rw [s.ruleB_of_odd _ hoddI, s.ruleD_of_ne_three _ hn3I] at hbody
            exact hkeep hbody
          · exact hkeep (s.sowBody_zero_of_not_reachable (s.sowStart m) (by rw [hcur]; exact hr))
      · intro hr he
        have heI : ((s.sowStart m).newCells.get (s.sowStart m).currentCell + 1) % 2 = 0 := by
          rw [hgetW]
          exact (wrapInt_emod_two _).1 he
        obtain ⟨c1, c2, c3⟩ := s.sowBody_zero_even (s.sowStart m) hspW
          (by rw [hcur]; exact hL.1) (by rw [hcur]; exact hL.2) (by rw [hcur]; exact hr) heI
        rw [hcur] at c1
        rw [hgetW, hs1, hs2] at c2 c3
        rw [t2, t3, t6, hend]
        refine ⟨by rw [c1]; exact wrapInt_zero, fun hp => ?_, fun hp => ?_⟩
        · rw [(c2 hp).1, (c2 hp).2, wrapInt_add_wrapInt]
          exact ⟨rfl, wrapInt_of_fits _ hi.2.1⟩
        · rw [(c3 hp).1, (c3 hp).2, wrapInt_add_wrapInt]
          exact ⟨rfl, wrapInt_of_fits _ hi.1⟩
  · intro h2 h18
    obtain ⟨a1, a2, v, hv, a3, a4, a5⟩ := hI.2 h2 h18
    rw [hu] at hv
    cases hv
    obtain ⟨x, hx, -, x2, x3, x4, x5, x6, -, -⟩ :=
      GameState.create_eq (opponent s.currentPlayer) (s.sowEnd32 m).newScoreOne
        (s.sowEnd32 m).newScoreTwo (s.sowEnd32 m).newSpecialOne (s.sowEnd32 m).newSpecialTwo
        (s.sowEnd32 m).newCells
    have hxt : x = t := by
      have : s.move32 m = some x := by
        unfold GameState.move32
        simp only [ha, Bool.not_true, Bool.false_eq_true, if_false]
        exact hx
      rw [ht] at this
      cases this
      rfl
    rw [hxt] at x2 x3 x4 x5 x6
    have hlast := s.sowEnd32_eq_last m (by omega)
    have hcur : (s.sowBeforeLast32 m).currentCell = s.lastCell m := by
      rw [s.sowBeforeLast32_eq m hi, GameState.Sow.wrap_currentCell]
      rfl
    have hcc := s.sowStart_currentCell_of_ne_one m (by omega)
    have hLe : s.lastCell m = nextCell^[(s.hand m).toNat - 1] (s.boardCell m) := a2
    have hget : (s.sowBeforeLast32 m).newCells.get (s.lastCell m) = s.cells.get (s.lastCell m) := by
      rw [s.sowBeforeLast32_eq m hi]
      refine (Cells.get_wrap (s.sowBeforeLast m).newCells (s.lastCell m)).trans ?_
      have h1 : (s.sowBeforeLast m).newCells.get (s.lastCell m) =
          (s.sowStart m).newCells.get (s.lastCell m) := by
        unfold GameState.sowBeforeLast GameState.sowPrefix
        apply s.sowPlain_iterate_get_ne
        intro i hi1
        rw [hcc, hLe]
        exact nextCell_iterate_ne_of_lt i _ _ hb.1 hb.2 hi1 (by omega)
      have h2 : (s.sowStart m).newCells.get (s.lastCell m) = s.cells.get (s.lastCell m) := by
        show (s.cells.set (s.boardCell m) 0).get (s.lastCell m) = _
        apply Cells.get_set_ne
        rw [hLe]
        exact nextCell_iterate_ne _ _ hb.1 hb.2 (by omega) (by omega)
      rw [h1, h2]
      exact hfit _
    refine ⟨a1, a2, t, ht, fun hsp => ?_, fun k hk0 hk hsp => ?_, fun c hc => ?_, hcur, hget,
      by rw [x2, hlast], by rw [x3, hlast], by rw [x4, hlast], by rw [x5, hlast],
      by rw [x6, hlast]⟩
    · rw [t6, ← u6, a3 hsp]
      decide
    · rw [t6, ← u6, a4 k hk0 hk hsp]
    · rw [t6, ← u6, a5 c hc]
      exact hfit c

theorem ruleA_sowing_witness :
    ((stateAfter [8, 1]).hand 8 = 1 ∧
      ∃ t, (stateAfter [8, 1]).move32 8 = some t ∧
        t.cells.get ((stateAfter [8, 1]).boardCell 8) = 0 ∧
        ∀ c : Int, c ≠ (stateAfter [8, 1]).boardCell 8 →
          c ≠ nextCell ((stateAfter [8, 1]).boardCell 8) →
          t.cells.get c = (stateAfter [8, 1]).cells.get c) ∧
    (GameState.init.hand 8 = 9 ∧
      ∃ t, GameState.init.move32 8 = some t ∧
        (GameState.init.isSpecial (GameState.init.boardCell 8) = Player.NONE →
          t.cells.get (GameState.init.boardCell 8) = 1) ∧
        ∀ c : Int, (∀ k : Nat, (k : Int) < GameState.init.hand 8 →
            c ≠ nextCell^[k] (GameState.init.boardCell 8)) →
          t.cells.get c = GameState.init.cells.get c) := by
  obtain ⟨-, -, t, ht, -, h3, h4, -⟩ :=
    (ruleA_sowing (stateAfter [8, 1]) 8 (by unfold GameState.IsInt FitsInt; decide) (by decide)
      (by decide) (by decide)).1 (by decide)
  obtain ⟨-, -, u, hu, g1, -, g3, -⟩ :=
    (ruleA_sowing GameState.init 8 (by unfold GameState.IsInt FitsInt; decide) (by decide)
      (by decide) (by decide)).2 (by decide) (by decide)
  exact ⟨⟨by decide, t, ht, h3, h4⟩, ⟨by decide, u, hu, g1, g3⟩⟩

/-! ## Claim C15: the range of the entries of `encode` -/

theorem filter_range_length_spaced (q : Nat → Bool)
    (hsep : ∀ k k1, k < k1 → q k = true → q k1 = true → k + 18 ≤ k1) (n : Nat) :
    ∀ b : Nat, (∀ k, k < n → q k = true → k + 18 ≤ b) →
      18 * ((List.range n).filter q).length ≤ b := by
  induction n with
  | zero => intro b _; simp
  | succ n ih =>
    intro b hb
    rw [filter_range_succ_length]
    by_cases hq : q n = true
    · rw [if_pos hq]
      have h1 := ih n (fun k hk hqk => hsep k n hk hqk hq)
      have h2 := hb n (Nat.lt_succ_self n) hq
      omega
    · rw [if_neg hq]
      have := ih b (fun k hk hqk => hb k (Nat.lt_succ_of_lt hk) hqk)
      omega

/-- A move sows on one cell at most one pebble in 18. -/
theorem GameState.pebblesSownOn_le (s : GameState) (m : Int) (p : Int → Bool) (x : Int)
    (ha : s.isMoveAllowed m = true) (hp : ∀ c : Int, p c = true → c = x) :
    18 * s.pebblesSownOn m p ≤ (s.hand m).toNat + 17 := by
  unfold GameState.pebblesSownOn
  apply filter_range_length_spaced (fun k => p (s.sowCell m k))
  · intro k k1 hk hqk hqk1
    by_contra hlt
    have e1 := hp _ hqk
    have e2 := hp _ hqk1
    have hr := s.sowCell_range m k ha
    have hd : k1 = (k1 - k) + k := by omega
    rw [s.sowCell_eq_iterate] at e1 e2 hr
    rw [hd, Function.iterate_add_apply, e1] at e2
    rw [e1] at hr
    exact nextCell_iterate_ne (k1 - k) x hr.1 hr.2 (by omega) (by omega) e2
  · intro k hk _
    omega

/-- The heuristic value of a move from a reachable state is at least -1: the
player who is not moving gains at most 9 points. -/
theorem Reachable.moveValue_lower {s t : GameState} (h : Reachable s) (m : Int)
    (ht : s.move m = some t) : (-1 : ℚ) ≤ (scoreDiff s t - scoreDiff s s) / 81 := by
  have ha := move_isMoveAllowed s t m ht
  obtain ⟨u, hu, g1, g2⟩ := s.move_score_of_not_mover m h.nonNeg ha
  rw [ht] at hu
  cases hu
  obtain ⟨m1, m2⟩ := GameState.move_scores_le s t m h.nonNeg ht
  have hh : s.hand m ≤ 162 := (h.bounds.1 (s.boardCell m)).2
  have hc1 := s.pebblesSownOn_le m (fun c => decide (c = s.specialOne)) s.specialOne ha
    (fun c hc => of_decide_eq_true hc)
  have hc2 := s.pebblesSownOn_le m (fun c => decide (c = s.specialTwo ∧ c ≠ s.specialOne))
    s.specialTwo ha (fun c hc => (of_decide_eq_true hc).1)
  have hn : ((s.hand m).toNat : Int) ≤ 162 := by omega
  unfold scoreDiff
  rw [le_div_iff₀ (by norm_num)]
  rcases h.currentPlayer with hp | hp
  · have e := g2 (by rw [hp]; decide)
    simp only [hp, if_true]
    have : (-81 : Int) ≤ t.scoreOne - t.scoreTwo - (s.scoreOne - s.scoreTwo) := by omega
    have := (Int.cast_le (R := ℚ)).2 this
    push_cast at this ⊢
    linarith
  · have e := g1 (by rw [hp]; decide)
    simp only [hp, reduceCtorEq, if_false]
    have : (-81 : Int) ≤ t.scoreTwo - t.scoreOne - (s.scoreTwo - s.scoreOne) := by omega
    have := (Int.cast_le (R := ℚ)).2 this
    push_cast at this ⊢
    linarith

/-- C15, refuted as stated: the final state of the shortest game is reachable
and terminal, ONE has 84 points there and TWO is to move, so entry 37 of
`encode()` (the opponent's score over 81) is 84/81, above 1; after the 18
allowed moves of `moverAheadPlay` the game is over, ONE is to move and has 82
points, so entry 36 of `encode()` (the mover's score over 81) is 82/81; after the 81
allowed moves of `crowdedCellPlay` the game is not over and cell 4 holds 82
pebbles, so entry 31 of `encode()` is 82/81, above 1 as well; and after the 87
allowed moves of `crowdedCapturePlay` the game is not over and move 7 of TWO
captures 84 pebbles and sows one on the special cell of TWO, so entry 45 of
`encode()`, the heuristic value of move 7, is 85/81, above 1 too. -/
theorem encode_range_counterexample :
    (movesAllowed GameState.init shortestGame = true ∧
      Reachable (stateAfter shortestGame) ∧
      (stateAfter shortestGame).isGameOver = true ∧
      (stateAfter shortestGame).encode.map (fun out => out[37]?) = some (some (84 / 81)) ∧
      (1 : ℚ) < 84 / 81) ∧
    (movesAllowed GameState.init moverAheadPlay = true ∧
      Reachable (stateAfter moverAheadPlay) ∧
      (stateAfter moverAheadPlay).isGameOver = true ∧
      (stateAfter moverAheadPlay).currentPlayer = Player.ONE ∧
      (stateAfter moverAheadPlay).scoreOne = 82 ∧
      (stateAfter moverAheadPlay).encode.map (fun out => out[36]?) = some (some (82 / 81)) ∧
      (1 : ℚ) < 82 / 81) ∧
    (movesAllowed GameState.init crowdedCellPlay = true ∧
      Reachable (stateAfter crowdedCellPlay) ∧
      (stateAfter crowdedCellPlay).isGameOver = false ∧
      (stateAfter crowdedCellPlay).encode.map (fun out => out[31]?) = some (some (82 / 81)) ∧
      (1 : ℚ) < 82 / 81) ∧
    (movesAllowed GameState.init crowdedCapturePlay = true ∧
      Reachable (stateAfter crowdedCapturePlay) ∧
      (stateAfter crowdedCapturePlay).isGameOver = false ∧
      (stateAfter crowdedCapturePlay).encode.map (fun out => out[45]?) = some (some (85 / 81)) ∧
      (1 : ℚ) < 85 / 81) :=
  ⟨⟨by decide!, Reachable.stateAfter _ (by decide), by decide!, by decide!, by norm_num⟩,
    ⟨by decide!, Reachable.stateAfter _ (by decide!), by decide!, by decide!, by decide!,
      by decide!, by norm_num⟩,
    ⟨by decide!, Reachable.stateAfter _ (by decide), by decide!, by decide!, by norm_num⟩,
    ⟨by decide!, Reachable.stateAfter _ (by decide!), by decide!, by decide!, by norm_num⟩⟩

/-- C15, amended: for every state reachable from the default start by allowed
moves, terminal states included, `encode()` returns exactly 47 values; entries
0..17 are 0 or 1, entries 18..37 lie in [0, 2], entries 36 and 37 lie in [0, 1]
when the game is not over, and entries 38..46 lie in [-1, 2] (values taken as
exact rationals). -/
theorem encode_range (s : GameState) (h : Reachable s) :
    ∃ out : List ℚ, s.encode = some out ∧ out.length = 47 ∧
      (∀ j : Nat, j < 18 → out[j]? = some 0 ∨ out[j]? = some 1) ∧
      (∀ j : Nat, 18 ≤ j → j < 38 → ∃ x : ℚ, out[j]? = some x ∧ 0 ≤ x ∧ x ≤ 2) ∧
      (s.isGameOver = false →
        ∀ j : Nat, 36 ≤ j → j < 38 → ∃ x : ℚ, out[j]? = some x ∧ 0 ≤ x ∧ x ≤ 1) ∧
      (∀ j : Nat, 38 ≤ j → j < 47 → ∃ x : ℚ, out[j]? = some x ∧ -1 ≤ x ∧ x ≤ 2) := by
  obtain ⟨out, ev, ho, hev, hlen, -, hfeat, hvals⟩ := s.encode_spec
  obtain ⟨ev1, hev1, -, hn, hy⟩ := estimateMoveValues_spec s
  rw [hev] at hev1
  cases hev1
  refine ⟨out, ho, hlen, ?_, ?_, ?_, ?_⟩
  · intro j hj
    obtain ⟨x, hx, -, -, h01, -⟩ := h.encodeFeatures_bounds j (by omega)
    rw [hfeat j (by omega), hx]
    rcases h01 hj with e | e
    · left; rw [e]
    · right; rw [e]
  · intro j h18 h38
    obtain ⟨x, hx, x0, x2, -, -⟩ := h.encodeFeatures_bounds j h38
    exact ⟨x, by rw [hfeat j h38, hx], x0, x2⟩
  · intro hg j h36 h38
    obtain ⟨x, hx, x0, -, -, x1⟩ := h.encodeFeatures_bounds j h38
    exact ⟨x, by rw [hfeat j h38, hx], x0, x1 hg h36⟩
  · intro j h38 h47
    have hj : j = 38 + (j - 38) := by omega
    rw [hj, hvals (j - 38) (by omega)]
    rcases Bool.eq_false_or_eq_true (s.isMoveAllowed ((j - 38 : Nat) : Int)) with ha | ha
    · obtain ⟨t, ht, hv⟩ := hy (j - 38) (by omega) ha
      have hb := h.moveValue_bounds ((j - 38 : Nat) : Int) (by omega) (by omega) ht
      exact ⟨_, hv, h.moveValue_lower _ ht, hb.2⟩
    · exact ⟨0, hn (j - 38) (by omega) ha, by norm_num, by norm_num⟩

theorem encode_range_witness :
    ∃ out : List ℚ, (stateAfter shortestGame).encode = some out ∧ out.length = 47 ∧
      (∀ j : Nat, j < 18 → out[j]? = some 0 ∨ out[j]? = some 1) ∧
      (∀ j : Nat, 18 ≤ j → j < 38 → ∃ x : ℚ, out[j]? = some x ∧ 0 ≤ x ∧ x ≤ 2) ∧
      ((stateAfter shortestGame).isGameOver = false →
        ∀ j : Nat, 36 ≤ j → j < 38 → ∃ x : ℚ, out[j]? = some x ∧ 0 ≤ x ∧ x ≤ 1) ∧
      (∀ j : Nat, 38 ≤ j → j < 47 → ∃ x : ℚ, out[j]? = some x ∧ -1 ≤ x ∧ x ≤ 2) :=
  encode_range (stateAfter shortestGame) (Reachable.stateAfter shortestGame (by decide))

/-! ## Claim C22: `initChildren` initialises a node at most once -/

/-- C22, refuted as stated: the fresh node of `noneToMoveState` is not
initialized, has 9 empty child slots and a state that is not terminal, and
`ZeroValueUniformEvaluator(9)` keeps to the interface of an evaluator and
returns on its batch; yet `initChildren` does not return a value on it: it
throws (in `fromEvaluation`, the player to move in the children being NONE, the
opponent of NONE), and leaves the node initialized.  On the
fresh node of the default start it throws as well when the evaluator throws. -/
theorem initChildren_once_counterexample :
    ((TreeNode.create noneToMoveState NUM_MOVES).isInitialized = false ∧
      (TreeNode.create noneToMoveState NUM_MOVES).Unexpanded ∧
      noneToMoveState.isGameOver = false ∧
      noneToMoveState.currentPlayer = Player.NONE ∧
      (ZeroValueUniformEvaluator.call (ZeroValueUniformEvaluator.create 9)).WritesEvaluations ∧
      (∃ out, ZeroValueUniformEvaluator.call (ZeroValueUniformEvaluator.create 9)
        (TreeNode.create noneToMoveState NUM_MOVES).batch = Except.ok out) ∧
      ((TreeNode.create noneToMoveState NUM_MOVES).initChildren
        (ZeroValueUniformEvaluator.call (ZeroValueUniformEvaluator.create 9))).isThrown = true ∧
      ((TreeNode.create noneToMoveState NUM_MOVES).initChildren
        (ZeroValueUniformEvaluator.call (ZeroValueUniformEvaluator.create 9))).state?.map
          TreeNode.isInitialized = some true) ∧
    ((TreeNode.create GameState.init NUM_MOVES).isInitialized = false ∧
      GameState.init.currentPlayer = Player.ONE ∧
      ((TreeNode.create GameState.init NUM_MOVES).initChildren failingEvaluator).isThrown = true ∧
      ((TreeNode.create GameState.init NUM_MOVES).initChildren failingEvaluator).state?.map
        TreeNode.isInitialized = some true) := by
  refine ⟨⟨rfl, TreeNode.unexpanded_create _, by decide, by decide,
    ZeroValueUniformEvaluator.writesEvaluations _, ⟨_, rfl⟩, by decide!, by decide!⟩,
    rfl, rfl, ?_, ?_⟩
  · rw [TreeNode.initChildren_evaluator_error _ failingEvaluator _
      (TreeNode.unexpanded_create _) rfl]
    rfl
  · rw [TreeNode.initChildren_evaluator_error _ failingEvaluator _
      (TreeNode.unexpanded_create _) rfl]
    rfl

/-- C22, amended: `initChildren` initialises a node at most once.  On a node
that is already initialized it returns empty and leaves the node as it is,
whatever the evaluator (so it does not call it).  On a node that it has not been
called on (not initialized, 9 empty child slots), when ONE or TWO is to move and
the evaluator keeps to its interface and returns on the batch, it returns a
value and leaves the node initialized, with the same state, so that the node is
no longer a leaf when its state is not terminal, and a further call returns
empty.  On every node that is not initialized, whenever the call returns it
returns a value and leaves the node so. -/
theorem initChildren_once (n : TreeNode) (evaluator : Evaluator) :
    (n.isInitialized = true →
      ∀ ev : Evaluator, n.initChildren ev = Call.returned n none) ∧
    (n.Unexpanded → evaluator.WritesEvaluations →
      (∃ out, evaluator n.batch = Except.ok out) →
      n.state.currentPlayer ≠ Player.NONE →
      ∃ n1 v, n.initChildren evaluator = Call.returned n1 (some v) ∧
        n1.isInitialized = true ∧ n1.state = n.state ∧
        (n.state.isGameOver = false → n1.isLeaf = false) ∧
        ∀ ev : Evaluator, n1.initChildren ev = Call.returned n1 none) ∧
    (n.isInitialized = false →
      ∀ n1 r, n.initChildren evaluator = Call.returned n1 r →
        r.isSome = true ∧ n1.isInitialized = true ∧ n1.state = n.state ∧
        (n.state.isGameOver = false → n1.isLeaf = false) ∧
        ∀ ev : Evaluator, n1.initChildren ev = Call.returned n1 none) := by
  have key : n.isInitialized = false →
      ∀ n1 r, n.initChildren evaluator = Call.returned n1 r →
        r.isSome = true ∧ n1.isInitialized = true ∧ n1.state = n.state ∧
        (n.state.isGameOver = false → n1.isLeaf = false) ∧
        ∀ ev : Evaluator, n1.initChildren ev = Call.returned n1 none := by
    intro hi n1 r h
    obtain ⟨h1, h2, h3, -⟩ := (n.initChildren_uninitialized evaluator hi).1 n1 r h
    refine ⟨h1, h2, h3, fun hover => ?_, fun ev => n1.initChildren_initialized ev h2⟩
    simp [TreeNode.isLeaf, h2, h3, hover]
  refine ⟨fun hi ev => n.initChildren_initialized ev hi, fun hn hev hret hp => ?_, key⟩
  obtain ⟨n1, v, h⟩ := n.initChildren_total evaluator hn hev hret hp
  obtain ⟨-, h2, h3, h4, h5⟩ := key hn.1 n1 (some v) h
  exact ⟨n1, v, h, h2, h3, h4, h5⟩

theorem initChildren_once_witness :
    (TreeNode.create GameState.init NUM_MOVES).Unexpanded ∧
    (ZeroValueUniformEvaluator.call (ZeroValueUniformEvaluator.create 9)).WritesEvaluations ∧
    GameState.init.currentPlayer ≠ Player.NONE ∧
    GameState.init.isGameOver = false ∧
    ∃ n1 v, (TreeNode.create GameState.init NUM_MOVES).initChildren
        (ZeroValueUniformEvaluator.call (ZeroValueUniformEvaluator.create 9)) =
          Call.returned n1 (some v) ∧
        n1.isInitialized = true ∧ n1.state = GameState.init ∧ n1.isLeaf = false ∧
        ∀ ev : Evaluator, n1.initChildren ev = Call.returned n1 none := by
  obtain ⟨n1, v, h, h2, h3, h4, h5⟩ :=
    (initChildren_once (TreeNode.create GameState.init NUM_MOVES)
      (ZeroValueUniformEvaluator.call (ZeroValueUniformEvaluator.create 9))).2.1
      (TreeNode.unexpanded_create _) (ZeroValueUniformEvaluator.writesEvaluations _)
      ⟨_, rfl⟩ (by decide)
  exact ⟨TreeNode.unexpanded_create _, ZeroValueUniformEvaluator.writesEvaluations _,
    by decide, by decide, n1, v, h, h2, h3, h4 (by decide), h5⟩

/-! ## Claim C19: `AverageValue::addWinner` and `AverageValue::add` -/

theorem IsFloat.roundFloat_eq {x : ℚ} (h : IsFloat x) : roundFloat x = x := h.1

theorem IsDouble.roundDouble_eq {x : ℚ} (h : IsDouble x) : roundDouble x = x := h.1

theorem toFloat?_of_isFloat {x : ℚ} (h : IsFloat x) : toFloat? x = some x := by
  unfold toFloat?
  rw [h.1, if_pos h.2]

theorem toDouble?_of_isDouble {x : ℚ} (h : IsDouble x) : toDouble? x = some x := by
  unfold toDouble?
  rw [h.1, if_pos h.2]

theorem toFloat?_eq_some {x y : ℚ} (h : toFloat? x = some y) :
    y = roundFloat x ∧ -FLT_MAX ≤ y ∧ y ≤ FLT_MAX := by
  unfold toFloat? at h
  by_cases hc : -FLT_MAX ≤ roundFloat x ∧ roundFloat x ≤ FLT_MAX
  · rw [if_pos hc] at h
    cases h
    exact ⟨rfl, hc⟩
  · rw [if_neg hc] at h
    cases h

theorem toDouble?_eq_some {x y : ℚ} (h : toDouble? x = some y) :
    y = roundDouble x ∧ -DBL_MAX ≤ y ∧ y ≤ DBL_MAX := by
  unfold toDouble? at h
  by_cases hc : -DBL_MAX ≤ roundDouble x ∧ roundDouble x ≤ DBL_MAX
  · rw [if_pos hc] at h
    cases h
    exact ⟨rfl, hc⟩
  · rw [if_neg hc] at h
    cases h

theorem asFloat?_eq_some {x y : ℚ} (h : asFloat? x = some y) : y = x ∧ IsFloat x := by
  unfold asFloat? at h
  by_cases hc : IsFloat x
  · rw [if_pos hc] at h
    cases h
    exact ⟨rfl, hc⟩
  · rw [if_neg hc] at h
    cases h

theorem asDouble?_eq_some {x y : ℚ} (h : asDouble? x = some y) : y = x ∧ IsDouble x := by
  unfold asDouble? at h
  by_cases hc : IsDouble x
  · rw [if_pos hc] at h
    cases h
    exact ⟨rfl, hc⟩
  · rw [if_neg hc] at h
    cases h

theorem asInt?_eq_some {x : Int} {y : ℚ} (h : asInt? x = some y) : y = (x : ℚ) ∧ FitsInt x := by
  unfold asInt? at h
  by_cases hc : FitsInt x
  · rw [if_pos hc] at h
    cases h
    exact ⟨rfl, hc⟩
  · rw [if_neg hc] at h
    cases h

/-- C19, refuted as stated: `2^24` is a `float` and `2^24 + 1` is none, so
`addWinner(ONE)` on `AverageValue(16777216.0f, 0)` leaves `playerOneValue` at
`2^24`, and one ONE win, one TWO win and one tie then leave it at `2^24 - 1`;
`+= AverageValue(1.0f, 0)` leaves it at `2^24` as well.  On
`AverageValue(0.1f, 0)` one ONE win and one TWO win do not give `0.1f` back. -/
theorem addWinner_add_counterexample :
    (IsFloat 16777216 ∧ IsFloat 1 ∧ ¬ IsFloat (16777216 + 1) ∧
      (({ playerOneValue := 16777216, support := 0 } : AverageValue).addWinner32
        Player.ONE).playerOneValue = 16777216 ∧
      (((({ playerOneValue := 16777216, support := 0 } : AverageValue).addWinner32
        Player.ONE).addWinner32 Player.TWO).addWinner32 Player.NONE).playerOneValue =
          16777215 ∧
      (({ playerOneValue := 16777216, support := 0 } : AverageValue).addAssign32
        { playerOneValue := 1, support := 0 }).map AverageValue.playerOneValue =
          some 16777216 ∧
      (({ playerOneValue := 16777216, support := 0 } : AverageValue).add32
        { playerOneValue := 1, support := 0 }).map AverageValue.playerOneValue =
          some 16777216) ∧
    (roundFloat (1 / 10) = 13421773 / 134217728 ∧ IsFloat (13421773 / 134217728) ∧
      ((({ playerOneValue := 13421773 / 134217728, support := 0 } : AverageValue).addWinner32
        Player.ONE).addWinner32 Player.TWO).playerOneValue = 838861 / 8388608 ∧
      (838861 / 8388608 : ℚ) ≠ 13421773 / 134217728) :=
  ⟨⟨by decide!, by decide!, by decide!, by decide!, by decide!, by decide!, by decide!⟩,
    by decide!, by decide!, by decide!, by decide!⟩

/-- C19, amended: in the arithmetic of the members (`float` and `int`),
`addWinner` yields `(v + 1, s + 1)` for ONE when `v + 1` is a `float`,
`(v - 1, s + 1)` for TWO when `v - 1` is a `float`, and `(v, s + 1)` for NONE,
provided `s + 1` is an `int`; when `v`, `v + 1` and `v - 1` are `float`s and `s`
and `s + 3` are `int`s, adding one ONE win, one TWO win and one tie, in any
order, leaves `playerOneValue` unchanged and raises the support by 3; and `add`
and `+=` both yield the field-wise sum `(v + w, s + t)` when `v + w` is a
`float` and `s + t` an `int`.  In general the value that `addWinner` leaves is
`v + 1` or `v - 1` rounded to `float`. -/
theorem addWinner_add (a other : AverageValue) :
    (FitsInt (a.support + 1) →
      (IsFloat (a.playerOneValue + 1) → a.addWinner32 Player.ONE =
        { playerOneValue := a.playerOneValue + 1, support := a.support + 1 }) ∧
      (IsFloat (a.playerOneValue - 1) → a.addWinner32 Player.TWO =
        { playerOneValue := a.playerOneValue - 1, support := a.support + 1 }) ∧
      a.addWinner32 Player.NONE =
        { playerOneValue := a.playerOneValue, support := a.support + 1 }) ∧
    (IsFloat a.playerOneValue → IsFloat (a.playerOneValue + 1) →
      IsFloat (a.playerOneValue - 1) → FitsInt a.support → FitsInt (a.support + 3) →
      ∀ p q r : Player, p ≠ q → p ≠ r → q ≠ r →
        ((a.addWinner32 p).addWinner32 q).addWinner32 r =
          { playerOneValue := a.playerOneValue, support := a.support + 3 }) ∧
    (IsFloat (a.playerOneValue + other.playerOneValue) → FitsInt (a.support + other.support) →
      a.add32 other =
        some { playerOneValue := a.playerOneValue + other.playerOneValue,
               support := a.support + other.support } ∧
      a.addAssign32 other =
        some { playerOneValue := a.playerOneValue + other.playerOneValue,
               support := a.support + other.support }) ∧
    ((a.addWinner32 Player.ONE).playerOneValue = roundFloat (a.playerOneValue + 1) ∧
      (a.addWinner32 Player.TWO).playerOneValue = roundFloat (a.playerOneValue - 1) ∧
      (a.addWinner32 Player.NONE).playerOneValue = a.playerOneValue ∧
      ∀ p : Player, (a.addWinner32 p).support = wrapInt (a.support + 1)) := by
  refine ⟨fun hs => ⟨fun h1 => ?_, fun h1 => ?_, ?_⟩, ?_, fun hv hs => ?_,
    rfl, rfl, rfl, fun p => by cases p <;> rfl⟩
  · simp only [AverageValue.addWinner32, h1.1, wrapInt_of_fits _ hs]
  · simp only [AverageValue.addWinner32, h1.1, wrapInt_of_fits _ hs]
  · simp only [AverageValue.addWinner32, wrapInt_of_fits _ hs]
  · intro h0 hp hm hs0 hs3 p q r hpq hpr hqr
    have e1 : wrapInt (a.support + 1) = a.support + 1 :=
      wrapInt_of_fits _ ⟨by have := hs0.1; omega, by have := hs3.2; omega⟩
    have e2 : wrapInt (a.support + 1 + 1) = a.support + 2 := by
      rw [wrapInt_of_fits _ ⟨by have := hs0.1; omega, by have := hs3.2; omega⟩]; ring
    have e3 : wrapInt (a.support + 2 + 1) = a.support + 3 := by
      rw [wrapInt_of_fits _ ⟨by have := hs0.1; omega, by have := hs3.2; omega⟩]; ring
    have f1 : a.playerOneValue + 1 - 1 = a.playerOneValue := by ring
    have f2 : a.playerOneValue - 1 + 1 = a.playerOneValue := by ring
    cases p <;> cases q <;> cases r <;>
      first
      | exact absurd rfl hpq
      | exact absurd rfl hpr
      | exact absurd rfl hqr
      | simp only [AverageValue.addWinner32, e1, e2, e3, hp.1, hm.1, f1, f2, h0.1]
  · have e : a.addAssign32 other =
        some { playerOneValue := a.playerOneValue + other.playerOneValue,
               support := a.support + other.support } := by
      simp only [AverageValue.addAssign32, toFloat?_of_isFloat hv, wrapInt_of_fits _ hs]
    exact ⟨e, e⟩

theorem addWinner_add_witness :
    (IsFloat 2 ∧ IsFloat (2 + 1) ∧ IsFloat (2 - 1) ∧ FitsInt 2 ∧ FitsInt (2 + 3)) ∧
    ((({ playerOneValue := 2, support := 2 } : AverageValue).addWinner32 Player.ONE).addWinner32
        Player.TWO).addWinner32 Player.NONE =
      { playerOneValue := 2, support := 2 + 3 } :=
  ⟨⟨by decide!, by decide!, by decide!, by decide, by decide⟩,
    (addWinner_add { playerOneValue := 2, support := 2 } {}).2.1 (by decide!) (by decide!)
      (by decide!) (by decide) (by decide) Player.ONE Player.TWO Player.NONE
      (by decide) (by decide) (by decide)⟩

/-! ## Rounding: the integers of few bits are values of the type -/

theorem leadingBitWithin_le (fuel : Nat) : ∀ n : Nat, 1 ≤ n → 2 ^ leadingBitWithin fuel n ≤ n := by
  induction fuel with
  | zero => intro n hn; simpa [leadingBitWithin] using hn
  | succ fuel ih =>
    intro n hn
    unfold leadingBitWithin
    by_cases h2 : n < 2
    · rw [if_pos h2]; simpa using hn
    · rw [if_neg h2, pow_succ]
      have := ih (n / 2) (by omega)
      omega

theorem leadingBit_one : leadingBit 1 = 0 := rfl

theorem pow2_neg_natCast (m : Nat) : pow2 (-(m : Int)) = 1 / ((2 ^ m : Nat) : ℚ) := by
  unfold pow2
  by_cases h : 0 ≤ -(m : Int)
  · have hm : m = 0 := by omega
    subst hm
    simp
  · rw [if_neg h]
    simp

theorem roundHalfEven_intCast (k : Int) : roundHalfEven (k : ℚ) = k := by
  unfold roundHalfEven
  have hf : Rat.floor (k : ℚ) = k := by
    rw [Rat.floor_def']
    simp
  simp only [hf, sub_self]
  rw [if_pos (by norm_num)]

/-- The exponent of a positive integer below `2 ^ p` is below `p`. -/
theorem floorLog2_natCast_lt (n p : Nat) (h1 : 1 ≤ n) (hp : n < 2 ^ p) :
    floorLog2 ((n : Int) : ℚ) < p := by
  unfold floorLog2
  have hnum : ((n : Int) : ℚ).num.natAbs = n := by simp
  have hden : ((n : Int) : ℚ).den = 1 := by simp
  have hl := leadingBitWithin_le n n h1
  have hlt : leadingBit n < p := by
    unfold leadingBit
    by_contra hge
    have : 2 ^ p ≤ 2 ^ leadingBitWithin n n := Nat.pow_le_pow_right (by norm_num) (by omega)
    omega
  simp only [hnum, hden, leadingBit_one]
  split_ifs <;> omega

/-- An integer of at most `precision` bits is a value of the type. -/
theorem roundBinary_intCast (precision : Nat) (emin : Int) (k : Int) (hp : 1 ≤ precision)
    (hemin : emin ≤ 0) (hk : k.natAbs < 2 ^ precision) :
    roundBinary precision emin (k : ℚ) = (k : ℚ) := by
  unfold roundBinary
  by_cases h0 : (k : ℚ) = 0
  · rw [if_pos h0, h0]
  · rw [if_neg h0]
    have hk0 : k ≠ 0 := fun h => h0 (by rw [h]; simp)
    have habs : (if (k : ℚ) < 0 then -(k : ℚ) else (k : ℚ)) = ((k.natAbs : Int) : ℚ) := by
      by_cases hneg : (k : ℚ) < 0
      · rw [if_pos hneg]
        have : k < 0 := by exact_mod_cast hneg
        rw [← Int.cast_neg]
        congr 1
        omega
      · rw [if_neg hneg]
        have : 0 ≤ k := by
          have := not_lt.1 hneg
          exact_mod_cast this
        congr 1
        omega
    have hlog := floorLog2_natCast_lt k.natAbs precision (by omega) hk
    unfold binaryExponent
    simp only [habs]
    obtain ⟨m, hm⟩ : ∃ m : Nat,
        max (floorLog2 ((k.natAbs : Int) : ℚ)) emin - (precision : Int) + 1 = -(m : Int) := by
      refine ⟨((precision : Int) - 1 - max (floorLog2 ((k.natAbs : Int) : ℚ)) emin).toNat, ?_⟩
      have : max (floorLog2 ((k.natAbs : Int) : ℚ)) emin ≤ (precision : Int) - 1 := by
        apply max_le <;> omega
      omega
    rw [hm, pow2_neg_natCast]
    have hpos : ((2 ^ m : Nat) : ℚ) ≠ 0 := by positivity
    have e1 : (k : ℚ) / (1 / ((2 ^ m : Nat) : ℚ)) = ((k * (2 ^ m : Nat) : Int) : ℚ) := by
      push_cast
      field_simp
    rw [e1, roundHalfEven_intCast]
    push_cast
    field_simp

theorem roundDouble_intCast (k : Int) (hk : FitsInt k) : roundDouble (k : ℚ) = (k : ℚ) := by
  unfold roundDouble
  apply roundBinary_intCast 53 (-1022) k (by norm_num) (by norm_num)
  unfold FitsInt INT_MIN INT_MAX at hk
  have : (2 : Nat) ^ 53 = 9007199254740992 := by norm_num
  omega

theorem roundDouble_one_add_intCast (k : Int) (hk : FitsInt k) :
    roundDouble (1 + (k : ℚ)) = 1 + (k : ℚ) := by
  have h : (1 + (k : ℚ)) = ((1 + k : Int) : ℚ) := by push_cast; ring
  rw [h]
  unfold roundDouble
  apply roundBinary_intCast 53 (-1022) (1 + k) (by norm_num) (by norm_num)
  unfold FitsInt INT_MIN INT_MAX at hk
  have : (2 : Nat) ^ 53 = 9007199254740992 := by norm_num
  omega

theorem roundFloat_three_quarters : roundFloat (1 - NOISE_WEIGHT) = 3 / 4 := by decide!

/-! ## `PredictiveUpperConfidenceBound` -/

theorem Run.ofOption_ne_throws {α : Type} (o : Option α) : Run.ofOption o ≠ Run.throws := by
  cases o <;> intro h <;> cases h

theorem Run.ofOption_eq_value {α : Type} {o : Option α} {a : α}
    (h : Run.ofOption o = Run.value a) : o = some a := by
  cases o with
  | none => cases h
  | some b => cases h; rfl

theorem AverageValue.getValue32_ne_throws (a : AverageValue) (p : Player)
    (hp : p ≠ Player.NONE) : a.getValue32 p ≠ Run.throws := by
  unfold AverageValue.getValue32
  by_cases h0 : a.support = 0
  · rw [if_pos h0]; intro h; cases h
  · rw [if_neg h0]
    cases p with
    | NONE => exact absurd rfl hp
    | ONE => exact Run.ofOption_ne_throws _
    | TWO => exact Run.ofOption_ne_throws _

theorem estimatedValue_ne_throws (r : ℚ) (noises : List ℚ) (n d : TreeNode) (j : Nat)
    (hp : n.state.currentPlayer ≠ Player.NONE) :
    estimatedValue r noises n d j ≠ Run.throws := by
  unfold estimatedValue
  cases exploration? r noises n d j with
  | none => intro h; cases h
  | some x =>
    dsimp only
    cases hg : d.getAverageValue.getValue32 n.state.currentPlayer with
    | value e => exact Run.ofOption_ne_throws _
    | throws => exact absurd hg (AverageValue.getValue32_ne_throws _ _ hp)
    | unmodelled => intro h; cases h

theorem parentVisitsSqrt?_eq_some {sqrt : ℚ → ℚ} {n : TreeNode} {r : ℚ}
    (h : parentVisitsSqrt? sqrt n = some r) :
    FitsInt n.getVisits ∧ 0 ≤ 1 + (n.getVisits : ℚ) ∧ r = sqrt (1 + (n.getVisits : ℚ)) ∧
      IsDouble r := by
  unfold parentVisitsSqrt? at h
  simp only [Option.bind_eq_bind, Option.bind_eq_some] at h
  obtain ⟨v, hv, x, hx, h⟩ := h
  obtain ⟨rfl, hfit⟩ := asInt?_eq_some hv
  obtain ⟨rfl, -, -⟩ := toDouble?_eq_some hx
  rw [roundDouble_one_add_intCast _ hfit] at h
  by_cases hneg : 1 + (n.getVisits : ℚ) < 0
  · rw [if_pos hneg] at h; cases h
  · rw [if_neg hneg] at h
    obtain ⟨rfl, hd⟩ := asDouble?_eq_some h
    exact ⟨hfit, not_lt.1 hneg, rfl, hd⟩

/-- What the code computes for the `exploration` of a child, operation by
operation. -/
theorem exploration?_eq_some {r : ℚ} {noises : List ℚ} {n d : TreeNode} {j : Nat} {x : ℚ}
    (h : exploration? r noises n d j = some x) :
    ∃ p z : ℚ, n.evaluation.policy.get? j = some p ∧ IsFloat p ∧
      noises.get? j = some z ∧ IsDouble z ∧ FitsInt d.getVisits ∧
      1 + (d.getVisits : ℚ) ≠ 0 ∧
      x = roundFloat (roundDouble (roundDouble
        (roundFloat (roundDouble (roundFloat (p * (3 / 4)) + roundDouble (1 / 4 * z))) * r) /
          (1 + (d.getVisits : ℚ)))) := by
  unfold exploration? at h
  simp only [Option.bind_eq_bind, Option.bind_eq_some] at h
  obtain ⟨p, ⟨p0, hp0, hp⟩, z, ⟨z0, hzg, hz⟩, w, hw, wp, hwp, wn, hwn, adj, ⟨s, hs, hadj⟩,
    prod, hprod, cv, hcv, dv, hdv, h⟩ := h
  obtain ⟨rfl, hpf⟩ := asFloat?_eq_some hp
  obtain ⟨rfl, hzd⟩ := asDouble?_eq_some hz
  obtain ⟨rfl, -, -⟩ := toFloat?_eq_some hw
  obtain ⟨rfl, -, -⟩ := toFloat?_eq_some hwp
  obtain ⟨rfl, -, -⟩ := toDouble?_eq_some hwn
  obtain ⟨rfl, -, -⟩ := toDouble?_eq_some hs
  obtain ⟨rfl, -, -⟩ := toFloat?_eq_some hadj
  obtain ⟨rfl, -, -⟩ := toDouble?_eq_some hprod
  obtain ⟨rfl, hfit⟩ := asInt?_eq_some hcv
  obtain ⟨rfl, -, -⟩ := toDouble?_eq_some hdv
  rw [roundDouble_one_add_intCast _ hfit] at h
  by_cases hnz : 1 + (d.getVisits : ℚ) = 0
  · rw [if_pos hnz] at h; cases h
  · rw [if_neg hnz] at h
    simp only [Option.bind_eq_some] at h
    obtain ⟨q, hq, hx⟩ := h
    obtain ⟨rfl, -, -⟩ := toDouble?_eq_some hq
    obtain ⟨rfl, -, -⟩ := toFloat?_eq_some hx
    refine ⟨_, _, hp0, hpf, hzg, hzd, hfit, hnz, ?_⟩
    rw [roundFloat_three_quarters]
    simp only [NOISE_WEIGHT]

theorem estimatedValue_eq_value {r : ℚ} {noises : List ℚ} {n d : TreeNode} {j : Nat} {y : ℚ}
    (h : estimatedValue r noises n d j = Run.value y) :
    ∃ p z exploitation : ℚ, n.evaluation.policy.get? j = some p ∧ noises.get? j = some z ∧
      d.getAverageValue.getValue32 n.state.currentPlayer = Run.value exploitation ∧
      y = roundFloat (exploitation + roundFloat (4 * roundFloat (roundDouble (roundDouble
        (roundFloat (roundDouble (roundFloat (p * (3 / 4)) + roundDouble (1 / 4 * z))) * r) /
          (1 + (d.getVisits : ℚ)))))) := by
  unfold estimatedValue at h
  cases hx : exploration? r noises n d j with
  | none => rw [hx] at h; cases h
  | some x =>
    rw [hx] at h
    dsimp only at h
    cases hg : d.getAverageValue.getValue32 n.state.currentPlayer with
    | throws => rw [hg] at h; cases h
    | unmodelled => rw [hg] at h; cases h
    | value e =>
      rw [hg] at h
      dsimp only at h
      have h1 := Run.ofOption_eq_value h
      simp only [Option.bind_eq_some] at h1
      obtain ⟨w, hw, hy⟩ := h1
      obtain ⟨rfl, -, -⟩ := toFloat?_eq_some hw
      obtain ⟨rfl, -, -⟩ := toFloat?_eq_some hy
      obtain ⟨p, z, hp, -, hz, -, -, -, rfl⟩ := exploration?_eq_some hx
      exact ⟨p, z, e, hp, hz, rfl, by simp only [EXPLORATION_WEIGHT]⟩

/-- The loop of the call operator keeps the first maximum of the scores that
exceed the running maximum. -/
theorem puctLoop_spec (r : ℚ) (noises : List ℚ) (n : TreeNode) (l : List Nat)
    (hs : l.Pairwise (fun a b => a < b))
    (hfin : ∀ i ∈ l, ∀ c, n.child i = some c →
      ∃ x, estimatedValue r noises n c i = Run.value x) (b : Best) :
    ∃ b1 : Best, puctLoop r noises n l b = Run.value b1 ∧
      ((b1 = b ∧ ∀ i ∈ l, ∀ c x, n.child i = some c →
          estimatedValue r noises n c i = Run.value x → x ≤ b.max_value) ∨
       (∃ i ∈ l, ∃ c x, n.child i = some c ∧ estimatedValue r noises n c i = Run.value x ∧
          b1.index_of_max = (i : Int) ∧ b1.max_value = x ∧ b.max_value < x ∧
          (∀ j ∈ l, ∀ d y, n.child j = some d →
            estimatedValue r noises n d j = Run.value y → y ≤ x) ∧
          (∀ j ∈ l, ∀ d y, j < i → n.child j = some d →
            estimatedValue r noises n d j = Run.value y → y < x))) := by
  induction l generalizing b with
  | nil => exact ⟨b, rfl, Or.inl ⟨rfl, by simp⟩⟩
  | cons i l ih =>
    obtain ⟨hil, hs1⟩ := List.pairwise_cons.1 hs
    have hfin1 : ∀ k ∈ l, ∀ c, n.child k = some c →
        ∃ x, estimatedValue r noises n c k = Run.value x :=
      fun k hk c hc => hfin k (List.mem_cons_of_mem _ hk) c hc
    cases hc : n.child i with
    | none =>
      obtain ⟨b1, hb1, h⟩ := ih hs1 hfin1 b
      refine ⟨b1, by simp only [puctLoop, hc]; exact hb1, ?_⟩
      rcases h with ⟨h1, h2⟩ | ⟨k, hk, c, x, hkc, hkx, h3, h4, h5, h6, h7⟩
      · refine Or.inl ⟨h1, fun j hj d y hd hy => ?_⟩
        rcases List.mem_cons.1 hj with e | hj1
        · subst e; rw [hc] at hd; cases hd
        · exact h2 j hj1 d y hd hy
      · refine Or.inr ⟨k, List.mem_cons_of_mem _ hk, c, x, hkc, hkx, h3, h4, h5,
          fun j hj d y hd hy => ?_, fun j hj d y hjk hd hy => ?_⟩
        · rcases List.mem_cons.1 hj with e | hj1
          · subst e; rw [hc] at hd; cases hd
          · exact h6 j hj1 d y hd hy
        · rcases List.mem_cons.1 hj with e | hj1
          · subst e; rw [hc] at hd; cases hd
          · exact h7 j hj1 d y hjk hd hy
    | some c =>
      obtain ⟨e, he⟩ := hfin i (List.mem_cons_self _ _) c hc
      by_cases hgt : e > b.max_value
      · obtain ⟨b1, hb1, h⟩ := ih hs1 hfin1 { max_value := e, index_of_max := (i : Int) }
        refine ⟨b1, by simp only [puctLoop, hc, he, hgt, if_true]; exact hb1, Or.inr ?_⟩
        rcases h with ⟨h1, h2⟩ | ⟨k, hk, ck, x, hkc, hkx, h3, h4, h5, h6, h7⟩
        · refine ⟨i, List.mem_cons_self _ _, c, e, hc, he, by rw [h1], by rw [h1],
            hgt, fun j hj d y hd hy => ?_, fun j hj d y hji hd hy => ?_⟩
          · rcases List.mem_cons.1 hj with e1 | hj1
            · subst e1; rw [hc] at hd; cases hd; rw [he] at hy; cases hy; exact le_refl _
            · exact h2 j hj1 d y hd hy
          · rcases List.mem_cons.1 hj with e1 | hj1
            · subst e1; omega
            · have := hil j hj1; omega
        · refine ⟨k, List.mem_cons_of_mem _ hk, ck, x, hkc, hkx, h3, h4, lt_trans hgt h5,
            fun j hj d y hd hy => ?_, fun j hj d y hjk hd hy => ?_⟩
          · rcases List.mem_cons.1 hj with e1 | hj1
            · subst e1; rw [hc] at hd; cases hd; rw [he] at hy; cases hy; exact le_of_lt h5
            · exact h6 j hj1 d y hd hy
          · rcases List.mem_cons.1 hj with e1 | hj1
            · subst e1; rw [hc] at hd; cases hd; rw [he] at hy; cases hy; exact h5
            · exact h7 j hj1 d y hjk hd hy
      · obtain ⟨b1, hb1, h⟩ := ih hs1 hfin1 b
        have hle : e ≤ b.max_value := le_of_not_gt hgt
        refine ⟨b1, by simp only [puctLoop, hc, he, hgt, if_false]; exact hb1, ?_⟩
        rcases h with ⟨h1, h2⟩ | ⟨k, hk, ck, x, hkc, hkx, h3, h4, h5, h6, h7⟩
        · refine Or.inl ⟨h1, fun j hj d y hd hy => ?_⟩
          rcases List.mem_cons.1 hj with e1 | hj1
          · subst e1; rw [hc] at hd; cases hd; rw [he] at hy; cases hy; exact hle
          · exact h2 j hj1 d y hd hy
        · have hik : e < x := lt_of_le_of_lt hle h5
          refine Or.inr ⟨k, List.mem_cons_of_mem _ hk, ck, x, hkc, hkx, h3, h4, h5,
            fun j hj d y hd hy => ?_, fun j hj d y hjk hd hy => ?_⟩
          · rcases List.mem_cons.1 hj with e1 | hj1
            · subst e1; rw [hc] at hd; cases hd; rw [he] at hy; cases hy; exact le_of_lt hik
            · exact h6 j hj1 d y hd hy
          · rcases List.mem_cons.1 hj with e1 | hj1
            · subst e1; rw [hc] at hd; cases hd; rw [he] at hy; cases hy; exact hik
            · exact h7 j hj1 d y hjk hd hy

theorem PredictiveUpperConfidenceBound.call_leaf (sqrt : ℚ → ℚ) (noises : List ℚ) (n : TreeNode)
    (h : n.isInitialized = false ∨ n.isLeaf = true) :
    PredictiveUpperConfidenceBound.call sqrt noises n = Run.throws := by
  unfold PredictiveUpperConfidenceBound.call
  rcases h with h | h
  · simp [h]
  · by_cases hi : n.isInitialized = true
    · simp [hi, h]
    · simp [hi]

/-! ## Rounding is monotone -/

theorem pow2_eq_zpow (e : Int) : pow2 e = (2 : ℚ) ^ e := by
  unfold pow2
  by_cases h : 0 ≤ e
  · rw [if_pos h]
    obtain ⟨n, rfl⟩ := Int.eq_ofNat_of_zero_le h
    simp
  · rw [if_neg h]
    obtain ⟨n, hn⟩ : ∃ n : Nat, e = -(n : Int) := ⟨(-e).toNat, by omega⟩
    subst hn
    simp

theorem pow2_pos (e : Int) : 0 < pow2 e := by
  rw [pow2_eq_zpow]
  positivity

theorem pow2_le_pow2 {a b : Int} (h : a ≤ b) : pow2 a ≤ pow2 b := by
  rw [pow2_eq_zpow, pow2_eq_zpow]
  exact zpow_le_zpow_right₀ (by norm_num) h

theorem lt_of_pow2_lt_pow2 {a b : Int} (h : pow2 a < pow2 b) : a < b := by
  by_contra hn
  exact absurd (pow2_le_pow2 (not_lt.1 hn)) (not_le.2 h)

/-- A power of two is a multiple of every smaller one. -/
theorem pow2_eq_natCast_mul (a b : Int) (h : b ≤ a) :
    pow2 a = (((2 : Int) ^ (a - b).toNat : Int) : ℚ) * pow2 b := by
  rw [pow2_eq_zpow, pow2_eq_zpow]
  have e : a = ((a - b).toNat : Int) + b := by omega
  conv_lhs => rw [e]
  rw [zpow_add₀ (by norm_num), zpow_natCast]
  push_cast
  rfl

theorem lt_pow_leadingBitWithin (fuel : Nat) :
    ∀ n : Nat, n ≤ fuel → n < 2 ^ (leadingBitWithin fuel n + 1) := by
  induction fuel with
  | zero => intro n hn; simp [leadingBitWithin]; omega
  | succ fuel ih =>
    intro n hn
    unfold leadingBitWithin
    by_cases h2 : n < 2
    · rw [if_pos h2]; simpa using h2
    · rw [if_neg h2]
      have := ih (n / 2) (by omega)
      rw [pow_succ]
      omega

theorem leadingBit_spec (n : Nat) (hn : 1 ≤ n) :
    2 ^ leadingBit n ≤ n ∧ n < 2 ^ (leadingBit n + 1) :=
  ⟨leadingBitWithin_le n n hn, lt_pow_leadingBitWithin n n (le_refl n)⟩

theorem floorLog2_spec (x : ℚ) (hx : 0 < x) :
    pow2 (floorLog2 x) ≤ x ∧ x < pow2 (floorLog2 x + 1) := by
  have hnum : 0 < x.num := Rat.num_pos.2 hx
  have hden : 1 ≤ x.den := x.den_pos
  obtain ⟨a1, a2⟩ := leadingBit_spec x.num.natAbs (by omega)
  obtain ⟨b1, b2⟩ := leadingBit_spec x.den hden
  have hxe : x = (x.num.natAbs : ℚ) / (x.den : ℚ) := by
    have h1 : (x.num : ℚ) = (x.num.natAbs : ℚ) := by
      have : x.num = (x.num.natAbs : Int) := by omega
      conv_lhs => rw [this]
      exact Int.cast_natCast _
    rw [← h1]
    exact (Rat.num_div_den x).symm
  have hdpos : (0 : ℚ) < (x.den : ℚ) := by exact_mod_cast hden
  have A1 : ((2 : ℚ) ^ leadingBit x.num.natAbs) ≤ (x.num.natAbs : ℚ) := by exact_mod_cast a1
  have A2 : (x.num.natAbs : ℚ) < (2 : ℚ) ^ (leadingBit x.num.natAbs + 1) := by exact_mod_cast a2
  have B1 : ((2 : ℚ) ^ leadingBit x.den) ≤ (x.den : ℚ) := by exact_mod_cast b1
  have B2 : (x.den : ℚ) < (2 : ℚ) ^ (leadingBit x.den + 1) := by exact_mod_cast b2
  have hp1 : (0 : ℚ) < (2 : ℚ) ^ leadingBit x.den := by positivity
  have hp2 : (0 : ℚ) < (2 : ℚ) ^ (leadingBit x.den + 1) := by positivity
  have hp3 : (0 : ℚ) < (2 : ℚ) ^ leadingBit x.num.natAbs := by positivity
  -- the two bounds of the quotient
  have up : x < pow2 ((leadingBit x.num.natAbs : Int) - (leadingBit x.den : Int) + 1) := by
    rw [pow2_eq_zpow]
    have e : ((leadingBit x.num.natAbs : Int) - (leadingBit x.den : Int) + 1) =
        ((leadingBit x.num.natAbs + 1 : Nat) : Int) - ((leadingBit x.den : Nat) : Int) := by
      push_cast; ring
    rw [e, zpow_sub₀ (by norm_num), zpow_natCast, zpow_natCast]
    conv_lhs => rw [hxe]
    rw [div_lt_div_iff₀ hdpos hp1]
    calc (x.num.natAbs : ℚ) * 2 ^ leadingBit x.den
        ≤ (x.num.natAbs : ℚ) * (x.den : ℚ) := by
          apply mul_le_mul_of_nonneg_left B1
          positivity
      _ < 2 ^ (leadingBit x.num.natAbs + 1) * (x.den : ℚ) := by
          apply mul_lt_mul_of_pos_right A2 hdpos
  have low : pow2 ((leadingBit x.num.natAbs : Int) - (leadingBit x.den : Int) - 1) ≤ x := by
    rw [pow2_eq_zpow]
    have e : ((leadingBit x.num.natAbs : Int) - (leadingBit x.den : Int) - 1) =
        ((leadingBit x.num.natAbs : Nat) : Int) - ((leadingBit x.den + 1 : Nat) : Int) := by
      push_cast; ring
    rw [e, zpow_sub₀ (by norm_num), zpow_natCast, zpow_natCast]
    conv_rhs => rw [hxe]
    rw [div_le_div_iff₀ hp2 hdpos]
    calc (2 : ℚ) ^ leadingBit x.num.natAbs * (x.den : ℚ)
        ≤ (x.num.natAbs : ℚ) * (x.den : ℚ) := by
          apply mul_le_mul_of_nonneg_right A1 (le_of_lt hdpos)
      _ ≤ (x.num.natAbs : ℚ) * 2 ^ (leadingBit x.den + 1) := by
          apply mul_le_mul_of_nonneg_left (le_of_lt B2)
          positivity
  unfold floorLog2
  simp only
  by_cases h : pow2 ((leadingBit x.num.natAbs : Int) - (leadingBit x.den : Int)) ≤ x
  · rw [if_pos h]
    exact ⟨h, up⟩
  · rw [if_neg h]
    refine ⟨low, ?_⟩
    have e : (leadingBit x.num.natAbs : Int) - (leadingBit x.den : Int) - 1 + 1 =
        (leadingBit x.num.natAbs : Int) - (leadingBit x.den : Int) := by ring
    rw [e]
    exact not_le.1 h

theorem floorLog2_mono {x y : ℚ} (hx : 0 < x) (h : x ≤ y) : floorLog2 x ≤ floorLog2 y := by
  have h1 := (floorLog2_spec x hx).1
  have h2 := (floorLog2_spec y (lt_of_lt_of_le hx h)).2
  have := lt_of_pow2_lt_pow2 (lt_of_le_of_lt (le_trans h1 h) h2)
  omega

theorem roundHalfEven_floor_le (x : ℚ) : ⌊x⌋ ≤ roundHalfEven x := by
  unfold roundHalfEven
  have hf : Rat.floor x = ⌊x⌋ := rfl
  simp only [hf]
  split_ifs <;> omega

theorem roundHalfEven_le_floor_add_one (x : ℚ) : roundHalfEven x ≤ ⌊x⌋ + 1 := by
  unfold roundHalfEven
  have hf : Rat.floor x = ⌊x⌋ := rfl
  simp only [hf]
  split_ifs <;> omega

theorem roundHalfEven_le_of_le_intCast (x : ℚ) (n : Int) (h : x ≤ (n : ℚ)) :
    roundHalfEven x ≤ n := by
  have hfl : (⌊x⌋ : ℚ) ≤ x := Int.floor_le x
  have hfn : ⌊x⌋ ≤ n := by
    have : (⌊x⌋ : ℚ) ≤ (n : ℚ) := le_trans hfl h
    exact_mod_cast this
  unfold roundHalfEven
  have hf : Rat.floor x = ⌊x⌋ := rfl
  simp only [hf]
  by_cases h1 : x - (⌊x⌋ : ℚ) < 1 / 2
  · rw [if_pos h1]; exact hfn
  · have hlt : (⌊x⌋ : ℚ) < (n : ℚ) := by linarith
    have : ⌊x⌋ < n := by exact_mod_cast hlt
    rw [if_neg h1]
    split_ifs <;> omega

theorem intCast_le_roundHalfEven (x : ℚ) (n : Int) (h : (n : ℚ) ≤ x) :
    n ≤ roundHalfEven x :=
  le_trans (Int.le_floor.2 h) (roundHalfEven_floor_le x)

theorem roundHalfEven_mono {x y : ℚ} (h : x ≤ y) : roundHalfEven x ≤ roundHalfEven y := by
  have hfg : ⌊x⌋ ≤ ⌊y⌋ := Int.floor_mono h
  rcases lt_or_eq_of_le hfg with hlt | heq
  · have := roundHalfEven_le_floor_add_one x
    have := roundHalfEven_floor_le y
    omega
  · unfold roundHalfEven
    have hf : Rat.floor x = ⌊x⌋ := rfl
    have hg : Rat.floor y = ⌊y⌋ := rfl
    simp only [hf, hg, ← heq]
    have hr : x - (⌊x⌋ : ℚ) ≤ y - (⌊x⌋ : ℚ) := by linarith
    split_ifs <;> first | omega | (exfalso; linarith)

theorem binaryExponent_of_pos (emin : Int) {x : ℚ} (hx : 0 < x) :
    binaryExponent emin x = max (floorLog2 x) emin := by
  unfold binaryExponent
  rw [if_neg (not_lt.2 (le_of_lt hx))]

theorem binaryExponent_of_neg (emin : Int) {x : ℚ} (hx : x < 0) :
    binaryExponent emin x = max (floorLog2 (-x)) emin := by
  unfold binaryExponent
  rw [if_pos hx]

theorem roundBinary_of_ne_zero (precision : Nat) (emin : Int) {x : ℚ} (hx : x ≠ 0) :
    roundBinary precision emin x =
      (roundHalfEven (x / pow2 (binaryExponent emin x - (precision : Int) + 1)) : ℚ) *
        pow2 (binaryExponent emin x - (precision : Int) + 1) := by
  unfold roundBinary
  rw [if_neg hx]

theorem roundBinary_zero (precision : Nat) (emin : Int) : roundBinary precision emin 0 = 0 := by
  unfold roundBinary
  rw [if_pos rfl]

/-- The bounds of the rounding of a positive number with exponent `e`: it lies
between 0 and `2 ^ (e + 1)`, and it is at least `2 ^ e` when `e` is the
exponent of the number itself. -/
theorem roundBinary_pos_bounds (precision : Nat) (emin : Int) (hp : 1 ≤ precision) {x : ℚ}
    (hx : 0 < x) :
    0 ≤ roundBinary precision emin x ∧
      roundBinary precision emin x ≤ pow2 (binaryExponent emin x + 1) ∧
      (emin ≤ floorLog2 x → pow2 (binaryExponent emin x) ≤ roundBinary precision emin x) := by
  have he := binaryExponent_of_pos emin hx
  obtain ⟨s1, s2⟩ := floorLog2_spec x hx
  rw [roundBinary_of_ne_zero precision emin (ne_of_gt hx)]
  have hq := pow2_pos (binaryExponent emin x - (precision : Int) + 1)
  have hup := pow2_eq_natCast_mul (binaryExponent emin x + 1)
    (binaryExponent emin x - (precision : Int) + 1) (by omega)
  have hlow := pow2_eq_natCast_mul (binaryExponent emin x)
    (binaryExponent emin x - (precision : Int) + 1) (by omega)
  refine ⟨?_, ?_, fun hmin => ?_⟩
  · apply mul_nonneg _ (le_of_lt hq)
    have h0 : ((0 : Int) : ℚ) ≤ x / pow2 (binaryExponent emin x - (precision : Int) + 1) := by
      push_cast
      exact div_nonneg (le_of_lt hx) (le_of_lt hq)
    exact_mod_cast intCast_le_roundHalfEven _ 0 h0
  · rw [hup]
    apply mul_le_mul_of_nonneg_right _ (le_of_lt hq)
    have hxe : x ≤ pow2 (binaryExponent emin x + 1) :=
      le_trans (le_of_lt s2) (pow2_le_pow2 (by rw [he]; have := le_max_left (floorLog2 x) emin; omega))
    have : x / pow2 (binaryExponent emin x - (precision : Int) + 1) ≤
        (((2 : Int) ^ (binaryExponent emin x + 1 -
          (binaryExponent emin x - (precision : Int) + 1)).toNat : Int) : ℚ) := by
      rw [div_le_iff₀ hq, ← hup]
      exact hxe
    exact_mod_cast roundHalfEven_le_of_le_intCast _ _ this
  · rw [hlow]
    apply mul_le_mul_of_nonneg_right _ (le_of_lt hq)
    have hee : binaryExponent emin x = floorLog2 x := by rw [he]; exact max_eq_left hmin
    have hxe : pow2 (binaryExponent emin x) ≤ x := by rw [hee]; exact s1
    have : (((2 : Int) ^ (binaryExponent emin x -
          (binaryExponent emin x - (precision : Int) + 1)).toNat : Int) : ℚ) ≤
        x / pow2 (binaryExponent emin x - (precision : Int) + 1) := by
      rw [le_div_iff₀ hq, ← hlow]
      exact hxe
    exact_mod_cast intCast_le_roundHalfEven _ _ this

/-- The bounds of the rounding of a negative number with exponent `e`. -/
theorem roundBinary_neg_bounds (precision : Nat) (emin : Int) (hp : 1 ≤ precision) {x : ℚ}
    (hx : x < 0) :
    roundBinary precision emin x ≤ 0 ∧
      -pow2 (binaryExponent emin x + 1) ≤ roundBinary precision emin x ∧
      (emin ≤ floorLog2 (-x) → roundBinary precision emin x ≤ -pow2 (binaryExponent emin x)) := by
  have he := binaryExponent_of_neg emin hx
  have hnx : 0 < -x := by linarith
  obtain ⟨s1, s2⟩ := floorLog2_spec (-x) hnx
  rw [roundBinary_of_ne_zero precision emin (ne_of_lt hx)]
  have hq := pow2_pos (binaryExponent emin x - (precision : Int) + 1)
  have hup := pow2_eq_natCast_mul (binaryExponent emin x + 1)
    (binaryExponent emin x - (precision : Int) + 1) (by omega)
  have hlow := pow2_eq_natCast_mul (binaryExponent emin x)
    (binaryExponent emin x - (precision : Int) + 1) (by omega)
  refine ⟨?_, ?_, fun hmin => ?_⟩
  · apply mul_nonpos_of_nonpos_of_nonneg _ (le_of_lt hq)
    have h0 : x / pow2 (binaryExponent emin x - (precision : Int) + 1) ≤ ((0 : Int) : ℚ) := by
      push_cast
      exact div_nonpos_of_nonpos_of_nonneg (le_of_lt hx) (le_of_lt hq)
    exact_mod_cast roundHalfEven_le_of_le_intCast _ 0 h0
  · rw [hup, ← neg_mul]
    apply mul_le_mul_of_nonneg_right _ (le_of_lt hq)
    have hxe : -x ≤ pow2 (binaryExponent emin x + 1) :=
      le_trans (le_of_lt s2)
        (pow2_le_pow2 (by rw [he]; have := le_max_left (floorLog2 (-x)) emin; omega))
    have : ((-((2 : Int) ^ (binaryExponent emin x + 1 -
          (binaryExponent emin x - (precision : Int) + 1)).toNat) : Int) : ℚ) ≤
        x / pow2 (binaryExponent emin x - (precision : Int) + 1) := by
      rw [le_div_iff₀ hq]
      push_cast
      rw [neg_mul]
      have := hup
      push_cast at this
      rw [← this]
      linarith
    have h2 := intCast_le_roundHalfEven _ _ this
    have h3 : ((-((2 : Int) ^ (binaryExponent emin x + 1 -
          (binaryExponent emin x - (precision : Int) + 1)).toNat) : Int) : ℚ) ≤
        (roundHalfEven (x / pow2 (binaryExponent emin x - (precision : Int) + 1)) : ℚ) := by
      exact_mod_cast h2
    push_cast at h3 ⊢
    exact h3
  · rw [hlow, ← neg_mul]
    apply mul_le_mul_of_nonneg_right _ (le_of_lt hq)
    have hee : binaryExponent emin x = floorLog2 (-x) := by rw [he]; exact max_eq_left hmin
    have hxe : pow2 (binaryExponent emin x) ≤ -x := by rw [hee]; exact s1
    have : x / pow2 (binaryExponent emin x - (precision : Int) + 1) ≤
        ((-((2 : Int) ^ (binaryExponent emin x -
          (binaryExponent emin x - (precision : Int) + 1)).toNat) : Int) : ℚ) := by
      rw [div_le_iff₀ hq]
      push_cast
      rw [neg_mul]
      have := hlow
      push_cast at this
      rw [← this]
      linarith
    have h2 := roundHalfEven_le_of_le_intCast _ _ this
    have h3 : (roundHalfEven (x / pow2 (binaryExponent emin x - (precision : Int) + 1)) : ℚ) ≤
        ((-((2 : Int) ^ (binaryExponent emin x -
          (binaryExponent emin x - (precision : Int) + 1)).toNat) : Int) : ℚ) := by
      exact_mod_cast h2
    push_cast at h3 ⊢
    exact h3

/-- Rounding to a binary floating-point format is monotone. -/
theorem roundBinary_mono (precision : Nat) (emin : Int) (hp : 1 ≤ precision) {x y : ℚ}
    (h : x ≤ y) : roundBinary precision emin x ≤ roundBinary precision emin y := by
  rcases lt_trichotomy x 0 with hx | hx | hx
  · rcases lt_trichotomy y 0 with hy | hy | hy
    · -- both negative
      have hxy : -y ≤ -x := by linarith
      have hny : 0 < -y := by linarith
      have hfl := floorLog2_mono hny hxy
      have hex := binaryExponent_of_neg emin hx
      have hey := binaryExponent_of_neg emin hy
      have hle : binaryExponent emin y ≤ binaryExponent emin x := by
        rw [hex, hey]
        exact max_le_max hfl (le_refl _)
      rcases lt_or_eq_of_le hle with hlt | heq
      · obtain ⟨-, -, bx⟩ := roundBinary_neg_bounds precision emin hp hx
        obtain ⟨-, by1, -⟩ := roundBinary_neg_bounds precision emin hp hy
        have hmin : emin ≤ floorLog2 (-x) := by
          by_contra hc
          rw [hex, max_eq_right (by omega)] at hlt
          have := le_max_right (floorLog2 (-y)) emin
          rw [← hey] at this
          omega
        have h1 := bx hmin
        have h2 : pow2 (binaryExponent emin y + 1) ≤ pow2 (binaryExponent emin x) :=
          pow2_le_pow2 (by omega)
        linarith
      · rw [roundBinary_of_ne_zero precision emin (ne_of_lt hx),
          roundBinary_of_ne_zero precision emin (ne_of_lt hy), heq]
        have hq := pow2_pos (binaryExponent emin x - (precision : Int) + 1)
        apply mul_le_mul_of_nonneg_right _ (le_of_lt hq)
        have := roundHalfEven_mono (div_le_div_of_nonneg_right h (le_of_lt hq))
        exact_mod_cast this
    · rw [hy, roundBinary_zero]
      exact (roundBinary_neg_bounds precision emin hp hx).1
    · exact le_trans (roundBinary_neg_bounds precision emin hp hx).1
        (roundBinary_pos_bounds precision emin hp hy).1
  · have hy : 0 ≤ y := by linarith
    rw [hx, roundBinary_zero]
    rcases lt_or_eq_of_le hy with hy1 | hy1
    · exact (roundBinary_pos_bounds precision emin hp hy1).1
    · rw [← hy1, roundBinary_zero]
  · -- both positive
    have hy : 0 < y := lt_of_lt_of_le hx h
    have hfl := floorLog2_mono hx h
    have hex := binaryExponent_of_pos emin hx
    have hey := binaryExponent_of_pos emin hy
    have hle : binaryExponent emin x ≤ binaryExponent emin y := by
      rw [hex, hey]
      exact max_le_max hfl (le_refl _)
    rcases lt_or_eq_of_le hle with hlt | heq
    · obtain ⟨-, bx, -⟩ := roundBinary_pos_bounds precision emin hp hx
      obtain ⟨-, -, by2⟩ := roundBinary_pos_bounds precision emin hp hy
      have hmin : emin ≤ floorLog2 y := by
        by_contra hc
        rw [hey, max_eq_right (by omega)] at hlt
        have := le_max_right (floorLog2 x) emin
        rw [← hex] at this
        omega
      have h1 := by2 hmin
      have h2 : pow2 (binaryExponent emin x + 1) ≤ pow2 (binaryExponent emin y) :=
        pow2_le_pow2 (by omega)
      linarith
    · rw [roundBinary_of_ne_zero precision emin (ne_of_gt hx),
        roundBinary_of_ne_zero precision emin (ne_of_gt hy), heq]
      have hq := pow2_pos (binaryExponent emin y - (precision : Int) + 1)
      apply mul_le_mul_of_nonneg_right _ (le_of_lt hq)
      have := roundHalfEven_mono (div_le_div_of_nonneg_right h (le_of_lt hq))
      exact_mod_cast this

theorem roundFloat_mono {x y : ℚ} (h : x ≤ y) : roundFloat x ≤ roundFloat y :=
  roundBinary_mono 24 (-126) (by norm_num) h

theorem roundDouble_mono {x y : ℚ} (h : x ≤ y) : roundDouble x ≤ roundDouble y :=
  roundBinary_mono 53 (-1022) (by norm_num) h

theorem roundFloat_zero : roundFloat 0 = 0 := roundBinary_zero 24 (-126)

theorem roundFloat_nonneg {x : ℚ} (h : 0 ≤ x) : 0 ≤ roundFloat x := by
  have := roundFloat_mono h
  rwa [roundFloat_zero] at this

theorem roundFloat_nonpos {x : ℚ} (h : x ≤ 0) : roundFloat x ≤ 0 := by
  have := roundFloat_mono h
  rwa [roundFloat_zero] at this

/-! ## Inputs for which the scores are finite -/

theorem roundFloat_le_of_le {x b : ℚ} (hb : IsFloat b) (h : x ≤ b) : roundFloat x ≤ b := by
  have := roundFloat_mono h
  rwa [hb.1] at this

theorem le_roundFloat_of_le {a x : ℚ} (ha : IsFloat a) (h : a ≤ x) : a ≤ roundFloat x := by
  have := roundFloat_mono h
  rwa [ha.1] at this

theorem roundDouble_le_of_le {x b : ℚ} (hb : IsDouble b) (h : x ≤ b) : roundDouble x ≤ b := by
  have := roundDouble_mono h
  rwa [hb.1] at this

theorem le_roundDouble_of_le {a x : ℚ} (ha : IsDouble a) (h : a ≤ x) : a ≤ roundDouble x := by
  have := roundDouble_mono h
  rwa [ha.1] at this

theorem toFloat?_of_between {a b x : ℚ} (ha : IsFloat a) (hb : IsFloat b) (h1 : a ≤ x)
    (h2 : x ≤ b) : toFloat? x = some (roundFloat x) := by
  unfold toFloat?
  rw [if_pos ⟨le_trans ha.2.1 (le_roundFloat_of_le ha h1),
    le_trans (roundFloat_le_of_le hb h2) hb.2.2⟩]

theorem toDouble?_of_between {a b x : ℚ} (ha : IsDouble a) (hb : IsDouble b) (h1 : a ≤ x)
    (h2 : x ≤ b) : toDouble? x = some (roundDouble x) := by
  unfold toDouble?
  rw [if_pos ⟨le_trans ha.2.1 (le_roundDouble_of_le ha h1),
    le_trans (roundDouble_le_of_le hb h2) hb.2.2⟩]

theorem isFloat_zero : IsFloat 0 := by decide!

theorem isFloat_one : IsFloat 1 := by decide!

theorem isFloat_neg_one : IsFloat (-1) := by decide!

theorem isFloat_three_quarters : IsFloat (3 / 4) := by decide!

theorem isFloat_two_pow_31 : IsFloat 2147483648 := by decide!

theorem isFloat_neg_two_pow_31 : IsFloat (-2147483648) := by decide!

theorem isFloat_two_pow_33 : IsFloat 8589934592 := by decide!

theorem isFloat_FLT_MAX : IsFloat FLT_MAX := by decide!

theorem isFloat_neg_FLT_MAX : IsFloat (-FLT_MAX) := by decide!

theorem roundFloat_FLT_MAX_add : roundFloat (FLT_MAX + 8589934592) = FLT_MAX := by decide!

theorem isDouble_zero : IsDouble 0 := by decide!

theorem isDouble_quarter : IsDouble (1 / 4) := by decide!

theorem isDouble_one : IsDouble 1 := by decide!

theorem isDouble_two_pow_31 : IsDouble 2147483648 := by decide!


/-- With a prior and a noise between 0 and 1, a root between 0 and `2^31` and a
visit count of the child that is not negative, the `exploration` of the child
is a `float` between 0 and `2^31`. -/
theorem exploration?_of_inRange (r : ℚ) (noises : List ℚ) (n d : TreeNode) (j : Nat)
    (hr : IsDouble r) (hr0 : 0 ≤ r) (hr1 : r ≤ 2147483648)
    (hp : ∃ p : ℚ, n.evaluation.policy.get? j = some p ∧ IsFloat p ∧ 0 ≤ p ∧ p ≤ 1)
    (hz : ∃ z : ℚ, noises.get? j = some z ∧ IsDouble z ∧ 0 ≤ z ∧ z ≤ 1)
    (hv : FitsInt d.getVisits) (hv0 : 0 ≤ d.getVisits) :
    ∃ x : ℚ, exploration? r noises n d j = some x ∧ 0 ≤ x ∧ x ≤ 2147483648 := by
  obtain ⟨p, hpg, hpf, hp0, hp1⟩ := hp
  obtain ⟨z, hzg, hzd, hz0, hz1⟩ := hz
  have e1 : asFloat? p = some p := by unfold asFloat?; rw [if_pos hpf]
  have e2 : asDouble? z = some z := by unfold asDouble?; rw [if_pos hzd]
  have e3 : toFloat? (1 - NOISE_WEIGHT) = some (3 / 4) := by decide!
  -- the weighted prior
  have a0 : 0 ≤ p * (3 / 4) := by positivity
  have a1 : p * (3 / 4) ≤ 3 / 4 := by linarith
  have e4 := toFloat?_of_between isFloat_zero isFloat_three_quarters a0 a1
  have b0 := le_roundFloat_of_le isFloat_zero a0
  have b1 := roundFloat_le_of_le isFloat_three_quarters a1
  -- the weighted noise
  have c0 : 0 ≤ NOISE_WEIGHT * z := by unfold NOISE_WEIGHT; positivity
  have c1 : NOISE_WEIGHT * z ≤ 1 / 4 := by unfold NOISE_WEIGHT; linarith
  have e5 := toDouble?_of_between isDouble_zero isDouble_quarter c0 c1
  have d0 := le_roundDouble_of_le isDouble_zero c0
  have d1 := roundDouble_le_of_le isDouble_quarter c1
  -- their sum
  have f0 : 0 ≤ roundFloat (p * (3 / 4)) + roundDouble (NOISE_WEIGHT * z) := by linarith
  have f1 : roundFloat (p * (3 / 4)) + roundDouble (NOISE_WEIGHT * z) ≤ 1 := by linarith
  have e6 := toDouble?_of_between isDouble_zero isDouble_one f0 f1
  have g0 := le_roundDouble_of_le isDouble_zero f0
  have g1 := roundDouble_le_of_le isDouble_one f1
  have e7 := toFloat?_of_between isFloat_zero isFloat_one g0 g1
  have k0 := le_roundFloat_of_le isFloat_zero g0
  have k1 := roundFloat_le_of_le isFloat_one g1
  -- the product with the root
  have l0 : 0 ≤ roundFloat (roundDouble
      (roundFloat (p * (3 / 4)) + roundDouble (NOISE_WEIGHT * z))) * r := mul_nonneg k0 hr0
  have l1 : roundFloat (roundDouble
      (roundFloat (p * (3 / 4)) + roundDouble (NOISE_WEIGHT * z))) * r ≤ r := by
    have := mul_le_mul_of_nonneg_right k1 hr0
    linarith
  have e8 := toDouble?_of_between isDouble_zero hr l0 l1
  have m0 := le_roundDouble_of_le isDouble_zero l0
  have m1 := roundDouble_le_of_le hr l1
  -- the divisor
  have e9 : asInt? d.getVisits = some (d.getVisits : ℚ) := by unfold asInt?; rw [if_pos hv]
  have hone : (1 : ℚ) ≤ 1 + (d.getVisits : ℚ) := by
    have : (0 : ℚ) ≤ (d.getVisits : ℚ) := by exact_mod_cast hv0
    linarith
  have htop : 1 + (d.getVisits : ℚ) ≤ 2147483648 := by
    have h := hv.2
    unfold INT_MAX at h
    have : (d.getVisits : ℚ) ≤ 2147483647 := by exact_mod_cast h
    linarith
  have e10 : toDouble? (1 + (d.getVisits : ℚ)) = some (1 + (d.getVisits : ℚ)) := by
    rw [toDouble?_of_between isDouble_one isDouble_two_pow_31 hone htop,
      roundDouble_one_add_intCast _ hv]
  have hne : ¬ (1 + (d.getVisits : ℚ) = 0) := by linarith
  -- the quotient
  have q0 : 0 ≤ roundDouble (roundFloat (roundDouble
      (roundFloat (p * (3 / 4)) + roundDouble (NOISE_WEIGHT * z))) * r) /
        (1 + (d.getVisits : ℚ)) := div_nonneg m0 (by linarith)
  have q1 : roundDouble (roundFloat (roundDouble
      (roundFloat (p * (3 / 4)) + roundDouble (NOISE_WEIGHT * z))) * r) /
        (1 + (d.getVisits : ℚ)) ≤ r := by
    rw [div_le_iff₀ (by linarith)]
    have : r ≤ r * (1 + (d.getVisits : ℚ)) := by
      have := mul_le_mul_of_nonneg_left hone hr0
      linarith
    linarith
  have e11 := toDouble?_of_between isDouble_zero hr q0 q1
  have n0 := le_roundDouble_of_le isDouble_zero q0
  have n1 := roundDouble_le_of_le hr q1
  have e12 := toFloat?_of_between isFloat_zero isFloat_two_pow_31 n0 (le_trans n1 hr1)
  have o0 := le_roundFloat_of_le isFloat_zero n0
  have o1 := roundFloat_le_of_le isFloat_two_pow_31 (le_trans n1 hr1)
  refine ⟨_, ?_, o0, o1⟩
  unfold exploration?
  simp only [Option.bind_eq_bind, hpg, hzg, Option.some_bind, e1, e2, e3, e4, e5, e6, e7, e8,
    e9, e10, hne, if_false, e11, e12]

theorem AverageValue.getValue32_of_inRange (a : AverageValue) (player : Player)
    (hv : IsFloat a.playerOneValue) (hs : FitsInt a.support) (hp : player ≠ Player.NONE) :
    ∃ e : ℚ, a.getValue32 player = Run.value e ∧ -FLT_MAX ≤ e ∧ e ≤ FLT_MAX := by
  unfold AverageValue.getValue32
  by_cases h0 : a.support = 0
  · rw [if_pos h0]
    exact ⟨0, rfl, isFloat_zero.2.1, isFloat_zero.2.2⟩
  · rw [if_neg h0]
    have e1 : asFloat? a.playerOneValue = some a.playerOneValue := by
      unfold asFloat?; rw [if_pos hv]
    have e2 : asInt? a.support = some (a.support : ℚ) := by unfold asInt?; rw [if_pos hs]
    have hlo : (-2147483648 : ℚ) ≤ (a.support : ℚ) := by
      have h := hs.1
      unfold INT_MIN at h
      exact_mod_cast h
    have hhi : (a.support : ℚ) ≤ 2147483648 := by
      have h := hs.2
      unfold INT_MAX at h
      have : (a.support : ℚ) ≤ 2147483647 := by exact_mod_cast h
      linarith
    have e3 := toFloat?_of_between isFloat_neg_two_pow_31 isFloat_two_pow_31 hlo hhi
    have habs : 1 ≤ |roundFloat (a.support : ℚ)| := by
      rcases lt_or_gt_of_ne h0 with hneg | hpos
      · have h1 : (a.support : ℚ) ≤ -1 := by
          have : a.support ≤ -1 := by omega
          exact_mod_cast this
        have := roundFloat_le_of_le isFloat_neg_one h1
        rw [abs_of_nonpos (by linarith)]
        linarith
      · have h1 : (1 : ℚ) ≤ (a.support : ℚ) := by
          have : 1 ≤ a.support := by omega
          exact_mod_cast this
        have := le_roundFloat_of_le isFloat_one h1
        rw [abs_of_nonneg (by linarith)]
        exact this
    have key : ∀ v : ℚ, -FLT_MAX ≤ v → v ≤ FLT_MAX →
        ∃ e : ℚ, toFloat? (v / roundFloat (a.support : ℚ)) = some e ∧
          -FLT_MAX ≤ e ∧ e ≤ FLT_MAX := by
      intro v v0 v1
      have hq : |v / roundFloat (a.support : ℚ)| ≤ FLT_MAX := by
        rw [abs_div]
        exact le_trans (div_le_self (abs_nonneg v) habs) (abs_le.2 ⟨v0, v1⟩)
      obtain ⟨q0, q1⟩ := abs_le.1 hq
      have e := toFloat?_of_between isFloat_neg_FLT_MAX isFloat_FLT_MAX q0 q1
      exact ⟨_, e, (toFloat?_eq_some e).2⟩
    cases player with
    | NONE => exact absurd rfl hp
    | ONE =>
      obtain ⟨e, he, b0, b1⟩ := key a.playerOneValue hv.2.1 hv.2.2
      refine ⟨e, ?_, b0, b1⟩
      simp only [Option.bind_eq_bind, e1, e2, e3, Option.some_bind, he]
      rfl
    | TWO =>
      obtain ⟨e, he, b0, b1⟩ := key (-a.playerOneValue) (by linarith [hv.2.2])
        (by linarith [hv.2.1])
      refine ⟨e, ?_, b0, b1⟩
      simp only [Option.bind_eq_bind, e1, e2, e3, Option.some_bind, he]
      rfl

/-- On inputs that are probabilities and counts no score leaves the finite
values: every score is a `float`. -/
theorem puctScore_of_inRange (sqrt : ℚ → ℚ) (noises : List ℚ) (n : TreeNode)
    (h : PuctInputsInRange sqrt noises n) (hp : n.state.currentPlayer ≠ Player.NONE)
    (j : Nat) (d : TreeNode) (hd : n.child j = some d) :
    ∃ y : ℚ, puctScore sqrt noises n d j = Run.value y := by
  obtain ⟨hv, hv0, hr, hr0, hr1, hch⟩ := h
  obtain ⟨hpol, hnoise, hdv, hdv0, hdf, hds⟩ := hch j d hd
  have e1 : asInt? n.getVisits = some (n.getVisits : ℚ) := by unfold asInt?; rw [if_pos hv]
  have hone : (1 : ℚ) ≤ 1 + (n.getVisits : ℚ) := by
    have : (0 : ℚ) ≤ (n.getVisits : ℚ) := by exact_mod_cast hv0
    linarith
  have htop : 1 + (n.getVisits : ℚ) ≤ 2147483648 := by
    have h := hv.2
    unfold INT_MAX at h
    have : (n.getVisits : ℚ) ≤ 2147483647 := by exact_mod_cast h
    linarith
  have e2 : toDouble? (1 + (n.getVisits : ℚ)) = some (1 + (n.getVisits : ℚ)) := by
    rw [toDouble?_of_between isDouble_one isDouble_two_pow_31 hone htop,
      roundDouble_one_add_intCast _ hv]
  have hnn : ¬ (1 + (n.getVisits : ℚ) < 0) := by linarith
  have e3 : asDouble? (sqrt (1 + (n.getVisits : ℚ))) = some (sqrt (1 + (n.getVisits : ℚ))) := by
    unfold asDouble?; rw [if_pos hr]
  have hroot : parentVisitsSqrt? sqrt n = some (sqrt (1 + (n.getVisits : ℚ))) := by
    unfold parentVisitsSqrt?
    simp only [Option.bind_eq_bind, e1, Option.some_bind, e2, hnn, if_false, e3]
  obtain ⟨x, hx, x0, x1⟩ := exploration?_of_inRange (sqrt (1 + (n.getVisits : ℚ))) noises n d j
    hr hr0 hr1 hpol hnoise hdv hdv0
  obtain ⟨e, he, b0, b1⟩ := d.getAverageValue.getValue32_of_inRange n.state.currentPlayer
    hdf hds hp
  have w0 : 0 ≤ EXPLORATION_WEIGHT * x := by unfold EXPLORATION_WEIGHT; linarith
  have w1 : EXPLORATION_WEIGHT * x ≤ 8589934592 := by unfold EXPLORATION_WEIGHT; linarith
  have e4 := toFloat?_of_between isFloat_zero isFloat_two_pow_33 w0 w1
  have c0 := le_roundFloat_of_le isFloat_zero w0
  have c1 := roundFloat_le_of_le isFloat_two_pow_33 w1
  have f0 : -FLT_MAX ≤ roundFloat (e + roundFloat (EXPLORATION_WEIGHT * x)) :=
    le_roundFloat_of_le isFloat_neg_FLT_MAX (by linarith)
  have f1 : roundFloat (e + roundFloat (EXPLORATION_WEIGHT * x)) ≤ FLT_MAX := by
    have := roundFloat_mono (show e + roundFloat (EXPLORATION_WEIGHT * x) ≤
      FLT_MAX + 8589934592 by linarith)
    rwa [roundFloat_FLT_MAX_add] at this
  have e5 : toFloat? (e + roundFloat (EXPLORATION_WEIGHT * x)) =
      some (roundFloat (e + roundFloat (EXPLORATION_WEIGHT * x))) := by
    unfold toFloat?
    rw [if_pos ⟨f0, f1⟩]
  refine ⟨roundFloat (e + roundFloat (EXPLORATION_WEIGHT * x)), ?_⟩
  unfold puctScore
  rw [hroot]
  unfold estimatedValue
  simp only [hx, he, e4, Option.some_bind, e5]
  rfl

/-! ## Claim C28 -/

/-- C28, refuted as stated.  The node `noneToMoveExpanded` is initialized, its
state is not terminal and its 9 child slots are non-empty, yet the call
operator throws on it (NONE is to move and the support of child 0 is 1, so
`getValue` throws).  On `puctTestNode` with the noise vector `closeNoises` the
call operator returns index 0, although the score of child 1, computed without
rounding as the claim writes it, is greater than that of child 0: the two
scores that the code compares are the same `float`.  On `extremeNode`, a node
with ONE to move and 9 children, the score of every child is `-FLT_MAX`, which
does not exceed the initial `max_value`, and the call operator throws. -/
theorem puct_counterexample :
    (noneToMoveExpanded.isInitialized = true ∧ noneToMoveExpanded.state.isGameOver = false ∧
      noneToMoveExpanded.getChildStates.length = 9 ∧
      (∀ m : Fin 9, (noneToMoveExpanded.child m).isSome = true) ∧
      PredictiveUpperConfidenceBound.call sqrtOfSquare closeNoises noneToMoveExpanded =
        Run.throws) ∧
    (puctTestNode.isInitialized = true ∧ puctTestNode.state.isGameOver = false ∧
      puctTestNode.state.currentPlayer = Player.ONE ∧ puctTestNode.getVisits = 0 ∧
      (∀ z ∈ closeNoises, IsDouble z) ∧ closeNoises.sum = 1 ∧
      PredictiveUpperConfidenceBound.call sqrtOfSquare closeNoises puctTestNode = Run.value 0 ∧
      ∃ c0 c1 : TreeNode, puctTestNode.child 0 = some c0 ∧ puctTestNode.child 1 = some c1 ∧
        puctFormula sqrtOfSquare closeNoises puctTestNode c0 0 <
          puctFormula sqrtOfSquare closeNoises puctTestNode c1 1 ∧
        puctScore sqrtOfSquare closeNoises puctTestNode c0 0 =
          Run.value (4893355 / 8388608) ∧
        puctScore sqrtOfSquare closeNoises puctTestNode c1 1 =
          Run.value (4893355 / 8388608)) ∧
    (extremeNode.isInitialized = true ∧ extremeNode.state.isGameOver = false ∧
      extremeNode.state.currentPlayer = Player.ONE ∧ extremeNode.getVisits = 0 ∧
      (∀ m : Fin 9, (extremeNode.child m).map
        (fun c => puctScore sqrtOfSquare closeNoises extremeNode c m) =
          some (Run.value (-FLT_MAX))) ∧
      PredictiveUpperConfidenceBound.call sqrtOfSquare closeNoises extremeNode = Run.throws) :=
  ⟨⟨by decide!, by decide!, by decide!, by decide!, by decide!⟩,
    ⟨by decide!, by decide!, by decide!, by decide!, by decide!, by decide!, by decide!,
      (puctTestNode.child 0).getD puctTestNode, (puctTestNode.child 1).getD puctTestNode,
      rfl, rfl, by decide!, by decide!, by decide!⟩,
    ⟨by decide!, by decide!, by decide!, by decide!, by decide!, by decide!⟩⟩

/-- C28, amended: on every initialized node of 9 child slots whose state is not
terminal and has ONE or TWO to move, for every noise vector and whatever
`std::sqrt` returns, provided that no computation of a score leaves the finite
values of `float` and `double` and that the score of some child exceeds
`-FLT_MAX`, the call operator returns an index `i` of `0..8` whose child slot
is non-empty and whose score is maximal among the existing children, and every
existing child of a smaller index has a strictly smaller score, so that among
the children of maximal score the smallest index is returned.  The score of
child `j` is the `float` that the code computes: `exploitation + 4 * ((3/4 *
policy[j] + 1/4 * noise[j]) * sqrt(1 + parent visits) / (1 + child visits))`
with each operation rounded to its type, `float` or `double`, and the value of
the child for the player to move in the parent as `exploitation`.  On a node
that is not initialized or is a leaf the call operator throws.  The scores are
all finite when the inputs are probabilities and counts: priors and noises
between 0 and 1, visit counts that are not negative, and a root of at most
`2^31`. -/
theorem puct_argmax (sqrt : ℚ → ℚ) (noises : List ℚ) (n : TreeNode)
    (hi : n.isInitialized = true) (hover : n.state.isGameOver = false)
    (hlen : n.getChildStates.length = 9) (hp : n.state.currentPlayer ≠ Player.NONE)
    (hfin : ∀ (j : Nat) (d : TreeNode), n.child j = some d →
      puctScore sqrt noises n d j ≠ Run.unmodelled)
    (hex : ∃ (i : Nat) (c : TreeNode) (x : ℚ), n.child i = some c ∧
      puctScore sqrt noises n c i = Run.value x ∧ -FLT_MAX < x) :
    (∃ (i : Nat) (c : TreeNode) (x : ℚ),
      PredictiveUpperConfidenceBound.call sqrt noises n = Run.value (i : Int) ∧ i < 9 ∧
      n.child i = some c ∧ puctScore sqrt noises n c i = Run.value x ∧
      ∀ (j : Nat) (d : TreeNode), n.child j = some d →
        ∃ y : ℚ, puctScore sqrt noises n d j = Run.value y ∧ y ≤ x ∧ (j < i → y < x)) ∧
    (∀ (j : Nat) (d : TreeNode) (y : ℚ), n.child j = some d →
      puctScore sqrt noises n d j = Run.value y →
      ∃ p z exploitation : ℚ,
        n.evaluation.policy.get? j = some p ∧ noises.get? j = some z ∧
        d.getAverageValue.getValue32 n.state.currentPlayer = Run.value exploitation ∧
        y = roundFloat (exploitation + roundFloat (4 * roundFloat (roundDouble (roundDouble
          (roundFloat (roundDouble (roundFloat (p * (3 / 4)) + roundDouble (1 / 4 * z))) *
            sqrt (1 + (n.getVisits : ℚ))) / (1 + (d.getVisits : ℚ))))))) ∧
    (∀ n1 : TreeNode, n1.isInitialized = false ∨ n1.isLeaf = true →
      PredictiveUpperConfidenceBound.call sqrt noises n1 = Run.throws) ∧
    (∀ n1 : TreeNode, n1.state.currentPlayer ≠ Player.NONE →
      PuctInputsInRange sqrt noises n1 →
      ∀ (j : Nat) (d : TreeNode), n1.child j = some d →
        ∃ y : ℚ, puctScore sqrt noises n1 d j = Run.value y) := by
  obtain ⟨i0, c0, x0, hc0, hx0, hlt0⟩ := hex
  cases hr : parentVisitsSqrt? sqrt n with
  | none => simp only [puctScore, hr] at hx0; cases hx0
  | some r =>
    have hscore : ∀ (j : Nat) (d : TreeNode),
        puctScore sqrt noises n d j = estimatedValue r noises n d j := fun j d => by
      simp only [puctScore, hr]
    have hval : ∀ (j : Nat) (d : TreeNode), n.child j = some d →
        ∃ y, estimatedValue r noises n d j = Run.value y := fun j d hd => by
      have h1 := hfin j d hd
      have h2 := estimatedValue_ne_throws r noises n d j hp
      rw [hscore] at h1
      cases h : estimatedValue r noises n d j with
      | value y => exact ⟨y, rfl⟩
      | throws => exact absurd h h2
      | unmodelled => exact absurd h h1
    refine ⟨?_, fun j d y _ hy => ?_,
      fun n1 h => PredictiveUpperConfidenceBound.call_leaf sqrt noises n1 h,
      fun n1 hp1 hin j d hd => puctScore_of_inRange sqrt noises n1 hin hp1 j d hd⟩
    · obtain ⟨b1, hb1, h⟩ := puctLoop_spec r noises n (List.range n.getChildStates.length)
        (List.pairwise_lt_range _) (fun i _ c hc => hval i c hc)
        { max_value := -FLT_MAX, index_of_max := -1 }
      have hleaf : n.isLeaf = false := by simp [TreeNode.isLeaf, hi, hover]
      have hcall : PredictiveUpperConfidenceBound.call sqrt noises n =
          if b1.index_of_max = -1 then Run.throws else Run.value b1.index_of_max := by
        unfold PredictiveUpperConfidenceBound.call
        simp only [hi, hleaf, Bool.not_true, Bool.false_eq_true, if_false, hr, hb1]
      have hmem : ∀ (j : Nat) (d : TreeNode), n.child j = some d →
          j ∈ List.range n.getChildStates.length := fun j d hd =>
        List.mem_range.2 (n.child_isSome_lt j (by rw [hd]; rfl))
      rcases h with ⟨-, h2⟩ | ⟨k, hk, c, x, hkc, hkx, h3, -, -, h6, h7⟩
      · rw [hscore] at hx0
        exact absurd (h2 i0 (hmem i0 c0 hc0) c0 x0 hc0 hx0) (not_le.2 hlt0)
      · refine ⟨k, c, x, ?_, by rw [← hlen]; exact List.mem_range.1 hk, hkc,
          by rw [hscore]; exact hkx, fun j d hd => ?_⟩
        · rw [hcall, h3, if_neg (by omega)]
        · obtain ⟨y, hy⟩ := hval j d hd
          exact ⟨y, by rw [hscore]; exact hy, h6 j (hmem j d hd) d y hd hy,
            fun hjk => h7 j (hmem j d hd) d y hjk hd hy⟩
    · rw [hscore] at hy
      obtain ⟨p, z, e, h1, h2, h3, h4⟩ := estimatedValue_eq_value hy
      obtain ⟨-, -, hrs, -⟩ := parentVisitsSqrt?_eq_some hr
      exact ⟨p, z, e, h1, h2, h3, by rw [← hrs]; exact h4⟩

theorem puct_argmax_witness :
    (puctTestNode.isInitialized = true ∧ puctTestNode.state.isGameOver = false ∧
      puctTestNode.getChildStates.length = 9 ∧
      puctTestNode.state.currentPlayer ≠ Player.NONE) ∧
    PredictiveUpperConfidenceBound.call sqrtOfSquare spreadNoises puctTestNode = Run.value 1 ∧
    ∃ (i : Nat) (c : TreeNode) (x : ℚ),
      PredictiveUpperConfidenceBound.call sqrtOfSquare spreadNoises puctTestNode =
        Run.value (i : Int) ∧ i < 9 ∧ puctTestNode.child i = some c ∧
      puctScore sqrtOfSquare spreadNoises puctTestNode c i = Run.value x ∧
      ∀ (j : Nat) (d : TreeNode), puctTestNode.child j = some d →
        ∃ y : ℚ, puctScore sqrtOfSquare spreadNoises puctTestNode d j = Run.value y ∧
          y ≤ x ∧ (j < i → y < x) := by
  have hlen : puctTestNode.getChildStates.length = 9 := by decide!
  have hall : ∀ m : Fin 9, ((puctTestNode.child m).map (fun d => decide
      (puctScore sqrtOfSquare spreadNoises puctTestNode d m ≠ Run.unmodelled))).getD true =
        true := by decide!
  refine ⟨⟨by decide!, by decide!, hlen, by decide!⟩, by decide!,
    (puct_argmax sqrtOfSquare spreadNoises puctTestNode (by decide!) (by decide!) hlen
      (by decide!) (fun j d hd => ?_)
      ⟨1, (puctTestNode.child 1).getD puctTestNode, 4893355 / 8388608, rfl, by decide!,
        by decide!⟩).1⟩
  have hj : j < 9 := by
    rw [← hlen]
    exact puctTestNode.child_isSome_lt j (by rw [hd]; rfl)
  have h := hall ⟨j, hj⟩
  simp only [hd, Option.map_some', Option.getD_some, decide_eq_true_eq] at h
  exact h

/-! ## `estimateMoveValues` in the arithmetic of its types -/

theorem GameState.move32_isSome (s : GameState) (m : Int) (ha : s.isMoveAllowed m = true) :
    ∃ t, s.move32 m = some t := by
  obtain ⟨t, ht, -⟩ :=
    GameState.create_eq (opponent s.currentPlayer) (s.sowEnd32 m).newScoreOne
      (s.sowEnd32 m).newScoreTwo (s.sowEnd32 m).newSpecialOne (s.sowEnd32 m).newSpecialTwo
      (s.sowEnd32 m).newCells
  refine ⟨t, ?_⟩
  unfold GameState.move32
  simp only [ha, Bool.not_true, Bool.false_eq_true, if_false]
  exact ht

/-- The loop of `estimateMoveValues`, in the arithmetic of its types, over a
list of distinct moves below 9, started on a vector of 9 values that is zero at
those moves: it does not abort, it writes the value of every allowed move of
the list, and leaves the rest. -/
theorem estimateMoveValues32_loop (state : GameState) (l : List Nat) (values : List ℚ)
    (hnd : l.Nodup) (hl : ∀ i ∈ l, i < 9) (hv : values.length = 9)
    (hz : ∀ i ∈ l, values[i]? = some 0) :
    ∃ out : List ℚ,
      l.foldlM (fun (values : List ℚ) (i : Nat) =>
        if !state.isMoveAllowed (i : Int) then some values
        else
          match state.move32 (i : Int) with
          | none => none
          | some childState =>
            some (values.set i (roundFloat
              (roundFloat (scoreDiff32 state childState - scoreDiff32 state state) / 81))))
        values = some out ∧
      out.length = 9 ∧
      (∀ i ∈ l, state.isMoveAllowed (i : Int) = false → out[i]? = some 0) ∧
      (∀ i ∈ l, state.isMoveAllowed (i : Int) = true →
        ∃ t, state.move32 (i : Int) = some t ∧
          out[i]? = some (roundFloat
            (roundFloat (scoreDiff32 state t - scoreDiff32 state state) / 81))) ∧
      (∀ j, j ∉ l → out[j]? = values[j]?) := by
  induction l generalizing values with
  | nil => exact ⟨values, rfl, hv, by simp, by simp, fun _ _ => rfl⟩
  | cons i l ih =>
    have hil : i ∉ l := (List.nodup_cons.1 hnd).1
    have hnd1 : l.Nodup := (List.nodup_cons.1 hnd).2
    have hl1 : ∀ k ∈ l, k < 9 := fun k hk => hl k (List.mem_cons_of_mem _ hk)
    rw [List.foldlM_cons]
    rcases Bool.eq_false_or_eq_true (state.isMoveAllowed (i : Int)) with ha | ha
    · obtain ⟨t, ht⟩ := state.move32_isSome (i : Int) ha
      simp only [ha, Bool.not_true, Bool.false_eq_true, if_false, ht]
      obtain ⟨out, ho, hlen, hn, hy, hrest⟩ := ih
        (values.set i (roundFloat
          (roundFloat (scoreDiff32 state t - scoreDiff32 state state) / 81))) hnd1 hl1
        (by rw [List.length_set]; exact hv)
        (fun k hk => by
          rw [List.getElem?_set_ne (fun (e : i = k) => hil (by rw [e]; exact hk))]
          exact hz k (List.mem_cons_of_mem _ hk))
      refine ⟨out, ho, hlen, ?_, ?_, ?_⟩
      · intro k hk hka
        rcases List.mem_cons.1 hk with e | hk1
        · rw [e, ha] at hka; cases hka
        · exact hn k hk1 hka
      · intro k hk hka
        rcases List.mem_cons.1 hk with e | hk1
        · subst e
          refine ⟨t, ht, ?_⟩
          rw [hrest k hil, List.getElem?_set_self (by rw [hv]; exact hl k (List.mem_cons_self _ _))]
        · exact hy k hk1 hka
      · intro j hj
        rw [hrest j (fun h => hj (List.mem_cons_of_mem _ h)),
          List.getElem?_set_ne (fun (e : i = j) => hj (by rw [← e]; exact List.mem_cons_self _ _))]
    · simp only [ha, Bool.not_false, if_true]
      obtain ⟨out, ho, hlen, hn, hy, hrest⟩ := ih values hnd1 hl1 hv
        (fun k hk => hz k (List.mem_cons_of_mem _ hk))
      refine ⟨out, ho, hlen, ?_, ?_, ?_⟩
      · intro k hk hka
        rcases List.mem_cons.1 hk with e | hk1
        · subst e
          rw [hrest k hil]; exact hz k (List.mem_cons_self _ _)
        · exact hn k hk1 hka
      · intro k hk hka
        rcases List.mem_cons.1 hk with e | hk1
        · rw [e, ha] at hka; cases hka
        · exact hy k hk1 hka
      · intro j hj
        exact hrest j (fun h => hj (List.mem_cons_of_mem _ h))

/-- What `estimateMoveValues` returns in the arithmetic of its types. -/
theorem estimateMoveValues32_spec (state : GameState) :
    ∃ out : List ℚ, estimateMoveValues32 state = some out ∧ out.length = 9 ∧
      (∀ i : Nat, i < 9 → state.isMoveAllowed (i : Int) = false → out[i]? = some 0) ∧
      (∀ i : Nat, i < 9 → state.isMoveAllowed (i : Int) = true →
        ∃ t, state.move32 (i : Int) = some t ∧
          out[i]? = some (roundFloat
            (roundFloat (scoreDiff32 state t - scoreDiff32 state state) / 81))) := by
  obtain ⟨out, ho, hlen, hn, hy, -⟩ := estimateMoveValues32_loop state (List.range 9)
    (List.replicate 9 0) (List.nodup_range 9) (fun i hi => List.mem_range.1 hi)
    (List.length_replicate _ _)
    (fun i hi => List.getElem?_replicate_of_lt (List.mem_range.1 hi))
  exact ⟨out, ho, hlen, fun i hi => hn i (List.mem_range.2 hi),
    fun i hi => hy i (List.mem_range.2 hi)⟩

/-- The sign of an entry of `estimateMoveValues` survives the roundings: a
negative entry means that the difference of the scores of the child is below
that of the parent. -/
theorem heuristic_entry_neg {c p : ℚ}
    (h : roundFloat (roundFloat (roundFloat c - roundFloat p) / 81) < 0) : c < p := by
  by_contra hn
  have h1 : roundFloat p ≤ roundFloat c := roundFloat_mono (not_lt.1 hn)
  have h2 : 0 ≤ roundFloat (roundFloat c - roundFloat p) := roundFloat_nonneg (by linarith)
  have h3 : 0 ≤ roundFloat (roundFloat (roundFloat c - roundFloat p) / 81) :=
    roundFloat_nonneg (div_nonneg h2 (by norm_num))
  exact absurd h (not_lt.2 h3)

/-! ## Claim C39: no score decreases -/

/-- C39, refuted as stated: in the state `GameState(ONE, {{0, 1}, {9, 1}},
INT_MAX, 0, -1, -1)` no cell is negative, no special cell is set and move 8 is
allowed, yet the score of ONE in the state that `move(8)` returns is
-2147483647, lower than the `INT_MAX` it was (the capture of the 2 pebbles of
cell 9 overflows), and entry 8 of `estimateMoveValues` is negative, -53024288. -/
theorem scores_monotone_counterexample :
    (∀ j : Fin 18, 0 ≤ intMaxCaptureState.cells j) ∧
    intMaxCaptureState.IsInt ∧
    intMaxCaptureState.currentPlayer = Player.ONE ∧
    intMaxCaptureState.specialOne = SPECIAL_NOT_SET ∧
    intMaxCaptureState.specialTwo = SPECIAL_NOT_SET ∧
    intMaxCaptureState.isMoveAllowed 8 = true ∧
    intMaxCaptureState.scoreOne = INT_MAX ∧
    (intMaxCaptureState.move32 8).map (fun t => t.scoreOne) = some (-2147483647) ∧
    (-2147483647 : Int) < INT_MAX ∧
    estimateMoveValues32 intMaxCaptureState = some [0, 0, 0, 0, 0, 0, 0, 0, -53024288] :=
  ⟨by decide, by unfold GameState.IsInt FitsInt; decide, by decide, by decide, by decide,
    by decide, by decide, by decide, by decide, by decide!⟩

/-- C39, amended: for every state with non-negative cells and every allowed
move, each score in the state that `move` returns is the score before the move
plus a number of pebbles that is not negative, computed in `int`: neither score
decreases unless that sum exceeds `INT_MAX` (`move` without suffix computes the
sum in the integers).  The score of ONE is the same when ONE is not the player
to move and has no special cell, and likewise for TWO.  An entry `i` of
`estimateMoveValues` for which the differences of the two scores, before the
move and after it, are in the range of `int` is at least 0 when the special cell
of the opponent of the player to move is unset, and when it is negative move `i`
sows a pebble on that special cell. -/
theorem scores_monotone :
    (∀ (s : GameState) (m : Int), s.IsInt → s.cells.NonNeg → s.isMoveAllowed m = true →
      ∃ t u : GameState, s.move32 m = some t ∧ s.move m = some u ∧
        s.scoreOne ≤ u.scoreOne ∧ s.scoreTwo ≤ u.scoreTwo ∧
        t.scoreOne = wrapInt u.scoreOne ∧ t.scoreTwo = wrapInt u.scoreTwo ∧
        (u.scoreOne ≤ INT_MAX → s.scoreOne ≤ t.scoreOne) ∧
        (u.scoreTwo ≤ INT_MAX → s.scoreTwo ≤ t.scoreTwo) ∧
        (s.currentPlayer ≠ Player.ONE → s.specialOne = SPECIAL_NOT_SET →
          t.scoreOne = s.scoreOne) ∧
        (s.currentPlayer ≠ Player.TWO → s.specialTwo = SPECIAL_NOT_SET →
          t.scoreTwo = s.scoreTwo)) ∧
    (∀ s : GameState, s.IsInt → s.cells.NonNeg →
      ∃ out : List ℚ, estimateMoveValues32 s = some out ∧ out.length = 9 ∧
        ∀ (i : Nat) (x : ℚ), out[i]? = some x →
          FitsInt (if s.currentPlayer = Player.ONE then s.scoreOne - s.scoreTwo
            else s.scoreTwo - s.scoreOne) →
          (∀ u : GameState, s.move (i : Int) = some u →
            FitsInt (if s.currentPlayer = Player.ONE then u.scoreOne - u.scoreTwo
              else u.scoreTwo - u.scoreOne)) →
          (s.opponentSpecial = SPECIAL_NOT_SET → 0 ≤ x) ∧
          (x < 0 → s.opponentSpecial ≠ SPECIAL_NOT_SET ∧
            ∃ k : Nat, (k : Int) < s.hand (i : Int) ∧
              s.sowCell (i : Int) k = s.opponentSpecial)) := by
  constructor
  · intro s m hi hn ha
    obtain ⟨t, u, ht, hu, e1, e2⟩ := s.move32_scores m hi ha
    obtain ⟨v, hv, m1, m2, m3, m4⟩ := scores_monotone_integers.1 s m hn ha
    rw [hu] at hv
    cases hv
    have f1 : ∀ x : Int, INT_MIN ≤ x → x ≤ INT_MAX → wrapInt x = x :=
      fun x a b => wrapInt_of_fits x ⟨a, b⟩
    refine ⟨t, u, ht, hu, m1, m2, e1, e2, fun hb => ?_, fun hb => ?_, fun hp hs => ?_,
      fun hp hs => ?_⟩
    · rw [e1, f1 _ (le_trans hi.1.1 m1) hb]
      exact m1
    · rw [e2, f1 _ (le_trans hi.2.1.1 m2) hb]
      exact m2
    · rw [e1, m3 hp hs]
      exact wrapInt_of_fits _ hi.1
    · rw [e2, m4 hp hs]
      exact wrapInt_of_fits _ hi.2.1
  · intro s hi hn
    obtain ⟨out, hout, hlen, hna, hal⟩ := estimateMoveValues32_spec s
    obtain ⟨out0, hout0, -, hna0, hal0⟩ := estimateMoveValues_spec s
    obtain ⟨out1, hout1, -, -, hneg⟩ := scores_monotone_integers.2 s hn
    rw [hout0] at hout1
    cases hout1
    have key : ∀ (i : Nat) (x : ℚ), out[i]? = some x →
        FitsInt (if s.currentPlayer = Player.ONE then s.scoreOne - s.scoreTwo
          else s.scoreTwo - s.scoreOne) →
        (∀ u : GameState, s.move (i : Int) = some u →
          FitsInt (if s.currentPlayer = Player.ONE then u.scoreOne - u.scoreTwo
            else u.scoreTwo - u.scoreOne)) →
        x < 0 → s.opponentSpecial ≠ SPECIAL_NOT_SET ∧
          ∃ k : Nat, (k : Int) < s.hand (i : Int) ∧
            s.sowCell (i : Int) k = s.opponentSpecial := by
      intro i x hx hfs hfu hlt
      have hi9 : i < 9 := by
        by_contra hge
        rw [List.getElem?_eq_none (by omega)] at hx
        cases hx
      rcases Bool.eq_false_or_eq_true (s.isMoveAllowed (i : Int)) with ha | ha
      · obtain ⟨t, ht, hxt⟩ := hal i hi9 ha
        obtain ⟨t1, u, ht1, hu, e1, e2⟩ := s.move32_scores (i : Int) hi ha
        rw [ht] at ht1
        cases ht1
        obtain ⟨u0, hu0, hy⟩ := hal0 i hi9 ha
        rw [hu] at hu0
        cases hu0
        rw [hx] at hxt
        cases hxt
        have hfu1 := hfu u hu
        have ec : scoreDiff32 s t = roundFloat (scoreDiff s u) := by
          unfold scoreDiff32 scoreDiff
          by_cases hp : s.currentPlayer = Player.ONE
          · rw [if_pos hp] at hfu1
            rw [if_pos hp, if_pos hp, e1, e2, wrapInt_wrapInt_sub_wrapInt,
              wrapInt_of_fits _ hfu1]
          · rw [if_neg hp] at hfu1
            rw [if_neg hp, if_neg hp, e1, e2, wrapInt_wrapInt_sub_wrapInt,
              wrapInt_of_fits _ hfu1]
        have ep : scoreDiff32 s s = roundFloat (scoreDiff s s) := by
          unfold scoreDiff32 scoreDiff
          by_cases hp : s.currentPlayer = Player.ONE
          · rw [if_pos hp] at hfs
            rw [if_pos hp, if_pos hp, wrapInt_of_fits _ hfs]
          · rw [if_neg hp] at hfs
            rw [if_neg hp, if_neg hp, wrapInt_of_fits _ hfs]
        rw [ec, ep] at hlt
        have hd := heuristic_entry_neg hlt
        exact hneg i _ hy (div_neg_of_neg_of_pos (by linarith) (by norm_num))
      · rw [hna i hi9 ha] at hx
        cases hx
        exact absurd hlt (lt_irrefl 0)
    refine ⟨out, hout, hlen, fun i x hx hfs hfu => ⟨fun hs => ?_, key i x hx hfs hfu⟩⟩
    by_contra hnn
    exact (key i x hx hfs hfu (not_le.1 hnn)).1 hs

theorem scores_monotone_witness :
    (stateAfter [0, 2, 1, 0]).IsInt ∧ (stateAfter [0, 2, 1, 0]).cells.NonNeg ∧
    (stateAfter [0, 2, 1, 0]).isMoveAllowed 3 = true ∧
    ∃ t u : GameState, (stateAfter [0, 2, 1, 0]).move32 3 = some t ∧
      (stateAfter [0, 2, 1, 0]).move 3 = some u ∧
      (stateAfter [0, 2, 1, 0]).scoreOne ≤ u.scoreOne ∧
      (stateAfter [0, 2, 1, 0]).scoreTwo ≤ u.scoreTwo ∧
      t.scoreOne = wrapInt u.scoreOne ∧ t.scoreTwo = wrapInt u.scoreTwo ∧
      (u.scoreOne ≤ INT_MAX → (stateAfter [0, 2, 1, 0]).scoreOne ≤ t.scoreOne) ∧
      (u.scoreTwo ≤ INT_MAX → (stateAfter [0, 2, 1, 0]).scoreTwo ≤ t.scoreTwo) ∧
      ((stateAfter [0, 2, 1, 0]).currentPlayer ≠ Player.ONE →
        (stateAfter [0, 2, 1, 0]).specialOne = SPECIAL_NOT_SET →
        t.scoreOne = (stateAfter [0, 2, 1, 0]).scoreOne) ∧
      ((stateAfter [0, 2, 1, 0]).currentPlayer ≠ Player.TWO →
        (stateAfter [0, 2, 1, 0]).specialTwo = SPECIAL_NOT_SET →
        t.scoreTwo = (stateAfter [0, 2, 1, 0]).scoreTwo) :=
  ⟨by unfold GameState.IsInt FitsInt; decide, by unfold Cells.NonNeg; decide, by decide,
    scores_monotone.1 (stateAfter [0, 2, 1, 0]) 3
      (by unfold GameState.IsInt FitsInt; decide) (by unfold Cells.NonNeg; decide) (by decide)⟩

end scout
